import Mathlib

/-!
# SoftBone controller: a shallow embedding of `AnimNode_SoftBone.cpp`

Scalars are the elements of a linearly ordered field `K` (exact arithmetic; `ℚ` for
evaluation, `ℝ` where square roots have to be exact).  `TArray` is `List`, an access
outside the range is the fault `outOfRange`, a failed `check` is `checkFailed`.
Engine routines that are not part of the plugin (`FMath`, `FRichCurve::Eval`,
`TArray::Sort`) are parameters, gathered in `Engine`; what fresh memory holds is a
parameter as well (`Uninitialized`).

The source computes in `float`. What is proved over `K` holds in exact arithmetic; where a
claim is checked against the code at a concrete input and the rounding matters, the input is
one whose numbers `float` holds exactly. The rounding of `float` is modelled for the time
accounting of the code (`Float32Round`, `FloatSubstepTimes`, `FloatFrameTimes`), where it
changes the number of physical steps.
-/

namespace SoftBone

/-! ## Faults, arrays and loops -/

/-- How a call can stop without a result: an array index outside the range, a failed
`check`, or a loop that has used up the iterations it was given. -/
inductive Fault where
  | outOfRange
  | checkFailed
  | outOfFuel
  deriving DecidableEq

deriving instance DecidableEq for Except

/-- The index that stands for "no bone" (`INDEX_NONE`). -/
def INDEX_NONE : Int := -1

/-- Read `A[Index]` of a `TArray`; outside the range the engine stops the program. -/
def TArray.get {α : Type} (A : List α) (Index : Nat) : Except Fault α :=
  match A[Index]? with
  | some a => .ok a
  | none => .error .outOfRange

/-- Write `A[Index] = Value`; outside the range the engine stops the program. -/
def TArray.set {α : Type} (A : List α) (Index : Nat) (Value : α) : Except Fault (List α) :=
  if Index < A.length then .ok (List.set A Index Value) else .error .outOfRange

/-- Read `A[Index]` for an index computed in `int32` (as in `A[A.Num() - 2]`). -/
def TArray.getI {α : Type} (A : List α) (Index : Int) : Except Fault α :=
  if 0 ≤ Index then TArray.get A Index.toNat else .error .outOfRange

/-- Write `A[Index] = Value` for an index computed in `int32`. -/
def TArray.setI {α : Type} (A : List α) (Index : Int) (Value : α) : Except Fault (List α) :=
  if 0 ≤ Index then TArray.set A Index.toNat Value else .error .outOfRange

/-- Run `Body Index` for `Count` consecutive values of `Index`, starting at `Index`. -/
def forLoopFrom {σ : Type} (Body : Nat → σ → Except Fault σ) : Nat → Nat → σ → Except Fault σ
  | 0, _, s => .ok s
  | Count + 1, Index, s =>
    match Body Index s with
    | .error e => .error e
    | .ok s' => forLoopFrom Body Count (Index + 1) s'

/-- The loop `for (int32 Index = Lo; Index < Hi; Index++) Body`. -/
def forLoop {σ : Type} (Lo Hi : Nat) (Body : Nat → σ → Except Fault σ) (s : σ) : Except Fault σ :=
  forLoopFrom Body (Hi - Lo) Lo s

/-! ## Engine types: vectors, quaternions, transforms -/

/-- The engine's `FVector`. -/
structure FVector (K : Type) where
  X : K
  Y : K
  Z : K
  deriving DecidableEq

/-- The engine's `FQuat`. -/
structure FQuat (K : Type) where
  X : K
  Y : K
  Z : K
  W : K
  deriving DecidableEq

/-- The engine's `FTransform`: rotation, translation and scale. -/
structure FTransform (K : Type) where
  Rotation : FQuat K
  Translation : FVector K
  Scale3D : FVector K
  deriving DecidableEq

/-- The engine's `FBoneTransform`: a bone index and the transform to give that bone. -/
structure FBoneTransform (K : Type) where
  BoneIndex : Int
  Transform : FTransform K
  deriving DecidableEq

/-- The engine's `FBoneReference`, reduced to the bone index it has cached. -/
structure FBoneReference where
  BoneIndex : Int
  deriving DecidableEq

/-- A root bone and a tip bone (`FBonePair`). -/
structure FBonePair where
  RootBone : FBoneReference
  TipBone : FBoneReference
  deriving DecidableEq

/-- The engine routines the plugin calls and that are not part of it, as parameters:
`FMath::Sqrt`, `FMath::InvSqrt`, `FMath::Acos`, `FMath::Sin`, `FMath::Cos` and
`FRichCurve::Eval` (a curve is given by its keys, each a time and a value) and
`TArray::Sort` on bone pairs (given the predicate "comes before"). -/
structure Engine (K : Type) where
  Sqrt : K → K
  InvSqrt : K → K
  Acos : K → K
  Sin : K → K
  Cos : K → K
  CurveEval : List (K × K) → K → K
  ArraySort : (FBonePair → FBonePair → Bool) → List FBonePair → List FBonePair

section Vectors

variable {K : Type} [LinearOrderedField K]

/-- The vector `FVector::ZeroVector`. -/
def FVector.ZeroVector : FVector K := ⟨0, 0, 0⟩

instance : Add (FVector K) := ⟨fun a b => ⟨a.X + b.X, a.Y + b.Y, a.Z + b.Z⟩⟩

instance : Sub (FVector K) := ⟨fun a b => ⟨a.X - b.X, a.Y - b.Y, a.Z - b.Z⟩⟩

instance : SMul K (FVector K) := ⟨fun s a => ⟨s * a.X, s * a.Y, s * a.Z⟩⟩

/-- The product `V * Scale` of a vector and a scalar. -/
def FVector.Scale (V : FVector K) (Scale : K) : FVector K := ⟨V.X * Scale, V.Y * Scale, V.Z * Scale⟩

/-- Modelled from the spec: the squared Euclidean length (`FVector::SizeSquared`). -/
def FVector.SizeSquared (V : FVector K) : K := V.X * V.X + V.Y * V.Y + V.Z * V.Z

/-- Modelled from the spec: the Euclidean length (`FVector::Size`), the engine's square root
of the squared length. -/
def FVector.Size (E : Engine K) (V : FVector K) : K := E.Sqrt (FVector.SizeSquared V)

/-- Modelled from the spec: the Euclidean distance (`FVector::Dist`). -/
def FVector.Dist (E : Engine K) (A B : FVector K) : K := FVector.Size E (A - B)

/-- Modelled from the spec: the direction of a vector (`FVector::GetUnsafeNormal`): the vector
times the engine's inverse square root of its squared length, with no test for a zero
vector. -/
def FVector.GetUnsafeNormal (E : Engine K) (V : FVector K) : FVector K :=
  FVector.Scale V (E.InvSqrt (FVector.SizeSquared V))

/-- The engine's `SMALL_NUMBER`, the default tolerance of `GetSafeNormal`. -/
def SMALL_NUMBER : K := 1 / 100000000

/-- Modelled from the spec: the normalized vector (`FVector::GetSafeNormal`): the vector itself
when its squared length is 1, the zero vector when it is below the tolerance, the scaled
vector otherwise. -/
def FVector.GetSafeNormal (E : Engine K) (V : FVector K) : FVector K :=
  let SquareSum := FVector.SizeSquared V
  if SquareSum = 1 then V
  else if SquareSum < SMALL_NUMBER then FVector.ZeroVector
  else FVector.Scale V (E.InvSqrt SquareSum)

/-- Modelled from the spec: the cross product (`FVector::CrossProduct`). -/
def FVector.CrossProduct (A B : FVector K) : FVector K :=
  ⟨A.Y * B.Z - A.Z * B.Y, A.Z * B.X - A.X * B.Z, A.X * B.Y - A.Y * B.X⟩

/-- Modelled from the spec: the dot product (`FVector::DotProduct`). -/
def FVector.DotProduct (A B : FVector K) : K := A.X * B.X + A.Y * B.Y + A.Z * B.Z

/-- Modelled from the spec: the rotation about an axis by an angle (`FQuat(Axis, AngleRad)`):
sine of the half angle times the axis, cosine of the half angle. -/
def FQuat.fromAxisAngle (E : Engine K) (Axis : FVector K) (AngleRad : K) : FQuat K :=
  let half_a := (1 / 2) * AngleRad
  let s := E.Sin half_a
  let c := E.Cos half_a
  ⟨s * Axis.X, s * Axis.Y, s * Axis.Z, c⟩

/-- Modelled from the spec: the quaternion product `A * B`, by which a rotation is multiplied
onto another from the left. -/
def FQuat.mul (A B : FQuat K) : FQuat K :=
  ⟨A.W * B.X + A.X * B.W + A.Y * B.Z - A.Z * B.Y,
   A.W * B.Y - A.X * B.Z + A.Y * B.W + A.Z * B.X,
   A.W * B.Z + A.X * B.Y - A.Y * B.X + A.Z * B.W,
   A.W * B.W - A.X * B.X - A.Y * B.Y - A.Z * B.Z⟩

end Vectors

/-! ## The plugin's data (`AnimNode_SoftBone.h`) -/

/-- The enumeration `ESimulationHertz`. -/
inductive ESimulationHertz where
  | SH_30Hz
  | SH_60Hz
  | SH_120Hz
  deriving DecidableEq

/-- The integer value of an `ESimulationHertz` enumerator. -/
def ESimulationHertz.toNat : ESimulationHertz → Nat
  | .SH_30Hz => 30
  | .SH_60Hz => 60
  | .SH_120Hz => 120

/-- The enumeration `ERestoringWeight`. -/
inductive ERestoringWeight where
  | RW_Constant
  | RW_Linear
  | RW_Quadratic
  | RW_Custom
  deriving DecidableEq

/-- The structure `FSoftBoneLink`. -/
structure FSoftBoneLink (K : Type) where
  Velocity : FVector K
  Position : FVector K
  RenderPosition : FVector K
  PositionInCS : FVector K
  Length : K
  BoneIndex : Int
  TransformIndex : Int
  RestoringWeight : K
  deriving DecidableEq

/-- The constructor `FSoftBoneLink(InPosition, InLength, InBoneIndex)`. It sets `Position`,
`Length`, `BoneIndex`, and zeroes `Velocity` and `PositionInCS`; `RenderPosition`,
`TransformIndex` and `RestoringWeight` keep what the memory `Memory` held. -/
def FSoftBoneLink.make {K : Type} [LinearOrderedField K] (Memory : FSoftBoneLink K)
    (InPosition : FVector K) (InLength : K) (InBoneIndex : Int) : FSoftBoneLink K :=
  { Memory with
    Position := InPosition
    Length := InLength
    BoneIndex := InBoneIndex
    Velocity := FVector.ZeroVector
    PositionInCS := FVector.ZeroVector }

/-- The structure `FChainInfo`. -/
structure FChainInfo (K : Type) where
  BoneIndices : List Int
  PrevBoneLinks : List (FSoftBoneLink K)
  deriving DecidableEq

/-- The method `FChainInfo::Empty`. -/
def FChainInfo.Empty {K : Type} (_Chain : FChainInfo K) : FChainInfo K := ⟨[], []⟩

/-- The structure `FAnimNode_SoftBone`: the configuration and the state kept between frames. -/
structure FAnimNode_SoftBone (K : Type) where
  RootBone : FBoneReference
  TipBone : FBoneReference
  AdditionalChains : List FBonePair
  GravityScale : K
  Stiffness : K
  DampingRatio : K
  bAllowTipBoneRotation : Bool
  RestoringWeightType : ERestoringWeight
  bUseWeightCurve : Bool
  WeightCurve : List (K × K)
  bShowDebugBones : Bool
  bBoneLengthConstraint : Bool
  SimulationHertz : ESimulationHertz
  bGuaranteeSameSimulationResult : Bool
  FixedTimeStep : K
  DeltaTimeStep : K
  GravityZ : K
  RemainingTime : K
  ChainInfos : List (FChainInfo K)

/-! ## What the host supplies -/

/-- The engine's `FBoneContainer`, reduced to the hierarchy: the parent index of every bone,
`INDEX_NONE` for a bone without a parent. -/
structure FBoneContainer where
  ParentIndices : List Int
  deriving DecidableEq

/-- The pose `FCSPose<FCompactPose>`: the bone container and the component-space transform of
every bone. -/
structure FCSPose (K : Type) where
  BoneContainer : FBoneContainer
  ComponentSpaceTransform : Int → FTransform K

/-- The owning `USkeletalMeshComponent`, as far as the node uses it: the location of
`X * GetComponentToWorld()` as a function of the location of `X`, and
`GetComponentToWorld().Inverse().TransformPosition`. -/
structure USkeletalMeshComponent (K : Type) where
  ComponentToWorld : FVector K → FVector K
  InverseWorld : FVector K → FVector K

/-- What freshly allocated memory holds: the link slot with a given index before its
constructor runs, and the entries of `TargetPositions` after `AddUninitialized`. -/
structure Uninitialized (K : Type) where
  Link : Nat → FSoftBoneLink K
  Target : Nat → FVector K

/-! ## The plugin's code (`AnimNode_SoftBone.cpp`) -/

section Code

variable {K : Type} [LinearOrderedField K]

/-- The method `FAnimNode_SoftBone::Initialize`: the time budget is reset and the chains are
emptied and dropped. -/
def Initialize (N : FAnimNode_SoftBone K) : FAnimNode_SoftBone K :=
  { N with RemainingTime := 0, ChainInfos := [] }

/-- The method `FAnimNode_SoftBone::UpdateInternal`, given what the update context and the
world supply: the frame's delta time, the effective time dilation and the world's gravity. -/
def UpdateInternal (N : FAnimNode_SoftBone K) (DeltaTime EffectiveTimeDilation WorldGravityZ : K) :
    FAnimNode_SoftBone K :=
  { N with
    RemainingTime := N.RemainingTime + DeltaTime
    FixedTimeStep := (1 / (N.SimulationHertz.toNat : K)) * EffectiveTimeDilation
    DeltaTimeStep := DeltaTime
    GravityZ := WorldGravityZ }

/-- Modelled from the spec: the lookup of a bone's parent index (`GetParentBoneIndex` of the
pose): the entry of the hierarchy, a fault for an index that is not a bone. -/
def GetParentBoneIndex (MeshBases : FCSPose K) (BoneIndex : Int) : Except Fault Int :=
  TArray.getI MeshBases.BoneContainer.ParentIndices BoneIndex

/-- The `do ... while (BoneIndex != RootIndex)` loop of `SetSoftBoneIndices`, for at most
`Fuel` rounds: each round puts the bone in front of the list and moves to its parent. -/
def SetSoftBoneIndicesLoop (MeshBases : FCSPose K) (RootIndex : Int) :
    Nat → Int → List Int → Except Fault (Int × List Int)
  | 0, _, _ => .error .outOfFuel
  | Fuel + 1, BoneIndex, BoneIndices =>
    let BoneIndices := BoneIndex :: BoneIndices
    match GetParentBoneIndex MeshBases BoneIndex with
    | .error e => .error e
    | .ok Parent =>
      if Parent ≠ RootIndex then SetSoftBoneIndicesLoop MeshBases RootIndex Fuel Parent BoneIndices
      else .ok (Parent, BoneIndices)

/-- The function `SetSoftBoneIndices`. The loop gets as many rounds as the hierarchy has
bones: a walk that has looked up that many parents without meeting the root has either left
the hierarchy or entered a cycle, and never ends. -/
def SetSoftBoneIndices (MeshBases : FCSPose K) (RootIndex TipIndex : Int) (BoneIndices : List Int) :
    Except Fault (List Int) :=
  match SetSoftBoneIndicesLoop MeshBases RootIndex
      MeshBases.BoneContainer.ParentIndices.length TipIndex BoneIndices with
  | .error e => .error e
  | .ok (BoneIndex, BoneIndices) => .ok (BoneIndex :: BoneIndices)

/-- Modelled from the spec: `FBoneReference::IsValid` (engine code): the reference resolves in
the bone container, that is, its index is that of a bone of the container. -/
def FBoneReference.IsValid ( Ref : FBoneReference) (BoneContainer : FBoneContainer) : Bool :=
  decide (Ref.BoneIndex ≠ INDEX_NONE) &&
    decide (0 ≤ Ref.BoneIndex ∧ Ref.BoneIndex < (BoneContainer.ParentIndices.length : Int))

/-- The upward walk of `BoneIsChildOf`: is `ParentBoneIndex` met within `Fuel` parent steps
above `BoneIndex`. -/
def BoneIsChildOfLoop (BoneContainer : FBoneContainer) (ParentBoneIndex : Int) : Nat → Int → Bool
  | 0, _ => false
  | Fuel + 1, BoneIndex =>
    match TArray.getI BoneContainer.ParentIndices BoneIndex with
    | .error _ => false
    | .ok Parent =>
      if Parent = ParentBoneIndex then true
      else BoneIsChildOfLoop BoneContainer ParentBoneIndex Fuel Parent

/-- Modelled from the spec: `FBoneContainer::BoneIsChildOf` (engine code): the bone is a strict
descendant of the other, found by walking the parent indices upward. -/
def FBoneContainer.BoneIsChildOf (BoneContainer : FBoneContainer) (BoneIndex ParentBoneIndex : Int) :
    Bool :=
  BoneIsChildOfLoop BoneContainer ParentBoneIndex BoneContainer.ParentIndices.length BoneIndex

/-- Modelled from the spec: `FBoneReference::GetCompactPoseIndex` (engine code); the spec has
one bone index per bone, so the pose index is the cached index. -/
def FBoneReference.GetCompactPoseIndex ( Ref : FBoneReference) (_BoneContainer : FBoneContainer) :
    Int :=
  Ref.BoneIndex

/-- The function `IsValidBonePair`. -/
def IsValidBonePair (BoneContainer : FBoneContainer) (RootBone TipBone : FBoneReference) : Bool :=
  TipBone.IsValid BoneContainer
    && RootBone.IsValid BoneContainer
    && BoneContainer.BoneIsChildOf TipBone.BoneIndex RootBone.BoneIndex

/-- The predicate `FCompareRootBone` that `InitializeBoneIndices` sorts by. -/
def FCompareRootBone (A B : FBonePair) : Bool :=
  decide (A.RootBone.BoneIndex < B.RootBone.BoneIndex)

/-- The method `FAnimNode_SoftBone::InitializeBoneIndices`. -/
def InitializeBoneIndices (E : Engine K) (N : FAnimNode_SoftBone K) (MeshBases : FCSPose K) :
    Except Fault (FAnimNode_SoftBone K) := do
  let BoneContainer := MeshBases.BoneContainer
  let SortedPairArray : List FBonePair := []
  let SortedPairArray :=
    if IsValidBonePair BoneContainer N.RootBone N.TipBone then
      SortedPairArray ++ [FBonePair.mk N.RootBone N.TipBone]
    else SortedPairArray
  let SortedPairArray := N.AdditionalChains.foldl (fun Pairs Pair =>
    if IsValidBonePair BoneContainer Pair.RootBone Pair.TipBone then
      Pairs ++ [FBonePair.mk Pair.RootBone Pair.TipBone]
    else Pairs) SortedPairArray
  let SortedPairArray := E.ArraySort FCompareRootBone SortedPairArray
  let ChainInfos : List (FChainInfo K) := List.replicate SortedPairArray.length ⟨[], []⟩
  let ChainInfos ← forLoop 0 SortedPairArray.length (fun Index ChainInfos => do
    let Pair ← TArray.get SortedPairArray Index
    let RootIndex := Pair.RootBone.GetCompactPoseIndex BoneContainer
    let TipIndex := Pair.TipBone.GetCompactPoseIndex BoneContainer
    let Chain ← TArray.get ChainInfos Index
    let BoneIndices ← SetSoftBoneIndices MeshBases RootIndex TipIndex Chain.BoneIndices
    TArray.set ChainInfos Index { Chain with BoneIndices := BoneIndices }) ChainInfos
  pure { N with ChainInfos := ChainInfos }

/-- The editor's `FAnimNode_SoftBone::InitialzeWeightCurve`: the keys of the built-in curves. -/
def InitialzeWeightCurve (N : FAnimNode_SoftBone K) : FAnimNode_SoftBone K :=
  match N.RestoringWeightType with
  | .RW_Constant => { N with WeightCurve := [(0, 1), (1, 1)] }
  | .RW_Linear => { N with WeightCurve := [(0, 11 / 10), (11 / 10, 0)] }
  | .RW_Quadratic =>
    { N with WeightCurve :=
        [(0, 11 / 10), (1 / 10, 1), (2 / 10, 5 / 10), (3 / 10, 33 / 100), (4 / 10, 25 / 100),
         (5 / 10, 2 / 10), (6 / 10, 16 / 100), (1, 1 / 10)] }
  | .RW_Custom => N

/-- The location of `(SkelComp != NULL) ? BoneCSTransform * SkelComp->GetComponentToWorld() :
BoneCSTransform`: the component's map applied to the bone's location, or the location
itself. -/
def LocationInWorldSpace (SkelComp : Option (USkeletalMeshComponent K))
    (BoneCSTransform : FTransform K) : FVector K :=
  match SkelComp with
  | some Comp => Comp.ComponentToWorld BoneCSTransform.Translation
  | none => BoneCSTransform.Translation

/-- The method `FAnimNode_SoftBone::InitializeChain`. -/
def InitializeChain (E : Engine K) (U : Uninitialized K) (N : FAnimNode_SoftBone K)
    (Chain : FChainInfo K) (SkelComp : Option (USkeletalMeshComponent K)) (MeshBases : FCSPose K)
    (OutBoneTransforms : List (FBoneTransform K)) (OutTransformStartIndex : Nat) :
    Except Fault (FChainInfo K × List (FBoneTransform K)) := do
  let BoneIndices := Chain.BoneIndices
  let PrevBoneLinks := Chain.PrevBoneLinks
  if BoneIndices.length < 2 then
    pure (Chain, OutBoneTransforms)
  else do
    let NumTransforms := BoneIndices.length
    let MaxWeightKeyIndex := if N.bAllowTipBoneRotation then NumTransforms else NumTransforms - 1
    -- Start with Root Bone
    let RootBoneIndex ← TArray.get BoneIndices 0
    let BoneCSTransform := MeshBases.ComponentSpaceTransform RootBoneIndex
    let OutBoneTransforms ←
      TArray.set OutBoneTransforms OutTransformStartIndex ⟨RootBoneIndex, BoneCSTransform⟩
    let PrevBoneLinks := PrevBoneLinks ++
      [FSoftBoneLink.make (U.Link 0) (LocationInWorldSpace SkelComp BoneCSTransform) 0 RootBoneIndex]
    -- Go through remaining transforms
    let State ← forLoop 1 NumTransforms
      (fun TransformIndex (State : List (FSoftBoneLink K) × List (FBoneTransform K)) => do
        let BoneIndex ← TArray.get BoneIndices TransformIndex
        let BoneCSTransform := MeshBases.ComponentSpaceTransform BoneIndex
        let BoneCSPosition := BoneCSTransform.Translation
        let OutTransformIndex := OutTransformStartIndex + TransformIndex
        let Out ← TArray.set State.2 OutTransformIndex ⟨BoneIndex, BoneCSTransform⟩
        let Previous ← TArray.get Out (OutTransformIndex - 1)
        let BoneLength := FVector.Dist E BoneCSPosition Previous.Transform.Translation
        let Links := State.1 ++
          [FSoftBoneLink.make (U.Link TransformIndex) (LocationInWorldSpace SkelComp BoneCSTransform)
            BoneLength BoneIndex]
        let Link ← TArray.get Links TransformIndex
        let RestoringWeight :=
          if N.bUseWeightCurve then
            N.Stiffness * E.CurveEval N.WeightCurve ((TransformIndex : K) / (MaxWeightKeyIndex : K))
          else N.Stiffness / (TransformIndex : K)
        let Links ← TArray.set Links TransformIndex { Link with RestoringWeight := RestoringWeight }
        pure (Links, Out))
      (PrevBoneLinks, OutBoneTransforms)
    let PrevBoneLinks := State.1
    let OutBoneTransforms := State.2
    -- create a virtual link to the tip bone for natural rotation of tip bone
    if N.bAllowTipBoneRotation then
      let ParentBoneIndex ← TArray.getI BoneIndices ((BoneIndices.length : Int) - 2)
      let ParentBoneCSTransform := MeshBases.ComponentSpaceTransform ParentBoneIndex
      let ParentBoneCSPosition := ParentBoneCSTransform.Translation
      let TipBoneIndex ← TArray.getI BoneIndices ((BoneIndices.length : Int) - 1)
      let TipBoneCSTransform := MeshBases.ComponentSpaceTransform TipBoneIndex
      let TipBoneCSPosition := TipBoneCSTransform.Translation
      let ParentLocationInWS := LocationInWorldSpace SkelComp ParentBoneCSTransform
      let TipLocationInWS := LocationInWorldSpace SkelComp TipBoneCSTransform
      let BoneLength := FVector.Dist E TipBoneCSPosition ParentBoneCSPosition
      let VirtualBonePositionInWS := TipLocationInWS + (TipLocationInWS - ParentLocationInWS)
      let PrevBoneLinks := PrevBoneLinks ++
        [FSoftBoneLink.make (U.Link NumTransforms) VirtualBonePositionInWS BoneLength INDEX_NONE]
      let Link ← TArray.getI PrevBoneLinks ((PrevBoneLinks.length : Int) - 1)
      let RestoringWeight :=
        if N.bUseWeightCurve then N.Stiffness * E.CurveEval N.WeightCurve 1
        else N.Stiffness / (MaxWeightKeyIndex : K)
      let PrevBoneLinks ← TArray.setI PrevBoneLinks ((PrevBoneLinks.length : Int) - 1)
        { Link with RestoringWeight := RestoringWeight }
      pure ({ Chain with PrevBoneLinks := PrevBoneLinks }, OutBoneTransforms)
    else
      pure ({ Chain with PrevBoneLinks := PrevBoneLinks }, OutBoneTransforms)

/-- The method `FAnimNode_SoftBone::ComputeTargetPositions`. -/
def ComputeTargetPositions (N : FAnimNode_SoftBone K) (Chain : FChainInfo K)
    (SkelComp : Option (USkeletalMeshComponent K)) (MeshBases : FCSPose K)
    (OutBoneTransforms : List (FBoneTransform K)) (OutTransformStartIndex : Nat)
    (TargetPositions : List (FVector K)) :
    Except Fault (List (FBoneTransform K) × List (FVector K)) := do
  let BoneIndices := Chain.BoneIndices
  let NumTransforms := BoneIndices.length
  -- Start with Root Bone
  let RootBoneIndex ← TArray.get BoneIndices 0
  let BoneCSTransform := MeshBases.ComponentSpaceTransform RootBoneIndex
  let OutBoneTransforms ←
    TArray.set OutBoneTransforms OutTransformStartIndex ⟨RootBoneIndex, BoneCSTransform⟩
  let TargetPositions := TargetPositions ++ [LocationInWorldSpace SkelComp BoneCSTransform]
  -- Go through remaining transforms
  let State ← forLoop 1 NumTransforms
    (fun TransformIndex (State : List (FBoneTransform K) × List (FVector K)) => do
      let BoneIndex ← TArray.get BoneIndices TransformIndex
      let BoneCSTransform := MeshBases.ComponentSpaceTransform BoneIndex
      let BoneWSPosition := LocationInWorldSpace SkelComp BoneCSTransform
      let Out ← TArray.set State.1 (OutTransformStartIndex + TransformIndex)
        ⟨BoneIndex, BoneCSTransform⟩
      pure (Out, State.2 ++ [BoneWSPosition]))
    (OutBoneTransforms, TargetPositions)
  let OutBoneTransforms := State.1
  let TargetPositions := State.2
  if N.bAllowTipBoneRotation then
    let ParentBoneIndex ← TArray.getI BoneIndices ((BoneIndices.length : Int) - 2)
    let ParentBoneCSTransform := MeshBases.ComponentSpaceTransform ParentBoneIndex
    let TipBoneIndex ← TArray.getI BoneIndices ((BoneIndices.length : Int) - 1)
    let TipBoneCSTransform := MeshBases.ComponentSpaceTransform TipBoneIndex
    let ParentLocationInWS := LocationInWorldSpace SkelComp ParentBoneCSTransform
    let TipLocationInWS := LocationInWorldSpace SkelComp TipBoneCSTransform
    let VirtualBonePositionInWS := TipLocationInWS + (TipLocationInWS - ParentLocationInWS)
    pure (OutBoneTransforms, TargetPositions ++ [VirtualBonePositionInWS])
  else
    pure (OutBoneTransforms, TargetPositions)

/-- The method `FAnimNode_SoftBone::InitializeChains` (no caller in the plugin). -/
def InitializeChains (E : Engine K) (U : Nat → Uninitialized K) (N : FAnimNode_SoftBone K)
    (SkelComp : Option (USkeletalMeshComponent K)) (MeshBases : FCSPose K)
    (OutBoneTransforms : List (FBoneTransform K)) :
    Except Fault (FAnimNode_SoftBone K × List (FBoneTransform K)) := do
  let State ← forLoop 0 N.ChainInfos.length
    (fun Index (State : (List (FChainInfo K) × List (FBoneTransform K)) × Nat) => do
      let Chain ← TArray.get State.1.1 Index
      if Chain.BoneIndices.length ≥ 2 then do
        let R ← InitializeChain E (U Index) N Chain SkelComp MeshBases State.1.2 State.2
        let ChainInfos ← TArray.set State.1.1 Index R.1
        pure ((ChainInfos, R.2), State.2 + R.1.BoneIndices.length)
      else pure State)
    ((N.ChainInfos, OutBoneTransforms), 0)
  pure ({ N with ChainInfos := State.1.1 }, State.1.2)

/-- The first part of `TimeIntegration` (up to the end of the integration loop): the `check`,
the root link set on its target, and the velocity and position integration of the other
links. -/
def TimeIntegration.Integrate (N : FAnimNode_SoftBone K) (PrevBoneLinks : List (FSoftBoneLink K))
    (TimeDelta : K) (TargetPositions : List (FVector K)) : Except Fault (List (FSoftBoneLink K)) := do
  let DampingCoefficient := 1 - N.DampingRatio
  if TargetPositions.length ≠ PrevBoneLinks.length then
    throw Fault.checkFailed
  else do
    -- pre-calculate inverse time step
    let InvTimeDelta := 1 / TimeDelta
    -- root bone should be fixed
    let RootLink ← TArray.get PrevBoneLinks 0
    let RootTarget ← TArray.get TargetPositions 0
    let PrevBoneLinks ← TArray.set PrevBoneLinks 0 { RootLink with Position := RootTarget }
    forLoop 1 TargetPositions.length
      (fun Index (Links : List (FSoftBoneLink K)) => do
        let GravityVector : FVector K := ⟨0, 0, N.GravityScale * N.GravityZ⟩
        let ExtAccel := GravityVector
        let Link ← TArray.get Links Index
        let Target ← TArray.get TargetPositions Index
        let RestoreImpulse := Link.RestoringWeight • (Target - Link.Position)
        -- velocity integration
        let Velocity := Link.Velocity + (RestoreImpulse.Scale InvTimeDelta + ExtAccel.Scale TimeDelta)
        let MoveDelta := Velocity.Scale TimeDelta
        -- damping
        let Velocity := Velocity.Scale DampingCoefficient
        -- position integration
        TArray.set Links Index { Link with Velocity := Velocity, Position := Link.Position + MoveDelta })
      PrevBoneLinks

/-- The second part of `TimeIntegration`: the distance constraint, solved link after link from
the root. -/
def TimeIntegration.SolveDistanceConstraint (E : Engine K) (PrevBoneLinks : List (FSoftBoneLink K)) :
    Except Fault (List (FSoftBoneLink K)) :=
  forLoop 1 PrevBoneLinks.length
    (fun LinkIndex (Links : List (FSoftBoneLink K)) => do
      let ParentLink ← TArray.get Links (LinkIndex - 1)
      let CurrentLink ← TArray.get Links LinkIndex
      TArray.set Links LinkIndex
        { CurrentLink with
          Position := ParentLink.Position +
            (FVector.GetUnsafeNormal E (CurrentLink.Position - ParentLink.Position)).Scale
              CurrentLink.Length })
    PrevBoneLinks

/-- The method `FAnimNode_SoftBone::TimeIntegration`. -/
def TimeIntegration (E : Engine K) (N : FAnimNode_SoftBone K) (Chain : FChainInfo K) (TimeDelta : K)
    (TargetPositions : List (FVector K)) : Except Fault (FChainInfo K) := do
  let PrevBoneLinks ← TimeIntegration.Integrate N Chain.PrevBoneLinks TimeDelta TargetPositions
  -- if bBoneLengthConstraint is false, each bone stretches like a soft body
  if N.bBoneLengthConstraint then
    let PrevBoneLinks ← TimeIntegration.SolveDistanceConstraint E PrevBoneLinks
    pure { Chain with PrevBoneLinks := PrevBoneLinks }
  else
    pure { Chain with PrevBoneLinks := PrevBoneLinks }

/-- The method `FAnimNode_SoftBone::PullBonesToFinalPosition`. -/
def PullBonesToFinalPosition (PrevBoneLinks : List (FSoftBoneLink K)) (DiffVector : FVector K) :
    List (FSoftBoneLink K) :=
  PrevBoneLinks.map (fun Link => { Link with RenderPosition := Link.Position + DiffVector })

/-- The rotation `DeltaRotation` that `ReOrientBoneRotations` builds from the old and the new
direction. -/
def DeltaRotation (E : Engine K) (OldDir NewDir : FVector K) : FQuat K :=
  let RotationAxis := FVector.GetSafeNormal E (FVector.CrossProduct OldDir NewDir)
  let RotationAngle := E.Acos (FVector.DotProduct OldDir NewDir)
  FQuat.fromAxisAngle E RotationAxis RotationAngle

/-- The assignment `CurrentBoneTransform.SetRotation(DeltaRotation * CurrentBoneTransform.GetRotation())`
on an entry of the output list. -/
def ApplyDeltaRotation (Delta : FQuat K) (Entry : FBoneTransform K) : FBoneTransform K :=
  { Entry with Transform := { Entry.Transform with Rotation := FQuat.mul Delta Entry.Transform.Rotation } }

/-- The method `FAnimNode_SoftBone::ReOrientBoneRotations`. -/
def ReOrientBoneRotations (E : Engine K) (N : FAnimNode_SoftBone K) (Chain : FChainInfo K)
    (MeshBases : FCSPose K) (OutBoneTransforms : List (FBoneTransform K))
    (OutTransformStartIndex : Nat) : Except Fault (List (FBoneTransform K)) := do
  let BoneIndices := Chain.BoneIndices
  let PrevBoneLinks := Chain.PrevBoneLinks
  let NumTransforms := BoneIndices.length
  let OutBoneTransforms ← forLoop 0 (NumTransforms - 1)
    (fun LinkIndex (Out : List (FBoneTransform K)) => do
      let CurrentLink ← TArray.get PrevBoneLinks LinkIndex
      let ChildLink ← TArray.get PrevBoneLinks (LinkIndex + 1)
      let ChildPosInCS := (MeshBases.ComponentSpaceTransform ChildLink.BoneIndex).Translation
      let CurrentPosInCS := (MeshBases.ComponentSpaceTransform CurrentLink.BoneIndex).Translation
      -- Calculate pre-translation vector between this bone and child
      let OldDir := FVector.GetUnsafeNormal E (ChildPosInCS - CurrentPosInCS)
      -- Get vector from the post-translation bone to it's child
      let NewDir := FVector.GetUnsafeNormal E (ChildLink.PositionInCS - CurrentLink.PositionInCS)
      let Delta := DeltaRotation E OldDir NewDir
      -- Calculate absolute rotation and set it
      let Entry ← TArray.get Out (OutTransformStartIndex + LinkIndex)
      TArray.set Out (OutTransformStartIndex + LinkIndex) (ApplyDeltaRotation Delta Entry))
    OutBoneTransforms
  -- re-orient the last tip bone
  if N.bAllowTipBoneRotation then
    if (PrevBoneLinks.length : Int) - 3 < 0 then
      throw Fault.checkFailed
    else do
      let ParentLink ← TArray.getI PrevBoneLinks ((PrevBoneLinks.length : Int) - 3)
      let CurrentLink ← TArray.getI PrevBoneLinks ((PrevBoneLinks.length : Int) - 2)
      let VirtualLink ← TArray.getI PrevBoneLinks ((PrevBoneLinks.length : Int) - 1)
      let ParentPosInCS := (MeshBases.ComponentSpaceTransform ParentLink.BoneIndex).Translation
      let CurrentPosInCS := (MeshBases.ComponentSpaceTransform CurrentLink.BoneIndex).Translation
      let VirtualBonePosInCS := CurrentPosInCS + (CurrentPosInCS - ParentPosInCS)
      let OldDir := FVector.GetUnsafeNormal E (VirtualBonePosInCS - CurrentPosInCS)
      let NewDir := FVector.GetUnsafeNormal E (VirtualLink.PositionInCS - CurrentLink.PositionInCS)
      let Delta := DeltaRotation E OldDir NewDir
      let TipIndex : Int := (OutTransformStartIndex : Int) + (NumTransforms : Int) - 1
      let Entry ← TArray.getI OutBoneTransforms TipIndex
      TArray.setI OutBoneTransforms TipIndex (ApplyDeltaRotation Delta Entry)
  else
    pure OutBoneTransforms

/-- What `SimulateSoftBoneChain` leaves: the chain, the output list, the returned remaining
time and, as a count the code does not keep, the number of `TimeIntegration` calls. -/
structure SimulateResult (K : Type) where
  Chain : FChainInfo K
  OutBoneTransforms : List (FBoneTransform K)
  RemainingTime : K
  Steps : Nat

/-- The state of the `while (InRemainingTime >= FixedTimeStep)` loop. -/
structure SubstepState (K : Type) where
  Chain : FChainInfo K
  TargetPositions : List (FVector K)
  InRemainingTime : K
  Steps : Nat

/-- One round of the `while` loop of `SimulateSoftBoneChain`: the targets are interpolated,
one physical step is run and the fixed step is taken off the remaining time. The ratio and
the difference are exact, where the source rounds them to `float`. -/
def Substep (E : Engine K) (N : FAnimNode_SoftBone K) (FinalTargetPositions : List (FVector K))
    (S : SubstepState K) : Except Fault (SubstepState K) := do
  let FixedTimeRatio := N.FixedTimeStep / S.InRemainingTime
  let RemainedRatio := 1 - FixedTimeRatio
  -- interpolate target positions
  let TargetPositions ← forLoop 0 S.TargetPositions.length
    (fun Index (Targets : List (FVector K)) => do
      let Final ← TArray.get FinalTargetPositions Index
      let Link ← TArray.get S.Chain.PrevBoneLinks Index
      TArray.set Targets Index (FixedTimeRatio • Final + RemainedRatio • Link.Position))
    S.TargetPositions
  let Chain ← TimeIntegration E N S.Chain N.FixedTimeStep TargetPositions
  pure ⟨Chain, TargetPositions, S.InRemainingTime - N.FixedTimeStep, S.Steps + 1⟩

/-- The loop `while (InRemainingTime >= FixedTimeStep)` of `SimulateSoftBoneChain`, for at most
`Fuel` rounds, on exact values; `FloatSubstepTimes` is the time accounting of this loop with
the rounding of `float`. -/
def SubstepLoop (E : Engine K) (N : FAnimNode_SoftBone K) (FinalTargetPositions : List (FVector K)) :
    Nat → SubstepState K → Except Fault (SubstepState K)
  | 0, S => if S.InRemainingTime ≥ N.FixedTimeStep then .error .outOfFuel else .ok S
  | Fuel + 1, S =>
    if S.InRemainingTime ≥ N.FixedTimeStep then
      match Substep E N FinalTargetPositions S with
      | .error e => .error e
      | .ok S' => SubstepLoop E N FinalTargetPositions Fuel S'
    else .ok S

/-- The inverse world transform `InverseWorld.TransformPosition` of `SimulateSoftBoneChain`
(the identity without a component). -/
def InverseWorldPosition (SkelComp : Option (USkeletalMeshComponent K)) (Position : FVector K) :
    FVector K :=
  match SkelComp with
  | some Comp => Comp.InverseWorld Position
  | none => Position

/-- The method `FAnimNode_SoftBone::SimulateSoftBoneChain`; `Fuel` bounds the rounds of its
`while` loop. -/
def SimulateSoftBoneChain (E : Engine K) (U : Uninitialized K) (Fuel : Nat)
    (N : FAnimNode_SoftBone K) (Chain : FChainInfo K)
    (SkelComp : Option (USkeletalMeshComponent K)) (MeshBases : FCSPose K)
    (OutBoneTransforms : List (FBoneTransform K)) (OutTransformStartIndex : Nat)
    (InRemainingTime : K) : Except Fault (SimulateResult K) := do
  let _SpaceBaseIndex ← TArray.get Chain.BoneIndices 0
  let Initialized ←
    (if Chain.PrevBoneLinks.length = 0 then
      InitializeChain E U N Chain SkelComp MeshBases OutBoneTransforms OutTransformStartIndex
    else pure (Chain, OutBoneTransforms))
  let Chain := Initialized.1
  let OutBoneTransforms := Initialized.2
  -- Calculate target positions
  let Computed ← ComputeTargetPositions N Chain SkelComp MeshBases OutBoneTransforms
    OutTransformStartIndex []
  let OutBoneTransforms := Computed.1
  let FinalTargetPositions := Computed.2
  let TargetPositions := (List.range FinalTargetPositions.length).map U.Target
  -- copy only the root bone's position
  let RootLink ← TArray.get Chain.PrevBoneLinks 0
  let TargetPositions ← TArray.set TargetPositions 0 RootLink.Position
  let S ←
    (if N.bGuaranteeSameSimulationResult then
      SubstepLoop E N FinalTargetPositions Fuel ⟨Chain, TargetPositions, InRemainingTime, 0⟩
    else do
      let Chain ← TimeIntegration E N Chain N.FixedTimeStep TargetPositions
      pure ⟨Chain, TargetPositions, 0, 1⟩)
  let Chain := S.Chain
  let TargetPositions := S.TargetPositions
  let InRemainingTime := S.InRemainingTime
  let FinalRoot ← TArray.get FinalTargetPositions 0
  let TargetRoot ← TArray.get TargetPositions 0
  let RootBoneDiff := FinalRoot - TargetRoot
  -- pull bones to final positions and calculate positions for rendering
  let PrevBoneLinks := PullBonesToFinalPosition Chain.PrevBoneLinks RootBoneDiff
  let RootLink ← TArray.get PrevBoneLinks 0
  let RootEntry ← TArray.get OutBoneTransforms OutTransformStartIndex
  let PrevBoneLinks ← TArray.set PrevBoneLinks 0
    { RootLink with PositionInCS := RootEntry.Transform.Translation }
  let NumTransforms := Chain.BoneIndices.length
  -- First step: update bone transform positions from chain links.
  let State ← forLoop 1 NumTransforms
    (fun LinkIndex (State : List (FSoftBoneLink K) × List (FBoneTransform K)) => do
      let ChainLink ← TArray.get State.1 LinkIndex
      let BoneCSPosition := InverseWorldPosition SkelComp ChainLink.RenderPosition
      let Links ← TArray.set State.1 LinkIndex { ChainLink with PositionInCS := BoneCSPosition }
      let Entry ← TArray.get State.2 (OutTransformStartIndex + LinkIndex)
      let Out ← TArray.set State.2 (OutTransformStartIndex + LinkIndex)
        { Entry with Transform := { Entry.Transform with Translation := BoneCSPosition } }
      pure (Links, Out))
    (PrevBoneLinks, OutBoneTransforms)
  let PrevBoneLinks := State.1
  let OutBoneTransforms := State.2
  let PrevBoneLinks ←
    (if N.bAllowTipBoneRotation then do
      let LastIndex : Int := (PrevBoneLinks.length : Int) - 1
      let ChainLink ← TArray.getI PrevBoneLinks LastIndex
      let BoneCSPosition := InverseWorldPosition SkelComp ChainLink.RenderPosition
      TArray.setI PrevBoneLinks LastIndex { ChainLink with PositionInCS := BoneCSPosition }
    else pure PrevBoneLinks)
  let Chain := { Chain with PrevBoneLinks := PrevBoneLinks }
  -- re-orientation of bone local axes after translation calculation
  let OutBoneTransforms ← ReOrientBoneRotations E N Chain MeshBases OutBoneTransforms
    OutTransformStartIndex
  pure ⟨Chain, OutBoneTransforms, InRemainingTime, S.Steps⟩

/-- What `EvaluateBoneTransforms` leaves: the node, the output list and, as a count the code
does not keep, the number of physical steps run on each chain. -/
structure EvaluateResult (K : Type) where
  Node : FAnimNode_SoftBone K
  OutBoneTransforms : List (FBoneTransform K)
  Steps : List Nat

/-- The state of the loop over the chains in `EvaluateBoneTransforms`. -/
structure EvaluateState (K : Type) where
  ChainInfos : List (FChainInfo K)
  OutBoneTransforms : List (FBoneTransform K)
  OutTransformStartIndex : Nat
  RemainedSimTime : K
  Steps : List Nat

/-- The method `FAnimNode_SoftBone::EvaluateBoneTransforms`. `U ChainIndex` is what the fresh
memory used for chain `ChainIndex` holds, `UOut` what the entries added to the output list
hold, `Fuel` bounds the rounds of each chain's `while` loop. -/
def EvaluateBoneTransforms (E : Engine K) (U : Nat → Uninitialized K) (UOut : Nat → FBoneTransform K)
    (Fuel : Nat) (N : FAnimNode_SoftBone K) (SkelComp : Option (USkeletalMeshComponent K))
    (MeshBases : FCSPose K) (OutBoneTransforms : List (FBoneTransform K)) :
    Except Fault (EvaluateResult K) := do
  -- Create Chain infos and Gather all bone indices between root and tip for all chains.
  let N ← (if N.ChainInfos.length = 0 then InitializeBoneIndices E N MeshBases else pure N)
  if N.RemainingTime ≤ 0 then
    pure ⟨N, OutBoneTransforms, []⟩
  else do
    let NumChains := N.ChainInfos.length
    -- Gather all transforms
    let NumAllTransforms := (N.ChainInfos.map (fun Chain => Chain.BoneIndices.length)).sum
    let OutBoneTransforms := OutBoneTransforms ++ (List.range NumAllTransforms).map UOut
    let S ← forLoop 0 NumChains
      (fun ChainIndex (S : EvaluateState K) => do
        let Chain ← TArray.get S.ChainInfos ChainIndex
        let R ← SimulateSoftBoneChain E (U ChainIndex) Fuel N Chain SkelComp MeshBases
          S.OutBoneTransforms S.OutTransformStartIndex N.RemainingTime
        let ChainInfos ← TArray.set S.ChainInfos ChainIndex R.Chain
        pure ⟨ChainInfos, R.OutBoneTransforms, S.OutTransformStartIndex + R.Chain.BoneIndices.length,
          R.RemainingTime, S.Steps ++ [R.Steps]⟩)
      ⟨N.ChainInfos, OutBoneTransforms, 0, N.RemainingTime, []⟩
    pure ⟨{ N with ChainInfos := S.ChainInfos, RemainingTime := S.RemainedSimTime },
      S.OutBoneTransforms, S.Steps⟩

/-- The method `FAnimNode_SoftBone::IsValidToEvaluate`. -/
def IsValidToEvaluate (N : FAnimNode_SoftBone K) (RequiredBones : FBoneContainer) : Bool :=
  N.TipBone.IsValid RequiredBones && N.RootBone.IsValid RequiredBones

end Code

/-! ## A concrete engine and a concrete skeleton, for evaluating the code -/

/-- A curve through its keys, linear between two keys and constant before the first and
after the last one. -/
def LinearCurveEval {K : Type} [LinearOrderedField K] : List (K × K) → K → K
  | [], _ => 0
  | [Key], _ => Key.2
  | Key :: Next :: Keys, Time =>
    if Time ≤ Key.1 then Key.2
    else if Time < Next.1 then Key.2 + (Next.2 - Key.2) * ((Time - Key.1) / (Next.1 - Key.1))
    else LinearCurveEval (Next :: Keys) Time

/-- An engine built from a square root, an arc cosine, a sine and a cosine: the inverse square
root is the inverse of the square root, a curve is linear between its keys and the sort is an
insertion sort. -/
def EngineOf {K : Type} [LinearOrderedField K] (Sqrt Acos Sin Cos : K → K) : Engine K where
  Sqrt := Sqrt
  InvSqrt := fun x => (Sqrt x)⁻¹
  Acos := Acos
  Sin := Sin
  Cos := Cos
  CurveEval := LinearCurveEval
  ArraySort := fun Before Pairs => List.insertionSort (fun A B => Before B A = false) Pairs

/-- An engine over `ℚ`, for running the code on concrete inputs: the square root is exact on
squares of rationals; sine, cosine and arc cosine are short polynomial approximations. -/
def RationalEngine : Engine ℚ :=
  EngineOf Rat.sqrt (fun x => 355 / 226 - x - x * x * x / 6) (fun x => x - x * x * x / 6)
    (fun x => 1 - x * x / 2 + x * x * x * x / 24)

/-! ## Notions the claims are stated with -/

section Notions

variable {K : Type} [LinearOrderedField K]

/-- One frame as the host runs it: `UpdateInternal` with the frame's delta time, then
`EvaluateBoneTransforms` on an empty output list. -/
def RunFrame (E : Engine K) (U : Nat → Uninitialized K) (UOut : Nat → FBoneTransform K) (Fuel : Nat)
    (SkelComp : Option (USkeletalMeshComponent K)) (MeshBases : FCSPose K)
    (EffectiveTimeDilation WorldGravityZ : K) (N : FAnimNode_SoftBone K) (DeltaTime : K) :
    Except Fault (FAnimNode_SoftBone K) := do
  let N := UpdateInternal N DeltaTime EffectiveTimeDilation WorldGravityZ
  let R ← EvaluateBoneTransforms E U UOut Fuel N SkelComp MeshBases []
  pure R.Node

/-- A sequence of frames on an unchanging pose, one frame for each delta time of the list. -/
def RunFrames (E : Engine K) (U : Nat → Uninitialized K) (UOut : Nat → FBoneTransform K) (Fuel : Nat)
    (SkelComp : Option (USkeletalMeshComponent K)) (MeshBases : FCSPose K)
    (EffectiveTimeDilation WorldGravityZ : K) :
    FAnimNode_SoftBone K → List K → Except Fault (FAnimNode_SoftBone K)
  | N, [] => .ok N
  | N, DeltaTime :: Rest =>
    match RunFrame E U UOut Fuel SkelComp MeshBases EffectiveTimeDilation WorldGravityZ N DeltaTime with
    | .error e => .error e
    | .ok N' => RunFrames E U UOut Fuel SkelComp MeshBases EffectiveTimeDilation WorldGravityZ N' Rest

/-- The simulated positions of all links of all chains of a node, when there is a node. -/
def LinkPositions (R : Except Fault (FAnimNode_SoftBone K)) : Option (List (List (FVector K))) :=
  match R with
  | .error _ => none
  | .ok N => some (N.ChainInfos.map (fun Chain => Chain.PrevBoneLinks.map (fun Link => Link.Position)))

/-- The bone `Root` is a proper ancestor of a bone: it is reached from the bone by one or more
parent steps. -/
inductive IsProperAncestor (BoneContainer : FBoneContainer) (Root : Int) : Int → Prop where
  | parent {Bone : Int} :
      TArray.getI BoneContainer.ParentIndices Bone = .ok Root → IsProperAncestor BoneContainer Root Bone
  | step {Bone Parent : Int} :
      TArray.getI BoneContainer.ParentIndices Bone = .ok Parent →
      IsProperAncestor BoneContainer Root Parent → IsProperAncestor BoneContainer Root Bone

/-- The bone reached from a bone by a number of parent steps, when all of them exist. -/
def ParentIter (C : FBoneContainer) : Nat → Int → Option Int
  | 0, Bone => some Bone
  | Steps + 1, Bone =>
    match TArray.getI C.ParentIndices Bone with
    | .ok Parent => ParentIter C Steps Parent
    | .error _ => none

/-- The depth of a bone: 0 for a bone whose parent is `INDEX_NONE`, one more than the depth of
its parent otherwise. -/
inductive HasDepth (BoneContainer : FBoneContainer) : Int → Nat → Prop where
  | top {Bone : Int} :
      TArray.getI BoneContainer.ParentIndices Bone = .ok INDEX_NONE → HasDepth BoneContainer Bone 0
  | child {Bone Parent : Int} {Depth : Nat} :
      TArray.getI BoneContainer.ParentIndices Bone = .ok Parent →
      HasDepth BoneContainer Parent Depth → HasDepth BoneContainer Bone (Depth + 1)

/-- The pairs configured on a node: the primary pair, then the additional pairs. -/
def ConfiguredPairs (N : FAnimNode_SoftBone K) : List FBonePair :=
  FBonePair.mk N.RootBone N.TipBone :: N.AdditionalChains

/-- The first and the last bone index of a chain (`INDEX_NONE` in an empty chain). -/
def ChainEnds (Chain : FChainInfo K) : Int × Int :=
  (Chain.BoneIndices.headD INDEX_NONE, Chain.BoneIndices.getLastD INDEX_NONE)

/-- The root and the tip index of a configured pair. -/
def PairEnds (Pair : FBonePair) : Int × Int :=
  (Pair.RootBone.BoneIndex, Pair.TipBone.BoneIndex)

/-- The pairs `InitializeBoneIndices` has in `SortedPairArray` before it sorts: the accepted
ones among the configured pairs, in the configured order. -/
def AcceptedPairs (N : FAnimNode_SoftBone K) (BoneContainer : FBoneContainer) : List FBonePair :=
  (ConfiguredPairs N).filter (fun Pair => IsValidBonePair BoneContainer Pair.RootBone Pair.TipBone)

/-- A call ends without a fault, in a result with the property `P`. -/
def Succeeds {α : Type} (x : Except Fault α) (P : α → Prop) : Prop :=
  ∃ a, x = .ok a ∧ P a

/-- What the integration loop of `TimeIntegration` makes of a link that is not the root, given
its target: the body of that loop. -/
def IntegratedLink (N : FAnimNode_SoftBone K) (TimeDelta : K) (Link : FSoftBoneLink K)
    (Target : FVector K) : FSoftBoneLink K :=
  let GravityVector : FVector K := ⟨0, 0, N.GravityScale * N.GravityZ⟩
  let RestoreImpulse := Link.RestoringWeight • (Target - Link.Position)
  let Velocity := Link.Velocity + (RestoreImpulse.Scale (1 / TimeDelta) + GravityVector.Scale TimeDelta)
  { Link with
    Velocity := Velocity.Scale (1 - N.DampingRatio)
    Position := Link.Position + Velocity.Scale TimeDelta }

/-- What the distance constraint makes of a link, given the corrected position of its parent:
the body of the constraint loop of `TimeIntegration`. -/
def ConstrainedLink (E : Engine K) (ParentPosition : FVector K) (Link : FSoftBoneLink K) :
    FSoftBoneLink K :=
  { Link with
    Position := ParentPosition +
      (FVector.GetUnsafeNormal E (Link.Position - ParentPosition)).Scale Link.Length }

/-- The engine's square root and inverse square root are exact: the square root of a
non-negative number is the non-negative number with that square, and the inverse square root
of a positive number is the inverse of its square root. -/
def ExactRoots (E : Engine K) : Prop :=
  (∀ x : K, 0 ≤ x → 0 ≤ E.Sqrt x ∧ E.Sqrt x * E.Sqrt x = x) ∧
  (∀ x : K, 0 < x → 0 < E.InvSqrt x ∧ E.InvSqrt x * E.InvSqrt x * x = 1)

/-- What `TArray::Sort` guarantees for the predicate `FCompareRootBone`: the result is a
rearrangement of the input in which no element comes before one it should come after. -/
def SortsByRootBone (E : Engine K) : Prop :=
  ∀ Pairs : List FBonePair,
    (E.ArraySort FCompareRootBone Pairs).Perm Pairs ∧
    (E.ArraySort FCompareRootBone Pairs).Pairwise (fun A B => FCompareRootBone B A = false)

end Notions

/-! ## Concrete inputs -/

section Inputs

variable (K : Type) [LinearOrderedField K]

/-- A skeleton of six bones: the chain 0, 1, 2, 3 and, below bone 0 as well, the chain 4, 5. -/
def ExampleContainer : FBoneContainer := ⟨[-1, 0, 1, 2, 0, 4]⟩

/-- A pose of `ExampleContainer`: bone `i` lies at `(10 i, 0, 0)`, so that the bones 0 to 3
form a straight chain with 10 units between neighbours. -/
def StraightPose : FCSPose K where
  BoneContainer := ExampleContainer
  ComponentSpaceTransform := fun BoneIndex => ⟨⟨0, 0, 0, 1⟩, ⟨10 * BoneIndex, 0, 0⟩, ⟨1, 1, 1⟩⟩

/-- The node as its constructor leaves it (in an editor build, with the keys of the quadratic
curve), for a given primary pair; the members the constructor does not set are 0. -/
def DefaultNode (Root Tip : Int) : FAnimNode_SoftBone K :=
  InitialzeWeightCurve
    { RootBone := ⟨Root⟩
      TipBone := ⟨Tip⟩
      AdditionalChains := []
      GravityScale := 1 / 4
      Stiffness := 1 / 10
      DampingRatio := 1 / 10
      bAllowTipBoneRotation := true
      RestoringWeightType := .RW_Quadratic
      bUseWeightCurve := true
      WeightCurve := []
      bShowDebugBones := false
      bBoneLengthConstraint := true
      SimulationHertz := .SH_60Hz
      bGuaranteeSameSimulationResult := true
      FixedTimeStep := 0
      DeltaTimeStep := 0
      GravityZ := 0
      RemainingTime := 0
      ChainInfos := [] }

/-- A node with the primary pair (4, 5) and three additional pairs: (1, 3), the pair (3, 1)
whose tip is above its root, and the pair (2, 9) whose tip is not a bone. -/
def ExampleNode : FAnimNode_SoftBone K :=
  { DefaultNode K 4 5 with AdditionalChains := [⟨⟨1⟩, ⟨3⟩⟩, ⟨⟨3⟩, ⟨1⟩⟩, ⟨⟨2⟩, ⟨9⟩⟩] }

/-- Fresh memory that holds the value 7 everywhere. -/
def SevenMemory : Uninitialized K where
  Link := fun _ => ⟨⟨7, 7, 7⟩, ⟨7, 7, 7⟩, ⟨7, 7, 7⟩, ⟨7, 7, 7⟩, 7, 7, 7, 7⟩
  Target := fun _ => ⟨7, 7, 7⟩

/-- Fresh memory that holds the value 3 everywhere. -/
def ThreeMemory : Uninitialized K where
  Link := fun _ => ⟨⟨3, 3, 3⟩, ⟨3, 3, 3⟩, ⟨3, 3, 3⟩, ⟨3, 3, 3⟩, 3, 3, 3, 3⟩
  Target := fun _ => ⟨3, 3, 3⟩

/-- Fresh output entries that hold the value 7 everywhere. -/
def SevenOutput : Nat → FBoneTransform K :=
  fun _ => ⟨7, ⟨⟨7, 7, 7, 7⟩, ⟨7, 7, 7⟩, ⟨7, 7, 7⟩⟩⟩

/-- A link at rest: no velocity, no restoring weight. -/
def RestingLink (Position : FVector K) (Length : K) (BoneIndex : Int) : FSoftBoneLink K :=
  ⟨⟨0, 0, 0⟩, Position, Position, ⟨0, 0, 0⟩, Length, BoneIndex, 0, 0⟩

/-- The chain of the bones 0 and 1 with its two links at rest, at `(0, 0, 0)` and at
`(10, 0, 0)`. -/
def RestingChain : FChainInfo K :=
  ⟨[0, 1], [RestingLink K ⟨0, 0, 0⟩ 0 0, RestingLink K ⟨10, 0, 0⟩ 10 1]⟩

/-- The node of the bones 0 and 1 without restoring force, gravity and tip rotation; the bone
length constraint is on. -/
def InertNode : FAnimNode_SoftBone K :=
  { DefaultNode K 0 1 with Stiffness := 0, GravityScale := 0, bAllowTipBoneRotation := false }

/-- The node of the bones 0 and 1 as `UpdateInternal` leaves the default node after a frame of
1/20 s at 60 Hz, time dilation 1 and gravity -980. -/
def UpdatedNode : FAnimNode_SoftBone K :=
  UpdateInternal (DefaultNode K 0 1) (1 / 20) 1 (-980)

/-- The default node of the bones 0 and 1 with the bone length constraint off. -/
def StretchNode : FAnimNode_SoftBone K :=
  { DefaultNode K 0 1 with bBoneLengthConstraint := false }

/-- The stretching node without restoring force, in non-deterministic mode, at a given
simulation rate. -/
def FallingNode (Hertz : ESimulationHertz) : FAnimNode_SoftBone K :=
  { StretchNode K with
    Stiffness := 0, bGuaranteeSameSimulationResult := false, SimulationHertz := Hertz }

/-- The stretching node with stiffness 1 in formula mode, without gravity, in
non-deterministic mode. -/
def StiffNode : FAnimNode_SoftBone K :=
  { StretchNode K with
    Stiffness := 1, GravityScale := 0, bUseWeightCurve := false,
    bGuaranteeSameSimulationResult := false }

end Inputs

end SoftBone

namespace SoftBone

section Notions2

variable {K : Type} [LinearOrderedField K]

/-- The bone at a place of a chain (`INDEX_NONE` past its end). -/
def FChainInfo.Bone (Chain : FChainInfo K) (Index : Nat) : Int :=
  Chain.BoneIndices.getD Index INDEX_NONE

/-- The entry that `InitializeChain` and `ComputeTargetPositions` write to the output list for
a place of the chain: the bone, with its component-space transform in the pose. -/
def PoseEntry (MeshBases : FCSPose K) (Chain : FChainInfo K) (Index : Nat) : FBoneTransform K :=
  ⟨Chain.Bone Index, MeshBases.ComponentSpaceTransform (Chain.Bone Index)⟩

/-- The position that `InitializeChain` and `ComputeTargetPositions` compute for a place of the
chain: the world location of the bone, and after the last bone the virtual position
`TipLocationInWS + (TipLocationInWS - ParentLocationInWS)`. -/
def FinalTarget (Chain : FChainInfo K) (SkelComp : Option (USkeletalMeshComponent K))
    (MeshBases : FCSPose K) (Index : Nat) : FVector K :=
  if Index < Chain.BoneIndices.length then
    LocationInWorldSpace SkelComp (MeshBases.ComponentSpaceTransform (Chain.Bone Index))
  else
    let ParentLocationInWS := LocationInWorldSpace SkelComp
      (MeshBases.ComponentSpaceTransform (Chain.Bone (Chain.BoneIndices.length - 2)))
    let TipLocationInWS := LocationInWorldSpace SkelComp
      (MeshBases.ComponentSpaceTransform (Chain.Bone (Chain.BoneIndices.length - 1)))
    TipLocationInWS + (TipLocationInWS - ParentLocationInWS)

/-- The length that `InitializeChain` gives the link of a place of the chain: 0 for the root,
the component-space distance of the bone to the bone before it, and for the virtual link the
distance of the tip bone to its parent. -/
def InitialLength (E : Engine K) (Chain : FChainInfo K) (MeshBases : FCSPose K) (Index : Nat) : K :=
  if Index = 0 then 0
  else if Index < Chain.BoneIndices.length then
    FVector.Dist E (MeshBases.ComponentSpaceTransform (Chain.Bone Index)).Translation
      (MeshBases.ComponentSpaceTransform (Chain.Bone (Index - 1))).Translation
  else
    FVector.Dist E
      (MeshBases.ComponentSpaceTransform (Chain.Bone (Chain.BoneIndices.length - 1))).Translation
      (MeshBases.ComponentSpaceTransform (Chain.Bone (Chain.BoneIndices.length - 2))).Translation

/-- The restoring weight that `InitializeChain` gives the link of a place of the chain after
the root: from the curve or from the formula, and for the virtual link from the curve at 1 or
from `MaxWeightKeyIndex`. -/
def InitialWeight (E : Engine K) (N : FAnimNode_SoftBone K) (Chain : FChainInfo K) (Index : Nat) :
    K :=
  let NumTransforms := Chain.BoneIndices.length
  let MaxWeightKeyIndex := if N.bAllowTipBoneRotation then NumTransforms else NumTransforms - 1
  if Index < NumTransforms then
    if N.bUseWeightCurve then
      N.Stiffness * E.CurveEval N.WeightCurve ((Index : K) / (MaxWeightKeyIndex : K))
    else N.Stiffness / (Index : K)
  else
    if N.bUseWeightCurve then N.Stiffness * E.CurveEval N.WeightCurve 1
    else N.Stiffness / (MaxWeightKeyIndex : K)

/-- The link that `InitializeChain` makes for a place of the chain: the constructor's link at
the computed position, with the computed length and the bone of the place (`INDEX_NONE` for the
virtual link) and, after the root, with the restoring weight set. -/
def InitialLink (E : Engine K) (U : Uninitialized K) (N : FAnimNode_SoftBone K)
    (Chain : FChainInfo K) (SkelComp : Option (USkeletalMeshComponent K)) (MeshBases : FCSPose K)
    (Index : Nat) : FSoftBoneLink K :=
  let Link := FSoftBoneLink.make (U.Link Index) (FinalTarget Chain SkelComp MeshBases Index)
    (InitialLength E Chain MeshBases Index)
    (if Index < Chain.BoneIndices.length then Chain.Bone Index else INDEX_NONE)
  if Index = 0 then Link
  else { Link with RestoringWeight := InitialWeight E N Chain Index }

/-- The number of links of a chain: one for each bone, and the virtual link with the tip
rotation. -/
def NumLinks (N : FAnimNode_SoftBone K) (Chain : FChainInfo K) : Nat :=
  Chain.BoneIndices.length + (if N.bAllowTipBoneRotation then 1 else 0)

/-- What the loops of `InitializeChain` and `ComputeTargetPositions` make of the output list:
once the places below `Count` are written, the entries of these places hold the bones with
their pose transforms and the other entries are as before. -/
def OutputWritten (MeshBases : FCSPose K) (Chain : FChainInfo K) (Out : List (FBoneTransform K))
    (Start Count : Nat) (Out' : List (FBoneTransform K)) : Prop :=
  Out'.length = Out.length ∧
  ∀ j, Out'[j]? =
    if Start ≤ j ∧ j < Start + Count then some (PoseEntry MeshBases Chain (j - Start)) else Out[j]?

/-- An output list differs from another one at most in the rotations of the entries of the
places `Start` to `Start + Count - 1`. -/
def OnlyRotated (Start Count : Nat) (Out Out' : List (FBoneTransform K)) : Prop :=
  Out'.length = Out.length ∧
  ∀ j, (¬ (Start ≤ j ∧ j < Start + Count) → Out'[j]? = Out[j]?) ∧
    ∀ Entry, Out[j]? = some Entry → ∃ Rotation : FQuat K,
      Out'[j]? = some { Entry with Transform := { Entry.Transform with Rotation := Rotation } }

/-- What the end of `SimulateSoftBoneChain` makes of the link of a place: the render position
is the position moved by `RootBoneDiff`, and the component-space position is the root entry's
translation for the root and the render position brought back by the inverse world transform
for the other links; position, velocity, length and restoring weight stay. -/
def RenderedLink (SkelComp : Option (USkeletalMeshComponent K)) (RootBoneDiff RootCSPosition : FVector K)
    (Index : Nat) (Link : FSoftBoneLink K) : FSoftBoneLink K :=
  { Link with
    RenderPosition := Link.Position + RootBoneDiff
    PositionInCS :=
      if Index = 0 then RootCSPosition
      else InverseWorldPosition SkelComp (Link.Position + RootBoneDiff) }

/-- The simulated position of the link of a place (the zero vector where there is no link). -/
def LinkPosition (Links : List (FSoftBoneLink K)) (Index : Nat) : FVector K :=
  match Links[Index]? with
  | some Link => Link.Position
  | none => FVector.ZeroVector

/-- The output entry of a place of the chain after the translations are written and before the
re-orientation: the pose entry of the bone, for the root as it is and for the other bones with
the translation replaced by the link's render position in component space. -/
def TranslatedEntry (MeshBases : FCSPose K) (Chain : FChainInfo K)
    (SkelComp : Option (USkeletalMeshComponent K)) (RootBoneDiff : FVector K)
    (Links : List (FSoftBoneLink K)) (Index : Nat) : FBoneTransform K :=
  if Index = 0 then PoseEntry MeshBases Chain 0
  else
    { PoseEntry MeshBases Chain Index with
      Transform :=
        { (PoseEntry MeshBases Chain Index).Transform with
          Translation := InverseWorldPosition SkelComp (LinkPosition Links Index + RootBoneDiff) } }

/-- The links `SimulateSoftBoneChain` starts from: those of the chain, or, when the chain has
none, those `InitializeChain` makes. -/
def StartLinks (E : Engine K) (U : Uninitialized K) (N : FAnimNode_SoftBone K)
    (Chain : FChainInfo K) (SkelComp : Option (USkeletalMeshComponent K)) (MeshBases : FCSPose K) :
    List (FSoftBoneLink K) :=
  if Chain.PrevBoneLinks.length = 0 then
    (List.range (NumLinks N Chain)).map (InitialLink E U N Chain SkelComp MeshBases)
  else Chain.PrevBoneLinks

/-- The final targets of a frame, as `ComputeTargetPositions` returns them. -/
def FinalTargets (N : FAnimNode_SoftBone K) (Chain : FChainInfo K)
    (SkelComp : Option (USkeletalMeshComponent K)) (MeshBases : FCSPose K) : List (FVector K) :=
  (List.range (NumLinks N Chain)).map (FinalTarget Chain SkelComp MeshBases)

/-- The targets one round of the `while` loop interpolates between the final targets and the
positions of the links. -/
def InterpolatedTargets (N : FAnimNode_SoftBone K) (FinalTargetPositions : List (FVector K))
    (S : SubstepState K) : List (FVector K) :=
  (List.range S.TargetPositions.length).map (fun Index =>
    (N.FixedTimeStep / S.InRemainingTime) • FinalTargetPositions.getD Index FVector.ZeroVector +
      (1 - N.FixedTimeStep / S.InRemainingTime) • LinkPosition S.Chain.PrevBoneLinks Index)

/-- Physical steps run one after the other on a chain: one call of `TimeIntegration` for each
pair of a step size and a list of targets. -/
def RunSteps (E : Engine K) (N : FAnimNode_SoftBone K) :
    FChainInfo K → List (K × List (FVector K)) → Except Fault (FChainInfo K)
  | Chain, [] => .ok Chain
  | Chain, Step :: Rest =>
    match TimeIntegration E N Chain Step.1 Step.2 with
    | .error e => .error e
    | .ok Chain' => RunSteps E N Chain' Rest

/-- The place in the output list where the entries of chain `Index` start: the number of bones
of the chains before it. -/
def ChainOffset (Chains : List (FChainInfo K)) (Index : Nat) : Nat :=
  ((Chains.map (fun Chain => Chain.BoneIndices.length)).take Index).sum

/-- What one frame gives `SimulateSoftBoneChain` beside the node and the chain: the fresh
memory, the component, the pose, the output list and the time to simulate. -/
structure FrameInput (K : Type) where
  Memory : Uninitialized K
  SkelComp : Option (USkeletalMeshComponent K)
  MeshBases : FCSPose K
  OutBoneTransforms : List (FBoneTransform K)
  InRemainingTime : K

/-- A sequence of frames on one chain: one call of `SimulateSoftBoneChain` for each frame, each
on the chain the frame before left. -/
def SimulateFrames (E : Engine K) (Fuel : Nat) (N : FAnimNode_SoftBone K)
    (OutTransformStartIndex : Nat) :
    FChainInfo K → List (FrameInput K) → Except Fault (FChainInfo K)
  | Chain, [] => .ok Chain
  | Chain, Frame :: Rest =>
    match SimulateSoftBoneChain E Frame.Memory Fuel N Chain Frame.SkelComp Frame.MeshBases
        Frame.OutBoneTransforms OutTransformStartIndex Frame.InRemainingTime with
    | .error e => .error e
    | .ok R => SimulateFrames E Fuel N OutTransformStartIndex R.Chain Rest

/-- The rotations of the entries of an output list, when there is a list. -/
def OutputRotations (R : Except Fault (List (FBoneTransform K))) : Option (List (FQuat K)) :=
  match R with
  | .error _ => none
  | .ok Out => some (Out.map (fun Entry => Entry.Transform.Rotation))

/-- The component-to-world map keeps the distance of any two locations (without a component
there is no map). -/
def PreservesDistances (SkelComp : Option (USkeletalMeshComponent K)) : Prop :=
  match SkelComp with
  | some Comp => ∀ A B : FVector K,
      FVector.SizeSquared (Comp.ComponentToWorld A - Comp.ComponentToWorld B) =
        FVector.SizeSquared (A - B)
  | none => True

/-- Modelled from the spec: the squared size of a quaternion (`FQuat::SizeSquared`). -/
def FQuat.SizeSquared (Q : FQuat K) : K := Q.X * Q.X + Q.Y * Q.Y + Q.Z * Q.Z + Q.W * Q.W

/-- The engine's constant `THRESH_QUAT_NORMALIZED`. -/
def THRESH_QUAT_NORMALIZED : K := 1 / 100

/-- Modelled from the spec: `FQuat::IsNormalized` (engine code), the test of the `checkSlow` in
`ReOrientBoneRotations` for a unit quaternion: the squared size is 1 up to
`THRESH_QUAT_NORMALIZED`. -/
def FQuat.IsNormalized (Q : FQuat K) : Bool :=
  decide (|1 - FQuat.SizeSquared Q| < THRESH_QUAT_NORMALIZED)

end Notions2

section Inputs2

variable (K : Type) [LinearOrderedField K]

/-- The node of scenario B: no stiffness, no damping, no bone length constraint, gravity scale
1 and gravity -980. -/
def FreeFallNode : FAnimNode_SoftBone K :=
  { DefaultNode K 0 1 with
    Stiffness := 0, DampingRatio := 0, bBoneLengthConstraint := false, GravityScale := 1,
    GravityZ := -980 }

/-- The example node after a frame of 1/20 s at 60 Hz, time dilation 1 and gravity -980. -/
def ExampleFrameNode : FAnimNode_SoftBone K :=
  UpdateInternal (ExampleNode K) (1 / 20) 1 (-980)

/-- A pose of `ExampleContainer` moved along the first axis: bone `i` lies at
`(10 i + 5, 0, 0)`. -/
def ShiftedPose : FCSPose K where
  BoneContainer := ExampleContainer
  ComponentSpaceTransform := fun BoneIndex => ⟨⟨0, 0, 0, 1⟩, ⟨10 * BoneIndex + 5, 0, 0⟩, ⟨1, 1, 1⟩⟩

/-- The node of the bones 0 and 1 without stiffness and gravity, with full damping, after a
frame of 1/60 s at 60 Hz; the bone length constraint is as given. -/
def DampedInertNode (Constraint : Bool) : FAnimNode_SoftBone K :=
  UpdateInternal
    { InertNode K with DampingRatio := 1, bBoneLengthConstraint := Constraint } (1 / 60) 1 (-980)

/-- A frame of 1/60 s on a pose, without a component, with an output list of two entries. -/
def PoseFrame (MeshBases : FCSPose K) : FrameInput K :=
  ⟨SevenMemory K, none, MeshBases, [SevenOutput K 0, SevenOutput K 1], 1 / 60⟩

/-- The pose of `ExampleContainer` turned by half a turn about the third axis: bone `i` lies at
`(-10 i, 0, 0)`. -/
def MirroredPose : FCSPose K where
  BoneContainer := ExampleContainer
  ComponentSpaceTransform := fun BoneIndex => ⟨⟨0, 0, 0, 1⟩, ⟨-10 * BoneIndex, 0, 0⟩, ⟨1, 1, 1⟩⟩

/-- The chain of the bones 0 and 1 as two frames of the node without stiffness leave it, the
first on the straight pose and the second on the mirrored pose: the link of bone 1 is still
at (10, 0, 0). -/
def UnturnedChain : FChainInfo K :=
  ⟨[0, 1],
    [⟨⟨0, 0, 0⟩, ⟨0, 0, 0⟩, ⟨0, 0, 0⟩, ⟨0, 0, 0⟩, 0, 0, 7, 7⟩,
     ⟨⟨0, 0, 0⟩, ⟨10, 0, 0⟩, ⟨10, 0, 0⟩, ⟨10, 0, 0⟩, 10, 1, 7, 0⟩]⟩

end Inputs2

end SoftBone

namespace SoftBone

/-! ## Notions of the specification, third part -/

section Notions3

variable {K : Type} [LinearOrderedField K]

/-- The velocity the specification gives a link after one step of size `TimeDelta`, before
damping: `Velocity + RestoringWeight * (target - Position) / dt + (0, 0, GravityScale *
GravityZ) * dt`, coordinate by coordinate. -/
def SteppedVelocity (N : FAnimNode_SoftBone K) (TimeDelta : K) (Link : FSoftBoneLink K)
    (Target : FVector K) : FVector K :=
  ⟨Link.Velocity.X + Link.RestoringWeight * (Target.X - Link.Position.X) / TimeDelta +
      0 * TimeDelta,
   Link.Velocity.Y + Link.RestoringWeight * (Target.Y - Link.Position.Y) / TimeDelta +
      0 * TimeDelta,
   Link.Velocity.Z + Link.RestoringWeight * (Target.Z - Link.Position.Z) / TimeDelta +
      N.GravityScale * N.GravityZ * TimeDelta⟩

/-- Modelled from the spec: the vector a rotation maps a vector to (`FQuat::RotateVector`,
engine code): with `Q` the vector part of the quaternion and `T = 2 (Q × V)`, the vector
`V + W T + Q × T`. -/
def FQuat.RotateVector (Q : FQuat K) (V : FVector K) : FVector K :=
  let Axis : FVector K := ⟨Q.X, Q.Y, Q.Z⟩
  let T := (2 : K) • FVector.CrossProduct Axis V
  V + Q.W • T + FVector.CrossProduct Axis T

/-- The engine's arc cosine, sine and cosine are exact where `FQuat(Axis, AngleRad)` uses them
on the angle of two unit vectors: for `x` from -1 to 1, the sine and the cosine of half the
arc cosine of `x` are not negative, their squares add up to 1 and differ by `x` (the cosine
of the whole angle). -/
def ExactAngles (E : Engine K) : Prop :=
  ∀ x : K, -1 ≤ x → x ≤ 1 →
    0 ≤ E.Sin ((1 / 2) * E.Acos x) ∧ 0 ≤ E.Cos ((1 / 2) * E.Acos x) ∧
    E.Sin ((1 / 2) * E.Acos x) * E.Sin ((1 / 2) * E.Acos x) +
      E.Cos ((1 / 2) * E.Acos x) * E.Cos ((1 / 2) * E.Acos x) = 1 ∧
    E.Cos ((1 / 2) * E.Acos x) * E.Cos ((1 / 2) * E.Acos x) -
      E.Sin ((1 / 2) * E.Acos x) * E.Sin ((1 / 2) * E.Acos x) = x

/-- The rotation the loop of `ReOrientBoneRotations` builds for a place of the chain, from the
link of the place and the link after it: old direction from the pose locations of their
bones, new direction from their component-space positions (the identity rotation where a link
is missing). -/
def LinkDeltaRotation (E : Engine K) (MeshBases : FCSPose K) (Links : List (FSoftBoneLink K))
    (LinkIndex : Nat) : FQuat K :=
  match Links[LinkIndex]?, Links[LinkIndex + 1]? with
  | some CurrentLink, some ChildLink =>
    let ChildPosInCS := (MeshBases.ComponentSpaceTransform ChildLink.BoneIndex).Translation
    let CurrentPosInCS := (MeshBases.ComponentSpaceTransform CurrentLink.BoneIndex).Translation
    let OldDir := FVector.GetUnsafeNormal E (ChildPosInCS - CurrentPosInCS)
    let NewDir := FVector.GetUnsafeNormal E (ChildLink.PositionInCS - CurrentLink.PositionInCS)
    DeltaRotation E OldDir NewDir
  | _, _ => ⟨0, 0, 0, 1⟩

/-- The rotation `ReOrientBoneRotations` builds for the tip bone, from the last three links:
old direction from the pose locations of the bones of the two links before the virtual link,
new direction from the component-space positions of the virtual link and the link before it
(the identity rotation where a link is missing). -/
def TipDeltaRotation (E : Engine K) (MeshBases : FCSPose K) (Links : List (FSoftBoneLink K)) :
    FQuat K :=
  match Links[Links.length - 3]?, Links[Links.length - 2]?, Links[Links.length - 1]? with
  | some ParentLink, some CurrentLink, some VirtualLink =>
    let ParentPosInCS := (MeshBases.ComponentSpaceTransform ParentLink.BoneIndex).Translation
    let CurrentPosInCS := (MeshBases.ComponentSpaceTransform CurrentLink.BoneIndex).Translation
    let VirtualBonePosInCS := CurrentPosInCS + (CurrentPosInCS - ParentPosInCS)
    let OldDir := FVector.GetUnsafeNormal E (VirtualBonePosInCS - CurrentPosInCS)
    let NewDir := FVector.GetUnsafeNormal E (VirtualLink.PositionInCS - CurrentLink.PositionInCS)
    DeltaRotation E OldDir NewDir
  | _, _, _ => ⟨0, 0, 0, 1⟩

/-- What `ReOrientBoneRotations` makes of the output entry of a place `Index` of the list, for
a chain of `NumTransforms` bones that starts at `Start`: the entries of the chain but the last
get the rotation of their link multiplied on from the left, the last entry of the chain gets
the tip rotation when `bAllowTipBoneRotation` is set, and every other entry stays. -/
def ReOrientedEntry (E : Engine K) (N : FAnimNode_SoftBone K) (MeshBases : FCSPose K)
    (Links : List (FSoftBoneLink K)) (Start NumTransforms Index : Nat)
    (Entry : FBoneTransform K) : FBoneTransform K :=
  if Start ≤ Index ∧ Index + 1 < Start + NumTransforms then
    ApplyDeltaRotation (LinkDeltaRotation E MeshBases Links (Index - Start)) Entry
  else if N.bAllowTipBoneRotation = true ∧ Index + 1 = Start + NumTransforms then
    ApplyDeltaRotation (TipDeltaRotation E MeshBases Links) Entry
  else Entry

/-- A sequence of frames on an unchanging pose as the host runs them, one frame for each delta
time of the list (`UpdateInternal`, then `EvaluateBoneTransforms` on an empty output list),
with a record of the physical steps: for each frame, the number of steps run on each chain. -/
def RunFramesSteps (E : Engine K) (U : Nat → Uninitialized K) (UOut : Nat → FBoneTransform K)
    (Fuel : Nat) (SkelComp : Option (USkeletalMeshComponent K)) (MeshBases : FCSPose K)
    (EffectiveTimeDilation WorldGravityZ : K) :
    FAnimNode_SoftBone K → List K → Except Fault (FAnimNode_SoftBone K × List (List Nat))
  | N, [] => .ok (N, [])
  | N, DeltaTime :: Rest =>
    match EvaluateBoneTransforms E U UOut Fuel
        (UpdateInternal N DeltaTime EffectiveTimeDilation WorldGravityZ) SkelComp MeshBases [] with
    | .error e => .error e
    | .ok R =>
      match RunFramesSteps E U UOut Fuel SkelComp MeshBases EffectiveTimeDilation WorldGravityZ
          R.Node Rest with
      | .error e => .error e
      | .ok Later => .ok (Later.1, R.Steps :: Later.2)

end Notions3

section Lookups

variable {K : Type}

/-- The loop of `SetSoftBoneIndices` with a record of its parent lookups: beside what the loop
returns, the bones whose parent `GetParentBoneIndex` was asked for, in the order of the
lookups. -/
def SetSoftBoneIndicesLoopLookups (MeshBases : FCSPose K) (RootIndex : Int) :
    Nat → Int → List Int → List Int → Except Fault ((Int × List Int) × List Int)
  | 0, _, _, _ => .error .outOfFuel
  | Fuel + 1, BoneIndex, BoneIndices, Lookups =>
    let BoneIndices := BoneIndex :: BoneIndices
    match GetParentBoneIndex MeshBases BoneIndex with
    | .error e => .error e
    | .ok Parent =>
      if Parent ≠ RootIndex then
        SetSoftBoneIndicesLoopLookups MeshBases RootIndex Fuel Parent BoneIndices
          (Lookups ++ [BoneIndex])
      else .ok ((Parent, BoneIndices), Lookups ++ [BoneIndex])

end Lookups

/-! ## Inputs for evaluation, third part -/

section Inputs3

variable (K : Type) [LinearOrderedField K]

/-- The chain of the bones 0 and 1 with its root link at rest at `(0, 0, 0)` and its second
link at `(10, 0, 0)` with a given velocity and restoring weight. -/
def SpringChain (Velocity : FVector K) (RestoringWeight : K) : FChainInfo K :=
  ⟨[0, 1], [RestingLink K ⟨0, 0, 0⟩ 0 0,
    { RestingLink K ⟨10, 0, 0⟩ 10 1 with
      Velocity := Velocity, RestoringWeight := RestoringWeight }]⟩

/-- The chain of the bones 0 and 1 with its two links, the link of bone 1 swung out of the
straight pose by a small angle: it lies at `10 * (9999999999, 200000, 0) / 10000000001` in
component space, at the distance 10 of the root. -/
def SwungChain : FChainInfo K :=
  ⟨[0, 1],
    [⟨⟨0, 0, 0⟩, ⟨0, 0, 0⟩, ⟨0, 0, 0⟩, ⟨0, 0, 0⟩, 0, 0, 7, 7⟩,
     ⟨⟨0, 0, 0⟩, ⟨99999999990 / 10000000001, 2000000 / 10000000001, 0⟩,
      ⟨99999999990 / 10000000001, 2000000 / 10000000001, 0⟩,
      ⟨99999999990 / 10000000001, 2000000 / 10000000001, 0⟩, 10, 1, 7, 0⟩]⟩

end Inputs3

end SoftBone

namespace SoftBone

/-! ## The time accounting of the code in `float`

The definitions above run the code on the elements of an ordered field, without rounding.
The source keeps its times in `float`. The definitions below run the time accounting of the
code (the two assignments of `UpdateInternal` and the `while` loop of
`SimulateSoftBoneChain`) on the values a `float` holds, given as rational numbers, with the
rounding of every operation. -/

section Float

/-- The largest exponent `e` with `2 ^ e ≤ a` among the `Count + 1` exponents from -126 on;
-126 when there is none (the exponent of the subnormal numbers). -/
def Float32Exponent (a : ℚ) : Nat → Int
  | 0 => -126
  | Count + 1 =>
    if (2 : ℚ) ^ ((Count : Int) - 125) ≤ a then (Count : Int) - 125 else Float32Exponent a Count

/-- The integer nearest to a rational number, the even one of the two when it lies half way
between two integers. -/
def RoundHalfEven (x : ℚ) : Int :=
  if x - (⌊x⌋ : ℚ) < 1 / 2 then ⌊x⌋
  else if 1 / 2 < x - (⌊x⌋ : ℚ) then ⌊x⌋ + 1
  else if ⌊x⌋ % 2 = 0 then ⌊x⌋ else ⌊x⌋ + 1

/-- The value a `float` (IEEE 754 binary32, round to nearest, ties to even) holds after an
operation whose exact result is `q`: the multiple of 2 ^ (e - 23) nearest to `q`, where `e`
is the exponent of `q`, between -126 and 127. Results of 2 ^ 128 and more, which a `float`
does not hold, are not looked at. -/
def Float32Round (q : ℚ) : ℚ :=
  (RoundHalfEven (q / (2 : ℚ) ^ (Float32Exponent |q| 253 - 23)) : ℚ) *
    (2 : ℚ) ^ (Float32Exponent |q| 253 - 23)

/-- The assignment `FixedTimeStep = (1.f / (float)SimulationHertz) * GetEffectiveTimeDilation()`
of `UpdateInternal` in `float`. -/
def FloatFixedTimeStep (SimulationHertz : ESimulationHertz) (EffectiveTimeDilation : ℚ) : ℚ :=
  Float32Round (Float32Round (1 / (SimulationHertz.toNat : ℚ)) * EffectiveTimeDilation)

/-- The time accounting of the loop `while (InRemainingTime >= FixedTimeStep)` of
`SimulateSoftBoneChain` in `float`, for at most `Fuel` rounds: every round counts one physical
step and takes the fixed step off the remaining time (`InRemainingTime -= FixedTimeStep`).
The result is the remaining time the loop leaves and the number of its rounds. -/
def FloatSubstepTimes (FixedTimeStep : ℚ) : Nat → ℚ → Nat → Except Fault (ℚ × Nat)
  | 0, InRemainingTime, Steps =>
    if InRemainingTime ≥ FixedTimeStep then .error .outOfFuel else .ok (InRemainingTime, Steps)
  | Fuel + 1, InRemainingTime, Steps =>
    if InRemainingTime ≥ FixedTimeStep then
      FloatSubstepTimes FixedTimeStep Fuel (Float32Round (InRemainingTime - FixedTimeStep))
        (Steps + 1)
    else .ok (InRemainingTime, Steps)

/-- The time accounting of a sequence of frames in `float`, in deterministic mode on a node
with at least one chain, one frame for each delta time of the list: `UpdateInternal` adds the
delta time to `RemainingTime` (`RemainingTime += Context.GetDeltaTime()`), and
`EvaluateBoneTransforms`, when `RemainingTime` is positive, runs the loop of
`SimulateSoftBoneChain` on it for every chain and stores the time the loop leaves. The result
is the final `RemainingTime` and, for each frame, the number of physical steps run on a
chain. -/
def FloatFrameTimes (FixedTimeStep : ℚ) (Fuel : Nat) : ℚ → List ℚ → Except Fault (ℚ × List Nat)
  | RemainingTime, [] => .ok (RemainingTime, [])
  | RemainingTime, DeltaTime :: Rest =>
    if Float32Round (RemainingTime + DeltaTime) ≤ 0 then
      match FloatFrameTimes FixedTimeStep Fuel (Float32Round (RemainingTime + DeltaTime)) Rest with
      | .error e => .error e
      | .ok Later => .ok (Later.1, 0 :: Later.2)
    else
      match FloatSubstepTimes FixedTimeStep Fuel (Float32Round (RemainingTime + DeltaTime)) 0 with
      | .error e => .error e
      | .ok Frame =>
        match FloatFrameTimes FixedTimeStep Fuel Frame.1 Rest with
        | .error e => .error e
        | .ok Later => .ok (Later.1, Frame.2 :: Later.2)

end Float

section Inputs4

variable (K : Type) [LinearOrderedField K]

/-- The default node of the bones 0 and 1 with the bone length constraint off, stiffness 1/2
in formula mode and damping ratio 1/2: with the gravity scale 1/4 all its parameters are
`float` values. -/
def DyadicNode : FAnimNode_SoftBone K :=
  { StretchNode K with Stiffness := 1 / 2, DampingRatio := 1 / 2, bUseWeightCurve := false }

/-- The dyadic node as `UpdateInternal` leaves it after a frame of 3/64 s at 60 Hz, time
dilation 15/16 and gravity -980: its `FixedTimeStep` is 1/64. -/
def DyadicUpdatedNode : FAnimNode_SoftBone K :=
  UpdateInternal (DyadicNode K) (3 / 64) (15 / 16) (-980)

end Inputs4

section Notions4

variable {K : Type} [LinearOrderedField K]

end Notions4

end SoftBone

namespace SoftBone

/-! ## Lemmas on faults, arrays and loops -/

section Basics

variable {α β σ : Type}

@[simp] theorem ok_bind (a : α) (f : α → Except Fault β) : (Except.ok a >>= f) = f a := rfl

@[simp] theorem error_bind (e : Fault) (f : α → Except Fault β) :
    ((Except.error e : Except Fault α) >>= f) = Except.error e := rfl

@[simp] theorem pure_eq_ok (a : α) : (pure a : Except Fault α) = Except.ok a := rfl

@[simp] theorem throw_eq_error (e : Fault) : (throw e : Except Fault α) = Except.error e := rfl

theorem TArray.get_of_lt (A : List α) (Index : Nat) (h : Index < A.length) :
    TArray.get A Index = .ok A[Index] := by
  simp [TArray.get, List.getElem?_eq_getElem h]

theorem TArray.get_eq_ok (A : List α) (Index : Nat) (a : α) :
    TArray.get A Index = .ok a ↔ A[Index]? = some a := by
  unfold TArray.get
  cases h : A[Index]? <;> simp

theorem TArray.set_of_lt (A : List α) (Index : Nat) (Value : α) (h : Index < A.length) :
    TArray.set A Index Value = .ok (List.set A Index Value) := by
  simp [TArray.set, h]

theorem TArray.getI_sub (A : List α) (n k : Nat) (h : k ≤ n) :
    TArray.getI A ((n : Int) - (k : Int)) = TArray.get A (n - k) := by
  have h0 : (0 : Int) ≤ (n : Int) - (k : Int) := by omega
  have h1 : ((n : Int) - (k : Int)).toNat = n - k := by omega
  simp [TArray.getI, h0, h1]

theorem TArray.setI_sub (A : List α) (n k : Nat) (Value : α) (h : k ≤ n) :
    TArray.setI A ((n : Int) - (k : Int)) Value = TArray.set A (n - k) Value := by
  have h0 : (0 : Int) ≤ (n : Int) - (k : Int) := by omega
  have h1 : ((n : Int) - (k : Int)).toNat = n - k := by omega
  simp [TArray.setI, h0, h1]

/-- The rule for a loop with an invariant: if the invariant holds on entry and every round
that starts in a state with the invariant ends, without a fault, in a state with the
invariant for the next index, the loop ends without a fault and the invariant holds for the
index after the last round. -/
theorem forLoopFrom_invariant (Body : Nat → σ → Except Fault σ) (Inv : Nat → σ → Prop) :
    ∀ (Count Index : Nat) (s : σ), Inv Index s →
      (∀ j t, Index ≤ j → j < Index + Count → Inv j t → ∃ t', Body j t = .ok t' ∧ Inv (j + 1) t') →
      ∃ s', forLoopFrom Body Count Index s = .ok s' ∧ Inv (Index + Count) s' := by
  intro Count
  induction Count with
  | zero => intro Index s h _; exact ⟨s, rfl, by simpa using h⟩
  | succ c ih =>
    intro Index s h hstep
    obtain ⟨t, ht, hInv⟩ := hstep Index s (le_refl _) (by omega) h
    obtain ⟨s', hs', hInv'⟩ := ih (Index + 1) t hInv
      (fun j u h1 h2 h3 => hstep j u (by omega) (by omega) h3)
    refine ⟨s', ?_, ?_⟩
    · simp [forLoopFrom, ht, hs']
    · have : Index + (c + 1) = Index + 1 + c := by omega
      rw [this]; exact hInv'

theorem forLoop_invariant (Body : Nat → σ → Except Fault σ) (Inv : Nat → σ → Prop)
    (Lo Hi : Nat) (s : σ) (hle : Lo ≤ Hi) (h0 : Inv Lo s)
    (hstep : ∀ j t, Lo ≤ j → j < Hi → Inv j t → ∃ t', Body j t = .ok t' ∧ Inv (j + 1) t') :
    ∃ s', forLoop Lo Hi Body s = .ok s' ∧ Inv Hi s' := by
  obtain ⟨s', hs', hInv⟩ := forLoopFrom_invariant Body Inv (Hi - Lo) Lo s h0
    (fun j t h1 h2 h3 => hstep j t h1 (by omega) h3)
  refine ⟨s', hs', ?_⟩
  have : Lo + (Hi - Lo) = Hi := by omega
  rw [this] at hInv; exact hInv

theorem forLoop_empty (Body : Nat → σ → Except Fault σ) (Lo Hi : Nat) (s : σ) (h : Hi ≤ Lo) :
    forLoop Lo Hi Body s = .ok s := by
  have : Hi - Lo = 0 := by omega
  simp [forLoop, this, forLoopFrom]

end Basics

end SoftBone

namespace SoftBone

section SucceedsRules

variable {α β σ : Type}

theorem Succeeds.ok {a : α} {P : α → Prop} (h : P a) : Succeeds (Except.ok a : Except Fault α) P :=
  ⟨a, rfl, h⟩

theorem Succeeds.pure {a : α} {P : α → Prop} (h : P a) : Succeeds (pure a : Except Fault α) P :=
  ⟨a, rfl, h⟩

theorem Succeeds.mono {x : Except Fault α} {P Q : α → Prop} (h : Succeeds x P)
    (hPQ : ∀ a, P a → Q a) : Succeeds x Q := by
  obtain ⟨a, ha, hP⟩ := h
  exact ⟨a, ha, hPQ a hP⟩

theorem Succeeds.bind {x : Except Fault α} {f : α → Except Fault β} {P : β → Prop}
    (Q : α → Prop) (hx : Succeeds x Q) (hf : ∀ a, Q a → Succeeds (f a) P) :
    Succeeds (x >>= f) P := by
  obtain ⟨a, ha, hQ⟩ := hx
  obtain ⟨b, hb, hP⟩ := hf a hQ
  exact ⟨b, by rw [ha]; exact hb, hP⟩

theorem Succeeds.get {A : List α} {Index : Nat} {P : α → Prop} (h : Index < A.length)
    (hP : P A[Index]) : Succeeds (TArray.get A Index) P :=
  ⟨A[Index], TArray.get_of_lt A Index h, hP⟩

theorem Succeeds.set {A : List α} {Index : Nat} {Value : α} {P : List α → Prop}
    (h : Index < A.length) (hP : P (List.set A Index Value)) :
    Succeeds (TArray.set A Index Value) P :=
  ⟨List.set A Index Value, TArray.set_of_lt A Index Value h, hP⟩

theorem Succeeds.forLoop {Body : Nat → σ → Except Fault σ} (Inv : Nat → σ → Prop)
    {Lo Hi : Nat} {s : σ} (hle : Lo ≤ Hi) (h0 : Inv Lo s)
    (hstep : ∀ j t, Lo ≤ j → j < Hi → Inv j t → Succeeds (Body j t) (Inv (j + 1))) :
    Succeeds (forLoop Lo Hi Body s) (Inv Hi) :=
  forLoop_invariant Body Inv Lo Hi s hle h0 hstep

theorem Succeeds.result {x : Except Fault α} {P : α → Prop} {a : α} (h : Succeeds x P)
    (ha : x = .ok a) : P a := by
  obtain ⟨b, hb, hP⟩ := h
  rw [ha] at hb
  cases hb
  exact hP

end SucceedsRules

end SoftBone

namespace SoftBone

section Topology

variable {K : Type}

theorem getI_index_none {α : Type} (A : List α) : TArray.getI A INDEX_NONE = .error .outOfRange := by
  simp [TArray.getI, INDEX_NONE]

theorem getI_ok_range {α : Type} (A : List α) (Index : Int) (a : α)
    (h : TArray.getI A Index = .ok a) : 0 ≤ Index ∧ Index.toNat < A.length := by
  unfold TArray.getI at h
  split at h
  · rename_i h0
    refine ⟨h0, ?_⟩
    rw [TArray.get_eq_ok] at h
    exact (List.getElem?_eq_some_iff.mp h).1
  · cases h

theorem HasDepth.unique {C : FBoneContainer} {Bone : Int} {d : Nat} (h : HasDepth C Bone d) :
    ∀ d', HasDepth C Bone d' → d = d' := by
  induction h with
  | top h0 =>
    intro d' h'
    cases h' with
    | top _ => rfl
    | child h1 h2 =>
      rw [h0] at h1
      cases h1
      cases h2 with
      | top h3 => rw [getI_index_none] at h3; cases h3
      | child h3 _ => rw [getI_index_none] at h3; cases h3
  | child h0 h1 ih =>
    intro d' h'
    cases h' with
    | top h2 =>
      rw [h0] at h2
      cases h2
      cases h1 with
      | top h3 => rw [getI_index_none] at h3; cases h3
      | child h3 _ => rw [getI_index_none] at h3; cases h3
    | child h2 h3 =>
      rw [h0] at h2
      cases h2
      rw [ih _ h3]

/-- A list of distinct bones of a container is no longer than the container. -/
theorem length_le_of_nodup_bones (n : Nat) (l : List Int) (hn : l.Nodup)
    (hr : ∀ b ∈ l, 0 ≤ b ∧ b.toNat < n) : l.length ≤ n := by
  have h1 : (l.map Int.toNat).Nodup := by
    refine (List.nodup_map_iff_inj_on hn).mpr ?_
    intro x hx y hy hxy
    have := (hr x hx).1
    have := (hr y hy).1
    omega
  have h2 : l.map Int.toNat ⊆ List.range n := by
    intro x hx
    obtain ⟨b, hb, rfl⟩ := List.mem_map.mp hx
    exact List.mem_range.mpr (hr b hb).2
  have := (h1.subperm h2).length_le
  simpa using this

/-- The walk of `SetSoftBoneIndices` from a bone below the root: the bones it puts in front of
the list, and what is known of them. -/
theorem walk_of_ancestor (MeshBases : FCSPose K) (Root : Int) (dr : Nat)
    (hDepth : HasDepth MeshBases.BoneContainer Root dr) {Tip : Int}
    (hAnc : IsProperAncestor MeshBases.BoneContainer Root Tip) :
    ∃ Mid : List Int,
      Mid.getLast? = some Tip ∧
      HasDepth MeshBases.BoneContainer Tip (dr + Mid.length) ∧
      List.Chain' (fun Parent Bone => GetParentBoneIndex MeshBases Bone = .ok Parent) (Root :: Mid) ∧
      (∀ b ∈ Mid, ∃ d, HasDepth MeshBases.BoneContainer b d ∧ dr < d ∧ d ≤ dr + Mid.length) ∧
      (∀ b ∈ Mid, 0 ≤ b ∧ b.toNat < MeshBases.BoneContainer.ParentIndices.length) ∧
      Mid.Nodup ∧
      ∀ (Fuel : Nat) (Acc : List Int), Mid.length ≤ Fuel →
        SetSoftBoneIndicesLoop MeshBases Root Fuel Tip Acc = .ok (Root, Mid ++ Acc) := by
  induction hAnc with
  | @parent Bone h =>
    refine ⟨[Bone], rfl, HasDepth.child h hDepth, ?_, ?_, ?_, List.nodup_singleton _, ?_⟩
    · exact List.Chain.cons h List.Chain.nil
    · intro b hb
      rw [List.mem_singleton] at hb
      subst hb
      exact ⟨dr + 1, HasDepth.child h hDepth, by omega, by simp⟩
    · intro b hb
      rw [List.mem_singleton] at hb
      subst hb
      exact getI_ok_range _ _ _ h
    · intro Fuel Acc hF
      cases Fuel with
      | zero => simp at hF
      | succ f => simp [SetSoftBoneIndicesLoop, GetParentBoneIndex, h]
  | @step Bone Parent h hA ih =>
    obtain ⟨Mid, hLast, hD, hChain, hDepths, hRange, hNodup, hLoop⟩ := ih
    have hBoneDepth : HasDepth MeshBases.BoneContainer Bone (dr + Mid.length + 1) :=
      HasDepth.child h hD
    have hne : Parent ≠ Root := by
      intro hEq
      subst hEq
      have := hD.unique _ hDepth
      have hpos : 0 < Mid.length := by
        cases Mid with
        | nil => simp at hLast
        | cons a t => simp
      omega
    refine ⟨Mid ++ [Bone], by simp, ?_, ?_, ?_, ?_, ?_, ?_⟩
    · simpa [Nat.add_assoc] using hBoneDepth
    · have hApp : Root :: (Mid ++ [Bone]) = (Root :: Mid) ++ [Bone] := rfl
      rw [hApp, List.chain'_append]
      refine ⟨hChain, List.chain'_singleton _, ?_⟩
      intro x hx y hy
      have hx' : (Root :: Mid).getLast? = some Parent := by
        cases Mid with
        | nil => simp at hLast
        | cons a t => simpa [List.getLast?_cons_cons] using hLast
      rw [hx'] at hx
      simp at hx hy
      subst hx hy
      exact h
    · intro b hb
      rw [List.mem_append, List.mem_singleton] at hb
      rcases hb with hb | hb
      · obtain ⟨d, h1, h2, h3⟩ := hDepths b hb
        exact ⟨d, h1, h2, by simp; omega⟩
      · subst hb
        exact ⟨dr + Mid.length + 1, hBoneDepth, by omega, by simp; omega⟩
    · intro b hb
      rw [List.mem_append, List.mem_singleton] at hb
      rcases hb with hb | hb
      · exact hRange b hb
      · subst hb
        exact getI_ok_range _ _ _ h
    · rw [List.nodup_append]
      refine ⟨hNodup, List.nodup_singleton _, ?_⟩
      intro a ha hb
      rw [List.mem_singleton] at hb
      subst hb
      obtain ⟨d, h1, _, h3⟩ := hDepths a ha
      have := h1.unique _ hBoneDepth
      omega
    · intro Fuel Acc hF
      cases Fuel with
      | zero => simp at hF
      | succ f =>
        have hf : Mid.length ≤ f := by simp at hF; omega
        simp [SetSoftBoneIndicesLoop, GetParentBoneIndex, h, hne, hLoop f (Bone :: Acc) hf]

end Topology

end SoftBone

namespace SoftBone

section Ancestors

theorem ParentIter_succ (C : FBoneContainer) (k : Nat) (b : Int) :
    ParentIter C (k + 1) b =
      match TArray.getI C.ParentIndices b with
      | .ok Parent => ParentIter C k Parent
      | .error _ => none := rfl

theorem ParentIter_add (C : FBoneContainer) : ∀ (i m : Nat) (b : Int),
    ParentIter C (i + m) b = (ParentIter C i b).bind (ParentIter C m) := by
  intro i
  induction i with
  | zero => intro m b; simp [ParentIter]
  | succ i ih =>
    intro m b
    have : i + 1 + m = (i + m) + 1 := by omega
    rw [this, ParentIter_succ, ParentIter_succ C i]
    cases h : TArray.getI C.ParentIndices b with
    | error e => simp
    | ok p => simp [ih]

theorem ParentIter_succ_last (C : FBoneContainer) (i : Nat) (b c : Int)
    (h : ParentIter C (i + 1) b = some c) :
    ∃ v, ParentIter C i b = some v ∧ TArray.getI C.ParentIndices v = .ok c := by
  rw [ParentIter_add] at h
  cases hv : ParentIter C i b with
  | none => simp [hv] at h
  | some v =>
    refine ⟨v, rfl, ?_⟩
    simp only [hv, Option.some_bind] at h
    unfold ParentIter at h
    cases hp : TArray.getI C.ParentIndices v with
    | error e => simp [hp] at h
    | ok p => simp only [hp, ParentIter] at h; cases h; rfl

theorem ParentIter_prefix (C : FBoneContainer) (k i : Nat) (b c : Int) (hi : i ≤ k)
    (h : ParentIter C k b = some c) : ∃ v, ParentIter C i b = some v := by
  have : k = i + (k - i) := by omega
  rw [this, ParentIter_add] at h
  cases hv : ParentIter C i b with
  | none => simp [hv] at h
  | some v => exact ⟨v, rfl⟩

theorem isProperAncestor_iff_iter (C : FBoneContainer) (Root Tip : Int) :
    IsProperAncestor C Root Tip ↔ ∃ k, ParentIter C (k + 1) Tip = some Root := by
  constructor
  · intro h
    induction h with
    | parent h => exact ⟨0, by simp [ParentIter, h]⟩
    | step h _ ih =>
      obtain ⟨k, hk⟩ := ih
      exact ⟨k + 1, by rw [ParentIter]; simp [h, hk]⟩
  · rintro ⟨k, hk⟩
    induction k generalizing Tip with
    | zero =>
      unfold ParentIter at hk
      cases hp : TArray.getI C.ParentIndices Tip with
      | error e => simp [hp] at hk
      | ok p =>
        simp only [hp, ParentIter] at hk
        cases hk
        exact IsProperAncestor.parent hp
    | succ k ih =>
      rw [ParentIter] at hk
      cases hp : TArray.getI C.ParentIndices Tip with
      | error e => simp [hp] at hk
      | ok p =>
        simp only [hp] at hk
        exact IsProperAncestor.step hp (ih p hk)

theorem boneIsChildOfLoop_iff_iter (C : FBoneContainer) (Root : Int) :
    ∀ (Fuel : Nat) (Tip : Int),
      BoneIsChildOfLoop C Root Fuel Tip = true ↔ ∃ k, k < Fuel ∧ ParentIter C (k + 1) Tip = some Root := by
  intro Fuel
  induction Fuel with
  | zero => intro Tip; simp [BoneIsChildOfLoop]
  | succ f ih =>
    intro Tip
    unfold BoneIsChildOfLoop
    cases hp : TArray.getI C.ParentIndices Tip with
    | error e =>
      simp only [Bool.false_eq_true, false_iff, not_exists, not_and]
      intro k _ hk
      rw [ParentIter] at hk
      simp [hp] at hk
    | ok p =>
      simp only
      by_cases hEq : p = Root
      · simp only [hEq, if_true, true_iff]
        exact ⟨0, by omega, by simp [ParentIter, hp, hEq]⟩
      · simp only [hEq, if_false]
        rw [ih]
        constructor
        · rintro ⟨k, hk, h⟩
          exact ⟨k + 1, by omega, by rw [ParentIter]; simp [hp, h]⟩
        · rintro ⟨k, hk, h⟩
          cases k with
          | zero =>
            simp only [ParentIter, hp] at h
            cases h
            exact absurd rfl hEq
          | succ k =>
            rw [ParentIter] at h
            simp only [hp] at h
            exact ⟨k, by omega, h⟩

/-- A root that is reached by parent steps is reached within as many steps as the container
has bones: the bones passed before the first visit of the root are distinct. -/
theorem iter_bounded (C : FBoneContainer) (Root Tip : Int)
    (h : ∃ k, ParentIter C (k + 1) Tip = some Root) :
    ∃ k, k < C.ParentIndices.length ∧ ParentIter C (k + 1) Tip = some Root := by
  classical
  let k := Nat.find h
  have hk : ParentIter C (k + 1) Tip = some Root := Nat.find_spec h
  have hmin : ∀ m, m < k → ParentIter C (m + 1) Tip ≠ some Root := fun m hm => Nat.find_min h hm
  refine ⟨k, ?_, hk⟩
  by_contra hge
  have hge : C.ParentIndices.length ≤ k := by omega
  -- the bones passed on the way, as indices of the container
  have hvalid : ∀ i, i ≤ k → ∃ v, ParentIter C i Tip = some v ∧ 0 ≤ v ∧
      v.toNat < C.ParentIndices.length := by
    intro i hi
    obtain ⟨c, hc⟩ := ParentIter_prefix C (k + 1) (i + 1) Tip Root (by omega) hk
    obtain ⟨v, hv, hp⟩ := ParentIter_succ_last C i Tip c hc
    exact ⟨v, hv, getI_ok_range _ _ _ hp⟩
  let f : Fin (k + 1) → Fin C.ParentIndices.length := fun i =>
    ⟨((ParentIter C i.1 Tip).getD 0).toNat, by
      obtain ⟨v, hv, _, h2⟩ := hvalid i.1 (by omega)
      simp [hv, h2]⟩
  have hcard : Fintype.card (Fin C.ParentIndices.length) < Fintype.card (Fin (k + 1)) := by
    simp; omega
  obtain ⟨i, j, hij, hf⟩ := Fintype.exists_ne_map_eq_of_card_lt f hcard
  -- two different step counts that reach the same bone
  have key : ∀ a b : Nat, a < b → b ≤ k → ParentIter C a Tip = ParentIter C b Tip → False := by
    intro a b hab hb hEq
    have h1 : ParentIter C (b + (k + 1 - b)) Tip = some Root := by
      have : b + (k + 1 - b) = k + 1 := by omega
      rw [this]; exact hk
    rw [ParentIter_add, ← hEq, ← ParentIter_add] at h1
    have h2 : a + (k + 1 - b) = (a + k - b) + 1 := by omega
    rw [h2] at h1
    exact hmin (a + k - b) (by omega) h1
  have hEq : ParentIter C i.1 Tip = ParentIter C j.1 Tip := by
    obtain ⟨v, hv, hv0, _⟩ := hvalid i.1 (by omega)
    obtain ⟨w, hw, hw0, _⟩ := hvalid j.1 (by omega)
    have := congrArg Fin.val hf
    simp only [f, hv, hw, Option.getD_some] at this
    rw [hv, hw]
    congr 1
    omega
  rcases Nat.lt_or_gt_of_ne (fun h => hij (Fin.ext h)) with hlt | hgt
  · exact key i.1 j.1 hlt (by omega) hEq
  · exact key j.1 i.1 hgt (by omega) hEq.symm

/-- The model of `BoneIsChildOf` decides proper ancestry. -/
theorem BoneIsChildOf_iff (C : FBoneContainer) (Bone Root : Int) :
    C.BoneIsChildOf Bone Root = true ↔ IsProperAncestor C Root Bone := by
  unfold FBoneContainer.BoneIsChildOf
  rw [boneIsChildOfLoop_iff_iter, isProperAncestor_iff_iter]
  constructor
  · rintro ⟨k, _, h⟩; exact ⟨k, h⟩
  · intro h; exact iter_bounded C Root Bone h

end Ancestors
end SoftBone

namespace SoftBone

section Topology2

variable {K : Type}

/-- When `BoneIsChildOf` has found the root above the tip, the walk of `SetSoftBoneIndices`,
with the same number of rounds, ends at the root. -/
theorem walk_of_BoneIsChildOfLoop (MeshBases : FCSPose K) (RootIndex : Int) :
    ∀ (Fuel : Nat) (TipIndex : Int) (Acc : List Int),
      BoneIsChildOfLoop MeshBases.BoneContainer RootIndex Fuel TipIndex = true →
      ∃ Mid : List Int, Mid.getLast? = some TipIndex ∧
        SetSoftBoneIndicesLoop MeshBases RootIndex Fuel TipIndex Acc = .ok (RootIndex, Mid ++ Acc) := by
  intro Fuel
  induction Fuel with
  | zero => intro TipIndex Acc h; simp [BoneIsChildOfLoop] at h
  | succ f ih =>
    intro TipIndex Acc h
    unfold BoneIsChildOfLoop at h
    cases hp : TArray.getI MeshBases.BoneContainer.ParentIndices TipIndex with
    | error e => simp [hp] at h
    | ok Parent =>
      simp only [hp] at h
      by_cases hEq : Parent = RootIndex
      · refine ⟨[TipIndex], rfl, ?_⟩
        simp [SetSoftBoneIndicesLoop, GetParentBoneIndex, hp, hEq]
      · simp only [hEq, if_false] at h
        obtain ⟨Mid, hLast, hLoop⟩ := ih Parent (TipIndex :: Acc) h
        refine ⟨Mid ++ [TipIndex], by simp, ?_⟩
        simp [SetSoftBoneIndicesLoop, GetParentBoneIndex, hp, hEq, hLoop]

/-- For an accepted pair `SetSoftBoneIndices` returns a list that starts with the root and ends
with the tip. -/
theorem SetSoftBoneIndices_of_valid (MeshBases : FCSPose K) (RootBone TipBone : FBoneReference)
    (h : IsValidBonePair MeshBases.BoneContainer RootBone TipBone = true) :
    ∃ Mid : List Int, Mid.getLast? = some TipBone.BoneIndex ∧
      SetSoftBoneIndices MeshBases RootBone.BoneIndex TipBone.BoneIndex [] =
        .ok (RootBone.BoneIndex :: Mid) := by
  simp only [IsValidBonePair, Bool.and_eq_true, FBoneContainer.BoneIsChildOf] at h
  obtain ⟨Mid, hLast, hLoop⟩ := walk_of_BoneIsChildOfLoop MeshBases RootBone.BoneIndex _ _ [] h.2
  exact ⟨Mid, hLast, by simp [SetSoftBoneIndices, hLoop]⟩

theorem foldl_valid_pairs (C : FBoneContainer) (Pairs : List FBonePair) :
    ∀ Acc : List FBonePair,
      Pairs.foldl (fun Acc Pair =>
        if IsValidBonePair C Pair.RootBone Pair.TipBone then
          Acc ++ [FBonePair.mk Pair.RootBone Pair.TipBone]
        else Acc) Acc =
      Acc ++ Pairs.filter (fun Pair => IsValidBonePair C Pair.RootBone Pair.TipBone) := by
  induction Pairs with
  | nil => intro Acc; simp
  | cons P Ps ih =>
    intro Acc
    rw [List.foldl_cons, ih]
    by_cases h : IsValidBonePair C P.RootBone P.TipBone = true
    · simp [h, List.filter_cons]
    · simp [h, List.filter_cons]

end Topology2

section Topology3
variable {K : Type} [LinearOrderedField K]

omit [LinearOrderedField K] in
theorem accepted_pairs_eq (N : FAnimNode_SoftBone K) (C : FBoneContainer) :
    List.foldl (fun Pairs Pair =>
        if IsValidBonePair C Pair.RootBone Pair.TipBone = true then
          Pairs ++ [FBonePair.mk Pair.RootBone Pair.TipBone]
        else Pairs)
      (if IsValidBonePair C N.RootBone N.TipBone = true then
        [] ++ [FBonePair.mk N.RootBone N.TipBone] else [])
      N.AdditionalChains = AcceptedPairs N C := by
  rw [foldl_valid_pairs]
  unfold AcceptedPairs ConfiguredPairs
  by_cases h : IsValidBonePair C N.RootBone N.TipBone = true
  · simp [h, List.filter_cons]
  · simp [h, List.filter_cons]

omit [LinearOrderedField K] in
/-- What `InitializeBoneIndices` leaves: only `ChainInfos` changes; it gets one chain for each
pair of the sorted array, in the order of that array, with the pair's root as first and the
pair's tip as last bone index, and without links. -/
theorem InitializeBoneIndices_spec (E : Engine K) (N : FAnimNode_SoftBone K) (MeshBases : FCSPose K)
    (hPerm : (E.ArraySort FCompareRootBone (AcceptedPairs N MeshBases.BoneContainer)).Perm
      (AcceptedPairs N MeshBases.BoneContainer)) :
    Succeeds (InitializeBoneIndices E N MeshBases) (fun N' =>
      ∃ Chains : List (FChainInfo K), N' = { N with ChainInfos := Chains } ∧
        Chains.map ChainEnds =
          (E.ArraySort FCompareRootBone (AcceptedPairs N MeshBases.BoneContainer)).map PairEnds ∧
        (∀ Chain ∈ Chains, Chain.PrevBoneLinks = [] ∧ 2 ≤ Chain.BoneIndices.length)) := by
  unfold InitializeBoneIndices
  simp only [accepted_pairs_eq]
  generalize hS : E.ArraySort FCompareRootBone (AcceptedPairs N MeshBases.BoneContainer) = Sorted
    at hPerm ⊢
  have hValid : ∀ P ∈ Sorted, IsValidBonePair MeshBases.BoneContainer P.RootBone P.TipBone = true := by
    intro P hP
    have := (hPerm.mem_iff).mp hP
    unfold AcceptedPairs at this
    exact (List.mem_filter.mp this).2
  apply Succeeds.bind (fun Chains : List (FChainInfo K) =>
    Chains.length = Sorted.length ∧
    (∀ j (hj : j < Sorted.length) (C : FChainInfo K), Chains[j]? = some C →
      C.PrevBoneLinks = [] ∧ 2 ≤ C.BoneIndices.length ∧ ChainEnds C = PairEnds Sorted[j]))
  · refine Succeeds.mono (Succeeds.forLoop (fun i (Chains : List (FChainInfo K)) =>
      Chains.length = Sorted.length ∧
      (∀ j (hj : j < Sorted.length) (C : FChainInfo K), j < i → Chains[j]? = some C →
        C.PrevBoneLinks = [] ∧ 2 ≤ C.BoneIndices.length ∧ ChainEnds C = PairEnds Sorted[j]) ∧
      (∀ j (C : FChainInfo K), i ≤ j → Chains[j]? = some C → C = ⟨[], []⟩))
      (Nat.zero_le _) ?_ ?_) ?_
    · refine ⟨by simp, fun j hj C hlt _ => absurd hlt (Nat.not_lt_zero _), ?_⟩
      intro j C _ hC
      rw [List.getElem?_replicate] at hC
      split at hC
      · cases hC; rfl
      · cases hC
    · intro j Chains _ hj ⟨hLen, hDone, hTodo⟩
      apply Succeeds.bind (fun Pair => Pair = Sorted[j]) (Succeeds.get hj rfl)
      intro Pair hPair
      subst hPair
      have hjC : j < Chains.length := by omega
      apply Succeeds.bind (fun Chain => Chain = (⟨[], []⟩ : FChainInfo K))
        (Succeeds.get hjC (hTodo j _ (le_refl _) (List.getElem?_eq_getElem hjC)))
      intro Chain hChain
      subst hChain
      obtain ⟨Mid, hLast, hSet⟩ := SetSoftBoneIndices_of_valid MeshBases Sorted[j].RootBone
        Sorted[j].TipBone (hValid _ (List.getElem_mem _))
      simp only [FBoneReference.GetCompactPoseIndex, hSet, ok_bind]
      apply Succeeds.set hjC
      refine ⟨by simp [hLen], ?_, ?_⟩
      · intro i hi C hlt hC
        by_cases hEq : i = j
        · subst hEq
          rw [List.getElem?_set_self hjC] at hC
          cases hC
          have hne : Mid ≠ [] := by
            intro h0; rw [h0] at hLast; simp at hLast
          refine ⟨rfl, ?_, ?_⟩
          · cases Mid with
            | nil => exact absurd rfl hne
            | cons a t => simp
          · cases Mid with
            | nil => exact absurd rfl hne
            | cons a t =>
              simp only [ChainEnds, PairEnds, List.headD_cons]
              rw [List.getLast?_eq_getLast _ (by simp)] at hLast
              simp only [Option.some.injEq] at hLast
              simp [List.getLastD, hLast]
        · have hne : j ≠ i := fun h => hEq h.symm
          rw [List.getElem?_set_ne hne] at hC
          exact hDone i hi C (by omega) hC
      · intro i C hle hC
        have hne : j ≠ i := by omega
        rw [List.getElem?_set_ne hne] at hC
        exact hTodo i C (by omega) hC
    · intro Chains ⟨hLen, hDone, _⟩
      exact ⟨hLen, fun j hj C hC => hDone j hj C hj hC⟩
  · intro Chains ⟨hLen, hDone⟩
    refine Succeeds.pure ⟨Chains, rfl, ?_, ?_⟩
    · apply List.ext_getElem?
      intro i
      simp only [List.getElem?_map]
      by_cases hi : i < Sorted.length
      · have hiC : i < Chains.length := by omega
        rw [List.getElem?_eq_getElem hi, List.getElem?_eq_getElem hiC]
        simp only [Option.map_some']
        rw [(hDone i hi _ (List.getElem?_eq_getElem hiC)).2.2]
      · have h1 : Sorted[i]? = none := List.getElem?_eq_none (by omega)
        have h2 : Chains[i]? = none := List.getElem?_eq_none (by omega)
        rw [h1, h2]; rfl
    · intro C hC
      obtain ⟨i, hi, hEq⟩ := List.getElem_of_mem hC
      have := hDone i (by omega) C (by rw [List.getElem?_eq_getElem hi, hEq])
      exact ⟨this.1, this.2.1⟩

end Topology3
end SoftBone

namespace SoftBone

section Fixtures

/-- The insertion sort of `EngineOf` sorts by root bone. -/
theorem EngineOf_sorts {K : Type} [LinearOrderedField K] (Sqrt Acos Sin Cos : K → K) :
    SortsByRootBone (EngineOf Sqrt Acos Sin Cos) := by
  intro Pairs
  have hTotal : IsTotal FBonePair (fun A B => FCompareRootBone B A = false) :=
    ⟨fun A B => by simp only [FCompareRootBone, decide_eq_false_iff_not]; omega⟩
  have hTrans : IsTrans FBonePair (fun A B => FCompareRootBone B A = false) :=
    ⟨fun A B C => by simp only [FCompareRootBone, decide_eq_false_iff_not]; omega⟩
  exact ⟨List.perm_insertionSort _ Pairs, List.sorted_insertionSort _ Pairs⟩

/-- The insertion sort of `RationalEngine` sorts by root bone. -/
theorem RationalEngine_sorts : SortsByRootBone RationalEngine :=
  EngineOf_sorts _ _ _ _

end Fixtures

end SoftBone

namespace SoftBone

section ArrayRules

variable {α : Type}

theorem Succeeds.getI {A : List α} {Index : Int} {P : α → Prop} (m : Nat) (hm : Index = (m : Int))
    (h : m < A.length) (hP : P A[m]) : Succeeds (TArray.getI A Index) P := by
  subst hm
  simpa [TArray.getI] using Succeeds.get h hP

theorem Succeeds.setI {A : List α} {Index : Int} {Value : α} {P : List α → Prop} (m : Nat)
    (hm : Index = (m : Int)) (h : m < A.length) (hP : P (List.set A m Value)) :
    Succeeds (TArray.setI A Index Value) P := by
  subst hm
  simpa [TArray.setI] using Succeeds.set h hP

/-- A loop that rewrites the entry of its own index, from that entry alone: every entry in the
range of the loop is rewritten once, the others stay. -/
theorem forLoop_pointwise {Body : Nat → List α → Except Fault (List α)}
    (g : Nat → α → α) (A₀ : List α) (Lo Hi : Nat) (hle : Lo ≤ Hi) (hHi : Hi ≤ A₀.length)
    (hBody : ∀ j (A : List α) (hj : j < A.length), Lo ≤ j → j < Hi →
      Body j A = .ok (List.set A j (g j A[j]))) :
    Succeeds (forLoop Lo Hi Body A₀) (fun A =>
      A.length = A₀.length ∧
      ∀ j (h : j < A₀.length), A[j]? = some (if Lo ≤ j ∧ j < Hi then g j A₀[j] else A₀[j])) := by
  refine Succeeds.mono (Succeeds.forLoop (fun i (A : List α) =>
    A.length = A₀.length ∧
    ∀ j (h : j < A₀.length), A[j]? = some (if Lo ≤ j ∧ j < i then g j A₀[j] else A₀[j]))
    hle ?_ ?_) ?_
  · refine ⟨rfl, fun j h => ?_⟩
    have : ¬ (Lo ≤ j ∧ j < Lo) := by omega
    simp [this, List.getElem?_eq_getElem h]
  · intro i A hLo hi ⟨hLen, hA⟩
    have hiA : i < A.length := by omega
    rw [hBody i A hiA hLo hi]
    refine Succeeds.ok ⟨by simp [hLen], fun j h => ?_⟩
    by_cases hji : j = i
    · subst hji
      have h1 : Lo ≤ j ∧ j < j + 1 := ⟨hLo, by omega⟩
      have h2 : ¬ (Lo ≤ j ∧ j < j) := by omega
      have h3 := hA j h
      simp only [h2, if_false] at h3
      have h4 : A[j] = A₀[j] := by
        rw [List.getElem?_eq_getElem hiA] at h3
        exact Option.some.inj h3
      simp [h1, List.getElem?_set_self hiA, h4]
    · have hne : i ≠ j := fun h => hji h.symm
      rw [List.getElem?_set_ne hne, hA j h]
      have : (Lo ≤ j ∧ j < i + 1) ↔ (Lo ≤ j ∧ j < i) := by omega
      simp only [this]
  · intro A hA
    exact hA

end ArrayRules

section VectorAlgebra

variable {K : Type} [LinearOrderedField K]

omit [LinearOrderedField K] in
@[ext] theorem FVector.ext' {A B : FVector K} (hX : A.X = B.X) (hY : A.Y = B.Y) (hZ : A.Z = B.Z) :
    A = B := by
  cases A; cases B; simp_all

@[simp] theorem FVector.add_X (A B : FVector K) : (A + B).X = A.X + B.X := rfl
@[simp] theorem FVector.add_Y (A B : FVector K) : (A + B).Y = A.Y + B.Y := rfl
@[simp] theorem FVector.add_Z (A B : FVector K) : (A + B).Z = A.Z + B.Z := rfl
@[simp] theorem FVector.sub_X (A B : FVector K) : (A - B).X = A.X - B.X := rfl
@[simp] theorem FVector.sub_Y (A B : FVector K) : (A - B).Y = A.Y - B.Y := rfl
@[simp] theorem FVector.sub_Z (A B : FVector K) : (A - B).Z = A.Z - B.Z := rfl
@[simp] theorem FVector.smul_X (s : K) (A : FVector K) : (s • A).X = s * A.X := rfl
@[simp] theorem FVector.smul_Y (s : K) (A : FVector K) : (s • A).Y = s * A.Y := rfl
@[simp] theorem FVector.smul_Z (s : K) (A : FVector K) : (s • A).Z = s * A.Z := rfl
@[simp] theorem FVector.Scale_X (A : FVector K) (s : K) : (A.Scale s).X = A.X * s := rfl
@[simp] theorem FVector.Scale_Y (A : FVector K) (s : K) : (A.Scale s).Y = A.Y * s := rfl
@[simp] theorem FVector.Scale_Z (A : FVector K) (s : K) : (A.Scale s).Z = A.Z * s := rfl

theorem FVector.add_sub_cancel (P F : FVector K) : P + (F - P) = F := by
  ext <;> simp

end VectorAlgebra

end SoftBone

namespace SoftBone

section Integration

variable {K : Type} [LinearOrderedField K]

/-- The first part of `TimeIntegration`, entry by entry: the root link is put on its target,
every other link is integrated against its own target. -/
theorem Integrate_spec (N : FAnimNode_SoftBone K) (Links : List (FSoftBoneLink K)) (TimeDelta : K)
    (Targets : List (FVector K)) (hLen : Targets.length = Links.length) (hPos : 0 < Links.length) :
    Succeeds (TimeIntegration.Integrate N Links TimeDelta Targets) (fun Links' =>
      Links'.length = Links.length ∧
      ∀ j (hj : j < Links.length), Links'[j]? = some
        (if j = 0 then { Links[j] with Position := Targets[j] }
         else IntegratedLink N TimeDelta Links[j] Targets[j])) := by
  unfold TimeIntegration.Integrate
  have hT : 0 < Targets.length := by omega
  simp only [hLen, ne_eq, not_true_eq_false, if_false, TArray.get_of_lt Links 0 hPos,
    TArray.get_of_lt Targets 0 hT, TArray.set_of_lt Links 0 _ hPos, ok_bind]
  refine Succeeds.mono (forLoop_pointwise
    (fun j Link => IntegratedLink N TimeDelta Link (Targets.getD j FVector.ZeroVector))
    (Links.set 0 { Links[0] with Position := Targets[0] }) 1 Links.length (by omega) (by simp)
    ?_) ?_
  · intro j A hj h1 h2
    have hjT : j < Targets.length := by omega
    simp only [TArray.get_of_lt A j hj, TArray.get_of_lt Targets j hjT, ok_bind,
      TArray.set_of_lt A j _ hj]
    rw [List.getD_eq_getElem _ _ hjT]
    rfl
  · intro Links' ⟨hL, hE⟩
    refine ⟨by simpa using hL, fun j hj => ?_⟩
    have := hE j (by simpa using hj)
    rw [this]
    by_cases h0 : j = 0
    · subst h0
      simp
    · have h1 : 1 ≤ j ∧ j < Links.length := ⟨by omega, hj⟩
      have hjT : j < Targets.length := by omega
      have hne : 0 ≠ j := fun h => h0 h.symm
      simp only [h1, and_self, if_true, h0, if_false, List.getElem_set_ne hne,
        List.getD_eq_getElem _ _ hjT]

/-- The second part of `TimeIntegration`, entry by entry: the root link stays, every other
link is put at its length from the corrected position of the link before it. -/
theorem SolveDistanceConstraint_spec (E : Engine K) (Links : List (FSoftBoneLink K)) :
    Succeeds (TimeIntegration.SolveDistanceConstraint E Links) (fun Links' =>
      Links'.length = Links.length ∧
      (∀ Root, Links[0]? = some Root → Links'[0]? = some Root) ∧
      ∀ j (hj : j + 1 < Links.length), ∃ Parent, Links'[j]? = some Parent ∧
        Links'[j + 1]? = some (ConstrainedLink E Parent.Position Links[j + 1])) := by
  unfold TimeIntegration.SolveDistanceConstraint
  by_cases hPos : 1 ≤ Links.length
  · refine Succeeds.mono (Succeeds.forLoop (fun i (A : List (FSoftBoneLink K)) =>
      A.length = Links.length ∧
      (∀ Root, Links[0]? = some Root → A[0]? = some Root) ∧
      (∀ j (hj : j + 1 < Links.length), j + 1 < i → ∃ Parent, A[j]? = some Parent ∧
        A[j + 1]? = some (ConstrainedLink E Parent.Position Links[j + 1])) ∧
      (∀ j, i ≤ j → A[j]? = Links[j]?)) hPos ?_ ?_) ?_
    · exact ⟨rfl, fun Root h => h, fun j hj h => absurd h (by omega), fun j _ => rfl⟩
    · intro i A h1 hi ⟨hLen, hRoot, hDone, hTodo⟩
      have hiA : i < A.length := by omega
      have hpA : i - 1 < A.length := by omega
      simp only [TArray.get_of_lt A (i - 1) hpA, TArray.get_of_lt A i hiA, ok_bind]
      apply Succeeds.set hiA
      have hCur : A[i] = Links[i] := by
        have := hTodo i (le_refl _)
        rw [List.getElem?_eq_getElem hiA, List.getElem?_eq_getElem hi] at this
        exact Option.some.inj this
      refine ⟨by simp [hLen], ?_, ?_, ?_⟩
      · intro Root hR
        have hne : i ≠ 0 := by omega
        rw [List.getElem?_set_ne hne]
        exact hRoot Root hR
      · intro j hj hlt
        by_cases hji : j + 1 = i
        · subst hji
          refine ⟨A[j], ?_, ?_⟩
          · rw [List.getElem?_set_ne (by omega), List.getElem?_eq_getElem]
          · rw [List.getElem?_set_self hiA]
            simp only [Nat.add_sub_cancel, hCur]
            rfl
        · obtain ⟨Parent, hP, hC⟩ := hDone j hj (by omega)
          refine ⟨Parent, ?_, ?_⟩
          · rw [List.getElem?_set_ne (by omega)]; exact hP
          · rw [List.getElem?_set_ne (by omega)]; exact hC
      · intro j hle
        rw [List.getElem?_set_ne (by omega)]
        exact hTodo j (by omega)
    · intro Links' ⟨hLen, hRoot, hDone, _⟩
      exact ⟨hLen, hRoot, fun j hj => hDone j hj hj⟩
  · have h0 : Links.length = 0 := by omega
    rw [forLoop_empty _ _ _ _ (by omega)]
    exact Succeeds.ok ⟨rfl, fun Root h => h, fun j hj => absurd hj (by omega)⟩

/-- One physical step ends without a fault when there is a target for every link and at least
one link; the chain keeps its bone indices and its number of links, and the root link is on
its target. -/
theorem TimeIntegration_spec (E : Engine K) (N : FAnimNode_SoftBone K) (Chain : FChainInfo K)
    (TimeDelta : K) (Targets : List (FVector K))
    (hLen : Targets.length = Chain.PrevBoneLinks.length) (hPos : 0 < Chain.PrevBoneLinks.length) :
    Succeeds (TimeIntegration E N Chain TimeDelta Targets) (fun Chain' =>
      Chain'.BoneIndices = Chain.BoneIndices ∧
      Chain'.PrevBoneLinks.length = Chain.PrevBoneLinks.length ∧
      ∃ Root, Chain'.PrevBoneLinks[0]? = some Root ∧ Targets[0]? = some Root.Position) := by
  unfold TimeIntegration
  apply Succeeds.bind _ (Integrate_spec N Chain.PrevBoneLinks TimeDelta Targets hLen hPos)
  intro Links' ⟨hL, hE⟩
  have hRoot := hE 0 hPos
  simp only [if_true] at hRoot
  have hT : 0 < Targets.length := by omega
  by_cases hC : N.bBoneLengthConstraint = true
  · simp only [hC, if_true]
    apply Succeeds.bind _ (SolveDistanceConstraint_spec E Links')
    intro Links'' ⟨hL2, hR2, _⟩
    refine Succeeds.pure ⟨rfl, by simp [hL2, hL], _, hR2 _ hRoot, ?_⟩
    simp [List.getElem?_eq_getElem hT]
  · simp only [hC]
    refine Succeeds.pure ⟨rfl, hL, _, hRoot, ?_⟩
    simp [List.getElem?_eq_getElem hT]

end Integration

end SoftBone

namespace SoftBone

section ChainSetup

variable {K : Type} [LinearOrderedField K]

/-- The number of links of a chain of `NumBones` bones: one more with a virtual tip link. -/
theorem InitializeChain_spec (E : Engine K) (U : Uninitialized K) (N : FAnimNode_SoftBone K)
    (Chain : FChainInfo K) (SkelComp : Option (USkeletalMeshComponent K)) (MeshBases : FCSPose K)
    (Out : List (FBoneTransform K)) (Start : Nat)
    (hBones : 2 ≤ Chain.BoneIndices.length) (hLinks : Chain.PrevBoneLinks = [])
    (hOut : Start + Chain.BoneIndices.length ≤ Out.length) :
    Succeeds (InitializeChain E U N Chain SkelComp MeshBases Out Start) (fun R =>
      R.1.BoneIndices = Chain.BoneIndices ∧
      R.1.PrevBoneLinks.length =
        Chain.BoneIndices.length + (if N.bAllowTipBoneRotation = true then 1 else 0) ∧
      R.2.length = Out.length) := by
  unfold InitializeChain
  have h2 : ¬ Chain.BoneIndices.length < 2 := by omega
  simp only [h2, if_false, hLinks, List.nil_append]
  apply Succeeds.bind (fun _ => True) (Succeeds.get (by omega) trivial)
  intro RootBoneIndex _
  apply Succeeds.bind (fun Out' : List (FBoneTransform K) => Out'.length = Out.length)
    (Succeeds.set (by omega) (by simp))
  intro Out1 hOut1
  apply Succeeds.bind (fun State : List (FSoftBoneLink K) × List (FBoneTransform K) =>
    State.1.length = Chain.BoneIndices.length ∧ State.2.length = Out.length)
  · refine Succeeds.forLoop (fun i (State : List (FSoftBoneLink K) × List (FBoneTransform K)) =>
      State.1.length = i ∧ State.2.length = Out.length) (by omega) ⟨by simp, hOut1⟩ ?_
    intro i State h1 hi ⟨hL, hO⟩
    apply Succeeds.bind (fun _ => True) (Succeeds.get hi trivial)
    intro BoneIndex _
    apply Succeeds.bind (fun Out' : List (FBoneTransform K) => Out'.length = Out.length)
      (Succeeds.set (by omega) (by simp [hO]))
    intro Out2 hOut2
    apply Succeeds.bind (fun _ => True) (Succeeds.get (by omega) trivial)
    intro Previous _
    apply Succeeds.bind (fun _ => True) (Succeeds.get (by simp [hL]) trivial)
    intro Link _
    apply Succeeds.bind (fun Links' : List (FSoftBoneLink K) => Links'.length = i + 1)
      (Succeeds.set (by simp [hL]) (by simp [hL]))
    intro Links' hLinks'
    exact Succeeds.pure ⟨hLinks', hOut2⟩
  · intro State ⟨hL, hO⟩
    by_cases hTip : N.bAllowTipBoneRotation = true
    · simp only [hTip, if_true]
      apply Succeeds.bind (fun _ => True)
        (Succeeds.getI (Chain.BoneIndices.length - 2) (by omega) (by omega) trivial)
      intro ParentBoneIndex _
      apply Succeeds.bind (fun _ => True)
        (Succeeds.getI (Chain.BoneIndices.length - 1) (by omega) (by omega) trivial)
      intro TipBoneIndex _
      apply Succeeds.bind (fun _ => True)
        (Succeeds.getI State.1.length (by simp) (by simp) trivial)
      intro Link _
      apply Succeeds.bind (fun Links' : List (FSoftBoneLink K) =>
          Links'.length = Chain.BoneIndices.length + 1)
        (Succeeds.setI State.1.length (by simp) (by simp) (by simp [hL]))
      intro Links' hLinks'
      exact Succeeds.pure ⟨rfl, hLinks', hO⟩
    · simp only [hTip]
      exact Succeeds.pure ⟨rfl, by simpa using hL, hO⟩

/-- The targets of a chain: one for each link, the first of them the location of the root bone
in world space; the output list keeps its length. -/
theorem ComputeTargetPositions_spec (N : FAnimNode_SoftBone K) (Chain : FChainInfo K)
    (SkelComp : Option (USkeletalMeshComponent K)) (MeshBases : FCSPose K)
    (Out : List (FBoneTransform K)) (Start : Nat) (RootBoneIndex : Int)
    (hBones : 2 ≤ Chain.BoneIndices.length) (hRoot : Chain.BoneIndices.head? = some RootBoneIndex)
    (hOut : Start + Chain.BoneIndices.length ≤ Out.length) :
    Succeeds (ComputeTargetPositions N Chain SkelComp MeshBases Out Start []) (fun R =>
      R.1.length = Out.length ∧
      R.2.length = Chain.BoneIndices.length + (if N.bAllowTipBoneRotation = true then 1 else 0) ∧
      R.2.head? = some
        (LocationInWorldSpace SkelComp (MeshBases.ComponentSpaceTransform RootBoneIndex))) := by
  unfold ComputeTargetPositions
  have hlt : 0 < Chain.BoneIndices.length := by omega
  have hRoot' : Chain.BoneIndices[0] = RootBoneIndex := by
    have h0 : Chain.BoneIndices[0]? = some RootBoneIndex := by
      rw [← List.head?_eq_getElem?]; exact hRoot
    rw [List.getElem?_eq_getElem hlt] at h0
    exact Option.some.inj h0
  simp only [TArray.get_of_lt Chain.BoneIndices 0 (by omega), ok_bind, hRoot', List.nil_append]
  apply Succeeds.bind (fun Out' : List (FBoneTransform K) => Out'.length = Out.length)
    (Succeeds.set (by omega) (by simp))
  intro Out1 hOut1
  apply Succeeds.bind (fun State : List (FBoneTransform K) × List (FVector K) =>
    State.1.length = Out.length ∧ State.2.length = Chain.BoneIndices.length ∧
    State.2.head? = some
      (LocationInWorldSpace SkelComp (MeshBases.ComponentSpaceTransform RootBoneIndex)))
  · refine Succeeds.forLoop (fun i (State : List (FBoneTransform K) × List (FVector K)) =>
      State.1.length = Out.length ∧ State.2.length = i ∧
      State.2.head? = some
        (LocationInWorldSpace SkelComp (MeshBases.ComponentSpaceTransform RootBoneIndex)))
      (by omega) ⟨hOut1, by simp, by simp⟩ ?_
    intro i State h1 hi ⟨hO, hL, hH⟩
    apply Succeeds.bind (fun _ => True) (Succeeds.get hi trivial)
    intro BoneIndex _
    apply Succeeds.bind (fun Out' : List (FBoneTransform K) => Out'.length = Out.length)
      (Succeeds.set (by omega) (by simp [hO]))
    intro Out2 hOut2
    refine Succeeds.pure ⟨hOut2, by simp [hL], ?_⟩
    cases hS : State.2 with
    | nil => rw [hS] at hL; simp at hL; omega
    | cons a t => rw [hS] at hH; simpa using hH
  · intro State ⟨hO, hL, hH⟩
    by_cases hTip : N.bAllowTipBoneRotation = true
    · simp only [hTip, if_true]
      apply Succeeds.bind (fun _ => True)
        (Succeeds.getI (Chain.BoneIndices.length - 2) (by omega) (by omega) trivial)
      intro ParentBoneIndex _
      apply Succeeds.bind (fun _ => True)
        (Succeeds.getI (Chain.BoneIndices.length - 1) (by omega) (by omega) trivial)
      intro TipBoneIndex _
      refine Succeeds.pure ⟨hO, by simp [hL], ?_⟩
      cases hS : State.2 with
      | nil => rw [hS] at hL; simp at hL; omega
      | cons a t => rw [hS] at hH; simpa using hH
    · simp only [hTip]
      exact Succeeds.pure ⟨hO, by simpa using hL, hH⟩

/-- The re-orientation ends without a fault on a chain with all its links, and the output list
keeps its length. -/
theorem ReOrientBoneRotations_spec (E : Engine K) (N : FAnimNode_SoftBone K) (Chain : FChainInfo K)
    (MeshBases : FCSPose K) (Out : List (FBoneTransform K)) (Start : Nat)
    (hBones : 2 ≤ Chain.BoneIndices.length)
    (hLinks : Chain.PrevBoneLinks.length =
      Chain.BoneIndices.length + (if N.bAllowTipBoneRotation = true then 1 else 0))
    (hOut : Start + Chain.BoneIndices.length ≤ Out.length) :
    Succeeds (ReOrientBoneRotations E N Chain MeshBases Out Start) (fun Out' =>
      Out'.length = Out.length) := by
  unfold ReOrientBoneRotations
  apply Succeeds.bind (fun Out' : List (FBoneTransform K) => Out'.length = Out.length)
  · refine Succeeds.forLoop (fun _ (Out' : List (FBoneTransform K)) => Out'.length = Out.length)
      (Nat.zero_le _) rfl ?_
    intro i Out1 _ hi hO
    have hLe : Chain.BoneIndices.length ≤ Chain.PrevBoneLinks.length := by omega
    apply Succeeds.bind (fun _ => True) (Succeeds.get (by omega) trivial)
    intro CurrentLink _
    apply Succeeds.bind (fun _ => True) (Succeeds.get (by omega) trivial)
    intro ChildLink _
    apply Succeeds.bind (fun _ => True) (Succeeds.get (by omega) trivial)
    intro Entry _
    exact Succeeds.set (by omega) (by simp [hO])
  · intro Out1 hO
    by_cases hTip : N.bAllowTipBoneRotation = true
    · simp only [hTip, if_true] at hLinks ⊢
      have h3 : ¬ ((Chain.PrevBoneLinks.length : Int) - 3 < 0) := by omega
      simp only [h3, if_false]
      apply Succeeds.bind (fun _ => True)
        (Succeeds.getI (Chain.PrevBoneLinks.length - 3) (by omega) (by omega) trivial)
      intro ParentLink _
      apply Succeeds.bind (fun _ => True)
        (Succeeds.getI (Chain.PrevBoneLinks.length - 2) (by omega) (by omega) trivial)
      intro CurrentLink _
      apply Succeeds.bind (fun _ => True)
        (Succeeds.getI (Chain.PrevBoneLinks.length - 1) (by omega) (by omega) trivial)
      intro VirtualLink _
      apply Succeeds.bind (fun _ => True)
        (Succeeds.getI (Start + Chain.BoneIndices.length - 1) (by omega) (by omega) trivial)
      intro Entry _
      exact Succeeds.setI (Start + Chain.BoneIndices.length - 1) (by omega) (by omega)
        (by simp [hO])
    · simp only [hTip]
      exact Succeeds.pure hO

end ChainSetup

end SoftBone

namespace SoftBone

section Simulation

variable {K : Type} [LinearOrderedField K]

/-- One round of the `while` loop ends without a fault when the chain has a link for every
final target and a target for every link; it takes one fixed step off the remaining time and
leaves the root link on the root target. -/
theorem Substep_spec (E : Engine K) (N : FAnimNode_SoftBone K) (Final : List (FVector K))
    (S : SubstepState K) (hFinal : Final.length = S.Chain.PrevBoneLinks.length)
    (hTargets : S.TargetPositions.length = S.Chain.PrevBoneLinks.length)
    (hPos : 0 < S.Chain.PrevBoneLinks.length) :
    Succeeds (Substep E N Final S) (fun S' =>
      S'.Chain.BoneIndices = S.Chain.BoneIndices ∧
      S'.Chain.PrevBoneLinks.length = S.Chain.PrevBoneLinks.length ∧
      S'.TargetPositions.length = S.Chain.PrevBoneLinks.length ∧
      S'.InRemainingTime = S.InRemainingTime - N.FixedTimeStep ∧
      S'.Steps = S.Steps + 1 ∧
      ∃ Root, S'.Chain.PrevBoneLinks[0]? = some Root ∧
        S'.TargetPositions[0]? = some Root.Position) := by
  unfold Substep
  apply Succeeds.bind (fun Targets : List (FVector K) =>
    Targets.length = S.Chain.PrevBoneLinks.length)
  · refine Succeeds.forLoop (fun _ (Targets : List (FVector K)) =>
      Targets.length = S.Chain.PrevBoneLinks.length) (Nat.zero_le _) hTargets ?_
    intro j Targets _ hj hT
    apply Succeeds.bind (fun _ => True) (Succeeds.get (by omega) trivial)
    intro FinalTarget _
    apply Succeeds.bind (fun _ => True) (Succeeds.get (by omega) trivial)
    intro Link _
    exact Succeeds.set (by omega) (by simp [hT])
  · intro Targets hT
    apply Succeeds.bind _ (TimeIntegration_spec E N S.Chain N.FixedTimeStep Targets hT hPos)
    intro Chain' ⟨hB, hL, hRoot⟩
    exact Succeeds.pure ⟨hB, hL, hT, rfl, rfl, hRoot⟩

/-- The `while` loop with an invariant: when the fixed step is positive and the loop is given
at least floor(remaining time / fixed step) rounds, it ends without a fault after exactly that
many rounds, with the invariant, and with less than one fixed step of time remaining. -/
theorem SubstepLoop_spec [FloorRing K] (E : Engine K) (N : FAnimNode_SoftBone K)
    (Final : List (FVector K)) (Inv : SubstepState K → Prop) (hStep : 0 < N.FixedTimeStep)
    (hRound : ∀ S, Inv S → N.FixedTimeStep ≤ S.InRemainingTime →
      Succeeds (Substep E N Final S) (fun S' =>
        Inv S' ∧ S'.InRemainingTime = S.InRemainingTime - N.FixedTimeStep ∧
        S'.Steps = S.Steps + 1)) :
    ∀ (Fuel : Nat) (S : SubstepState K), Inv S →
      ⌊S.InRemainingTime / N.FixedTimeStep⌋₊ ≤ Fuel →
      Succeeds (SubstepLoop E N Final Fuel S) (fun S' =>
        Inv S' ∧
        S'.Steps = S.Steps + ⌊S.InRemainingTime / N.FixedTimeStep⌋₊ ∧
        S'.InRemainingTime =
          S.InRemainingTime - (⌊S.InRemainingTime / N.FixedTimeStep⌋₊ : K) * N.FixedTimeStep ∧
        S'.InRemainingTime < N.FixedTimeStep) := by
  have hExit : ∀ S : SubstepState K, Inv S → ¬ S.InRemainingTime ≥ N.FixedTimeStep →
      Inv S ∧ S.Steps = S.Steps + ⌊S.InRemainingTime / N.FixedTimeStep⌋₊ ∧
      S.InRemainingTime =
        S.InRemainingTime - (⌊S.InRemainingTime / N.FixedTimeStep⌋₊ : K) * N.FixedTimeStep ∧
      S.InRemainingTime < N.FixedTimeStep := by
    intro S hInv hlt
    have hlt' : S.InRemainingTime < N.FixedTimeStep := not_le.mp hlt
    have h0 : ⌊S.InRemainingTime / N.FixedTimeStep⌋₊ = 0 :=
      Nat.floor_eq_zero.mpr ((div_lt_one hStep).mpr hlt')
    exact ⟨hInv, by simp [h0], by simp [h0], hlt'⟩
  intro Fuel
  induction Fuel with
  | zero =>
    intro S hInv hFuel
    have h0 : ⌊S.InRemainingTime / N.FixedTimeStep⌋₊ = 0 := by omega
    have hlt : S.InRemainingTime < N.FixedTimeStep :=
      (div_lt_one hStep).mp (Nat.floor_eq_zero.mp h0)
    have hn : ¬ S.InRemainingTime ≥ N.FixedTimeStep := not_le.mpr hlt
    simp only [SubstepLoop, hn, if_false]
    exact Succeeds.ok (hExit S hInv hn)
  | succ f ih =>
    intro S hInv hFuel
    by_cases hge : S.InRemainingTime ≥ N.FixedTimeStep
    · obtain ⟨S', hS', hInv', hT', hSteps'⟩ := hRound S hInv hge
      have hdiv : S'.InRemainingTime / N.FixedTimeStep = S.InRemainingTime / N.FixedTimeStep - 1 := by
        rw [hT', sub_div, div_self (ne_of_gt hStep)]
      have hk : 1 ≤ ⌊S.InRemainingTime / N.FixedTimeStep⌋₊ :=
        Nat.floor_pos.mpr ((one_le_div hStep).mpr hge)
      have hfloor : ⌊S'.InRemainingTime / N.FixedTimeStep⌋₊ =
          ⌊S.InRemainingTime / N.FixedTimeStep⌋₊ - 1 := by
        rw [hdiv, Nat.floor_sub_one]
      obtain ⟨S'', hS'', hInv'', hSteps'', hT'', hlt''⟩ := ih S' hInv' (by omega)
      refine ⟨S'', ?_, hInv'', ?_, ?_, hlt''⟩
      · simp only [SubstepLoop, hge, if_true, hS', hS'']
      · rw [hSteps'', hSteps', hfloor]; omega
      · rw [hT'', hfloor, hT', Nat.cast_sub hk]
        push_cast
        ring
    · simp only [SubstepLoop, hge, if_false]
      exact Succeeds.ok (hExit S hInv hge)

theorem PullBonesToFinalPosition_length (Links : List (FSoftBoneLink K)) (Diff : FVector K) :
    (PullBonesToFinalPosition Links Diff).length = Links.length := by
  simp [PullBonesToFinalPosition]

theorem PullBonesToFinalPosition_getElem? (Links : List (FSoftBoneLink K)) (Diff : FVector K)
    (j : Nat) :
    (PullBonesToFinalPosition Links Diff)[j]? =
      Links[j]?.map (fun Link => { Link with RenderPosition := Link.Position + Diff }) := by
  simp [PullBonesToFinalPosition]

end Simulation

end SoftBone

namespace SoftBone

section Simulation2

variable {K : Type} [LinearOrderedField K] [FloorRing K]

/-- What `SimulateSoftBoneChain` leaves on a chain of at least two bones whose links do not
exist yet or are as many as the current setting of the tip rotation asks for, with room for
the chain in the output list: the call ends without a fault (in deterministic mode, when the
fixed step is positive and the loop is given enough rounds); bone indices, number of links and
length of the output list are as before; the render position of the root link is the world
location of the root bone; the number of physical steps and the returned time are those of
the mode. -/
theorem SimulateSoftBoneChain_spec (E : Engine K) (U : Uninitialized K) (Fuel : Nat)
    (N : FAnimNode_SoftBone K) (Chain : FChainInfo K)
    (SkelComp : Option (USkeletalMeshComponent K)) (MeshBases : FCSPose K)
    (Out : List (FBoneTransform K)) (Start : Nat) (InRemainingTime : K) (RootBoneIndex : Int)
    (hBones : 2 ≤ Chain.BoneIndices.length)
    (hRoot : Chain.BoneIndices.head? = some RootBoneIndex)
    (hLinks : Chain.PrevBoneLinks = [] ∨ Chain.PrevBoneLinks.length =
      Chain.BoneIndices.length + (if N.bAllowTipBoneRotation = true then 1 else 0))
    (hOut : Start + Chain.BoneIndices.length ≤ Out.length)
    (hStep : N.bGuaranteeSameSimulationResult = true →
      0 < N.FixedTimeStep ∧ ⌊InRemainingTime / N.FixedTimeStep⌋₊ ≤ Fuel) :
    Succeeds (SimulateSoftBoneChain E U Fuel N Chain SkelComp MeshBases Out Start InRemainingTime)
      (fun R =>
        R.Chain.BoneIndices = Chain.BoneIndices ∧
        R.Chain.PrevBoneLinks.length =
          Chain.BoneIndices.length + (if N.bAllowTipBoneRotation = true then 1 else 0) ∧
        R.OutBoneTransforms.length = Out.length ∧
        (∃ Root, R.Chain.PrevBoneLinks.head? = some Root ∧ Root.RenderPosition =
          LocationInWorldSpace SkelComp (MeshBases.ComponentSpaceTransform RootBoneIndex)) ∧
        (N.bGuaranteeSameSimulationResult = true →
          R.Steps = ⌊InRemainingTime / N.FixedTimeStep⌋₊ ∧
          R.RemainingTime = InRemainingTime -
            (⌊InRemainingTime / N.FixedTimeStep⌋₊ : K) * N.FixedTimeStep ∧
          R.RemainingTime < N.FixedTimeStep) ∧
        (N.bGuaranteeSameSimulationResult = false → R.Steps = 1 ∧ R.RemainingTime = 0)) := by
  unfold SimulateSoftBoneChain
  generalize hL : Chain.BoneIndices.length + (if N.bAllowTipBoneRotation = true then 1 else 0) = L
    at hLinks ⊢
  have hL2 : Chain.BoneIndices.length ≤ L := by omega
  have hTipL : N.bAllowTipBoneRotation = true → L = Chain.BoneIndices.length + 1 := by
    intro h; simp [h] at hL; omega
  apply Succeeds.bind (fun _ => True) (Succeeds.get (by omega) trivial)
  intro _ _
  -- the links exist after the initialisation
  apply Succeeds.bind (fun I : FChainInfo K × List (FBoneTransform K) =>
    I.1.BoneIndices = Chain.BoneIndices ∧ I.1.PrevBoneLinks.length = L ∧ I.2.length = Out.length)
  · by_cases h0 : Chain.PrevBoneLinks.length = 0
    · simp only [h0, if_true]
      have hNil : Chain.PrevBoneLinks = [] := List.length_eq_zero.mp h0
      refine (InitializeChain_spec E U N Chain SkelComp MeshBases Out Start hBones hNil hOut).mono ?_
      intro R ⟨h1, h2, h3⟩
      exact ⟨h1, by rw [h2, hL], h3⟩
    · simp only [h0, if_false]
      refine Succeeds.pure ⟨rfl, ?_, rfl⟩
      rcases hLinks with h | h
      · rw [h] at h0; simp at h0
      · exact h
  intro I ⟨hIB, hIL, hIOut⟩
  -- the final targets
  have hBones' : 2 ≤ I.1.BoneIndices.length := by rw [hIB]; exact hBones
  apply Succeeds.bind _ (ComputeTargetPositions_spec N I.1 SkelComp MeshBases I.2 Start RootBoneIndex
    hBones' (by rw [hIB]; exact hRoot) (by rw [hIB, hIOut]; exact hOut))
  intro C ⟨hCO, hCL, hCH⟩
  rw [hIB, hL] at hCL
  rw [hIOut] at hCO
  have hI0 : 0 < I.1.PrevBoneLinks.length := by omega
  simp only [TArray.get_of_lt I.1.PrevBoneLinks 0 hI0, ok_bind]
  have hT0 : 0 < ((List.range C.2.length).map U.Target).length := by simp; omega
  simp only [TArray.set_of_lt _ 0 _ hT0, ok_bind]
  -- the loop, or the single step
  apply Succeeds.bind (fun S : SubstepState K =>
    (S.Chain.BoneIndices = Chain.BoneIndices ∧ S.Chain.PrevBoneLinks.length = L ∧
      S.TargetPositions.length = L ∧
      ∃ Root, S.Chain.PrevBoneLinks[0]? = some Root ∧
        S.TargetPositions[0]? = some Root.Position) ∧
    (N.bGuaranteeSameSimulationResult = true →
      S.Steps = ⌊InRemainingTime / N.FixedTimeStep⌋₊ ∧
      S.InRemainingTime = InRemainingTime -
        (⌊InRemainingTime / N.FixedTimeStep⌋₊ : K) * N.FixedTimeStep ∧
      S.InRemainingTime < N.FixedTimeStep) ∧
    (N.bGuaranteeSameSimulationResult = false → S.Steps = 1 ∧ S.InRemainingTime = 0))
  · by_cases hDet : N.bGuaranteeSameSimulationResult = true
    · simp only [hDet, if_true]
      obtain ⟨hPos, hFuel⟩ := hStep hDet
      refine (SubstepLoop_spec E N C.2 (fun S : SubstepState K =>
        S.Chain.BoneIndices = Chain.BoneIndices ∧ S.Chain.PrevBoneLinks.length = L ∧
        S.TargetPositions.length = L ∧
        ∃ Root, S.Chain.PrevBoneLinks[0]? = some Root ∧
          S.TargetPositions[0]? = some Root.Position) hPos ?_ Fuel
        ⟨I.1, _, InRemainingTime, 0⟩ ?_ hFuel).mono ?_
      · intro S ⟨hSB, hSL, hST, _⟩ _
        refine (Substep_spec E N C.2 S (by rw [hCL, hSL]) (by rw [hST, hSL])
          (by omega)).mono ?_
        intro S' ⟨h1, h2, h3, h4, h5, h6⟩
        exact ⟨⟨by rw [h1, hSB], by rw [h2, hSL], by rw [h3, hSL], h6⟩, h4, h5⟩
      · refine ⟨hIB, hIL, by simp [hCL], I.1.PrevBoneLinks[0], ?_, ?_⟩
        · exact List.getElem?_eq_getElem hI0
        · simp [List.getElem?_set_self hT0]
      · intro S ⟨hInv, h1, h2, h3⟩
        refine ⟨hInv, fun _ => ⟨by simpa using h1, h2, h3⟩, fun h => ?_⟩
        cases h
    · simp only [hDet]
      have hLen : (((List.range C.2.length).map U.Target).set 0 I.1.PrevBoneLinks[0].Position).length
          = I.1.PrevBoneLinks.length := by simp [hCL, hIL]
      apply Succeeds.bind _ (TimeIntegration_spec E N I.1 N.FixedTimeStep _ hLen hI0)
      intro Chain' ⟨h1, h2, h3⟩
      refine Succeeds.pure ⟨⟨by rw [h1, hIB], by rw [h2, hIL], by simp [hCL], h3⟩,
        fun h => ?_, fun _ => ⟨rfl, rfl⟩⟩
      cases h
  intro S ⟨⟨hSB, hSL, hST, Root, hSRoot, hTRoot⟩, hDetFacts, hNonDetFacts⟩
  -- the pull to the final root target
  have hC0 : 0 < C.2.length := by omega
  have hFinalRoot : C.2[0] =
      LocationInWorldSpace SkelComp (MeshBases.ComponentSpaceTransform RootBoneIndex) := by
    have h0 : C.2[0]? = some
        (LocationInWorldSpace SkelComp (MeshBases.ComponentSpaceTransform RootBoneIndex)) := by
      rw [← List.head?_eq_getElem?]; exact hCH
    rw [List.getElem?_eq_getElem hC0] at h0
    exact Option.some.inj h0
  have hS0 : 0 < S.TargetPositions.length := by omega
  have hSL0 : 0 < S.Chain.PrevBoneLinks.length := by omega
  have hTargetRoot : S.TargetPositions[0] = Root.Position := by
    rw [List.getElem?_eq_getElem hS0] at hTRoot
    exact Option.some.inj hTRoot
  have hLinkRoot : S.Chain.PrevBoneLinks[0] = Root := by
    rw [List.getElem?_eq_getElem hSL0] at hSRoot
    exact Option.some.inj hSRoot
  simp only [TArray.get_of_lt C.2 0 hC0, TArray.get_of_lt S.TargetPositions 0 hS0, ok_bind]
  have hP0 : 0 < (PullBonesToFinalPosition S.Chain.PrevBoneLinks
      (C.2[0] - S.TargetPositions[0])).length := by
    rw [PullBonesToFinalPosition_length]; exact hSL0
  have hStart : Start < C.1.length := by omega
  simp only [TArray.get_of_lt _ 0 hP0, TArray.get_of_lt C.1 Start hStart, ok_bind,
    TArray.set_of_lt _ 0 _ hP0]
  have hRender : ∀ Links : List (FSoftBoneLink K),
      Links = (PullBonesToFinalPosition S.Chain.PrevBoneLinks (C.2[0] - S.TargetPositions[0])) →
      ∀ h : 0 < Links.length, Links[0].RenderPosition =
        LocationInWorldSpace SkelComp (MeshBases.ComponentSpaceTransform RootBoneIndex) := by
    intro Links hEq h
    subst hEq
    have h1 := PullBonesToFinalPosition_getElem? S.Chain.PrevBoneLinks
      (C.2[0] - S.TargetPositions[0]) 0
    rw [List.getElem?_eq_getElem h, List.getElem?_eq_getElem hSL0] at h1
    have h2 := Option.some.inj h1
    rw [h2, hLinkRoot, hTargetRoot, hFinalRoot]
    exact FVector.add_sub_cancel _ _
  -- the translations of the other links
  apply Succeeds.bind (fun State : List (FSoftBoneLink K) × List (FBoneTransform K) =>
    State.1.length = L ∧ State.2.length = Out.length ∧
    ∃ Root', State.1[0]? = some Root' ∧ Root'.RenderPosition =
      LocationInWorldSpace SkelComp (MeshBases.ComponentSpaceTransform RootBoneIndex))
  · refine Succeeds.forLoop (fun _ (State : List (FSoftBoneLink K) × List (FBoneTransform K)) =>
      State.1.length = L ∧ State.2.length = Out.length ∧
      ∃ Root', State.1[0]? = some Root' ∧ Root'.RenderPosition =
        LocationInWorldSpace SkelComp (MeshBases.ComponentSpaceTransform RootBoneIndex))
      ?_ ?_ ?_
    · rw [hSB]; omega
    · refine ⟨by simp [PullBonesToFinalPosition_length, hSL], hCO, ?_⟩
      refine ⟨_, List.getElem?_set_self hP0, ?_⟩
      exact hRender _ rfl hP0
    · intro j State h1 hj ⟨hA, hB, Root', hR1, hR2⟩
      rw [hSB] at hj
      apply Succeeds.bind (fun _ => True) (Succeeds.get (by omega) trivial)
      intro ChainLink _
      apply Succeeds.bind (fun Links : List (FSoftBoneLink K) =>
        Links.length = L ∧ ∃ Root', Links[0]? = some Root' ∧ Root'.RenderPosition =
          LocationInWorldSpace SkelComp (MeshBases.ComponentSpaceTransform RootBoneIndex))
        (Succeeds.set (by omega) ⟨by simp [hA], Root', by
          rw [List.getElem?_set_ne (by omega)]; exact hR1, hR2⟩)
      intro Links ⟨hA', hR'⟩
      apply Succeeds.bind (fun _ => True) (Succeeds.get (by omega) trivial)
      intro Entry _
      apply Succeeds.bind (fun Out' : List (FBoneTransform K) => Out'.length = Out.length)
        (Succeeds.set (by omega) (by simp [hB]))
      intro Out' hO'
      exact Succeeds.pure ⟨hA', hO', hR'⟩
  intro State ⟨hA, hB, Root', hR1, hR2⟩
  -- the virtual tip link
  apply Succeeds.bind (fun Links : List (FSoftBoneLink K) =>
    Links.length = L ∧ ∃ Root', Links[0]? = some Root' ∧ Root'.RenderPosition =
      LocationInWorldSpace SkelComp (MeshBases.ComponentSpaceTransform RootBoneIndex))
  · by_cases hTip : N.bAllowTipBoneRotation = true
    · simp only [hTip, if_true]
      have hLt := hTipL hTip
      apply Succeeds.bind (fun _ => True)
        (Succeeds.getI (State.1.length - 1) (by omega) (by omega) trivial)
      intro ChainLink _
      refine Succeeds.setI (State.1.length - 1) (by omega) (by omega) ⟨by simp [hA], Root', ?_, hR2⟩
      rw [List.getElem?_set_ne (by omega)]
      exact hR1
    · simp only [hTip]
      exact Succeeds.pure ⟨hA, Root', hR1, hR2⟩
  intro Links ⟨hLL, Root'', hR1', hR2'⟩
  -- the re-orientation
  apply Succeeds.bind _ (ReOrientBoneRotations_spec E N
    { S.Chain with PrevBoneLinks := Links } MeshBases State.2 Start
    (by simp only [hSB]; exact hBones) (by simp only [hSB, hLL, hL])
    (by simp only [hSB, hB]; exact hOut))
  intro Out' hOut'
  refine Succeeds.pure ⟨hSB, hLL, by rw [hOut', hB], ⟨Root'', ?_, hR2'⟩, hDetFacts, hNonDetFacts⟩
  simp only [List.head?_eq_getElem?]
  exact hR1'

end Simulation2

end SoftBone

namespace SoftBone

section Distance

variable {K : Type} [LinearOrderedField K]

theorem FVector.SizeSquared_pos_of_ne (U P : FVector K) (h : U ≠ P) :
    0 < FVector.SizeSquared (U - P) := by
  have hnn : 0 ≤ FVector.SizeSquared (U - P) := by
    unfold FVector.SizeSquared
    have h1 := mul_self_nonneg (U - P).X
    have h2 := mul_self_nonneg (U - P).Y
    have h3 := mul_self_nonneg (U - P).Z
    linarith
  rcases lt_or_eq_of_le hnn with hlt | heq
  · exact hlt
  · exfalso
    apply h
    unfold FVector.SizeSquared at heq
    have h1 := mul_self_nonneg (U - P).X
    have h2 := mul_self_nonneg (U - P).Y
    have h3 := mul_self_nonneg (U - P).Z
    have hX : (U - P).X * (U - P).X = 0 := by linarith
    have hY : (U - P).Y * (U - P).Y = 0 := by linarith
    have hZ : (U - P).Z * (U - P).Z = 0 := by linarith
    have hX' := mul_self_eq_zero.mp hX
    have hY' := mul_self_eq_zero.mp hY
    have hZ' := mul_self_eq_zero.mp hZ
    simp only [FVector.sub_X, FVector.sub_Y, FVector.sub_Z] at hX' hY' hZ'
    ext
    · exact sub_eq_zero.mp hX'
    · exact sub_eq_zero.mp hY'
    · exact sub_eq_zero.mp hZ'

/-- With exact roots, a link that the distance constraint has put in the direction of an
unconstrained position other than its parent's position lies at its length from the parent. -/
theorem Dist_ConstrainedLink (E : Engine K) (hExact : ExactRoots E) (ParentPosition : FVector K)
    (Link : FSoftBoneLink K) (hne : Link.Position ≠ ParentPosition) (hLength : 0 ≤ Link.Length) :
    FVector.Dist E (ConstrainedLink E ParentPosition Link).Position ParentPosition = Link.Length := by
  have hs := FVector.SizeSquared_pos_of_ne Link.Position ParentPosition hne
  obtain ⟨_, hr⟩ := hExact.2 _ hs
  have hSq : FVector.SizeSquared
      ((ConstrainedLink E ParentPosition Link).Position - ParentPosition) =
      Link.Length * Link.Length := by
    unfold FVector.SizeSquared at hr ⊢
    simp only [ConstrainedLink, FVector.GetUnsafeNormal, FVector.SizeSquared, FVector.sub_X,
      FVector.sub_Y, FVector.sub_Z, FVector.add_X, FVector.add_Y, FVector.add_Z, FVector.Scale_X,
      FVector.Scale_Y, FVector.Scale_Z] at hr ⊢
    generalize E.InvSqrt _ = r at hr ⊢
    have : (ParentPosition.X + (Link.Position.X - ParentPosition.X) * r * Link.Length -
          ParentPosition.X) * (ParentPosition.X + (Link.Position.X - ParentPosition.X) * r *
          Link.Length - ParentPosition.X) +
        (ParentPosition.Y + (Link.Position.Y - ParentPosition.Y) * r * Link.Length -
          ParentPosition.Y) * (ParentPosition.Y + (Link.Position.Y - ParentPosition.Y) * r *
          Link.Length - ParentPosition.Y) +
        (ParentPosition.Z + (Link.Position.Z - ParentPosition.Z) * r * Link.Length -
          ParentPosition.Z) * (ParentPosition.Z + (Link.Position.Z - ParentPosition.Z) * r *
          Link.Length - ParentPosition.Z) =
        Link.Length * Link.Length * (r * r *
          ((Link.Position.X - ParentPosition.X) * (Link.Position.X - ParentPosition.X) +
           (Link.Position.Y - ParentPosition.Y) * (Link.Position.Y - ParentPosition.Y) +
           (Link.Position.Z - ParentPosition.Z) * (Link.Position.Z - ParentPosition.Z))) := by
      ring
    rw [this, hr, mul_one]
  unfold FVector.Dist FVector.Size
  rw [hSq]
  obtain ⟨h1, h2⟩ := hExact.1 (Link.Length * Link.Length) (mul_self_nonneg _)
  exact (mul_self_inj h1 hLength).mp h2

/-- The engine of the real square root has exact roots. -/
theorem ExactRoots_real (Acos Sin Cos : ℝ → ℝ) :
    ExactRoots (EngineOf Real.sqrt Acos Sin Cos) := by
  refine ⟨fun x hx => ⟨Real.sqrt_nonneg x, Real.mul_self_sqrt hx⟩, fun x hx => ?_⟩
  have hs : 0 < Real.sqrt x := Real.sqrt_pos.mpr hx
  refine ⟨inv_pos.mpr hs, ?_⟩
  show (Real.sqrt x)⁻¹ * (Real.sqrt x)⁻¹ * x = 1
  have hx' := Real.mul_self_sqrt (le_of_lt hx)
  have hne : Real.sqrt x ≠ 0 := ne_of_gt hs
  calc (Real.sqrt x)⁻¹ * (Real.sqrt x)⁻¹ * x
      = (Real.sqrt x)⁻¹ * (Real.sqrt x)⁻¹ * (Real.sqrt x * Real.sqrt x) := by rw [hx']
    _ = 1 := by field_simp

end Distance

end SoftBone

namespace SoftBone

section Degenerate

variable {K : Type} [LinearOrderedField K]

omit [LinearOrderedField K] in
/-- A bone with a depth is not its own proper ancestor. -/
theorem not_isProperAncestor_self (MeshBases : FCSPose K) (Bone : Int) (Depth : Nat)
    (hDepth : HasDepth MeshBases.BoneContainer Bone Depth) :
    ¬ IsProperAncestor MeshBases.BoneContainer Bone Bone := by
  intro hAnc
  obtain ⟨Mid, hLast, hD, -⟩ := walk_of_ancestor MeshBases Bone Depth hDepth hAnc
  have hEq := hDepth.unique _ hD
  have hMid : Mid.length = 0 := by omega
  rw [List.length_eq_zero] at hMid
  subst hMid
  simp at hLast

omit [LinearOrderedField K] in
/-- A pair whose root and tip are one bone with a depth is not accepted. -/
theorem IsValidBonePair_self (MeshBases : FCSPose K) (Bone : Int) (Depth : Nat)
    (hDepth : HasDepth MeshBases.BoneContainer Bone Depth) :
    IsValidBonePair MeshBases.BoneContainer ⟨Bone⟩ ⟨Bone⟩ = false := by
  cases h : IsValidBonePair MeshBases.BoneContainer ⟨Bone⟩ ⟨Bone⟩ with
  | false => rfl
  | true =>
    simp only [IsValidBonePair, Bool.and_eq_true, BoneIsChildOf_iff] at h
    exact absurd h.2 (not_isProperAncestor_self MeshBases Bone Depth hDepth)

/-- Without an accepted pair and without chains, `EvaluateBoneTransforms` makes no chain and
returns the output list as it got it. -/
theorem EvaluateBoneTransforms_without_accepted_pair (E : Engine K) (U : Nat → Uninitialized K)
    (UOut : Nat → FBoneTransform K) (Fuel : Nat) (N : FAnimNode_SoftBone K)
    (SkelComp : Option (USkeletalMeshComponent K)) (MeshBases : FCSPose K)
    (OutBoneTransforms : List (FBoneTransform K)) (hSort : SortsByRootBone E)
    (hNone : AcceptedPairs N MeshBases.BoneContainer = []) (hEmpty : N.ChainInfos = []) :
    EvaluateBoneTransforms E U UOut Fuel N SkelComp MeshBases OutBoneTransforms =
      .ok ⟨{ N with ChainInfos := [] }, OutBoneTransforms, []⟩ := by
  obtain ⟨N', hN', Chains, rfl, hEnds, -⟩ := InitializeBoneIndices_spec E N MeshBases (hSort _).1
  have hChains : Chains = [] := by
    have h1 := (hSort (AcceptedPairs N MeshBases.BoneContainer)).1
    rw [hNone] at h1
    rw [hNone, List.Perm.eq_nil h1] at hEnds
    simpa using hEnds
  subst hChains
  unfold EvaluateBoneTransforms
  simp only [hEmpty, List.length_nil, if_true, hN', ok_bind]
  by_cases hT : N.RemainingTime ≤ 0
  · simp [hT]
  · simp [hT, forLoop, forLoopFrom]

end Degenerate

end SoftBone

namespace SoftBone

section StepEntries

variable {K : Type} [LinearOrderedField K]

/-- One physical step, link by link: the root link is put on the root target; every other link
is integrated against its own target and then, with the bone length constraint on, put at its
length from the corrected position of the link before it. -/
theorem TimeIntegration_entries (E : Engine K) (N : FAnimNode_SoftBone K) (Chain : FChainInfo K)
    (TimeDelta : K) (Targets : List (FVector K))
    (hLen : Targets.length = Chain.PrevBoneLinks.length) (hPos : 0 < Chain.PrevBoneLinks.length) :
    Succeeds (TimeIntegration E N Chain TimeDelta Targets) (fun Chain' =>
      Chain'.BoneIndices = Chain.BoneIndices ∧
      Chain'.PrevBoneLinks.length = Chain.PrevBoneLinks.length ∧
      (∀ Root Target, Chain.PrevBoneLinks[0]? = some Root → Targets[0]? = some Target →
        Chain'.PrevBoneLinks[0]? = some { Root with Position := Target }) ∧
      ∀ j Link Target, 1 ≤ j → Chain.PrevBoneLinks[j]? = some Link → Targets[j]? = some Target →
        ∃ Parent, Chain'.PrevBoneLinks[j - 1]? = some Parent ∧
          Chain'.PrevBoneLinks[j]? = some
            (if N.bBoneLengthConstraint = true then
              ConstrainedLink E Parent.Position (IntegratedLink N TimeDelta Link Target)
            else IntegratedLink N TimeDelta Link Target)) := by
  unfold TimeIntegration
  apply Succeeds.bind _ (Integrate_spec N Chain.PrevBoneLinks TimeDelta Targets hLen hPos)
  intro Links' ⟨hL, hE⟩
  have hRoot : ∀ Root Target, Chain.PrevBoneLinks[0]? = some Root → Targets[0]? = some Target →
      Links'[0]? = some { Root with Position := Target } := by
    intro Root Target hR hT
    have h0 := hE 0 hPos
    have hT0 : 0 < Targets.length := by omega
    rw [List.getElem?_eq_getElem hPos] at hR
    rw [List.getElem?_eq_getElem hT0] at hT
    rw [h0, ← Option.some.inj hR, ← Option.some.inj hT]
    simp
  have hRest : ∀ j Link Target, 1 ≤ j → Chain.PrevBoneLinks[j]? = some Link →
      Targets[j]? = some Target → Links'[j]? = some (IntegratedLink N TimeDelta Link Target) := by
    intro j Link Target h1 hLk hT
    have hj : j < Chain.PrevBoneLinks.length := by
      by_contra hge
      rw [List.getElem?_eq_none (by omega)] at hLk
      cases hLk
    have hjT : j < Targets.length := by omega
    have h0 := hE j hj
    rw [List.getElem?_eq_getElem hj] at hLk
    rw [List.getElem?_eq_getElem hjT] at hT
    have hne : j ≠ 0 := by omega
    rw [h0, ← Option.some.inj hLk, ← Option.some.inj hT]
    simp [hne]
  by_cases hC : N.bBoneLengthConstraint = true
  · simp only [hC, if_true]
    apply Succeeds.bind _ (SolveDistanceConstraint_spec E Links')
    intro Links'' ⟨hL2, hR2, hC2⟩
    refine Succeeds.pure ⟨rfl, by simp [hL2, hL], ?_, ?_⟩
    · intro Root Target hR hT
      exact hR2 _ (hRoot Root Target hR hT)
    · intro j Link Target h1 hLk hT
      have hj : j < Chain.PrevBoneLinks.length := by
        by_contra hge
        rw [List.getElem?_eq_none (by omega)] at hLk
        cases hLk
      have hj' : j - 1 + 1 < Links'.length := by omega
      obtain ⟨Parent, hP, hCur⟩ := hC2 (j - 1) hj'
      have hjj : j - 1 + 1 = j := by omega
      refine ⟨Parent, hP, ?_⟩
      have hI := hRest j Link Target h1 hLk hT
      have hjL : j < Links'.length := by omega
      rw [List.getElem?_eq_getElem hjL] at hI
      simp only [hjj] at hCur
      rw [hCur, Option.some.inj hI]
  · simp only [hC]
    refine Succeeds.pure ⟨rfl, hL, hRoot, ?_⟩
    intro j Link Target h1 hLk hT
    have hj : j < Chain.PrevBoneLinks.length := by
      by_contra hge
      rw [List.getElem?_eq_none (by omega)] at hLk
      cases hLk
    have hp : j - 1 < Links'.length := by omega
    exact ⟨Links'[j - 1], List.getElem?_eq_getElem hp, by simpa using hRest j Link Target h1 hLk hT⟩

end StepEntries

end SoftBone

namespace SoftBone

section ChainEntries

variable {K : Type} [LinearOrderedField K]

theorem TArray.get_append_last {α : Type} (l : List α) (a : α) :
    TArray.get (l ++ [a]) l.length = .ok a := by
  simp [TArray.get]

theorem TArray.set_append_last {α : Type} (l : List α) (a b : α) :
    TArray.set (l ++ [a]) l.length b = .ok (l ++ [b]) := by
  simp [TArray.set]

theorem TArray.getI_eq_get {α : Type} (A : List α) (Index : Int) (m : Nat) (hm : Index = (m : Int)) :
    TArray.getI A Index = TArray.get A m := by
  subst hm
  simp [TArray.getI]

theorem TArray.setI_eq_set {α : Type} (A : List α) (Index : Int) (m : Nat) (Value : α)
    (hm : Index = (m : Int)) : TArray.setI A Index Value = TArray.set A m Value := by
  subst hm
  simp [TArray.setI]

omit [LinearOrderedField K] in
theorem FChainInfo.Bone_eq (Chain : FChainInfo K) (Index : Nat) (h : Index < Chain.BoneIndices.length) :
    Chain.BoneIndices[Index] = Chain.Bone Index := by
  unfold FChainInfo.Bone
  rw [List.getD_eq_getElem _ _ h]

omit [LinearOrderedField K] in
theorem OutputWritten.zero (MeshBases : FCSPose K) (Chain : FChainInfo K)
    (Out : List (FBoneTransform K)) (Start : Nat) : OutputWritten MeshBases Chain Out Start 0 Out := by
  refine ⟨rfl, fun j => ?_⟩
  have : ¬ (Start ≤ j ∧ j < Start) := by omega
  simp only [Nat.add_zero, this, if_false]

omit [LinearOrderedField K] in
theorem OutputWritten.write_next {MeshBases : FCSPose K} {Chain : FChainInfo K}
    {Out Out' : List (FBoneTransform K)} {Start Count : Nat}
    (h : OutputWritten MeshBases Chain Out Start Count Out') (hlt : Start + Count < Out.length) :
    OutputWritten MeshBases Chain Out Start (Count + 1)
      (Out'.set (Start + Count) (PoseEntry MeshBases Chain Count)) := by
  obtain ⟨hL, hE⟩ := h
  refine ⟨by simp [hL], fun j => ?_⟩
  by_cases hj : j = Start + Count
  · subst hj
    have h1 : Start ≤ Start + Count ∧ Start + Count < Start + (Count + 1) := by omega
    rw [List.getElem?_set_self (by omega)]
    simp [h1]
  · rw [List.getElem?_set_ne (fun h => hj h.symm), hE j]
    have : (Start ≤ j ∧ j < Start + (Count + 1)) ↔ (Start ≤ j ∧ j < Start + Count) := by omega
    simp only [this]

omit [LinearOrderedField K] in
/-- Writing the places of a chain over a list in which they are written already gives the
same list as writing them once. -/
theorem OutputWritten.trans {MeshBases : FCSPose K} {Chain : FChainInfo K}
    {Out Out₁ Out₂ : List (FBoneTransform K)} {Start Count : Nat}
    (h₁ : OutputWritten MeshBases Chain Out Start Count Out₁)
    (h₂ : OutputWritten MeshBases Chain Out₁ Start Count Out₂) :
    OutputWritten MeshBases Chain Out Start Count Out₂ := by
  refine ⟨by rw [h₂.1, h₁.1], fun j => ?_⟩
  rw [h₂.2 j, h₁.2 j]
  split <;> rfl

omit [LinearOrderedField K] in
theorem OutputWritten.getElem? {MeshBases : FCSPose K} {Chain : FChainInfo K}
    {Out Out' : List (FBoneTransform K)} {Start Count : Nat}
    (h : OutputWritten MeshBases Chain Out Start Count Out') (i : Nat) (hi : i < Count) :
    Out'[Start + i]? = some (PoseEntry MeshBases Chain i) := by
  rw [h.2]
  have h1 : Start ≤ Start + i ∧ Start + i < Start + Count := by omega
  simp [h1]

/-- The links and the output entries that `InitializeChain` leaves on a chain of at least two
bones without links: the link of each place, and the pose entries of the bones. -/
theorem InitializeChain_entries (E : Engine K) (U : Uninitialized K) (N : FAnimNode_SoftBone K)
    (Chain : FChainInfo K) (SkelComp : Option (USkeletalMeshComponent K)) (MeshBases : FCSPose K)
    (Out : List (FBoneTransform K)) (Start : Nat)
    (hBones : 2 ≤ Chain.BoneIndices.length) (hLinks : Chain.PrevBoneLinks = [])
    (hOut : Start + Chain.BoneIndices.length ≤ Out.length) :
    Succeeds (InitializeChain E U N Chain SkelComp MeshBases Out Start) (fun R =>
      R.1.BoneIndices = Chain.BoneIndices ∧
      R.1.PrevBoneLinks =
        (List.range (NumLinks N Chain)).map (InitialLink E U N Chain SkelComp MeshBases) ∧
      OutputWritten MeshBases Chain Out Start Chain.BoneIndices.length R.2) := by
  unfold InitializeChain
  have h2 : ¬ Chain.BoneIndices.length < 2 := by omega
  have h0 : 0 < Chain.BoneIndices.length := by omega
  simp only [h2, if_false, hLinks, List.nil_append, TArray.get_of_lt _ 0 h0, ok_bind,
    TArray.set_of_lt Out Start _ (show Start < Out.length by omega), FChainInfo.Bone_eq Chain 0 h0]
  have hW1 : OutputWritten MeshBases Chain Out Start 1
      (Out.set Start ⟨Chain.Bone 0, MeshBases.ComponentSpaceTransform (Chain.Bone 0)⟩) :=
    (OutputWritten.zero MeshBases Chain Out Start).write_next (by omega)
  have hLink0 : [FSoftBoneLink.make (U.Link 0)
      (LocationInWorldSpace SkelComp (MeshBases.ComponentSpaceTransform (Chain.Bone 0))) 0
      (Chain.Bone 0)] = (List.range 1).map (InitialLink E U N Chain SkelComp MeshBases) := by
    have hR : (List.range 1).map (InitialLink E U N Chain SkelComp MeshBases) =
        [InitialLink E U N Chain SkelComp MeshBases 0] := rfl
    rw [hR]
    simp [InitialLink, FinalTarget, InitialLength, h0]
  apply Succeeds.bind (fun State : List (FSoftBoneLink K) × List (FBoneTransform K) =>
    State.1 = (List.range Chain.BoneIndices.length).map (InitialLink E U N Chain SkelComp MeshBases) ∧
    OutputWritten MeshBases Chain Out Start Chain.BoneIndices.length State.2)
  · refine Succeeds.forLoop (fun i (State : List (FSoftBoneLink K) × List (FBoneTransform K)) =>
      State.1 = (List.range i).map (InitialLink E U N Chain SkelComp MeshBases) ∧
      OutputWritten MeshBases Chain Out Start i State.2) (by omega) ⟨hLink0, hW1⟩ ?_
    intro i State h1 hi ⟨hS1, hS2⟩
    have hSet : Start + i < State.2.length := by rw [hS2.1]; omega
    have hW := hS2.write_next (show Start + i < Out.length by omega)
    have hPrev : (State.2.set (Start + i) (PoseEntry MeshBases Chain i))[Start + i - 1]? =
        some (PoseEntry MeshBases Chain (i - 1)) := by
      have := hW.getElem? (i - 1) (by omega)
      have h3 : Start + (i - 1) = Start + i - 1 := by omega
      rw [h3] at this
      exact this
    have hLen1 : State.1.length = i := by simp [hS1]
    simp only [TArray.get_of_lt _ i hi, ok_bind, TArray.set_of_lt _ _ _ hSet,
      FChainInfo.Bone_eq Chain i hi]
    rw [show (⟨Chain.Bone i, MeshBases.ComponentSpaceTransform (Chain.Bone i)⟩ : FBoneTransform K)
      = PoseEntry MeshBases Chain i from rfl, (TArray.get_eq_ok _ _ _).mpr hPrev]
    simp only [ok_bind]
    have hGet := TArray.get_append_last State.1 (FSoftBoneLink.make (U.Link i)
      (LocationInWorldSpace SkelComp (MeshBases.ComponentSpaceTransform (Chain.Bone i)))
      (FVector.Dist E (MeshBases.ComponentSpaceTransform (Chain.Bone i)).Translation
        (PoseEntry MeshBases Chain (i - 1)).Transform.Translation) (Chain.Bone i))
    rw [hLen1] at hGet
    rw [hGet]
    simp only [ok_bind]
    have hSet2 := fun b => TArray.set_append_last State.1 (FSoftBoneLink.make (U.Link i)
      (LocationInWorldSpace SkelComp (MeshBases.ComponentSpaceTransform (Chain.Bone i)))
      (FVector.Dist E (MeshBases.ComponentSpaceTransform (Chain.Bone i)).Translation
        (PoseEntry MeshBases Chain (i - 1)).Transform.Translation) (Chain.Bone i)) b
    rw [hLen1] at hSet2
    rw [hSet2]
    refine Succeeds.pure ⟨?_, hW⟩
    have hi0 : i ≠ 0 := by omega
    rw [List.range_succ, List.map_append, ← hS1]
    simp [InitialLink, FinalTarget, InitialLength, InitialWeight, hi, hi0, PoseEntry]
  · intro State ⟨hS1, hS2⟩
    have hLen1 : State.1.length = Chain.BoneIndices.length := by simp [hS1]
    by_cases hTip : N.bAllowTipBoneRotation = true
    · have hn2 : Chain.BoneIndices.length - 2 < Chain.BoneIndices.length := by omega
      have hn1 : Chain.BoneIndices.length - 1 < Chain.BoneIndices.length := by omega
      simp only [hTip, if_true,
        TArray.getI_eq_get Chain.BoneIndices ((Chain.BoneIndices.length : Int) - 2)
          (Chain.BoneIndices.length - 2) (by omega),
        TArray.getI_eq_get Chain.BoneIndices ((Chain.BoneIndices.length : Int) - 1)
          (Chain.BoneIndices.length - 1) (by omega),
        TArray.get_of_lt _ _ hn2, TArray.get_of_lt _ _ hn1, ok_bind,
        FChainInfo.Bone_eq Chain _ hn2, FChainInfo.Bone_eq Chain _ hn1]
      rw [TArray.getI_eq_get _ _ State.1.length (by simp), TArray.get_append_last]
      simp only [ok_bind]
      rw [TArray.setI_eq_set _ _ State.1.length _ (by simp), TArray.set_append_last]
      simp only [ok_bind]
      refine Succeeds.pure ⟨rfl, ?_, hS2⟩
      have hn0 : Chain.BoneIndices.length ≠ 0 := by omega
      simp only [NumLinks, hTip, if_true]
      rw [List.range_succ, List.map_append, ← hS1]
      simp [InitialLink, FinalTarget, InitialLength, InitialWeight, hn0, hTip]
    · simp only [hTip]
      refine Succeeds.pure ⟨rfl, ?_, hS2⟩
      simp only [NumLinks, hTip]
      simpa using hS1

/-- The targets and the output entries that `ComputeTargetPositions` leaves on a chain of at
least two bones: the target of each place, and the pose entries of the bones. -/
theorem ComputeTargetPositions_entries (N : FAnimNode_SoftBone K) (Chain : FChainInfo K)
    (SkelComp : Option (USkeletalMeshComponent K)) (MeshBases : FCSPose K)
    (Out : List (FBoneTransform K)) (Start : Nat)
    (hBones : 2 ≤ Chain.BoneIndices.length)
    (hOut : Start + Chain.BoneIndices.length ≤ Out.length) :
    Succeeds (ComputeTargetPositions N Chain SkelComp MeshBases Out Start []) (fun R =>
      OutputWritten MeshBases Chain Out Start Chain.BoneIndices.length R.1 ∧
      R.2 = (List.range (NumLinks N Chain)).map (FinalTarget Chain SkelComp MeshBases)) := by
  unfold ComputeTargetPositions
  have h0 : 0 < Chain.BoneIndices.length := by omega
  simp only [List.nil_append, TArray.get_of_lt _ 0 h0, ok_bind,
    TArray.set_of_lt Out Start _ (show Start < Out.length by omega), FChainInfo.Bone_eq Chain 0 h0]
  have hW1 : OutputWritten MeshBases Chain Out Start 1
      (Out.set Start ⟨Chain.Bone 0, MeshBases.ComponentSpaceTransform (Chain.Bone 0)⟩) :=
    (OutputWritten.zero MeshBases Chain Out Start).write_next (by omega)
  have hT0 : [LocationInWorldSpace SkelComp (MeshBases.ComponentSpaceTransform (Chain.Bone 0))] =
      (List.range 1).map (FinalTarget Chain SkelComp MeshBases) := by
    have hR : (List.range 1).map (FinalTarget Chain SkelComp MeshBases) =
        [FinalTarget Chain SkelComp MeshBases 0] := rfl
    rw [hR]
    simp [FinalTarget, h0]
  apply Succeeds.bind (fun State : List (FBoneTransform K) × List (FVector K) =>
    OutputWritten MeshBases Chain Out Start Chain.BoneIndices.length State.1 ∧
    State.2 = (List.range Chain.BoneIndices.length).map (FinalTarget Chain SkelComp MeshBases))
  · refine Succeeds.forLoop (fun i (State : List (FBoneTransform K) × List (FVector K)) =>
      OutputWritten MeshBases Chain Out Start i State.1 ∧
      State.2 = (List.range i).map (FinalTarget Chain SkelComp MeshBases)) (by omega) ⟨hW1, hT0⟩ ?_
    intro i State h1 hi ⟨hS1, hS2⟩
    have hSet : Start + i < State.1.length := by rw [hS1.1]; omega
    have hW := hS1.write_next (show Start + i < Out.length by omega)
    simp only [TArray.get_of_lt _ i hi, ok_bind, TArray.set_of_lt _ _ _ hSet,
      FChainInfo.Bone_eq Chain i hi]
    refine Succeeds.pure ⟨hW, ?_⟩
    rw [List.range_succ, List.map_append, ← hS2]
    simp [FinalTarget, hi]
  · intro State ⟨hS1, hS2⟩
    by_cases hTip : N.bAllowTipBoneRotation = true
    · have hn2 : Chain.BoneIndices.length - 2 < Chain.BoneIndices.length := by omega
      have hn1 : Chain.BoneIndices.length - 1 < Chain.BoneIndices.length := by omega
      simp only [hTip, if_true,
        TArray.getI_eq_get Chain.BoneIndices ((Chain.BoneIndices.length : Int) - 2)
          (Chain.BoneIndices.length - 2) (by omega),
        TArray.getI_eq_get Chain.BoneIndices ((Chain.BoneIndices.length : Int) - 1)
          (Chain.BoneIndices.length - 1) (by omega),
        TArray.get_of_lt _ _ hn2, TArray.get_of_lt _ _ hn1, ok_bind,
        FChainInfo.Bone_eq Chain _ hn2, FChainInfo.Bone_eq Chain _ hn1]
      refine Succeeds.pure ⟨hS1, ?_⟩
      simp only [NumLinks, hTip, if_true]
      rw [List.range_succ, List.map_append, ← hS2]
      simp [FinalTarget]
    · simp only [hTip]
      refine Succeeds.pure ⟨hS1, ?_⟩
      simp only [NumLinks, hTip]
      simpa using hS2

omit [LinearOrderedField K] in
theorem NumLinks_ge (N : FAnimNode_SoftBone K) (Chain : FChainInfo K) :
    Chain.BoneIndices.length ≤ NumLinks N Chain := by
  unfold NumLinks
  omega

/-- The position of a link that `InitializeChain` makes is the target of its place in the
same pose. -/
theorem InitialLink_Position (E : Engine K) (U : Uninitialized K) (N : FAnimNode_SoftBone K)
    (Chain : FChainInfo K) (SkelComp : Option (USkeletalMeshComponent K)) (MeshBases : FCSPose K)
    (Index : Nat) :
    (InitialLink E U N Chain SkelComp MeshBases Index).Position =
      FinalTarget Chain SkelComp MeshBases Index := by
  by_cases h : Index = 0 <;> simp [InitialLink, h, FSoftBoneLink.make]

theorem InitialLink_Length (E : Engine K) (U : Uninitialized K) (N : FAnimNode_SoftBone K)
    (Chain : FChainInfo K) (SkelComp : Option (USkeletalMeshComponent K)) (MeshBases : FCSPose K)
    (Index : Nat) :
    (InitialLink E U N Chain SkelComp MeshBases Index).Length =
      InitialLength E Chain MeshBases Index := by
  by_cases h : Index = 0 <;> simp [InitialLink, h, FSoftBoneLink.make]

theorem InitialLink_RestoringWeight (E : Engine K) (U : Uninitialized K) (N : FAnimNode_SoftBone K)
    (Chain : FChainInfo K) (SkelComp : Option (USkeletalMeshComponent K)) (MeshBases : FCSPose K)
    (Index : Nat) (h : 1 ≤ Index) :
    (InitialLink E U N Chain SkelComp MeshBases Index).RestoringWeight =
      InitialWeight E N Chain Index := by
  unfold InitialLink
  have : Index ≠ 0 := by omega
  simp [this]

end ChainEntries

end SoftBone

namespace SoftBone

section ReOrientFrame

variable {K : Type} [LinearOrderedField K]

omit [LinearOrderedField K] in
theorem OnlyRotated.refl (Start Count : Nat) (Out : List (FBoneTransform K)) :
    OnlyRotated Start Count Out Out :=
  ⟨rfl, fun _ => ⟨fun _ => rfl, fun Entry h => ⟨Entry.Transform.Rotation, h⟩⟩⟩

/-- The rule for one re-oriented entry. -/
theorem OnlyRotated.rotate_entry {Start Count : Nat} {Out Out' : List (FBoneTransform K)}
    (h : OnlyRotated Start Count Out Out') (Index : Nat) (hIn : Start ≤ Index ∧ Index < Start + Count)
    (hlt : Index < Out'.length) (Delta : FQuat K) :
    OnlyRotated Start Count Out (Out'.set Index (ApplyDeltaRotation Delta Out'[Index])) := by
  obtain ⟨hL, hE⟩ := h
  refine ⟨by simp [hL], fun j => ⟨fun hj => ?_, fun Entry hEn => ?_⟩⟩
  · have hne : Index ≠ j := by
      intro heq; subst heq; exact hj hIn
    rw [List.getElem?_set_ne hne]
    exact (hE j).1 hj
  · obtain ⟨Rotation, hR⟩ := (hE j).2 Entry hEn
    by_cases hji : Index = j
    · subst hji
      rw [List.getElem?_set_self hlt]
      rw [List.getElem?_eq_getElem hlt] at hR
      rw [Option.some.inj hR]
      exact ⟨_, rfl⟩
    · rw [List.getElem?_set_ne hji]
      exact ⟨Rotation, hR⟩

/-- The re-orientation of a chain ends without a fault on a chain with all its links, and it
changes at most the rotations of the chain's own output entries. -/
theorem ReOrientBoneRotations_frame (E : Engine K) (N : FAnimNode_SoftBone K) (Chain : FChainInfo K)
    (MeshBases : FCSPose K) (Out : List (FBoneTransform K)) (Start : Nat)
    (hBones : 2 ≤ Chain.BoneIndices.length)
    (hLinks : Chain.PrevBoneLinks.length = NumLinks N Chain)
    (hOut : Start + Chain.BoneIndices.length ≤ Out.length) :
    Succeeds (ReOrientBoneRotations E N Chain MeshBases Out Start)
      (OnlyRotated Start Chain.BoneIndices.length Out) := by
  unfold ReOrientBoneRotations
  have hLe : Chain.BoneIndices.length ≤ Chain.PrevBoneLinks.length := by
    rw [hLinks]; exact NumLinks_ge N Chain
  apply Succeeds.bind (OnlyRotated Start Chain.BoneIndices.length Out)
  · refine Succeeds.forLoop (fun _ (Out' : List (FBoneTransform K)) =>
      OnlyRotated Start Chain.BoneIndices.length Out Out') (Nat.zero_le _)
      (OnlyRotated.refl _ _ _) ?_
    intro i Out1 _ hi hO
    have hlt : Start + i < Out1.length := by rw [hO.1]; omega
    simp only [TArray.get_of_lt _ i (show i < Chain.PrevBoneLinks.length by omega),
      TArray.get_of_lt _ (i + 1) (show i + 1 < Chain.PrevBoneLinks.length by omega),
      TArray.get_of_lt _ _ hlt, TArray.set_of_lt _ _ _ hlt, ok_bind]
    exact Succeeds.ok (hO.rotate_entry (Start + i) (by omega) hlt _)
  · intro Out1 hO
    by_cases hTip : N.bAllowTipBoneRotation = true
    · simp only [NumLinks, hTip, if_true] at hLinks
      have h3 : ¬ ((Chain.PrevBoneLinks.length : Int) - 3 < 0) := by omega
      have hlt : Start + Chain.BoneIndices.length - 1 < Out1.length := by rw [hO.1]; omega
      simp only [hTip, if_true, h3, if_false,
        TArray.getI_eq_get Chain.PrevBoneLinks ((Chain.PrevBoneLinks.length : Int) - 3)
          (Chain.PrevBoneLinks.length - 3) (by omega),
        TArray.getI_eq_get Chain.PrevBoneLinks ((Chain.PrevBoneLinks.length : Int) - 2)
          (Chain.PrevBoneLinks.length - 2) (by omega),
        TArray.getI_eq_get Chain.PrevBoneLinks ((Chain.PrevBoneLinks.length : Int) - 1)
          (Chain.PrevBoneLinks.length - 1) (by omega),
        TArray.get_of_lt _ _ (show Chain.PrevBoneLinks.length - 3 < Chain.PrevBoneLinks.length by omega),
        TArray.get_of_lt _ _ (show Chain.PrevBoneLinks.length - 2 < Chain.PrevBoneLinks.length by omega),
        TArray.get_of_lt _ _ (show Chain.PrevBoneLinks.length - 1 < Chain.PrevBoneLinks.length by omega),
        ok_bind,
        TArray.getI_eq_get Out1 ((Start : Int) + (Chain.BoneIndices.length : Int) - 1)
          (Start + Chain.BoneIndices.length - 1) (by omega),
        TArray.setI_eq_set Out1 ((Start : Int) + (Chain.BoneIndices.length : Int) - 1)
          (Start + Chain.BoneIndices.length - 1) _ (by omega),
        TArray.get_of_lt _ _ hlt, TArray.set_of_lt _ _ _ hlt]
      exact Succeeds.ok (hO.rotate_entry _ (by omega) hlt _)
    · simp only [hTip]
      exact Succeeds.pure hO

end ReOrientFrame

end SoftBone

namespace SoftBone

section SimulatePost

variable {K : Type} [LinearOrderedField K]

omit [LinearOrderedField K] in
theorem length_eq_of_getElem?_map {α β : Type} {A : List α} {B : List β} (f : Nat → β → α)
    (h : ∀ j, A[j]? = B[j]?.map (f j)) : A.length = B.length := by
  apply le_antisymm
  · by_contra hlt
    have h1 := h B.length
    rw [List.getElem?_eq_getElem (by omega), List.getElem?_eq_none (le_refl _)] at h1
    cases h1
  · by_contra hlt
    have h1 := h A.length
    rw [List.getElem?_eq_none (le_refl _), List.getElem?_eq_getElem (by omega)] at h1
    cases h1

/-- The loop of `SimulateSoftBoneChain` that writes the translations: it ends without a fault;
the links of the places 1 to `Count - 1` get their component-space positions, the output
entries of these places get them as translations; everything else stays. -/
theorem translation_loop (SkelComp : Option (USkeletalMeshComponent K)) (MeshBases : FCSPose K)
    (Chain : FChainInfo K) (Diff RootCS : FVector K) (Links₀ : List (FSoftBoneLink K))
    (Links : List (FSoftBoneLink K)) (Out₀ Out : List (FBoneTransform K)) (Start Count : Nat)
    (hCount : 1 ≤ Count) (hCountL : Count ≤ Links₀.length) (hOutLen : Start + Count ≤ Out₀.length)
    (hW : OutputWritten MeshBases Chain Out₀ Start Count Out)
    (hLinks : ∀ j, Links[j]? = Links₀[j]?.map (fun Link =>
      if j = 0 then RenderedLink SkelComp Diff RootCS 0 Link
      else { Link with RenderPosition := Link.Position + Diff })) :
    Succeeds (forLoop 1 Count
      (fun LinkIndex (State : List (FSoftBoneLink K) × List (FBoneTransform K)) => do
        let ChainLink ← TArray.get State.1 LinkIndex
        let BoneCSPosition := InverseWorldPosition SkelComp ChainLink.RenderPosition
        let Links ← TArray.set State.1 LinkIndex { ChainLink with PositionInCS := BoneCSPosition }
        let Entry ← TArray.get State.2 (Start + LinkIndex)
        let Out ← TArray.set State.2 (Start + LinkIndex)
          { Entry with Transform := { Entry.Transform with Translation := BoneCSPosition } }
        pure (Links, Out))
      (Links, Out))
      (fun State =>
        (∀ j, State.1[j]? = Links₀[j]?.map (fun Link =>
          if j < Count then RenderedLink SkelComp Diff RootCS j Link
          else { Link with RenderPosition := Link.Position + Diff })) ∧
        State.2.length = Out₀.length ∧
        ∀ j, State.2[j]? =
          if Start ≤ j ∧ j < Start + Count then
            some (TranslatedEntry MeshBases Chain SkelComp Diff Links₀ (j - Start))
          else Out₀[j]?) := by
  refine Succeeds.forLoop (fun i (State : List (FSoftBoneLink K) × List (FBoneTransform K)) =>
      (∀ j, State.1[j]? = Links₀[j]?.map (fun Link =>
        if j < i then RenderedLink SkelComp Diff RootCS j Link
        else { Link with RenderPosition := Link.Position + Diff })) ∧
      State.2.length = Out₀.length ∧
      ∀ j, State.2[j]? =
        if Start ≤ j ∧ j < Start + i then
          some (TranslatedEntry MeshBases Chain SkelComp Diff Links₀ (j - Start))
        else if Start ≤ j ∧ j < Start + Count then some (PoseEntry MeshBases Chain (j - Start))
        else Out₀[j]?) hCount ⟨?_, hW.1, ?_⟩ ?_ |>.mono ?_
  · intro j
    rw [hLinks j]
    congr 1
    funext Link
    by_cases hj : j = 0
    · subst hj; simp
    · have : ¬ j < 1 := by omega
      simp [hj, this]
  · intro j
    rw [hW.2 j]
    by_cases hj : j = Start
    · subst hj
      have h1 : j ≤ j ∧ j < j + 1 := by omega
      have h2 : j ≤ j ∧ j < j + Count := by omega
      simp [h1, h2, TranslatedEntry]
    · have h1 : ¬ (Start ≤ j ∧ j < Start + 1) := by omega
      simp only [h1, if_false]
  · intro i State h1 hi ⟨hS1, hS2L, hS2⟩
    have hiL : i < Links₀.length := by omega
    have hSi := hS1 i
    rw [List.getElem?_eq_getElem hiL] at hSi
    simp only [lt_irrefl, if_false, Option.map_some'] at hSi
    have hc1 : ¬ (Start ≤ Start + i ∧ Start + i < Start + i) := by omega
    have hc2 : Start ≤ Start + i ∧ Start + i < Start + Count := by omega
    have hO : State.2[Start + i]? = some (PoseEntry MeshBases Chain i) := by
      rw [hS2 (Start + i), if_neg hc1, if_pos hc2, Nat.add_sub_cancel_left]
    have hlen1 : i < State.1.length := by
      by_contra hge
      rw [List.getElem?_eq_none (by omega)] at hSi
      cases hSi
    have hlen2 : Start + i < State.2.length := by omega
    simp only [(TArray.get_eq_ok _ _ _).mpr hSi, (TArray.get_eq_ok _ _ _).mpr hO, ok_bind,
      TArray.set_of_lt _ _ _ hlen1, TArray.set_of_lt _ _ _ hlen2]
    refine Succeeds.pure ⟨?_, by simp [hS2L], ?_⟩
    · intro j
      by_cases hji : j = i
      · subst hji
        rw [List.getElem?_set_self hlen1, List.getElem?_eq_getElem hiL]
        have hne : j ≠ 0 := by omega
        simp [RenderedLink, hne]
      · rw [List.getElem?_set_ne (fun h => hji h.symm), hS1 j]
        congr 1
        funext Link
        have : j < i + 1 ↔ j < i := by omega
        simp only [this]
    · intro j
      by_cases hji : j = Start + i
      · subst hji
        rw [List.getElem?_set_self hlen2]
        have h3 : Start ≤ Start + i ∧ Start + i < Start + (i + 1) := by omega
        have hne : i ≠ 0 := by omega
        simp only [h3, and_self, if_true, Nat.add_sub_cancel_left, TranslatedEntry, hne, if_false,
          LinkPosition, List.getElem?_eq_getElem hiL]
      · rw [List.getElem?_set_ne (fun h => hji h.symm), hS2 j]
        have : (Start ≤ j ∧ j < Start + (i + 1)) ↔ (Start ≤ j ∧ j < Start + i) := by omega
        simp only [this]
  · intro State ⟨hS1, hS2L, hS2⟩
    refine ⟨hS1, hS2L, fun j => ?_⟩
    rw [hS2 j]
    by_cases hj : Start ≤ j ∧ j < Start + Count
    · simp [hj]
    · simp [hj]

/-- The end of `SimulateSoftBoneChain`, from its parts: given what the initialisation, the
target computation and the loop (or the single step) return, the call ends without a fault;
every link is the link the loop left with its render position and its component-space
position set, and the output list holds the chain's translated entries, re-oriented, and is
as before elsewhere. -/
theorem SimulateSoftBoneChain_of_parts (E : Engine K) (U : Uninitialized K) (Fuel : Nat)
    (N : FAnimNode_SoftBone K) (Chain : FChainInfo K)
    (SkelComp : Option (USkeletalMeshComponent K)) (MeshBases : FCSPose K)
    (Out : List (FBoneTransform K)) (Start : Nat) (InRemainingTime : K)
    (I : FChainInfo K × List (FBoneTransform K)) (C : List (FBoneTransform K) × List (FVector K))
    (Root : FSoftBoneLink K) (S : SubstepState K) (FinalRoot TargetRoot : FVector K)
    (hBones : 2 ≤ Chain.BoneIndices.length)
    (hOut : Start + Chain.BoneIndices.length ≤ Out.length)
    (hI : (if Chain.PrevBoneLinks.length = 0 then
        InitializeChain E U N Chain SkelComp MeshBases Out Start
      else pure (Chain, Out)) = .ok I)
    (hC : ComputeTargetPositions N I.1 SkelComp MeshBases I.2 Start [] = .ok C)
    (hRoot : I.1.PrevBoneLinks[0]? = some Root)
    (hS : (if N.bGuaranteeSameSimulationResult = true then
        SubstepLoop E N C.2 Fuel
          ⟨I.1, ((List.range C.2.length).map U.Target).set 0 Root.Position, InRemainingTime, 0⟩
      else
        (TimeIntegration E N I.1 N.FixedTimeStep
          (((List.range C.2.length).map U.Target).set 0 Root.Position) >>= fun Chain' =>
          pure (⟨Chain', ((List.range C.2.length).map U.Target).set 0 Root.Position, 0, 1⟩ :
            SubstepState K))) = .ok S)
    (hSB : S.Chain.BoneIndices = Chain.BoneIndices)
    (hSL : S.Chain.PrevBoneLinks.length = NumLinks N Chain)
    (hFinal : C.2[0]? = some FinalRoot) (hTarget : S.TargetPositions[0]? = some TargetRoot)
    (hCW : OutputWritten MeshBases Chain Out Start Chain.BoneIndices.length C.1) :
    Succeeds (SimulateSoftBoneChain E U Fuel N Chain SkelComp MeshBases Out Start InRemainingTime)
      (fun R =>
        R.Chain.BoneIndices = Chain.BoneIndices ∧ R.RemainingTime = S.InRemainingTime ∧
        R.Steps = S.Steps ∧
        (∀ j, R.Chain.PrevBoneLinks[j]? = S.Chain.PrevBoneLinks[j]?.map
          (RenderedLink SkelComp (FinalRoot - TargetRoot)
            (MeshBases.ComponentSpaceTransform (Chain.Bone 0)).Translation j)) ∧
        R.OutBoneTransforms.length = Out.length ∧
        (∀ j, ¬ (Start ≤ j ∧ j < Start + Chain.BoneIndices.length) →
          R.OutBoneTransforms[j]? = Out[j]?) ∧
        ∀ i, i < Chain.BoneIndices.length → ∃ Rotation : FQuat K,
          R.OutBoneTransforms[Start + i]? = some
            { TranslatedEntry MeshBases Chain SkelComp (FinalRoot - TargetRoot)
                S.Chain.PrevBoneLinks i with
              Transform :=
                { (TranslatedEntry MeshBases Chain SkelComp (FinalRoot - TargetRoot)
                    S.Chain.PrevBoneLinks i).Transform with Rotation := Rotation } }) := by
  unfold SimulateSoftBoneChain
  have hn0 : 0 < Chain.BoneIndices.length := by omega
  have hNL := NumLinks_ge N Chain
  have hC2 : 0 < C.2.length := by
    by_contra h
    rw [List.getElem?_eq_none (by omega)] at hFinal
    cases hFinal
  have hT0 : 0 < ((List.range C.2.length).map U.Target).length := by simpa using hC2
  have hSL0 : 0 < S.Chain.PrevBoneLinks.length := by omega
  have hP0 : 0 < (PullBonesToFinalPosition S.Chain.PrevBoneLinks (FinalRoot - TargetRoot)).length := by
    rw [PullBonesToFinalPosition_length]; exact hSL0
  have hStart : C.1[Start]? = some (PoseEntry MeshBases Chain 0) := by
    simpa using hCW.getElem? 0 hn0
  simp only [TArray.get_of_lt _ 0 hn0, ok_bind, hI, hC, (TArray.get_eq_ok _ _ _).mpr hRoot,
    TArray.set_of_lt _ 0 _ hT0]
  apply Succeeds.bind (fun S' : SubstepState K => S' = S) ⟨S, hS, rfl⟩
  intro S' hS'
  subst S'
  simp only [(TArray.get_eq_ok _ _ _).mpr hFinal, (TArray.get_eq_ok _ _ _).mpr hTarget, ok_bind,
    TArray.get_of_lt _ 0 hP0, (TArray.get_eq_ok _ _ _).mpr hStart, TArray.set_of_lt _ 0 _ hP0]
  -- the translations
  apply Succeeds.bind _ (translation_loop SkelComp MeshBases Chain (FinalRoot - TargetRoot)
    (MeshBases.ComponentSpaceTransform (Chain.Bone 0)).Translation S.Chain.PrevBoneLinks _ Out C.1
    Start S.Chain.BoneIndices.length (by rw [hSB]; omega) (by rw [hSB, hSL]; exact hNL)
    (by rw [hSB]; exact hOut) (by rw [hSB]; exact hCW) ?_)
  swap
  · intro j
    by_cases hj : j = 0
    · subst hj
      rw [List.getElem?_set_self hP0, List.getElem?_eq_getElem hSL0]
      have h1 := PullBonesToFinalPosition_getElem? S.Chain.PrevBoneLinks (FinalRoot - TargetRoot) 0
      rw [List.getElem?_eq_getElem hP0, List.getElem?_eq_getElem hSL0] at h1
      simp [Option.some.inj h1, RenderedLink, PoseEntry]
    · rw [List.getElem?_set_ne (fun h => hj h.symm), PullBonesToFinalPosition_getElem?]
      simp [hj]
  rintro State ⟨hS1, hS2L, hS2⟩
  rw [hSB] at hS1 hS2
  have hLen1 : State.1.length = S.Chain.PrevBoneLinks.length :=
    length_eq_of_getElem?_map _ hS1
  -- the virtual tip link
  apply Succeeds.bind (fun Links : List (FSoftBoneLink K) =>
    ∀ j, Links[j]? = S.Chain.PrevBoneLinks[j]?.map
      (RenderedLink SkelComp (FinalRoot - TargetRoot)
        (MeshBases.ComponentSpaceTransform (Chain.Bone 0)).Translation j))
  · by_cases hTip : N.bAllowTipBoneRotation = true
    · have hL1 : S.Chain.PrevBoneLinks.length = Chain.BoneIndices.length + 1 := by
        rw [hSL]; simp [NumLinks, hTip]
      have hlast : State.1.length - 1 < State.1.length := by omega
      have hlastS : State.1.length - 1 < S.Chain.PrevBoneLinks.length := by omega
      have hGet := hS1 (State.1.length - 1)
      have hnot : ¬ State.1.length - 1 < Chain.BoneIndices.length := by omega
      rw [List.getElem?_eq_getElem hlastS] at hGet
      simp only [hnot, if_false, Option.map_some'] at hGet
      simp only [hTip, if_true,
        TArray.getI_eq_get State.1 ((State.1.length : Int) - 1) (State.1.length - 1) (by omega),
        TArray.setI_eq_set State.1 ((State.1.length : Int) - 1) (State.1.length - 1) _ (by omega),
        (TArray.get_eq_ok _ _ _).mpr hGet, ok_bind, TArray.set_of_lt _ _ _ hlast]
      refine Succeeds.ok (fun j => ?_)
      by_cases hj : j = State.1.length - 1
      · subst hj
        rw [List.getElem?_set_self hlast, List.getElem?_eq_getElem hlastS]
        have hne : State.1.length - 1 ≠ 0 := by omega
        simp [RenderedLink, hne]
      · rw [List.getElem?_set_ne (fun h => hj h.symm), hS1 j]
        by_cases hjn : j < Chain.BoneIndices.length
        · simp [hjn]
        · have hjS : S.Chain.PrevBoneLinks.length ≤ j := by omega
          rw [List.getElem?_eq_none hjS]
          rfl
    · have hL1 : S.Chain.PrevBoneLinks.length = Chain.BoneIndices.length := by
        rw [hSL]; simp [NumLinks, hTip]
      simp only [hTip]
      refine Succeeds.pure (fun j => ?_)
      rw [hS1 j]
      by_cases hjn : j < Chain.BoneIndices.length
      · simp [hjn]
      · have hjS : S.Chain.PrevBoneLinks.length ≤ j := by omega
        rw [List.getElem?_eq_none hjS]
        rfl
  intro Links hLinksFinal
  have hLenF : Links.length = S.Chain.PrevBoneLinks.length := length_eq_of_getElem?_map _ hLinksFinal
  -- the re-orientation
  apply Succeeds.bind _ (ReOrientBoneRotations_frame E N
    { S.Chain with PrevBoneLinks := Links } MeshBases State.2 Start
    (by simp only [hSB]; exact hBones) (by simp only [NumLinks, hSB, hLenF, hSL])
    (by simp only [hSB, hS2L]; exact hOut))
  rintro Out' ⟨hOL, hOE⟩
  simp only [hSB] at hOE
  refine Succeeds.pure ⟨hSB, rfl, rfl, hLinksFinal, by rw [hOL, hS2L], ?_, ?_⟩
  · intro j hj
    rw [(hOE j).1 hj, hS2 j, if_neg hj]
  · intro i hi
    have h1 : Start ≤ Start + i ∧ Start + i < Start + Chain.BoneIndices.length := by omega
    have h2 := hS2 (Start + i)
    rw [if_pos h1, Nat.add_sub_cancel_left] at h2
    exact (hOE (Start + i)).2 _ h2

end SimulatePost

end SoftBone

namespace SoftBone

section FrameRule

variable {K : Type} [LinearOrderedField K]

omit [LinearOrderedField K] in
theorem Succeeds.and {α : Type} {x : Except Fault α} {P Q : α → Prop} (hP : Succeeds x P)
    (hQ : Succeeds x Q) : Succeeds x (fun a => P a ∧ Q a) := by
  obtain ⟨a, ha, hPa⟩ := hP
  exact ⟨a, ha, hPa, hQ.result ha⟩

omit [LinearOrderedField K] in
theorem getElem?_map_range {α : Type} (f : Nat → α) (n j : Nat) :
    ((List.range n).map f)[j]? = if j < n then some (f j) else none := by
  by_cases h : j < n
  · simp [h, List.getElem?_range h]
  · simp [h]
    omega

/-- One round of the `while` loop is one physical step against the interpolated targets. -/
theorem Substep_eq (E : Engine K) (N : FAnimNode_SoftBone K) (Final : List (FVector K))
    (S : SubstepState K) (hFinal : S.TargetPositions.length ≤ Final.length)
    (hLinks : S.TargetPositions.length ≤ S.Chain.PrevBoneLinks.length) :
    Substep E N Final S =
      (TimeIntegration E N S.Chain N.FixedTimeStep (InterpolatedTargets N Final S) >>= fun Chain' =>
        pure ⟨Chain', InterpolatedTargets N Final S, S.InRemainingTime - N.FixedTimeStep,
          S.Steps + 1⟩) := by
  unfold Substep
  have hLoop := @forLoop_pointwise (FVector K)
    (fun Index (Targets : List (FVector K)) => do
      let Final ← TArray.get Final Index
      let Link ← TArray.get S.Chain.PrevBoneLinks Index
      TArray.set Targets Index ((N.FixedTimeStep / S.InRemainingTime) • Final +
        (1 - N.FixedTimeStep / S.InRemainingTime) • Link.Position))
    (fun Index _ =>
      (N.FixedTimeStep / S.InRemainingTime) • Final.getD Index FVector.ZeroVector +
        (1 - N.FixedTimeStep / S.InRemainingTime) • LinkPosition S.Chain.PrevBoneLinks Index)
    S.TargetPositions 0 S.TargetPositions.length (Nat.zero_le _) (le_refl _) ?_
  · obtain ⟨Targets, hT, hTL, hTE⟩ := hLoop
    have hEq : Targets = InterpolatedTargets N Final S := by
      apply List.ext_getElem?
      intro j
      unfold InterpolatedTargets
      rw [getElem?_map_range]
      by_cases hj : j < S.TargetPositions.length
      · rw [hTE j hj]
        simp [hj]
      · rw [List.getElem?_eq_none (by omega)]
        simp [hj]
    simp only [hT, ok_bind, hEq]
  · intro j A hj _ hjT
    have h1 : j < Final.length := by omega
    have h2 : j < S.Chain.PrevBoneLinks.length := by omega
    simp only [TArray.get_of_lt _ j h1, TArray.get_of_lt _ j h2, ok_bind, TArray.set_of_lt _ j _ hj,
      LinkPosition, List.getElem?_eq_getElem h2, List.getD_eq_getElem _ _ h1]

end FrameRule

end SoftBone

namespace SoftBone

section FrameRule2

variable {K : Type} [LinearOrderedField K]

omit [LinearOrderedField K] in
theorem NumLinks_congr (N : FAnimNode_SoftBone K) (Chain : FChainInfo K)
    (Links : List (FSoftBoneLink K)) :
    NumLinks N ⟨Chain.BoneIndices, Links⟩ = NumLinks N Chain := rfl

theorem StartLinks_length (E : Engine K) (U : Uninitialized K) (N : FAnimNode_SoftBone K)
    (Chain : FChainInfo K) (SkelComp : Option (USkeletalMeshComponent K)) (MeshBases : FCSPose K)
    (hLinks : Chain.PrevBoneLinks = [] ∨ Chain.PrevBoneLinks.length = NumLinks N Chain) :
    (StartLinks E U N Chain SkelComp MeshBases).length = NumLinks N Chain := by
  unfold StartLinks
  by_cases h0 : Chain.PrevBoneLinks.length = 0
  · simp [h0]
  · simp only [h0, if_false]
    rcases hLinks with h | h
    · rw [h] at h0; simp at h0
    · exact h

theorem FinalTargets_length (N : FAnimNode_SoftBone K) (Chain : FChainInfo K)
    (SkelComp : Option (USkeletalMeshComponent K)) (MeshBases : FCSPose K) :
    (FinalTargets N Chain SkelComp MeshBases).length = NumLinks N Chain := by
  simp [FinalTargets]

/-- The first two parts of `SimulateSoftBoneChain`: the initialisation, when the chain has no
links, leaves the starting links; the target computation leaves the pose entries of the chain
in the output list and returns the final targets. -/
theorem SimulateSoftBoneChain_setup (E : Engine K) (U : Uninitialized K)
    (N : FAnimNode_SoftBone K) (Chain : FChainInfo K)
    (SkelComp : Option (USkeletalMeshComponent K)) (MeshBases : FCSPose K)
    (Out : List (FBoneTransform K)) (Start : Nat)
    (hBones : 2 ≤ Chain.BoneIndices.length)
    (hOut : Start + Chain.BoneIndices.length ≤ Out.length) :
    ∃ (I : FChainInfo K × List (FBoneTransform K))
      (C : List (FBoneTransform K) × List (FVector K)),
      (if Chain.PrevBoneLinks.length = 0 then
        InitializeChain E U N Chain SkelComp MeshBases Out Start
      else pure (Chain, Out)) = .ok I ∧
      I.1 = ⟨Chain.BoneIndices, StartLinks E U N Chain SkelComp MeshBases⟩ ∧
      ComputeTargetPositions N I.1 SkelComp MeshBases I.2 Start [] = .ok C ∧
      C.2 = FinalTargets N Chain SkelComp MeshBases ∧
      OutputWritten MeshBases Chain Out Start Chain.BoneIndices.length C.1 := by
  have hI : ∃ I : FChainInfo K × List (FBoneTransform K),
      (if Chain.PrevBoneLinks.length = 0 then
        InitializeChain E U N Chain SkelComp MeshBases Out Start
      else pure (Chain, Out)) = .ok I ∧
      I.1 = ⟨Chain.BoneIndices, StartLinks E U N Chain SkelComp MeshBases⟩ ∧
      (I.2 = Out ∨ OutputWritten MeshBases Chain Out Start Chain.BoneIndices.length I.2) := by
    by_cases h0 : Chain.PrevBoneLinks.length = 0
    · have hNil : Chain.PrevBoneLinks = [] := List.length_eq_zero.mp h0
      obtain ⟨I, hI, hB, hL, hW⟩ :=
        InitializeChain_entries E U N Chain SkelComp MeshBases Out Start hBones hNil hOut
      refine ⟨I, by simp only [h0, if_true]; exact hI, ?_, Or.inr hW⟩
      obtain ⟨⟨B, L⟩, O⟩ := I
      simp only at hB hL
      simp only [StartLinks, h0, if_true, hB, hL]
    · refine ⟨(Chain, Out), by simp only [h0, if_false]; rfl, ?_, Or.inl rfl⟩
      simp only [StartLinks, h0, if_false]
  obtain ⟨I, hIeq, hI1, hI2⟩ := hI
  have hI2L : I.2.length = Out.length := by
    rcases hI2 with h | h
    · rw [h]
    · exact h.1
  have hC := ComputeTargetPositions_entries N I.1 SkelComp MeshBases I.2 Start
    (by rw [hI1]; exact hBones) (by rw [hI1, hI2L]; exact hOut)
  obtain ⟨C, hCeq, hCW, hC2⟩ := hC
  refine ⟨I, C, hIeq, hI1, hCeq, ?_, ?_⟩
  · rw [hC2, hI1]
    rfl
  · rw [hI1] at hCW
    have hCW' : OutputWritten MeshBases Chain I.2 Start Chain.BoneIndices.length C.1 := hCW
    rcases hI2 with h | h
    · rw [h] at hCW'; exact hCW'
    · exact h.trans hCW'

end FrameRule2

end SoftBone

namespace SoftBone

section FrameRule3

variable {K : Type} [LinearOrderedField K] [FloorRing K]

/-- The frame rule of `SimulateSoftBoneChain`, with an invariant of the links: on a chain of
at least two bones whose links do not exist yet or are as many as the tip rotation asks for,
with room in the output list (and, in deterministic mode, a positive fixed step and enough
rounds), when the starting links have the invariant and every physical step of the call keeps
it, the call ends without a fault; its links are links with the invariant, with render and
component-space positions set; the output list holds the chain's translated entries,
re-oriented, and is as before elsewhere; the steps and the returned time are those of the
mode. -/
theorem SimulateSoftBoneChain_frame (E : Engine K) (U : Uninitialized K) (Fuel : Nat)
    (N : FAnimNode_SoftBone K) (Chain : FChainInfo K)
    (SkelComp : Option (USkeletalMeshComponent K)) (MeshBases : FCSPose K)
    (Out : List (FBoneTransform K)) (Start : Nat) (InRemainingTime : K)
    (Inv : List (FSoftBoneLink K) → Prop)
    (hBones : 2 ≤ Chain.BoneIndices.length)
    (hLinks : Chain.PrevBoneLinks = [] ∨ Chain.PrevBoneLinks.length = NumLinks N Chain)
    (hOut : Start + Chain.BoneIndices.length ≤ Out.length)
    (hStep : N.bGuaranteeSameSimulationResult = true →
      0 < N.FixedTimeStep ∧ ⌊InRemainingTime / N.FixedTimeStep⌋₊ ≤ Fuel)
    (hInv0 : N.bGuaranteeSameSimulationResult = true →
      Inv (StartLinks E U N Chain SkelComp MeshBases))
    (hDet : N.bGuaranteeSameSimulationResult = true → ∀ S : SubstepState K,
      S.Chain.BoneIndices = Chain.BoneIndices →
      S.Chain.PrevBoneLinks.length = NumLinks N Chain →
      S.TargetPositions.length = NumLinks N Chain →
      Inv S.Chain.PrevBoneLinks → N.FixedTimeStep ≤ S.InRemainingTime →
      Succeeds (TimeIntegration E N S.Chain N.FixedTimeStep
        (InterpolatedTargets N (FinalTargets N Chain SkelComp MeshBases) S))
        (fun Chain' => Inv Chain'.PrevBoneLinks))
    (hNonDet : N.bGuaranteeSameSimulationResult = false → ∀ Targets : List (FVector K),
      Targets.length = NumLinks N Chain →
      Succeeds (TimeIntegration E N ⟨Chain.BoneIndices, StartLinks E U N Chain SkelComp MeshBases⟩
        N.FixedTimeStep Targets) (fun Chain' => Inv Chain'.PrevBoneLinks)) :
    Succeeds (SimulateSoftBoneChain E U Fuel N Chain SkelComp MeshBases Out Start InRemainingTime)
      (fun R => ∃ (Links : List (FSoftBoneLink K)) (TargetRoot : FVector K),
        Inv Links ∧ Links.length = NumLinks N Chain ∧
        R.Chain.BoneIndices = Chain.BoneIndices ∧
        (∀ j, R.Chain.PrevBoneLinks[j]? = Links[j]?.map
          (RenderedLink SkelComp (FinalTarget Chain SkelComp MeshBases 0 - TargetRoot)
            (MeshBases.ComponentSpaceTransform (Chain.Bone 0)).Translation j)) ∧
        R.OutBoneTransforms.length = Out.length ∧
        (∀ j, ¬ (Start ≤ j ∧ j < Start + Chain.BoneIndices.length) →
          R.OutBoneTransforms[j]? = Out[j]?) ∧
        (∀ i, i < Chain.BoneIndices.length → ∃ Rotation : FQuat K,
          R.OutBoneTransforms[Start + i]? = some
            { TranslatedEntry MeshBases Chain SkelComp
                (FinalTarget Chain SkelComp MeshBases 0 - TargetRoot) Links i with
              Transform :=
                { (TranslatedEntry MeshBases Chain SkelComp
                    (FinalTarget Chain SkelComp MeshBases 0 - TargetRoot) Links i).Transform with
                  Rotation := Rotation } }) ∧
        (N.bGuaranteeSameSimulationResult = true →
          R.Steps = ⌊InRemainingTime / N.FixedTimeStep⌋₊ ∧
          R.RemainingTime = InRemainingTime -
            (⌊InRemainingTime / N.FixedTimeStep⌋₊ : K) * N.FixedTimeStep ∧
          R.RemainingTime < N.FixedTimeStep) ∧
        (N.bGuaranteeSameSimulationResult = false → R.Steps = 1 ∧ R.RemainingTime = 0)) := by
  obtain ⟨I, C, hI, hI1, hC, hC2, hCW⟩ :=
    SimulateSoftBoneChain_setup E U N Chain SkelComp MeshBases Out Start hBones hOut
  have hSLen := StartLinks_length E U N Chain SkelComp MeshBases hLinks
  have hNL := NumLinks_ge N Chain
  have hFLen := FinalTargets_length N Chain SkelComp MeshBases
  have hL0 : 0 < (StartLinks E U N Chain SkelComp MeshBases).length := by omega
  have hRoot : I.1.PrevBoneLinks[0]? = some (StartLinks E U N Chain SkelComp MeshBases)[0] := by
    rw [hI1]
    exact List.getElem?_eq_getElem hL0
  have hF0 : 0 < (FinalTargets N Chain SkelComp MeshBases).length := by omega
  have hFinal : C.2[0]? = some (FinalTarget Chain SkelComp MeshBases 0) := by
    rw [hC2]
    unfold FinalTargets
    rw [getElem?_map_range]
    simp only [FinalTargets, List.length_map, List.length_range] at hF0
    simp [hF0]
  -- the loop, or the single step
  have hLoop : Succeeds
      (if N.bGuaranteeSameSimulationResult = true then
        SubstepLoop E N C.2 Fuel
          ⟨I.1, ((List.range C.2.length).map U.Target).set 0
            (StartLinks E U N Chain SkelComp MeshBases)[0].Position, InRemainingTime, 0⟩
      else
        (TimeIntegration E N I.1 N.FixedTimeStep
          (((List.range C.2.length).map U.Target).set 0
            (StartLinks E U N Chain SkelComp MeshBases)[0].Position) >>= fun Chain' =>
          pure (⟨Chain', ((List.range C.2.length).map U.Target).set 0
            (StartLinks E U N Chain SkelComp MeshBases)[0].Position, 0, 1⟩ : SubstepState K)))
      (fun S =>
        (S.Chain.BoneIndices = Chain.BoneIndices ∧
          S.Chain.PrevBoneLinks.length = NumLinks N Chain ∧
          S.TargetPositions.length = NumLinks N Chain ∧ Inv S.Chain.PrevBoneLinks) ∧
        (N.bGuaranteeSameSimulationResult = true →
          S.Steps = ⌊InRemainingTime / N.FixedTimeStep⌋₊ ∧
          S.InRemainingTime = InRemainingTime -
            (⌊InRemainingTime / N.FixedTimeStep⌋₊ : K) * N.FixedTimeStep ∧
          S.InRemainingTime < N.FixedTimeStep) ∧
        (N.bGuaranteeSameSimulationResult = false → S.Steps = 1 ∧ S.InRemainingTime = 0)) := by
    by_cases hD : N.bGuaranteeSameSimulationResult = true
    · simp only [hD, if_true]
      obtain ⟨hPos, hFuel⟩ := hStep hD
      refine (SubstepLoop_spec E N C.2 (fun S : SubstepState K =>
        S.Chain.BoneIndices = Chain.BoneIndices ∧
        S.Chain.PrevBoneLinks.length = NumLinks N Chain ∧
        S.TargetPositions.length = NumLinks N Chain ∧ Inv S.Chain.PrevBoneLinks) hPos ?_ Fuel
        ⟨I.1, _, InRemainingTime, 0⟩ ?_ hFuel).mono ?_
      · intro S ⟨hSB, hSL, hST, hSI⟩ hge
        rw [Substep_eq E N C.2 S (by rw [hST, hC2, hFLen]) (by rw [hST, hSL]), hC2]
        have h1 := hDet hD S hSB hSL hST hSI hge
        have h2 := TimeIntegration_spec E N S.Chain N.FixedTimeStep
          (InterpolatedTargets N (FinalTargets N Chain SkelComp MeshBases) S)
          (by simp [InterpolatedTargets, hST, hSL]) (by omega)
        obtain ⟨Chain', hChain', hInv', hB', hL', -⟩ := h1.and h2
        refine ⟨_, by rw [hChain']; rfl, ⟨by rw [hB', hSB], by rw [hL', hSL], ?_, hInv'⟩, rfl, rfl⟩
        simp [InterpolatedTargets, hST]
      · rw [hI1]
        refine ⟨rfl, hSLen, ?_, hInv0 hD⟩
        simp [hC2, hFLen]
      · intro S ⟨hInv, h1, h2, h3⟩
        refine ⟨hInv, fun _ => ⟨by simpa using h1, h2, h3⟩, fun h => ?_⟩
        cases h
    · have hD' : N.bGuaranteeSameSimulationResult = false := by
        cases h : N.bGuaranteeSameSimulationResult with
        | true => exact absurd h hD
        | false => rfl
      simp only [hD, if_false]
      have hTLen : (((List.range C.2.length).map U.Target).set 0
          (StartLinks E U N Chain SkelComp MeshBases)[0].Position).length = NumLinks N Chain := by
        simp [hC2, hFLen]
      rw [hI1]
      have h1 := hNonDet hD' _ hTLen
      have h2 := TimeIntegration_spec E N
        ⟨Chain.BoneIndices, StartLinks E U N Chain SkelComp MeshBases⟩ N.FixedTimeStep _
        (by rw [hTLen, hSLen]) hL0
      obtain ⟨Chain', hChain', hInv', hB', hL', -⟩ := h1.and h2
      refine ⟨_, by rw [hChain']; rfl, ⟨hB', by rw [hL']; exact hSLen, hTLen, hInv'⟩,
        fun h => ?_, fun _ => ⟨rfl, rfl⟩⟩
      cases h
  obtain ⟨S, hS, ⟨hSB, hSL, hST, hSI⟩, hDetFacts, hNonDetFacts⟩ := hLoop
  have hT0 : 0 < S.TargetPositions.length := by omega
  refine (SimulateSoftBoneChain_of_parts E U Fuel N Chain SkelComp MeshBases Out Start
    InRemainingTime I C _ S (FinalTarget Chain SkelComp MeshBases 0) S.TargetPositions[0]
    hBones hOut hI hC hRoot hS hSB hSL hFinal (List.getElem?_eq_getElem hT0) hCW).mono ?_
  rintro R ⟨h1, h2, h3, h4, h5, h6, h7⟩
  refine ⟨S.Chain.PrevBoneLinks, S.TargetPositions[0], hSI, hSL, h1, h4, h5, h6, h7, ?_, ?_⟩
  · intro hD
    rw [h2, h3]
    exact hDetFacts hD
  · intro hD
    rw [h2, h3]
    exact hNonDetFacts hD

end FrameRule3

end SoftBone

namespace SoftBone

section Steps

variable {K : Type} [LinearOrderedField K]

/-- The rule for a sequence of physical steps with an invariant that counts the steps. -/
theorem RunSteps_invariant (E : Engine K) (N : FAnimNode_SoftBone K)
    (Inv : Nat → FChainInfo K → Prop) :
    ∀ (Steps : List (K × List (FVector K))),
      (∀ m Chain Step, Step ∈ Steps → Inv m Chain →
        Succeeds (TimeIntegration E N Chain Step.1 Step.2) (Inv (m + 1))) →
      ∀ (m : Nat) (Chain : FChainInfo K), Inv m Chain →
        Succeeds (RunSteps E N Chain Steps) (Inv (m + Steps.length)) := by
  intro Steps
  induction Steps with
  | nil => intro _ m Chain h; exact Succeeds.ok h
  | cons Step Rest ih =>
    intro hStep m Chain h
    obtain ⟨Chain', hC, hInv⟩ := hStep m Chain Step (List.mem_cons_self _ _) h
    obtain ⟨Chain'', hC', hInv'⟩ := ih (fun m C S hS => hStep m C S (List.mem_cons_of_mem _ hS))
      (m + 1) Chain' hInv
    refine ⟨Chain'', ?_, ?_⟩
    · simp only [RunSteps, hC, hC']
    · have : m + (Step :: Rest).length = m + 1 + Rest.length := by simp; omega
      rw [this]; exact hInv'

omit [LinearOrderedField K] in
theorem lt_length_of_getElem? {α : Type} {A : List α} {j : Nat} {a : α} (h : A[j]? = some a) :
    j < A.length := by
  by_contra hge
  rw [List.getElem?_eq_none (by omega)] at h
  cases h

end Steps

end SoftBone

namespace SoftBone

section Layout

variable {K : Type} [LinearOrderedField K]

omit [LinearOrderedField K] in
theorem ChainOffset_zero (Chains : List (FChainInfo K)) : ChainOffset Chains 0 = 0 := by
  simp [ChainOffset]

omit [LinearOrderedField K] in
theorem ChainOffset_succ (Chains : List (FChainInfo K)) (k : Nat) (hk : k < Chains.length) :
    ChainOffset Chains (k + 1) = ChainOffset Chains k + Chains[k].BoneIndices.length := by
  unfold ChainOffset
  rw [List.take_succ, List.sum_append]
  simp [List.getElem?_eq_getElem hk]

omit [LinearOrderedField K] in
theorem ChainOffset_length (Chains : List (FChainInfo K)) :
    ChainOffset Chains Chains.length =
      (Chains.map (fun Chain => Chain.BoneIndices.length)).sum := by
  unfold ChainOffset
  rw [List.take_of_length_le (by simp)]

omit [LinearOrderedField K] in
theorem ChainOffset_mono (Chains : List (FChainInfo K)) {k c : Nat} (hkc : k ≤ c) :
    ChainOffset Chains k ≤ ChainOffset Chains c := by
  induction c with
  | zero =>
    have : k = 0 := by omega
    rw [this]
  | succ c ih =>
    by_cases hk : k = c + 1
    · rw [hk]
    · have h1 := ih (by omega)
      by_cases hc : c < Chains.length
      · rw [ChainOffset_succ Chains c hc]; omega
      · have h2 : ChainOffset Chains (c + 1) = ChainOffset Chains c := by
          unfold ChainOffset
          rw [List.take_of_length_le (by simp; omega), List.take_of_length_le (by simp; omega)]
        rw [h2]; exact h1

omit [LinearOrderedField K] in
theorem ChainOffset_le_sum (Chains : List (FChainInfo K)) (k : Nat) :
    ChainOffset Chains k ≤ (Chains.map (fun Chain => Chain.BoneIndices.length)).sum := by
  by_cases hk : k ≤ Chains.length
  · rw [← ChainOffset_length]
    exact ChainOffset_mono Chains hk
  · unfold ChainOffset
    rw [List.take_of_length_le (by simp; omega)]

omit [LinearOrderedField K] in
theorem ChainOffset_congr {A B : List (FChainInfo K)}
    (h : A.map (fun Chain => Chain.BoneIndices) = B.map (fun Chain => Chain.BoneIndices))
    (k : Nat) : ChainOffset A k = ChainOffset B k := by
  unfold ChainOffset
  have h1 : A.map (fun Chain => Chain.BoneIndices.length) =
      (A.map (fun Chain => Chain.BoneIndices)).map List.length := by
    rw [List.map_map]; rfl
  have h2 : B.map (fun Chain => Chain.BoneIndices.length) =
      (B.map (fun Chain => Chain.BoneIndices)).map List.length := by
    rw [List.map_map]; rfl
  rw [h1, h2, h]

theorem TranslatedEntry_BoneIndex (MeshBases : FCSPose K) (Chain : FChainInfo K)
    (SkelComp : Option (USkeletalMeshComponent K)) (Diff : FVector K)
    (Links : List (FSoftBoneLink K)) (Index : Nat) :
    (TranslatedEntry MeshBases Chain SkelComp Diff Links Index).BoneIndex = Chain.Bone Index := by
  unfold TranslatedEntry
  by_cases h : Index = 0
  · subst h; simp [PoseEntry]
  · simp [h, PoseEntry]

end Layout

end SoftBone

namespace SoftBone

section Quiet

variable {K : Type} [LinearOrderedField K]

/-- The rule for a sequence of frames on one chain, with an invariant of the chain. -/
theorem SimulateFrames_invariant (E : Engine K) (Fuel : Nat) (N : FAnimNode_SoftBone K)
    (Start : Nat) (Inv : FChainInfo K → Prop) :
    ∀ (Frames : List (FrameInput K)),
      (∀ Chain Frame, Frame ∈ Frames → Inv Chain →
        Succeeds (SimulateSoftBoneChain E Frame.Memory Fuel N Chain Frame.SkelComp Frame.MeshBases
          Frame.OutBoneTransforms Start Frame.InRemainingTime) (fun R => Inv R.Chain)) →
      ∀ Chain : FChainInfo K, Inv Chain →
        Succeeds (SimulateFrames E Fuel N Start Chain Frames) Inv := by
  intro Frames
  induction Frames with
  | nil => intro _ Chain h; exact Succeeds.ok h
  | cons Frame Rest ih =>
    intro hFrame Chain h
    obtain ⟨R, hR, hInv⟩ := hFrame Chain Frame (List.mem_cons_self _ _) h
    obtain ⟨Chain', hC', hInv'⟩ :=
      ih (fun C F hF => hFrame C F (List.mem_cons_of_mem _ hF)) R.Chain hInv
    exact ⟨Chain', by simp only [SimulateFrames, hR, hC'], hInv'⟩

end Quiet

section Quiet2

variable {K : Type} [LinearOrderedField K] [FloorRing K]

end Quiet2

end SoftBone

namespace SoftBone

section Rest

variable {K : Type} [LinearOrderedField K]

/-- With a component-to-world map that keeps distances, the world locations of two bones are
as far from one another as their component-space locations. -/
theorem PreservesDistances.location {SkelComp : Option (USkeletalMeshComponent K)}
    (h : PreservesDistances SkelComp) (A B : FTransform K) :
    FVector.SizeSquared (LocationInWorldSpace SkelComp A - LocationInWorldSpace SkelComp B) =
      FVector.SizeSquared (A.Translation - B.Translation) := by
  cases SkelComp with
  | none => rfl
  | some Comp => exact h A.Translation B.Translation

/-- The length `InitializeChain` gives a link after the root is the distance of the link's
target to the target of the link before it, when the component-to-world map keeps
distances. -/
theorem InitialLength_eq (E : Engine K) (N : FAnimNode_SoftBone K) (Chain : FChainInfo K)
    (SkelComp : Option (USkeletalMeshComponent K)) (MeshBases : FCSPose K)
    (hIso : PreservesDistances SkelComp) (hBones : 2 ≤ Chain.BoneIndices.length) (j : Nat)
    (h1 : 1 ≤ j) (hj : j < NumLinks N Chain) :
    InitialLength E Chain MeshBases j =
      E.Sqrt (FVector.SizeSquared (FinalTarget Chain SkelComp MeshBases j -
        FinalTarget Chain SkelComp MeshBases (j - 1))) := by
  have hj0 : j ≠ 0 := by omega
  by_cases hjn : j < Chain.BoneIndices.length
  · have hp : j - 1 < Chain.BoneIndices.length := by omega
    simp only [InitialLength, hj0, if_false, hjn, if_true, FinalTarget, hp, FVector.Dist,
      FVector.Size]
    rw [hIso.location]
  · have hjn' : j = Chain.BoneIndices.length := by
      unfold NumLinks at hj
      split at hj <;> omega
    have hp : j - 1 < Chain.BoneIndices.length := by omega
    simp only [InitialLength, hj0, if_false, hjn, FinalTarget, hp, if_true, FVector.Dist,
      FVector.Size]
    rw [← hIso.location, hjn']
    congr 2
    ext <;> simp

end Rest

section Rest2

variable {K : Type} [LinearOrderedField K] [FloorRing K]

end Rest2

end SoftBone

namespace SoftBone

section ReOrientEntries

variable {K : Type} [LinearOrderedField K]

/-- The re-orientation of a chain, entry by entry: on a chain with all its links it ends without
a fault, the output list keeps its length and every entry is the re-oriented entry of its
place. -/
theorem ReOrientBoneRotations_entries (E : Engine K) (N : FAnimNode_SoftBone K)
    (Chain : FChainInfo K) (MeshBases : FCSPose K) (Out : List (FBoneTransform K)) (Start : Nat)
    (hBones : 2 ≤ Chain.BoneIndices.length)
    (hLinks : Chain.PrevBoneLinks.length = NumLinks N Chain)
    (hOut : Start + Chain.BoneIndices.length ≤ Out.length) :
    Succeeds (ReOrientBoneRotations E N Chain MeshBases Out Start) (fun Out' =>
      Out'.length = Out.length ∧
      ∀ j, Out'[j]? = Out[j]?.map
        (ReOrientedEntry E N MeshBases Chain.PrevBoneLinks Start Chain.BoneIndices.length j)) := by
  unfold ReOrientBoneRotations
  have hLe : Chain.BoneIndices.length ≤ Chain.PrevBoneLinks.length := by
    rw [hLinks]; exact NumLinks_ge N Chain
  apply Succeeds.bind (fun Out1 : List (FBoneTransform K) => Out1.length = Out.length ∧
    ∀ j, Out1[j]? = Out[j]?.map (fun Entry =>
      if Start ≤ j ∧ j + 1 < Start + Chain.BoneIndices.length then
        ApplyDeltaRotation (LinkDeltaRotation E MeshBases Chain.PrevBoneLinks (j - Start)) Entry
      else Entry))
  · refine (Succeeds.forLoop (fun i (Out1 : List (FBoneTransform K)) =>
      Out1.length = Out.length ∧
      ∀ j, Out1[j]? = Out[j]?.map (fun Entry =>
        if Start ≤ j ∧ j < Start + i then
          ApplyDeltaRotation (LinkDeltaRotation E MeshBases Chain.PrevBoneLinks (j - Start)) Entry
        else Entry)) (Nat.zero_le _) ⟨rfl, fun j => ?_⟩ ?_).mono ?_
    · have : ¬ (Start ≤ j ∧ j < Start + 0) := by omega
      simp only [this, if_false, Option.map_id']
    · rintro i Out1 - hi ⟨hL1, hE1⟩
      have hlt : Start + i < Out1.length := by rw [hL1]; omega
      have hi0 : i < Chain.PrevBoneLinks.length := by omega
      have hi1 : i + 1 < Chain.PrevBoneLinks.length := by omega
      simp only [TArray.get_of_lt _ i hi0, TArray.get_of_lt _ (i + 1) hi1,
        TArray.get_of_lt _ _ hlt, TArray.set_of_lt _ _ _ hlt, ok_bind]
      refine Succeeds.ok ⟨by simp [hL1], fun j => ?_⟩
      have hD : LinkDeltaRotation E MeshBases Chain.PrevBoneLinks i =
          DeltaRotation E
            (FVector.GetUnsafeNormal E
              ((MeshBases.ComponentSpaceTransform Chain.PrevBoneLinks[i + 1].BoneIndex).Translation -
                (MeshBases.ComponentSpaceTransform Chain.PrevBoneLinks[i].BoneIndex).Translation))
            (FVector.GetUnsafeNormal E
              (Chain.PrevBoneLinks[i + 1].PositionInCS - Chain.PrevBoneLinks[i].PositionInCS)) := by
        unfold LinkDeltaRotation
        rw [List.getElem?_eq_getElem hi0, List.getElem?_eq_getElem hi1]
      by_cases hj : j = Start + i
      · subst hj
        rw [List.getElem?_set_self hlt]
        have hlt' : Start + i < Out.length := by omega
        have hO : Out1[Start + i] = Out[Start + i] := by
          have h := hE1 (Start + i)
          rw [List.getElem?_eq_getElem hlt, List.getElem?_eq_getElem hlt', Option.map_some',
            Option.some.injEq] at h
          rw [h]
          exact if_neg (by omega)
        rw [List.getElem?_eq_getElem hlt', Option.map_some']
        refine congrArg some ?_
        have hc : Start ≤ Start + i ∧ Start + i < Start + (i + 1) := by omega
        show _ = if _ then _ else _
        rw [if_pos hc, Nat.add_sub_cancel_left, hD, hO]
      · rw [List.getElem?_set_ne (fun h => hj h.symm), hE1 j]
        have hiff : (Start ≤ j ∧ j < Start + (i + 1)) ↔ (Start ≤ j ∧ j < Start + i) := by omega
        simp only [hiff]
    · rintro Out1 ⟨hL1, hE1⟩
      refine ⟨hL1, fun j => ?_⟩
      rw [hE1 j]
      have hiff : (Start ≤ j ∧ j < Start + (Chain.BoneIndices.length - 1)) ↔
          (Start ≤ j ∧ j + 1 < Start + Chain.BoneIndices.length) := by omega
      simp only [hiff]
  · rintro Out1 ⟨hL1, hE1⟩
    by_cases hTip : N.bAllowTipBoneRotation = true
    · simp only [NumLinks, hTip, if_true] at hLinks
      have h3 : ¬ ((Chain.PrevBoneLinks.length : Int) - 3 < 0) := by omega
      have hlt : Start + Chain.BoneIndices.length - 1 < Out1.length := by rw [hL1]; omega
      have hlt' : Start + Chain.BoneIndices.length - 1 < Out.length := by omega
      have hp3 : Chain.PrevBoneLinks.length - 3 < Chain.PrevBoneLinks.length := by omega
      have hp2 : Chain.PrevBoneLinks.length - 2 < Chain.PrevBoneLinks.length := by omega
      have hp1 : Chain.PrevBoneLinks.length - 1 < Chain.PrevBoneLinks.length := by omega
      simp only [hTip, if_true, h3, if_false,
        TArray.getI_eq_get Chain.PrevBoneLinks ((Chain.PrevBoneLinks.length : Int) - 3)
          (Chain.PrevBoneLinks.length - 3) (by omega),
        TArray.getI_eq_get Chain.PrevBoneLinks ((Chain.PrevBoneLinks.length : Int) - 2)
          (Chain.PrevBoneLinks.length - 2) (by omega),
        TArray.getI_eq_get Chain.PrevBoneLinks ((Chain.PrevBoneLinks.length : Int) - 1)
          (Chain.PrevBoneLinks.length - 1) (by omega),
        TArray.get_of_lt _ _ hp3, TArray.get_of_lt _ _ hp2, TArray.get_of_lt _ _ hp1,
        ok_bind,
        TArray.getI_eq_get Out1 ((Start : Int) + (Chain.BoneIndices.length : Int) - 1)
          (Start + Chain.BoneIndices.length - 1) (by omega),
        TArray.setI_eq_set Out1 ((Start : Int) + (Chain.BoneIndices.length : Int) - 1)
          (Start + Chain.BoneIndices.length - 1) _ (by omega),
        TArray.get_of_lt _ _ hlt, TArray.set_of_lt _ _ _ hlt]
      refine Succeeds.ok ⟨by simp [hL1], fun j => ?_⟩
      have hD : TipDeltaRotation E MeshBases Chain.PrevBoneLinks =
          DeltaRotation E
            (FVector.GetUnsafeNormal E
              ((MeshBases.ComponentSpaceTransform
                    Chain.PrevBoneLinks[Chain.PrevBoneLinks.length - 2].BoneIndex).Translation +
                  ((MeshBases.ComponentSpaceTransform
                      Chain.PrevBoneLinks[Chain.PrevBoneLinks.length - 2].BoneIndex).Translation -
                    (MeshBases.ComponentSpaceTransform
                      Chain.PrevBoneLinks[Chain.PrevBoneLinks.length - 3].BoneIndex).Translation) -
                (MeshBases.ComponentSpaceTransform
                  Chain.PrevBoneLinks[Chain.PrevBoneLinks.length - 2].BoneIndex).Translation))
            (FVector.GetUnsafeNormal E
              (Chain.PrevBoneLinks[Chain.PrevBoneLinks.length - 1].PositionInCS -
                Chain.PrevBoneLinks[Chain.PrevBoneLinks.length - 2].PositionInCS)) := by
        unfold TipDeltaRotation
        rw [List.getElem?_eq_getElem hp3, List.getElem?_eq_getElem hp2,
          List.getElem?_eq_getElem hp1]
      unfold ReOrientedEntry
      by_cases hj : j = Start + Chain.BoneIndices.length - 1
      · subst hj
        rw [List.getElem?_set_self hlt]
        have hO : Out1[Start + Chain.BoneIndices.length - 1] =
            Out[Start + Chain.BoneIndices.length - 1] := by
          have h := hE1 (Start + Chain.BoneIndices.length - 1)
          rw [List.getElem?_eq_getElem hlt, List.getElem?_eq_getElem hlt', Option.map_some',
            Option.some.injEq] at h
          rw [h]
          exact if_neg (by omega)
        rw [List.getElem?_eq_getElem hlt', Option.map_some']
        refine congrArg some ?_
        have hc1 : ¬ (Start ≤ Start + Chain.BoneIndices.length - 1 ∧
            Start + Chain.BoneIndices.length - 1 + 1 < Start + Chain.BoneIndices.length) := by
          omega
        have hc2 : N.bAllowTipBoneRotation = true ∧
            Start + Chain.BoneIndices.length - 1 + 1 = Start + Chain.BoneIndices.length :=
          ⟨hTip, by omega⟩
        rw [if_neg hc1, if_pos hc2, hD, hO]
      · rw [List.getElem?_set_ne (fun h => hj h.symm), hE1 j]
        have hne : ¬ (N.bAllowTipBoneRotation = true ∧ j + 1 = Start + Chain.BoneIndices.length) := by
          omega
        simp only [hne, if_false]
    · simp only [hTip]
      refine Succeeds.pure ⟨hL1, fun j => ?_⟩
      rw [hE1 j]
      unfold ReOrientedEntry
      have hne : ¬ (N.bAllowTipBoneRotation = true ∧ j + 1 = Start + Chain.BoneIndices.length) :=
        fun h => hTip h.1
      simp only [hne, if_false]

end ReOrientEntries

end SoftBone

namespace SoftBone

section LookupLemmas

variable {K : Type}

/-- The loop with the record of its lookups returns what the loop returns. -/
theorem SetSoftBoneIndicesLoopLookups_result (MeshBases : FCSPose K) (RootIndex : Int) :
    ∀ (Fuel : Nat) (BoneIndex : Int) (BoneIndices Lookups : List Int),
      (match SetSoftBoneIndicesLoopLookups MeshBases RootIndex Fuel BoneIndex BoneIndices Lookups with
        | .ok R => Except.ok R.1
        | .error e => Except.error e) =
      SetSoftBoneIndicesLoop MeshBases RootIndex Fuel BoneIndex BoneIndices := by
  intro Fuel
  induction Fuel with
  | zero => intro _ _ _; rfl
  | succ Fuel ih =>
    intro BoneIndex BoneIndices Lookups
    unfold SetSoftBoneIndicesLoopLookups SetSoftBoneIndicesLoop
    cases hP : GetParentBoneIndex MeshBases BoneIndex with
    | error e => rfl
    | ok Parent =>
      dsimp only
      by_cases hR : Parent ≠ RootIndex
      · rw [if_pos hR, if_pos hR]
        exact ih Parent (BoneIndex :: BoneIndices) (Lookups ++ [BoneIndex])
      · rw [if_neg hR, if_neg hR]

/-- The lookups of the loop are those of the bones it puts in front of the list, the last of
them first. -/
theorem SetSoftBoneIndicesLoopLookups_record (MeshBases : FCSPose K) (RootIndex : Int) :
    ∀ (Fuel : Nat) (BoneIndex : Int) (BoneIndices Lookups : List Int)
      (R : (Int × List Int) × List Int),
      SetSoftBoneIndicesLoopLookups MeshBases RootIndex Fuel BoneIndex BoneIndices Lookups = .ok R →
      ∃ Mid : List Int, R.1.2 = Mid ++ BoneIndices ∧ R.2 = Lookups ++ Mid.reverse := by
  intro Fuel
  induction Fuel with
  | zero =>
    intro _ _ _ R h
    cases h
  | succ Fuel ih =>
    intro BoneIndex BoneIndices Lookups R h
    unfold SetSoftBoneIndicesLoopLookups at h
    cases hP : GetParentBoneIndex MeshBases BoneIndex with
    | error e => rw [hP] at h; cases h
    | ok Parent =>
      rw [hP] at h
      dsimp only at h
      by_cases hR : Parent ≠ RootIndex
      · rw [if_pos hR] at h
        obtain ⟨Mid, h1, h2⟩ := ih Parent (BoneIndex :: BoneIndices) (Lookups ++ [BoneIndex]) R h
        refine ⟨Mid ++ [BoneIndex], ?_, ?_⟩
        · rw [h1]; simp
        · rw [h2]; simp
      · rw [if_neg hR] at h
        cases h
        exact ⟨[BoneIndex], rfl, rfl⟩

end LookupLemmas

end SoftBone

namespace SoftBone

section EvaluateSteps

variable {K : Type} [LinearOrderedField K] [FloorRing K]

/-- One call of `EvaluateBoneTransforms` in deterministic mode, with time to simulate and at
least one chain, made already or to be made: it ends without a fault, every chain runs
`floor(RemainingTime / FixedTimeStep)` physical steps, the node keeps the remainder and,
beside its chains and its remaining time, is as it was; the chains have at least two bones
and all their links. -/
theorem EvaluateBoneTransforms_steps (E : Engine K) (U : Nat → Uninitialized K)
    (UOut : Nat → FBoneTransform K) (Fuel : Nat) (N : FAnimNode_SoftBone K)
    (SkelComp : Option (USkeletalMeshComponent K)) (MeshBases : FCSPose K)
    (hSort : SortsByRootBone E) (hTime : 0 < N.RemainingTime)
    (hSome : N.ChainInfos ≠ [] ∨ AcceptedPairs N MeshBases.BoneContainer ≠ [])
    (hChains : ∀ Chain ∈ N.ChainInfos, 2 ≤ Chain.BoneIndices.length ∧
      (Chain.PrevBoneLinks = [] ∨ Chain.PrevBoneLinks.length = NumLinks N Chain))
    (hDet : N.bGuaranteeSameSimulationResult = true)
    (hStep : 0 < N.FixedTimeStep ∧ ⌊N.RemainingTime / N.FixedTimeStep⌋₊ ≤ Fuel) :
    Succeeds (EvaluateBoneTransforms E U UOut Fuel N SkelComp MeshBases []) (fun R =>
      R.Node.ChainInfos ≠ [] ∧
      (N.ChainInfos ≠ [] → R.Node.ChainInfos.length = N.ChainInfos.length) ∧
      R.Steps = List.replicate R.Node.ChainInfos.length ⌊N.RemainingTime / N.FixedTimeStep⌋₊ ∧
      R.Node.RemainingTime = N.RemainingTime -
        (⌊N.RemainingTime / N.FixedTimeStep⌋₊ : K) * N.FixedTimeStep ∧
      R.Node = { N with ChainInfos := R.Node.ChainInfos, RemainingTime := R.Node.RemainingTime } ∧
      ∀ Chain ∈ R.Node.ChainInfos, 2 ≤ Chain.BoneIndices.length ∧
        Chain.PrevBoneLinks.length = NumLinks N Chain) := by
  unfold EvaluateBoneTransforms
  apply Succeeds.bind (fun M : FAnimNode_SoftBone K =>
    M = { N with ChainInfos := M.ChainInfos } ∧ M.ChainInfos ≠ [] ∧
    (N.ChainInfos ≠ [] → M.ChainInfos = N.ChainInfos) ∧
    ∀ Chain ∈ M.ChainInfos, 2 ≤ Chain.BoneIndices.length ∧
      (Chain.PrevBoneLinks = [] ∨ Chain.PrevBoneLinks.length = NumLinks N Chain))
  · by_cases hEmpty : N.ChainInfos.length = 0
    · simp only [hEmpty, if_true]
      have hNil : N.ChainInfos = [] := List.length_eq_zero.mp hEmpty
      have hAcc : AcceptedPairs N MeshBases.BoneContainer ≠ [] := by
        rcases hSome with h | h
        · exact absurd hNil h
        · exact h
      refine (InitializeBoneIndices_spec E N MeshBases (hSort _).1).mono ?_
      rintro N' ⟨Chains, rfl, hEnds, hGood⟩
      refine ⟨rfl, ?_, fun h => absurd hNil h,
        fun Chain hC => ⟨(hGood Chain hC).2, Or.inl (hGood Chain hC).1⟩⟩
      intro hC
      simp only at hC
      rw [hC] at hEnds
      have hL := congrArg List.length hEnds
      simp only [List.map_nil, List.length_nil, List.length_map] at hL
      have hP := (hSort (AcceptedPairs N MeshBases.BoneContainer)).1.length_eq
      rw [← hL] at hP
      exact hAcc (List.length_eq_zero.mp hP.symm)
    · simp only [hEmpty, if_false]
      refine Succeeds.pure ⟨rfl, fun h => hEmpty (by rw [h]; rfl), fun _ => rfl, hChains⟩
  rintro M ⟨hM, hMne, hMN, hGood⟩
  have hMT : M.RemainingTime = N.RemainingTime := by rw [hM]
  have hMF : M.FixedTimeStep = N.FixedTimeStep := by rw [hM]
  have hMD : M.bGuaranteeSameSimulationResult = true := by rw [hM]; exact hDet
  have hNL : ∀ Chain : FChainInfo K, NumLinks M Chain = NumLinks N Chain := by
    intro Chain
    rw [hM]
    rfl
  have hT : ¬ M.RemainingTime ≤ 0 := by rw [hMT]; exact not_le.mpr hTime
  simp only [hT, if_false, List.nil_append]
  apply Succeeds.bind (fun S : EvaluateState K =>
    S.ChainInfos.length = M.ChainInfos.length ∧
    (∀ Chain ∈ S.ChainInfos, 2 ≤ Chain.BoneIndices.length ∧
      Chain.PrevBoneLinks.length = NumLinks N Chain) ∧
    S.Steps = List.replicate M.ChainInfos.length ⌊N.RemainingTime / N.FixedTimeStep⌋₊ ∧
    S.RemainedSimTime = N.RemainingTime -
      (⌊N.RemainingTime / N.FixedTimeStep⌋₊ : K) * N.FixedTimeStep)
  · refine (Succeeds.forLoop (fun c (S : EvaluateState K) =>
      S.ChainInfos.length = M.ChainInfos.length ∧
      (∀ k, c ≤ k → S.ChainInfos[k]? = M.ChainInfos[k]?) ∧
      (∀ k Chain, k < c → S.ChainInfos[k]? = some Chain → 2 ≤ Chain.BoneIndices.length ∧
        Chain.PrevBoneLinks.length = NumLinks N Chain) ∧
      S.OutBoneTransforms.length = (M.ChainInfos.map (fun Chain => Chain.BoneIndices.length)).sum ∧
      S.OutTransformStartIndex = ChainOffset M.ChainInfos c ∧
      S.Steps = List.replicate c ⌊N.RemainingTime / N.FixedTimeStep⌋₊ ∧
      (0 < c → S.RemainedSimTime = N.RemainingTime -
        (⌊N.RemainingTime / N.FixedTimeStep⌋₊ : K) * N.FixedTimeStep))
      (Nat.zero_le _) ?_ ?_).mono ?_
    · exact ⟨rfl, fun _ _ => rfl, fun k _ hk => absurd hk (by omega), by simp,
        (ChainOffset_zero _).symm, rfl, fun h => absurd h (by omega)⟩
    · rintro c S - hc ⟨hLenS, hRest, hDone, hLen, hStart, hSteps, -⟩
      have hSc : S.ChainInfos[c]? = some M.ChainInfos[c] := by
        rw [hRest c (le_refl _)]; exact List.getElem?_eq_getElem hc
      have hcS : c < S.ChainInfos.length := lt_length_of_getElem? hSc
      have hg := hGood M.ChainInfos[c] (List.getElem_mem _)
      have hOff := ChainOffset_succ M.ChainInfos c hc
      have hLe := ChainOffset_le_sum M.ChainInfos (c + 1)
      have hne : M.ChainInfos[c].BoneIndices ≠ [] := by
        intro h
        have := hg.1
        rw [h] at this
        simp at this
      obtain ⟨RootBoneIndex, Rest, hCons⟩ := List.exists_cons_of_ne_nil hne
      simp only [(TArray.get_eq_ok _ _ _).mpr hSc, ok_bind]
      apply Succeeds.bind _ (SimulateSoftBoneChain_spec E (U c) Fuel M M.ChainInfos[c] SkelComp
        MeshBases S.OutBoneTransforms S.OutTransformStartIndex M.RemainingTime RootBoneIndex
        hg.1 (by rw [hCons]; rfl) (by rw [← hNL] at hg; exact hg.2) (by rw [hStart, hLen]; omega)
        (by intro _; rw [hMT, hMF]; exact hStep))
      rintro R ⟨hRB, hRLinks, hRL, -, hRDet, -⟩
      obtain ⟨hRS, hRT, -⟩ := hRDet hMD
      simp only [TArray.set_of_lt _ _ _ hcS, ok_bind]
      refine Succeeds.pure ⟨by simp [hLenS], ?_, ?_, by rw [hRL, hLen], by rw [hRB, hStart, hOff],
        ?_, fun _ => ?_⟩
      · intro k hk
        rw [List.getElem?_set_ne (by omega)]
        exact hRest k (by omega)
      · intro k Chain hk hCk
        by_cases hkc : k = c
        · subst hkc
          rw [List.getElem?_set_self hcS] at hCk
          have hCk' := Option.some.inj hCk
          subst hCk'
          refine ⟨by rw [hRB]; exact hg.1, ?_⟩
          rw [hRLinks, ← hRB]
          exact hNL R.Chain
        · rw [List.getElem?_set_ne (fun h => hkc h.symm)] at hCk
          exact hDone k Chain (by omega) hCk
      · rw [hSteps, hRS, hMT, hMF, List.replicate_succ']
      · rw [hRT, hMT, hMF]
    · rintro S ⟨hLenS, -, hDone, -, -, hSteps, hTimeS⟩
      have hpos : 0 < M.ChainInfos.length := List.length_pos.mpr hMne
      refine ⟨hLenS, fun Chain hC => ?_, hSteps, hTimeS hpos⟩
      obtain ⟨k, hk, hCk⟩ := List.getElem_of_mem hC
      exact hDone k Chain (by omega) (by rw [← hCk]; exact List.getElem?_eq_getElem hk)
  rintro S ⟨hLenS, hGoodS, hSteps, hTimeS⟩
  refine Succeeds.pure ⟨?_, ?_, ?_, hTimeS, ?_, hGoodS⟩
  · intro h
    simp only at h
    rw [h] at hLenS
    exact hMne (List.length_eq_zero.mp hLenS.symm)
  · intro h
    simp only [hLenS, hMN h]
  · simp only [hSteps, hLenS]
  · rw [hM]

end EvaluateSteps

end SoftBone

namespace SoftBone

section FrameSteps

variable {K : Type} [LinearOrderedField K] [FloorRing K]

/-- The time left after the whole steps of a time is not negative and less than a step. -/
theorem remainder_bounds (h T : K) (hh : 0 < h) (hT : 0 ≤ T) :
    0 ≤ T - (⌊T / h⌋₊ : K) * h ∧ T - (⌊T / h⌋₊ : K) * h < h := by
  have h1 : (⌊T / h⌋₊ : K) ≤ T / h := Nat.floor_le (div_nonneg hT hh.le)
  have h2 : T / h < (⌊T / h⌋₊ : K) + 1 := Nat.lt_floor_add_one _
  rw [le_div_iff₀ hh] at h1
  rw [div_lt_iff₀ hh] at h2
  constructor
  · linarith
  · linarith

/-- The whole steps of the time left and a further time are the whole steps of all the time
less those taken already, and what they leave is what the whole steps of all the time leave. -/
theorem floor_of_remainder (h T d : K) (hh : 0 < h) (hd : 0 ≤ d) :
    ⌊T / h⌋₊ + ⌊(T - (⌊T / h⌋₊ : K) * h + d) / h⌋₊ = ⌊(T + d) / h⌋₊ ∧
    (T - (⌊T / h⌋₊ : K) * h + d) -
        (⌊(T - (⌊T / h⌋₊ : K) * h + d) / h⌋₊ : K) * h =
      (T + d) - (⌊(T + d) / h⌋₊ : K) * h := by
  have hne : h ≠ 0 := ne_of_gt hh
  have hEq : (T - (⌊T / h⌋₊ : K) * h + d) / h = (T + d) / h - (⌊T / h⌋₊ : K) := by
    field_simp
    ring
  have hMono : ⌊T / h⌋₊ ≤ ⌊(T + d) / h⌋₊ :=
    Nat.floor_mono (div_le_div_of_nonneg_right (by linarith) hh.le)
  have hFloor : ⌊(T - (⌊T / h⌋₊ : K) * h + d) / h⌋₊ = ⌊(T + d) / h⌋₊ - ⌊T / h⌋₊ := by
    rw [hEq, Nat.floor_sub_nat]
  refine ⟨by rw [hFloor]; omega, ?_⟩
  rw [hFloor, Nat.cast_sub hMono]
  ring

/-- The frames of a node in deterministic mode whose remaining time is what the whole steps of
a time `T` leave: the frames end without a fault, every chain runs the same number of steps in
a frame, and with the steps of the frames the whole steps of `T` become the whole steps of `T`
and the frames' delta times; the remaining time is what these leave. -/
theorem RunFramesSteps_invariant (E : Engine K) (U : Nat → Uninitialized K)
    (UOut : Nat → FBoneTransform K) (Fuel : Nat) (SkelComp : Option (USkeletalMeshComponent K))
    (MeshBases : FCSPose K) (EffectiveTimeDilation WorldGravityZ h : K)
    (hSort : SortsByRootBone E) (hh : 0 < h) :
    ∀ (Deltas : List K) (N : FAnimNode_SoftBone K) (T : K),
      (1 / (N.SimulationHertz.toNat : K)) * EffectiveTimeDilation = h →
      N.bGuaranteeSameSimulationResult = true →
      (N.ChainInfos ≠ [] ∨ AcceptedPairs N MeshBases.BoneContainer ≠ []) →
      (∀ Chain ∈ N.ChainInfos, 2 ≤ Chain.BoneIndices.length ∧
        (Chain.PrevBoneLinks = [] ∨ Chain.PrevBoneLinks.length = NumLinks N Chain)) →
      0 ≤ T → N.RemainingTime = T - (⌊T / h⌋₊ : K) * h →
      (∀ d ∈ Deltas, 0 < d) → (∀ d ∈ Deltas, ⌊d / h⌋₊ + 1 ≤ Fuel) →
      Succeeds (RunFramesSteps E U UOut Fuel SkelComp MeshBases EffectiveTimeDilation WorldGravityZ
        N Deltas) (fun R => ∃ Counts : List Nat,
          R.2 = Counts.map (List.replicate R.1.ChainInfos.length) ∧
          (Deltas ≠ [] → R.1.ChainInfos ≠ []) ∧
          (N.ChainInfos ≠ [] → R.1.ChainInfos.length = N.ChainInfos.length) ∧
          Counts.length = Deltas.length ∧
          ⌊T / h⌋₊ + Counts.sum = ⌊(T + Deltas.sum) / h⌋₊ ∧
          R.1.RemainingTime = (T + Deltas.sum) - (⌊(T + Deltas.sum) / h⌋₊ : K) * h) := by
  intro Deltas
  induction Deltas with
  | nil =>
    intro N T _ _ _ _ _ hR _ _
    refine Succeeds.ok ⟨[], rfl, fun h => absurd rfl h, fun _ => rfl, rfl, ?_, ?_⟩
    · simp
    · simpa using hR
  | cons d Rest ih =>
    intro N T hHz hDet hSome hChains hT hR hPos hFuel
    have hd : 0 < d := hPos d (List.mem_cons_self _ _)
    obtain ⟨hr0, hrh⟩ := remainder_bounds h T hh hT
    obtain ⟨hF1, hF2⟩ := floor_of_remainder h T d hh hd.le
    have hUT : (UpdateInternal N d EffectiveTimeDilation WorldGravityZ).RemainingTime =
        T - (⌊T / h⌋₊ : K) * h + d := by
      simp only [UpdateInternal, hR]
    have hUF : (UpdateInternal N d EffectiveTimeDilation WorldGravityZ).FixedTimeStep = h := by
      simp only [UpdateInternal, hHz]
    have hFuel1 : ⌊(T - (⌊T / h⌋₊ : K) * h + d) / h⌋₊ ≤ Fuel := by
      refine le_trans ?_ (hFuel d (List.mem_cons_self _ _))
      rw [← Nat.floor_add_one (div_nonneg hd.le hh.le)]
      refine Nat.floor_mono ?_
      rw [div_add_one (ne_of_gt hh)]
      exact div_le_div_of_nonneg_right (by linarith) hh.le
    obtain ⟨R1, hR1, hNe1, hLen1, hSteps1, hTime1, hNode1, hGood1⟩ :=
      EvaluateBoneTransforms_steps E U UOut Fuel
        (UpdateInternal N d EffectiveTimeDilation WorldGravityZ) SkelComp MeshBases hSort
        (by rw [hUT]; linarith) hSome hChains hDet (by rw [hUT, hUF]; exact ⟨hh, hFuel1⟩)
    rw [hUT, hUF] at hSteps1 hTime1
    have hHz1 : (1 / (R1.Node.SimulationHertz.toNat : K)) * EffectiveTimeDilation = h := by
      rw [hNode1]
      exact hHz
    have hDet1 : R1.Node.bGuaranteeSameSimulationResult = true := by
      rw [hNode1]
      exact hDet
    have hNL1 : ∀ Chain : FChainInfo K, NumLinks R1.Node Chain =
        NumLinks (UpdateInternal N d EffectiveTimeDilation WorldGravityZ) Chain := by
      intro Chain
      rw [hNode1]
      rfl
    obtain ⟨R, hRR, Counts, hC1, -, hC3, hC4, hC5, hC6⟩ := ih R1.Node (T + d) hHz1 hDet1
      (Or.inl hNe1)
      (fun Chain hC => ⟨(hGood1 Chain hC).1, Or.inr (by rw [hNL1]; exact (hGood1 Chain hC).2)⟩)
      (by linarith) (by rw [hTime1, hF2])
      (fun x hx => hPos x (List.mem_cons_of_mem _ hx))
      (fun x hx => hFuel x (List.mem_cons_of_mem _ hx))
    have hLenR := hC3 hNe1
    refine ⟨(R.1, R1.Steps :: R.2), by simp only [RunFramesSteps, hR1, hRR],
      ⌊(T - (⌊T / h⌋₊ : K) * h + d) / h⌋₊ :: Counts, ?_, ?_, ?_, ?_, ?_, ?_⟩
    · simp only [List.map_cons, hC1, hSteps1, hLenR]
    · intro _ hNil
      rw [hNil] at hLenR
      exact hNe1 (List.length_eq_zero.mp hLenR.symm)
    · intro hN
      rw [hLenR]
      exact hLen1 hN
    · simp [hC4]
    · rw [List.sum_cons, List.sum_cons, ← add_assoc T, ← hC5, ← hF1]
      omega
    · rw [hC6, List.sum_cons, add_assoc]

end FrameSteps

end SoftBone

namespace SoftBone

section Rotation

variable {K : Type} [LinearOrderedField K]

/-- The engine of the real arc cosine, sine and cosine has exact angles. -/
theorem ExactAngles_real (Sqrt : ℝ → ℝ) :
    ExactAngles (EngineOf Sqrt Real.arccos Real.sin Real.cos) := by
  intro x h1 h2
  show 0 ≤ Real.sin (1 / 2 * Real.arccos x) ∧ 0 ≤ Real.cos (1 / 2 * Real.arccos x) ∧
    Real.sin (1 / 2 * Real.arccos x) * Real.sin (1 / 2 * Real.arccos x) +
      Real.cos (1 / 2 * Real.arccos x) * Real.cos (1 / 2 * Real.arccos x) = 1 ∧
    Real.cos (1 / 2 * Real.arccos x) * Real.cos (1 / 2 * Real.arccos x) -
      Real.sin (1 / 2 * Real.arccos x) * Real.sin (1 / 2 * Real.arccos x) = x
  have h0 : 0 ≤ Real.arccos x := Real.arccos_nonneg x
  have hpi : Real.arccos x ≤ Real.pi := Real.arccos_le_pi x
  have hpos := Real.pi_pos
  have hS := Real.sin_sq_add_cos_sq (1 / 2 * Real.arccos x)
  have hC := Real.cos_sq' (1 / 2 * Real.arccos x)
  have h2x : Real.cos (2 * (1 / 2 * Real.arccos x)) = x := by
    rw [show 2 * (1 / 2 * Real.arccos x) = Real.arccos x by ring]
    exact Real.cos_arccos h1 h2
  rw [Real.cos_two_mul] at h2x
  refine ⟨Real.sin_nonneg_of_nonneg_of_le_pi (by linarith) (by linarith),
    Real.cos_nonneg_of_mem_Icc ⟨by linarith, by linarith⟩, ?_, ?_⟩
  · rw [← sq, ← sq]
    exact hS
  · rw [← sq, ← sq]
    linarith

/-- The rotation about the scaled cross product of two unit vectors, with the half-angle sine
and cosine of their angle, maps the first vector to the second. -/
theorem RotateVector_of_axis (a b Axis : FVector K) (s c k : K)
    (ha : FVector.SizeSquared a = 1) (hk : k * k * FVector.SizeSquared (FVector.CrossProduct a b) = 1)
    (hAxis : Axis = (FVector.CrossProduct a b).Scale k)
    (hd : 1 - 2 * (s * s) = FVector.DotProduct a b) (hx : 2 * s * c * k = 1) :
    FQuat.RotateVector ⟨s * Axis.X, s * Axis.Y, s * Axis.Z, c⟩ a = b := by
  subst hAxis
  obtain ⟨a1, a2, a3⟩ := a
  obtain ⟨b1, b2, b3⟩ := b
  simp only [FVector.SizeSquared, FVector.CrossProduct, FVector.DotProduct, FVector.Scale] at ha hk hd
  have e1 : FQuat.RotateVector ⟨s * ((FVector.CrossProduct ⟨a1, a2, a3⟩ ⟨b1, b2, b3⟩).Scale k).X,
      s * ((FVector.CrossProduct ⟨a1, a2, a3⟩ ⟨b1, b2, b3⟩).Scale k).Y,
      s * ((FVector.CrossProduct ⟨a1, a2, a3⟩ ⟨b1, b2, b3⟩).Scale k).Z, c⟩ ⟨a1, a2, a3⟩ =
      ⟨a1 + c * (2 * (s * ((a3 * b1 - a1 * b3) * k) * a3 - s * ((a1 * b2 - a2 * b1) * k) * a2)) +
          (s * ((a3 * b1 - a1 * b3) * k) *
              (2 * (s * ((a2 * b3 - a3 * b2) * k) * a2 - s * ((a3 * b1 - a1 * b3) * k) * a1)) -
            s * ((a1 * b2 - a2 * b1) * k) *
              (2 * (s * ((a1 * b2 - a2 * b1) * k) * a1 - s * ((a2 * b3 - a3 * b2) * k) * a3))),
        a2 + c * (2 * (s * ((a1 * b2 - a2 * b1) * k) * a1 - s * ((a2 * b3 - a3 * b2) * k) * a3)) +
          (s * ((a1 * b2 - a2 * b1) * k) *
              (2 * (s * ((a3 * b1 - a1 * b3) * k) * a3 - s * ((a1 * b2 - a2 * b1) * k) * a2)) -
            s * ((a2 * b3 - a3 * b2) * k) *
              (2 * (s * ((a2 * b3 - a3 * b2) * k) * a2 - s * ((a3 * b1 - a1 * b3) * k) * a1))),
        a3 + c * (2 * (s * ((a2 * b3 - a3 * b2) * k) * a2 - s * ((a3 * b1 - a1 * b3) * k) * a1)) +
          (s * ((a2 * b3 - a3 * b2) * k) *
              (2 * (s * ((a1 * b2 - a2 * b1) * k) * a1 - s * ((a2 * b3 - a3 * b2) * k) * a3)) -
            s * ((a3 * b1 - a1 * b3) * k) *
              (2 * (s * ((a3 * b1 - a1 * b3) * k) * a3 - s * ((a1 * b2 - a2 * b1) * k) * a2)))⟩ :=
    rfl
  rw [e1]
  congr 1
  · linear_combination (2 * s * c * k * b1) * ha + (-2 * (s * s) * a1) * hk +
      (b1 - (a1 * b1 + a2 * b2 + a3 * b3) * a1) * hx + a1 * hd
  · linear_combination (2 * s * c * k * b2) * ha + (-2 * (s * s) * a2) * hk +
      (b2 - (a1 * b1 + a2 * b2 + a3 * b3) * a2) * hx + a2 * hd
  · linear_combination (2 * s * c * k * b3) * ha + (-2 * (s * s) * a3) * hk +
      (b3 - (a1 * b1 + a2 * b2 + a3 * b3) * a3) * hx + a3 * hd

/-- A quaternion without vector part maps every vector to itself. -/
theorem RotateVector_zero_axis (W : K) (V : FVector K) :
    FQuat.RotateVector ⟨0, 0, 0, W⟩ V = V := by
  obtain ⟨x, y, z⟩ := V
  show (⟨_, _, _⟩ : FVector K) = ⟨x, y, z⟩
  congr 1
  · show x + W * (2 * (0 * z - 0 * y)) +
      (0 * (2 * (0 * y - 0 * x)) - 0 * (2 * (0 * x - 0 * z))) = x
    ring
  · show y + W * (2 * (0 * x - 0 * z)) +
      (0 * (2 * (0 * z - 0 * y)) - 0 * (2 * (0 * y - 0 * x))) = y
    ring
  · show z + W * (2 * (0 * y - 0 * x)) +
      (0 * (2 * (0 * x - 0 * z)) - 0 * (2 * (0 * z - 0 * y))) = z
    ring

/-- The squared length of the cross product of two unit vectors is 1 less the square of their
dot product. -/
theorem SizeSquared_CrossProduct (a b : FVector K) (ha : FVector.SizeSquared a = 1)
    (hb : FVector.SizeSquared b = 1) :
    FVector.SizeSquared (FVector.CrossProduct a b) =
      1 - FVector.DotProduct a b * FVector.DotProduct a b := by
  obtain ⟨a1, a2, a3⟩ := a
  obtain ⟨b1, b2, b3⟩ := b
  simp only [FVector.SizeSquared, FVector.CrossProduct, FVector.DotProduct] at ha hb ⊢
  linear_combination (b1 * b1 + b2 * b2 + b3 * b3) * ha + hb

/-- With exact roots and angles, the `DeltaRotation` of two unit vectors whose cross product
is not shorter than the tolerance of `GetSafeNormal` maps the first vector to the second. -/
theorem DeltaRotation_rotates (E : Engine K) (hRoots : ExactRoots E) (hAngles : ExactAngles E)
    (a b : FVector K) (ha : FVector.SizeSquared a = 1) (hb : FVector.SizeSquared b = 1)
    (hCross : SMALL_NUMBER ≤ FVector.SizeSquared (FVector.CrossProduct a b)) :
    FQuat.RotateVector (DeltaRotation E a b) a = b := by
  have hL := SizeSquared_CrossProduct a b ha hb
  have hSmall : (0 : K) < SMALL_NUMBER := by
    unfold SMALL_NUMBER
    norm_num
  have hn : 0 < FVector.SizeSquared (FVector.CrossProduct a b) := lt_of_lt_of_le hSmall hCross
  have hd1 : -1 ≤ FVector.DotProduct a b := by nlinarith
  have hd2 : FVector.DotProduct a b ≤ 1 := by nlinarith
  obtain ⟨hs, hc, hsc, hcs⟩ := hAngles (FVector.DotProduct a b) hd1 hd2
  have hAxis : ∃ k : K, 0 < k ∧
      k * k * FVector.SizeSquared (FVector.CrossProduct a b) = 1 ∧
      FVector.GetSafeNormal E (FVector.CrossProduct a b) = (FVector.CrossProduct a b).Scale k := by
    by_cases h1 : FVector.SizeSquared (FVector.CrossProduct a b) = 1
    · refine ⟨1, one_pos, by rw [h1]; ring, ?_⟩
      unfold FVector.GetSafeNormal
      simp only [h1, if_true]
      ext <;> simp [FVector.Scale]
    · obtain ⟨hk0, hk⟩ := hRoots.2 _ hn
      refine ⟨_, hk0, hk, ?_⟩
      unfold FVector.GetSafeNormal
      simp only [h1, if_false, not_lt.mpr hCross]
  obtain ⟨k, hk0, hk, hA⟩ := hAxis
  generalize hS : E.Sin ((1 / 2) * E.Acos (FVector.DotProduct a b)) = s at hs hsc hcs
  generalize hC : E.Cos ((1 / 2) * E.Acos (FVector.DotProduct a b)) = c at hc hsc hcs
  have hx0 : 0 ≤ 2 * s * c * k := by positivity
  have hxx : (2 * s * c * k) * (2 * s * c * k) = 1 := by
    have h4 : 4 * (s * s) * (c * c) =
        1 - FVector.DotProduct a b * FVector.DotProduct a b := by
      rw [← hcs]
      linear_combination (s * s + c * c + 1) * hsc
    calc (2 * s * c * k) * (2 * s * c * k) = (4 * (s * s) * (c * c)) * (k * k) := by ring
      _ = k * k * FVector.SizeSquared (FVector.CrossProduct a b) := by rw [h4, hL]; ring
      _ = 1 := hk
  have hx : 2 * s * c * k = 1 := by
    have h0 : (2 * s * c * k - 1) * (2 * s * c * k + 1) = 0 := by linear_combination hxx
    rcases mul_eq_zero.mp h0 with h | h
    · linarith
    · linarith
  have hd : 1 - 2 * (s * s) = FVector.DotProduct a b := by linear_combination hcs - hsc
  have hQ : DeltaRotation E a b =
      ⟨s * (FVector.GetSafeNormal E (FVector.CrossProduct a b)).X,
       s * (FVector.GetSafeNormal E (FVector.CrossProduct a b)).Y,
       s * (FVector.GetSafeNormal E (FVector.CrossProduct a b)).Z, c⟩ := by
    simp only [DeltaRotation, FQuat.fromAxisAngle, hS, hC]
  rw [hQ]
  exact RotateVector_of_axis a b _ s c k ha hk hA hd hx

end Rotation

end SoftBone

namespace SoftBone

section ShortFrame

variable {K : Type} [LinearOrderedField K]

/-- With less time than a fixed step the `while` loop runs no round, whatever the number of
rounds it is given. -/
theorem SubstepLoop_short (E : Engine K) (N : FAnimNode_SoftBone K) (Final : List (FVector K))
    (Fuel : Nat) (S : SubstepState K) (hShort : S.InRemainingTime < N.FixedTimeStep) :
    SubstepLoop E N Final Fuel S = .ok S := by
  have hNot : ¬ S.InRemainingTime ≥ N.FixedTimeStep := not_le.mpr hShort
  cases Fuel with
  | zero => simp only [SubstepLoop, hNot, if_false]
  | succ Fuel => simp only [SubstepLoop, hNot, if_false]

/-- A call of `SimulateSoftBoneChain` in deterministic mode with less time than a fixed step,
on a chain with all its links: the call ends without a fault and without a physical step; it
returns the time it got; every link is the link it was, with the render position and the
component-space position set; the output list holds the chain's translated entries,
re-oriented, and is as before elsewhere. -/
theorem SimulateSoftBoneChain_without_step (E : Engine K) (U : Uninitialized K) (Fuel : Nat)
    (N : FAnimNode_SoftBone K) (Chain : FChainInfo K)
    (SkelComp : Option (USkeletalMeshComponent K)) (MeshBases : FCSPose K)
    (Out : List (FBoneTransform K)) (Start : Nat) (InRemainingTime : K) (Root : FSoftBoneLink K)
    (hBones : 2 ≤ Chain.BoneIndices.length)
    (hLinks : Chain.PrevBoneLinks.length = NumLinks N Chain)
    (hRoot : Chain.PrevBoneLinks[0]? = some Root)
    (hOut : Start + Chain.BoneIndices.length ≤ Out.length)
    (hDet : N.bGuaranteeSameSimulationResult = true)
    (hShort : InRemainingTime < N.FixedTimeStep) :
    Succeeds (SimulateSoftBoneChain E U Fuel N Chain SkelComp MeshBases Out Start InRemainingTime)
      (fun R =>
        R.Chain.BoneIndices = Chain.BoneIndices ∧ R.RemainingTime = InRemainingTime ∧
        R.Steps = 0 ∧
        (∀ j, R.Chain.PrevBoneLinks[j]? = Chain.PrevBoneLinks[j]?.map
          (RenderedLink SkelComp (FinalTarget Chain SkelComp MeshBases 0 - Root.Position)
            (MeshBases.ComponentSpaceTransform (Chain.Bone 0)).Translation j)) ∧
        R.OutBoneTransforms.length = Out.length ∧
        (∀ j, ¬ (Start ≤ j ∧ j < Start + Chain.BoneIndices.length) →
          R.OutBoneTransforms[j]? = Out[j]?) ∧
        ∀ i, i < Chain.BoneIndices.length → ∃ Rotation : FQuat K,
          R.OutBoneTransforms[Start + i]? = some
            { TranslatedEntry MeshBases Chain SkelComp
                (FinalTarget Chain SkelComp MeshBases 0 - Root.Position) Chain.PrevBoneLinks i with
              Transform :=
                { (TranslatedEntry MeshBases Chain SkelComp
                    (FinalTarget Chain SkelComp MeshBases 0 - Root.Position)
                    Chain.PrevBoneLinks i).Transform with Rotation := Rotation } }) := by
  obtain ⟨I, C, hI, hI1, hC, hC2, hCW⟩ :=
    SimulateSoftBoneChain_setup E U N Chain SkelComp MeshBases Out Start hBones hOut
  have hNL := NumLinks_ge N Chain
  have hFLen := FinalTargets_length N Chain SkelComp MeshBases
  have hL0 : Chain.PrevBoneLinks.length ≠ 0 := by omega
  have hStart : StartLinks E U N Chain SkelComp MeshBases = Chain.PrevBoneLinks := by
    unfold StartLinks
    rw [if_neg hL0]
  rw [hStart] at hI1
  have hRootI : I.1.PrevBoneLinks[0]? = some Root := by rw [hI1]; exact hRoot
  have hFinal : C.2[0]? = some (FinalTarget Chain SkelComp MeshBases 0) := by
    rw [hC2]
    unfold FinalTargets
    rw [getElem?_map_range, if_pos (by omega)]
  have hS : (if N.bGuaranteeSameSimulationResult = true then
        SubstepLoop E N C.2 Fuel
          ⟨I.1, ((List.range C.2.length).map U.Target).set 0 Root.Position, InRemainingTime, 0⟩
      else
        (TimeIntegration E N I.1 N.FixedTimeStep
          (((List.range C.2.length).map U.Target).set 0 Root.Position) >>= fun Chain' =>
          pure (⟨Chain', ((List.range C.2.length).map U.Target).set 0 Root.Position, 0, 1⟩ :
            SubstepState K))) =
      .ok ⟨I.1, ((List.range C.2.length).map U.Target).set 0 Root.Position, InRemainingTime, 0⟩ := by
    rw [if_pos hDet]
    exact SubstepLoop_short E N C.2 Fuel _ hShort
  have hTarget : (((List.range C.2.length).map U.Target).set 0 Root.Position)[0]? =
      some Root.Position := by
    rw [List.getElem?_set_self (by simp [hC2, hFLen]; omega)]
  refine (SimulateSoftBoneChain_of_parts E U Fuel N Chain SkelComp MeshBases Out Start
    InRemainingTime I C Root _ (FinalTarget Chain SkelComp MeshBases 0) Root.Position
    hBones hOut hI hC hRootI hS (by rw [hI1]) (by rw [hI1]; exact hLinks) hFinal hTarget
    hCW).mono ?_
  rintro R ⟨h1, h2, h3, h4, h5, h6, h7⟩
  simp only [hI1] at h4 h7
  exact ⟨h1, h2, h3, h4, h5, h6, h7⟩

end ShortFrame

end SoftBone

namespace SoftBone

/-! ## The claims -/

section SimulationClaims

variable {K : Type} [LinearOrderedField K] [FloorRing K]

/-- C1. Root pinning: for a chain of at least two bones (its links not yet created, or as many
as the tip-rotation setting asks for; room for the chain in the output list), in deterministic
mode (positive fixed step, enough rounds for the loop) and in non-deterministic mode, for every
remaining time and so for every number of substeps, zero included, `SimulateSoftBoneChain`
ends without a fault and the render position of the root link is the world-space location of
the root bone in the current pose, which is the first of the final targets that
`ComputeTargetPositions` returns for the chain. -/
theorem SimulateSoftBoneChain_pins_root (E : Engine K) (U : Uninitialized K) (Fuel : Nat)
    (N : FAnimNode_SoftBone K) (Chain : FChainInfo K)
    (SkelComp : Option (USkeletalMeshComponent K)) (MeshBases : FCSPose K)
    (Out : List (FBoneTransform K)) (Start : Nat) (InRemainingTime : K) (RootBoneIndex : Int)
    (hBones : 2 ≤ Chain.BoneIndices.length)
    (hRoot : Chain.BoneIndices.head? = some RootBoneIndex)
    (hLinks : Chain.PrevBoneLinks = [] ∨ Chain.PrevBoneLinks.length =
      Chain.BoneIndices.length + (if N.bAllowTipBoneRotation = true then 1 else 0))
    (hOut : Start + Chain.BoneIndices.length ≤ Out.length)
    (hStep : N.bGuaranteeSameSimulationResult = true →
      0 < N.FixedTimeStep ∧ ⌊InRemainingTime / N.FixedTimeStep⌋₊ ≤ Fuel) :
    Succeeds (SimulateSoftBoneChain E U Fuel N Chain SkelComp MeshBases Out Start InRemainingTime)
      (fun R => ∃ Root, R.Chain.PrevBoneLinks.head? = some Root ∧ Root.RenderPosition =
        LocationInWorldSpace SkelComp (MeshBases.ComponentSpaceTransform RootBoneIndex)) ∧
    Succeeds (ComputeTargetPositions N Chain SkelComp MeshBases Out Start [])
      (fun Computed => Computed.2.head? = some
        (LocationInWorldSpace SkelComp (MeshBases.ComponentSpaceTransform RootBoneIndex))) := by
  constructor
  · refine (SimulateSoftBoneChain_spec E U Fuel N Chain SkelComp MeshBases Out Start
      InRemainingTime RootBoneIndex hBones hRoot hLinks hOut hStep).mono ?_
    intro R h
    exact h.2.2.2.1
  · refine (ComputeTargetPositions_spec N Chain SkelComp MeshBases Out Start RootBoneIndex
      hBones hRoot hOut).mono ?_
    intro C h
    exact h.2.2

/-- Witness of C1: the first frame (1/20 s at 60 Hz) of the chain of the bones 0 and 1 in the
straight pose. -/
theorem SimulateSoftBoneChain_pins_root_witness :
    (2 ≤ (⟨[0, 1], []⟩ : FChainInfo ℚ).BoneIndices.length) ∧
    ((UpdatedNode ℚ).bGuaranteeSameSimulationResult = true →
      0 < (UpdatedNode ℚ).FixedTimeStep ∧ ⌊(1 / 20 : ℚ) / (UpdatedNode ℚ).FixedTimeStep⌋₊ ≤ 3) ∧
    Succeeds (SimulateSoftBoneChain RationalEngine (SevenMemory ℚ) 3 (UpdatedNode ℚ) ⟨[0, 1], []⟩
        none (StraightPose ℚ) [SevenOutput ℚ 0, SevenOutput ℚ 1] 0 (1 / 20))
      (fun R => ∃ Root, R.Chain.PrevBoneLinks.head? = some Root ∧ Root.RenderPosition =
        LocationInWorldSpace none ((StraightPose ℚ).ComponentSpaceTransform 0)) := by
  have hStep : (UpdatedNode ℚ).bGuaranteeSameSimulationResult = true →
      0 < (UpdatedNode ℚ).FixedTimeStep ∧ ⌊(1 / 20 : ℚ) / (UpdatedNode ℚ).FixedTimeStep⌋₊ ≤ 3 := by
    intro _
    have hF : (UpdatedNode ℚ).FixedTimeStep = 1 / 60 := by
      simp [UpdatedNode, UpdateInternal, DefaultNode, InitialzeWeightCurve, ESimulationHertz.toNat]
    rw [hF]
    exact ⟨by norm_num, Nat.floor_le_of_le (by norm_num)⟩
  exact ⟨by decide, hStep,
    (SimulateSoftBoneChain_pins_root RationalEngine (SevenMemory ℚ) 3 (UpdatedNode ℚ) ⟨[0, 1], []⟩
      none (StraightPose ℚ) [SevenOutput ℚ 0, SevenOutput ℚ 1] 0 (1 / 20) 0 (by decide) rfl
      (Or.inl rfl) (by decide) hStep).1⟩

/-- C4 as stated fails in `float`: at 60 Hz with the time dilation 1 the fixed time step is
the `float` 8947849 / 2 ^ 29, next to 1/60. With T = 1/4 s to simulate, the loop
`while (InRemainingTime >= FixedTimeStep)` runs 15 rounds and leaves 3 / 2 ^ 28, where
floor(T / FixedTimeStep) is 14 and T - 14 FixedTimeStep is 4473921 / 2 ^ 28. -/
theorem float_loop_runs_past_floor :
    FloatFixedTimeStep .SH_60Hz 1 = 8947849 / 536870912 ∧
    FloatSubstepTimes (FloatFixedTimeStep .SH_60Hz 1) 15 (1 / 4) 0 =
      .ok (3 / 268435456, 15) ∧
    ⌊(1 / 4 : ℚ) / FloatFixedTimeStep .SH_60Hz 1⌋₊ = 14 ∧
    (1 / 4 : ℚ) - 14 * FloatFixedTimeStep .SH_60Hz 1 = 4473921 / 268435456 := by
  refine ⟨?_, ?_, ?_, ?_⟩ <;> decide!

/-- C4, amended. Time remainder in exact arithmetic: on a chain as in C1, in deterministic mode
with a positive fixed step, a non-negative remaining time T and enough rounds for the loop,
`SimulateSoftBoneChain` runs exactly k = floor(T / FixedTimeStep) physical steps and returns
r = T - k * FixedTimeStep, with 0 ≤ r < FixedTimeStep; in non-deterministic mode it runs one
step and returns 0, whatever the remaining time. -/
theorem SimulateSoftBoneChain_steps_and_remainder (E : Engine K) (U : Uninitialized K) (Fuel : Nat)
    (N : FAnimNode_SoftBone K) (Chain : FChainInfo K)
    (SkelComp : Option (USkeletalMeshComponent K)) (MeshBases : FCSPose K)
    (Out : List (FBoneTransform K)) (Start : Nat) (InRemainingTime : K)
    (hBones : 2 ≤ Chain.BoneIndices.length)
    (hLinks : Chain.PrevBoneLinks = [] ∨ Chain.PrevBoneLinks.length =
      Chain.BoneIndices.length + (if N.bAllowTipBoneRotation = true then 1 else 0))
    (hOut : Start + Chain.BoneIndices.length ≤ Out.length)
    (hStep : N.bGuaranteeSameSimulationResult = true →
      0 < N.FixedTimeStep ∧ 0 ≤ InRemainingTime ∧
      ⌊InRemainingTime / N.FixedTimeStep⌋₊ ≤ Fuel) :
    Succeeds (SimulateSoftBoneChain E U Fuel N Chain SkelComp MeshBases Out Start InRemainingTime)
      (fun R =>
        (N.bGuaranteeSameSimulationResult = true →
          R.Steps = ⌊InRemainingTime / N.FixedTimeStep⌋₊ ∧
          R.RemainingTime = InRemainingTime -
            (⌊InRemainingTime / N.FixedTimeStep⌋₊ : K) * N.FixedTimeStep ∧
          0 ≤ R.RemainingTime ∧ R.RemainingTime < N.FixedTimeStep) ∧
        (N.bGuaranteeSameSimulationResult = false → R.Steps = 1 ∧ R.RemainingTime = 0)) := by
  obtain ⟨RootBoneIndex, hRoot⟩ : ∃ b, Chain.BoneIndices.head? = some b := by
    cases hB : Chain.BoneIndices with
    | nil => rw [hB] at hBones; simp at hBones
    | cons a t => exact ⟨a, rfl⟩
  refine (SimulateSoftBoneChain_spec E U Fuel N Chain SkelComp MeshBases Out Start
    InRemainingTime RootBoneIndex hBones hRoot hLinks hOut
    (fun h => ⟨(hStep h).1, (hStep h).2.2⟩)).mono ?_
  intro R ⟨_, _, _, _, hDet, hNonDet⟩
  refine ⟨fun h => ?_, hNonDet⟩
  obtain ⟨h1, h2, h3⟩ := hDet h
  obtain ⟨hPos, hT, _⟩ := hStep h
  refine ⟨h1, h2, ?_, h3⟩
  rw [h2]
  have hk : (⌊InRemainingTime / N.FixedTimeStep⌋₊ : K) ≤ InRemainingTime / N.FixedTimeStep :=
    Nat.floor_le (div_nonneg hT (le_of_lt hPos))
  have := (le_div_iff₀ hPos).mp hk
  linarith

/-- Witness of C4: a frame of 3/64 s at 60 Hz with the time dilation 15/16 (a fixed step of
1/64 s) on the chain of the bones 0 and 1 in deterministic mode, and the same frame on a node
in non-deterministic mode. -/
theorem SimulateSoftBoneChain_steps_and_remainder_witness :
    ((DyadicUpdatedNode ℚ).bGuaranteeSameSimulationResult = true ∧
      0 < (DyadicUpdatedNode ℚ).FixedTimeStep ∧ (0 : ℚ) ≤ 3 / 64 ∧
      ⌊(3 / 64 : ℚ) / (DyadicUpdatedNode ℚ).FixedTimeStep⌋₊ ≤ 3) ∧
    Succeeds (SimulateSoftBoneChain RationalEngine (SevenMemory ℚ) 3 (DyadicUpdatedNode ℚ)
        ⟨[0, 1], []⟩ none (StraightPose ℚ) [SevenOutput ℚ 0, SevenOutput ℚ 1] 0 (3 / 64))
      (fun R =>
        ((DyadicUpdatedNode ℚ).bGuaranteeSameSimulationResult = true →
          R.Steps = ⌊(3 / 64 : ℚ) / (DyadicUpdatedNode ℚ).FixedTimeStep⌋₊ ∧
          R.RemainingTime = 3 / 64 -
            (⌊(3 / 64 : ℚ) / (DyadicUpdatedNode ℚ).FixedTimeStep⌋₊ : ℚ) *
              (DyadicUpdatedNode ℚ).FixedTimeStep ∧
          0 ≤ R.RemainingTime ∧ R.RemainingTime < (DyadicUpdatedNode ℚ).FixedTimeStep) ∧
        ((DyadicUpdatedNode ℚ).bGuaranteeSameSimulationResult = false →
          R.Steps = 1 ∧ R.RemainingTime = 0)) ∧
    Succeeds (SimulateSoftBoneChain RationalEngine (SevenMemory ℚ) 0
        (UpdateInternal (StiffNode ℚ) (3 / 64) (15 / 16) (-980)) ⟨[0, 1], []⟩
        none (StraightPose ℚ) [SevenOutput ℚ 0, SevenOutput ℚ 1] 0 (3 / 64))
      (fun R => R.Steps = 1 ∧ R.RemainingTime = 0) := by
  have hF : (DyadicUpdatedNode ℚ).FixedTimeStep = 1 / 64 := by decide!
  have hStep : 0 < (DyadicUpdatedNode ℚ).FixedTimeStep ∧ (0 : ℚ) ≤ 3 / 64 ∧
      ⌊(3 / 64 : ℚ) / (DyadicUpdatedNode ℚ).FixedTimeStep⌋₊ ≤ 3 := by
    rw [hF]
    exact ⟨by norm_num, by norm_num, Nat.floor_le_of_le (by norm_num)⟩
  exact ⟨⟨rfl, hStep⟩,
    SimulateSoftBoneChain_steps_and_remainder RationalEngine (SevenMemory ℚ) 3
      (DyadicUpdatedNode ℚ) ⟨[0, 1], []⟩ none (StraightPose ℚ)
      [SevenOutput ℚ 0, SevenOutput ℚ 1] 0 (3 / 64)
      (by decide) (Or.inl rfl) (by decide) (fun _ => hStep),
    (SimulateSoftBoneChain_steps_and_remainder RationalEngine (SevenMemory ℚ) 0
      (UpdateInternal (StiffNode ℚ) (3 / 64) (15 / 16) (-980)) ⟨[0, 1], []⟩ none (StraightPose ℚ)
      [SevenOutput ℚ 0, SevenOutput ℚ 1] 0 (3 / 64) (by decide) (Or.inl rfl) (by decide)
      (fun h => absurd h (by decide))).mono (fun _ h => h.2 rfl)⟩

end SimulationClaims

section FrameClaims

variable {K : Type} [LinearOrderedField K]

/-- C7. Exhausted time budget: when `RemainingTime ≤ 0` (and the sort rearranges),
`EvaluateBoneTransforms` ends without a fault, runs no physical step on any chain, returns the
output list as it got it and leaves `RemainingTime` as it was. A node that has chains is left
unchanged altogether, with every link's `Position`, `Velocity` and `RenderPosition`; a node
without chains gets its chains from `InitializeBoneIndices`, none of them with a link. -/
theorem EvaluateBoneTransforms_without_time (E : Engine K) (U : Nat → Uninitialized K)
    (UOut : Nat → FBoneTransform K) (Fuel : Nat) (N : FAnimNode_SoftBone K)
    (SkelComp : Option (USkeletalMeshComponent K)) (MeshBases : FCSPose K)
    (OutBoneTransforms : List (FBoneTransform K)) (hSort : SortsByRootBone E)
    (hTime : N.RemainingTime ≤ 0) :
    Succeeds (EvaluateBoneTransforms E U UOut Fuel N SkelComp MeshBases OutBoneTransforms)
      (fun R =>
        R.OutBoneTransforms = OutBoneTransforms ∧
        R.Steps = [] ∧
        R.Node.RemainingTime = N.RemainingTime ∧
        (N.ChainInfos ≠ [] → R.Node = N) ∧
        (N.ChainInfos = [] → ∀ Chain ∈ R.Node.ChainInfos, Chain.PrevBoneLinks = [])) := by
  unfold EvaluateBoneTransforms
  by_cases hEmpty : N.ChainInfos.length = 0
  · simp only [hEmpty, if_true]
    apply Succeeds.bind _ (InitializeBoneIndices_spec E N MeshBases (hSort _).1)
    rintro N' ⟨Chains, rfl, -, hLinks⟩
    simp only [hTime, if_true]
    refine Succeeds.pure ⟨rfl, rfl, rfl, fun h => ?_, fun _ Chain hC => (hLinks Chain hC).1⟩
    exact absurd (List.length_eq_zero.mp hEmpty) h
  · simp only [hEmpty, if_false, pure_eq_ok, ok_bind, hTime, if_true]
    refine Succeeds.ok ⟨rfl, rfl, rfl, fun _ => rfl, fun h => ?_⟩
    rw [h] at hEmpty
    simp at hEmpty

/-- Witness of C7: the example node before any `UpdateInternal`, with `RemainingTime = 0`. -/
theorem EvaluateBoneTransforms_without_time_witness :
    SortsByRootBone RationalEngine ∧ (ExampleNode ℚ).RemainingTime ≤ 0 ∧
    Succeeds (EvaluateBoneTransforms RationalEngine (fun _ => SevenMemory ℚ) (SevenOutput ℚ) 3
        (ExampleNode ℚ) none (StraightPose ℚ) [])
      (fun R =>
        R.OutBoneTransforms = [] ∧
        R.Steps = [] ∧
        R.Node.RemainingTime = (ExampleNode ℚ).RemainingTime ∧
        ((ExampleNode ℚ).ChainInfos ≠ [] → R.Node = ExampleNode ℚ) ∧
        ((ExampleNode ℚ).ChainInfos = [] → ∀ Chain ∈ R.Node.ChainInfos, Chain.PrevBoneLinks = [])) :=
  ⟨RationalEngine_sorts, by decide!,
    EvaluateBoneTransforms_without_time RationalEngine (fun _ => SevenMemory ℚ) (SevenOutput ℚ) 3
      (ExampleNode ℚ) none (StraightPose ℚ) [] RationalEngine_sorts (by decide!)⟩

/-- C3 (the code at a failing input). Deterministic mode, 60 Hz, time dilation 15/16, gravity
-980, the node of the bones 0 and 1 with stiffness 1/2 in formula mode, damping ratio 1/2,
gravity scale 1/4 and the bone length constraint off, the straight pose in every frame: the
fixed time step is 1/64, and 3/64 s run as the frames 1/64 s, 1/32 s and run as the frames
1/32 s, 1/64 s leave different link positions. In `float` the fixed time step is 1/64 as well,
and the loop runs the same rounds: 1 and 2 in the one run, 2 and 1 in the other. -/
theorem deterministic_mode_depends_on_frame_partition :
    LinkPositions (RunFrames RationalEngine (fun _ => SevenMemory ℚ) (SevenOutput ℚ) 10 none
        (StraightPose ℚ) (15 / 16) (-980) (DyadicNode ℚ) [1 / 64, 1 / 32]) =
      some [[⟨0, 0, 0⟩, ⟨10, 0, -2695 / 16384⟩, ⟨20, 0, -27195 / 131072⟩]] ∧
    LinkPositions (RunFrames RationalEngine (fun _ => SevenMemory ℚ) (SevenOutput ℚ) 10 none
        (StraightPose ℚ) (15 / 16) (-980) (DyadicNode ℚ) [1 / 32, 1 / 64]) =
      some [[⟨0, 0, 0⟩, ⟨10, 0, -1225 / 8192⟩, ⟨20, 0, -12985 / 65536⟩]] ∧
    (UpdateInternal (DyadicNode ℚ) (1 / 64) (15 / 16) (-980)).FixedTimeStep = 1 / 64 ∧
    FloatFixedTimeStep (DyadicNode ℚ).SimulationHertz (15 / 16) = 1 / 64 ∧
    FloatFrameTimes (1 / 64) 10 0 [1 / 64, 1 / 32] = .ok (0, [1, 2]) ∧
    FloatFrameTimes (1 / 64) 10 0 [1 / 32, 1 / 64] = .ok (0, [2, 1]) := by
  refine ⟨?_, ?_, ?_, ?_, ?_, ?_⟩ <;> decide!

/-- C5 (the code at a failing input). Non-deterministic mode, no restoring force, gravity -980
scaled by 1/4: at 60 Hz a frame of 1/30 s and a frame of 1/60 s both move the links by
-245 (1/60)² = -49/720, the displacement of a step of `FixedTimeStep`; the same frame of 1/30 s
at 30 Hz moves them by -245 (1/30)² = -49/180. The step size is `FixedTimeStep`, which comes
from `SimulationHertz`, and not the frame's delta time. -/
theorem non_deterministic_step_uses_FixedTimeStep :
    LinkPositions (RunFrames RationalEngine (fun _ => SevenMemory ℚ) (SevenOutput ℚ) 10 none
        (StraightPose ℚ) 1 (-980) (FallingNode ℚ .SH_60Hz) [1 / 30]) =
      some [[⟨0, 0, 0⟩, ⟨10, 0, -49 / 720⟩, ⟨20, 0, -49 / 720⟩]] ∧
    LinkPositions (RunFrames RationalEngine (fun _ => SevenMemory ℚ) (SevenOutput ℚ) 10 none
        (StraightPose ℚ) 1 (-980) (FallingNode ℚ .SH_60Hz) [1 / 60]) =
      some [[⟨0, 0, 0⟩, ⟨10, 0, -49 / 720⟩, ⟨20, 0, -49 / 720⟩]] ∧
    LinkPositions (RunFrames RationalEngine (fun _ => SevenMemory ℚ) (SevenOutput ℚ) 10 none
        (StraightPose ℚ) 1 (-980) (FallingNode ℚ .SH_30Hz) [1 / 30]) =
      some [[⟨0, 0, 0⟩, ⟨10, 0, -49 / 180⟩, ⟨20, 0, -49 / 180⟩]] := by
  refine ⟨?_, ?_, ?_⟩ <;> decide!

/-- C6 (the code at a failing input). Non-deterministic mode, stiffness 1 in formula mode, no
gravity, the straight pose (final targets (10, 0, 0) for bone 1 and (20, 0, 0) for the virtual
tip link): the link of bone 1, with restoring weight 1, lands on what the fresh memory of
`TargetPositions` held, (7, 7, 7) in one run and (3, 3, 3) in the other, and the virtual tip
link, with restoring weight 1/2, half way to it. The restoring targets of the step are the
uninitialised entries, not the final targets. -/
theorem non_deterministic_step_uses_uninitialised_targets :
    LinkPositions (RunFrames RationalEngine (fun _ => SevenMemory ℚ) (SevenOutput ℚ) 10 none
        (StraightPose ℚ) 1 (-980) (StiffNode ℚ) [1 / 60]) =
      some [[⟨0, 0, 0⟩, ⟨7, 7, 7⟩, ⟨27 / 2, 7 / 2, 7 / 2⟩]] ∧
    LinkPositions (RunFrames RationalEngine (fun _ => ThreeMemory ℚ) (SevenOutput ℚ) 10 none
        (StraightPose ℚ) 1 (-980) (StiffNode ℚ) [1 / 60]) =
      some [[⟨0, 0, 0⟩, ⟨3, 3, 3⟩, ⟨23 / 2, 3 / 2, 3 / 2⟩]] := by
  constructor <;> decide!

end FrameClaims

section DistanceClaims

variable {K : Type} [LinearOrderedField K]

/-- C2 as stated fails: the bone length constraint is on, the link of bone 1 is at rest at
(10, 0, 0) with length 10, and the root target has moved onto it. After the step both links
are at (10, 0, 0): their distance is 0, not the length 10 (in floating point the normal of the
zero vector is not a number, and neither is the distance). -/
theorem distance_constraint_fails_on_coincident_links :
    (InertNode ℚ).bBoneLengthConstraint = true ∧
    (TimeIntegration RationalEngine (InertNode ℚ) (RestingChain ℚ) (1 / 60)
        [⟨10, 0, 0⟩, ⟨20, 0, 0⟩]).toOption.map
      (fun Chain => Chain.PrevBoneLinks.map (fun Link => (Link.Position, Link.Length))) =
      some [(⟨10, 0, 0⟩, 0), (⟨10, 0, 0⟩, 10)] ∧
    FVector.Dist RationalEngine (⟨10, 0, 0⟩ : FVector ℚ) ⟨10, 0, 0⟩ ≠ 10 := by
  refine ⟨rfl, ?_, ?_⟩ <;> decide!

/-- C2, amended. With exact roots and the bone length constraint on, a `TimeIntegration` step
on a chain with a target for every link ends without a fault, and for every link index
i + 1 ≥ 1 (the virtual tip link included) at which the integrated position of the link, before
the constraint, differs from the corrected position of link i, and whose length is not
negative, the distance between the positions of link i + 1 and link i after the step is the
length of link i + 1. -/
theorem TimeIntegration_keeps_bone_lengths (E : Engine K) (N : FAnimNode_SoftBone K)
    (Chain : FChainInfo K) (TimeDelta : K) (Targets : List (FVector K))
    (hExact : ExactRoots E) (hConstraint : N.bBoneLengthConstraint = true)
    (hTargets : Targets.length = Chain.PrevBoneLinks.length)
    (hLinks : 0 < Chain.PrevBoneLinks.length) :
    ∃ (Integrated : List (FSoftBoneLink K)) (Chain' : FChainInfo K),
      TimeIntegration.Integrate N Chain.PrevBoneLinks TimeDelta Targets = .ok Integrated ∧
      TimeIntegration E N Chain TimeDelta Targets = .ok Chain' ∧
      Chain'.PrevBoneLinks.length = Chain.PrevBoneLinks.length ∧
      ∀ i, i + 1 < Chain.PrevBoneLinks.length →
        ∃ Parent Current Unconstrained,
          Chain'.PrevBoneLinks[i]? = some Parent ∧
          Chain'.PrevBoneLinks[i + 1]? = some Current ∧
          Integrated[i + 1]? = some Unconstrained ∧
          Current.Length = Unconstrained.Length ∧
          (Unconstrained.Position ≠ Parent.Position → 0 ≤ Current.Length →
            FVector.Dist E Current.Position Parent.Position = Current.Length) := by
  obtain ⟨Integrated, hInt, hIL, _⟩ :=
    Integrate_spec N Chain.PrevBoneLinks TimeDelta Targets hTargets hLinks
  obtain ⟨Solved, hSol, hSL, _, hS⟩ := SolveDistanceConstraint_spec E Integrated
  refine ⟨Integrated, { Chain with PrevBoneLinks := Solved }, hInt, ?_, by simp [hSL, hIL], ?_⟩
  · simp [TimeIntegration, hInt, hConstraint, hSol]
  · intro i hi
    have hi' : i + 1 < Integrated.length := by omega
    obtain ⟨Parent, hP, hC⟩ := hS i hi'
    refine ⟨Parent, _, Integrated[i + 1], hP, hC, List.getElem?_eq_getElem hi', rfl, ?_⟩
    intro hne hLength
    exact Dist_ConstrainedLink E hExact Parent.Position Integrated[i + 1] hne hLength

/-- Witness of C2, amended: over the reals, with the real square root, the chain at rest whose
root target stays at (0, 0, 0); the link of bone 1 ends at its length 10 from the root. -/
theorem TimeIntegration_keeps_bone_lengths_witness :
    ExactRoots (EngineOf Real.sqrt Real.arccos Real.sin Real.cos) ∧
    (InertNode ℝ).bBoneLengthConstraint = true ∧
    ∃ Chain' Parent Current,
      TimeIntegration (EngineOf Real.sqrt Real.arccos Real.sin Real.cos) (InertNode ℝ)
        (RestingChain ℝ) (1 / 60) [⟨0, 0, 0⟩, ⟨12, 0, 0⟩] = .ok Chain' ∧
      Chain'.PrevBoneLinks[0]? = some Parent ∧
      Chain'.PrevBoneLinks[1]? = some Current ∧
      Current.Length = 10 ∧
      FVector.Dist (EngineOf Real.sqrt Real.arccos Real.sin Real.cos) Current.Position
        Parent.Position = Current.Length := by
  have hExact := ExactRoots_real Real.arccos Real.sin Real.cos
  refine ⟨hExact, rfl, ?_⟩
  obtain ⟨Integrated, Chain', hInt, hStep, -, hAll⟩ :=
    TimeIntegration_keeps_bone_lengths (EngineOf Real.sqrt Real.arccos Real.sin Real.cos)
      (InertNode ℝ) (RestingChain ℝ) (1 / 60) [⟨0, 0, 0⟩, ⟨12, 0, 0⟩] hExact rfl rfl (by decide)
  obtain ⟨Parent, Current, Unconstrained, hP, hC, hU, hLen, hDist⟩ := hAll 0 (by decide)
  -- the integrated link of bone 1 and the corrected root link
  have hSpec := (Integrate_spec (InertNode ℝ) (RestingChain ℝ).PrevBoneLinks (1 / 60)
    [⟨0, 0, 0⟩, ⟨12, 0, 0⟩] rfl (by decide)).result hInt
  have hU' := hSpec.2 1 (by decide)
  rw [hU] at hU'
  have hUnc : Unconstrained = IntegratedLink (InertNode ℝ) (1 / 60)
      (RestingLink ℝ ⟨10, 0, 0⟩ 10 1) ⟨12, 0, 0⟩ := by
    simpa [RestingChain] using hU'
  have hRoot := (TimeIntegration_spec (EngineOf Real.sqrt Real.arccos Real.sin Real.cos)
    (InertNode ℝ) (RestingChain ℝ) (1 / 60) [⟨0, 0, 0⟩, ⟨12, 0, 0⟩] rfl (by decide)).result hStep
  obtain ⟨Root, hR1, hR2⟩ := hRoot.2.2
  rw [hP] at hR1
  have hParent : Parent.Position = ⟨0, 0, 0⟩ := by
    have h1 : Parent = Root := Option.some.inj hR1
    have h2 : (⟨0, 0, 0⟩ : FVector ℝ) = Root.Position := by simpa using hR2
    rw [h1, ← h2]
  have hUX : Unconstrained.Position.X = 10 := by
    rw [hUnc]
    simp [IntegratedLink, RestingLink, InertNode, DefaultNode, InitialzeWeightCurve]
  have hUL : Unconstrained.Length = 10 := by
    rw [hUnc]
    simp [IntegratedLink, RestingLink]
  have hne : Unconstrained.Position ≠ Parent.Position := by
    intro h
    have := congrArg FVector.X h
    rw [hUX, hParent] at this
    norm_num at this
  have hL : Current.Length = 10 := by rw [hLen, hUL]
  exact ⟨Chain', Parent, Current, hStep, hP, hC, hL, hDist hne (by rw [hL]; norm_num)⟩

end DistanceClaims

section TopologyClaims

variable {K : Type}

/-- C9. Chain ordering: with a sort that sorts by the root bone, after `InitializeBoneIndices`
the chains are those of the accepted pairs, rearranged, and their root bone indices are in
non-decreasing order: the root index of chain k is at most that of chain k + 1 (and of every
later chain). -/
theorem InitializeBoneIndices_chains_sorted_by_root (E : Engine K) (N : FAnimNode_SoftBone K)
    (MeshBases : FCSPose K) (hSort : SortsByRootBone E) :
    Succeeds (InitializeBoneIndices E N MeshBases) (fun N' =>
      (N'.ChainInfos.map ChainEnds).Perm
        ((AcceptedPairs N MeshBases.BoneContainer).map PairEnds) ∧
      (N'.ChainInfos.map (fun Chain => (ChainEnds Chain).1)).Pairwise (fun a b => a ≤ b) ∧
      ∀ (k : Nat) (h : k + 1 < N'.ChainInfos.length),
        (ChainEnds N'.ChainInfos[k]).1 ≤ (ChainEnds N'.ChainInfos[k + 1]).1) := by
  have hSpec := InitializeBoneIndices_spec E N MeshBases (hSort _).1
  refine hSpec.mono ?_
  rintro N' ⟨Chains, rfl, hEnds, -⟩
  have hPair : (Chains.map (fun Chain => (ChainEnds Chain).1)).Pairwise (fun a b => a ≤ b) := by
    have h1 : Chains.map (fun Chain => (ChainEnds Chain).1) =
        (Chains.map ChainEnds).map Prod.fst := by simp
    rw [h1, hEnds, List.map_map, List.pairwise_map]
    refine (hSort _).2.imp ?_
    intro A B hAB
    simp only [FCompareRootBone, decide_eq_false_iff_not, not_lt] at hAB
    exact hAB
  refine ⟨?_, hPair, ?_⟩
  · simp only [hEnds]
    exact (hSort _).1.map _
  · intro k h
    have h' : k + 1 < Chains.length := h
    have := List.pairwise_iff_getElem.mp hPair k (k + 1) (by simp; omega) (by simpa using h')
      (by omega)
    simpa using this

/-- Witness of C9: the pairs of `ExampleNode` on `StraightPose`. -/
theorem InitializeBoneIndices_chains_sorted_by_root_witness :
    SortsByRootBone RationalEngine ∧
    Succeeds (InitializeBoneIndices RationalEngine (ExampleNode ℚ) (StraightPose ℚ)) (fun N' =>
      (N'.ChainInfos.map ChainEnds).Perm
        ((AcceptedPairs (ExampleNode ℚ) (StraightPose ℚ).BoneContainer).map PairEnds) ∧
      (N'.ChainInfos.map (fun Chain => (ChainEnds Chain).1)).Pairwise (fun a b => a ≤ b) ∧
      ∀ (k : Nat) (h : k + 1 < N'.ChainInfos.length),
        (ChainEnds N'.ChainInfos[k]).1 ≤ (ChainEnds N'.ChainInfos[k + 1]).1) :=
  ⟨RationalEngine_sorts,
    InitializeBoneIndices_chains_sorted_by_root RationalEngine (ExampleNode ℚ) (StraightPose ℚ)
      RationalEngine_sorts⟩

/-- C10. Index extraction: when the root is a proper ancestor of the tip (and has a depth, that
is, the parent steps above it end at a bone without a parent), `SetSoftBoneIndices` started on
the empty list returns the parent path from the root to the tip: it starts with the root,
ends with the tip, every element is the parent of the next one, no bone occurs twice, and its
length is depth(tip) - depth(root) + 1, which is at least 2. -/
theorem SetSoftBoneIndices_returns_parent_path (MeshBases : FCSPose K) (RootIndex TipIndex : Int)
    (RootDepth : Nat) (hDepth : HasDepth MeshBases.BoneContainer RootIndex RootDepth)
    (hAncestor : IsProperAncestor MeshBases.BoneContainer RootIndex TipIndex) :
    ∃ (Path : List Int) (TipDepth : Nat),
      SetSoftBoneIndices MeshBases RootIndex TipIndex [] = .ok Path ∧
      Path.head? = some RootIndex ∧
      Path.getLast? = some TipIndex ∧
      List.Chain' (fun Parent Bone => GetParentBoneIndex MeshBases Bone = .ok Parent) Path ∧
      Path.Nodup ∧
      HasDepth MeshBases.BoneContainer TipIndex TipDepth ∧
      Path.length = TipDepth - RootDepth + 1 ∧
      2 ≤ Path.length := by
  obtain ⟨Mid, hLast, hD, hChain, hDepths, hRange, hNodup, hLoop⟩ :=
    walk_of_ancestor MeshBases RootIndex RootDepth hDepth hAncestor
  have hpos : 0 < Mid.length := by
    cases Mid with
    | nil => simp at hLast
    | cons a t => simp
  have hlen : Mid.length ≤ MeshBases.BoneContainer.ParentIndices.length :=
    length_le_of_nodup_bones _ Mid hNodup hRange
  refine ⟨RootIndex :: Mid, RootDepth + Mid.length, ?_, rfl, ?_, hChain, ?_, hD, ?_, ?_⟩
  · simp [SetSoftBoneIndices, hLoop _ [] hlen]
  · cases Mid with
    | nil => simp at hLast
    | cons a t => simpa [List.getLast?_cons_cons] using hLast
  · rw [List.nodup_cons]
    refine ⟨?_, hNodup⟩
    intro hmem
    obtain ⟨d, h1, h2, _⟩ := hDepths RootIndex hmem
    have := h1.unique _ hDepth
    omega
  · simp
  · simp; omega

/-- Witness of C10: in `StraightPose`, bone 1 (of depth 1) is a proper ancestor of bone 3. -/
theorem SetSoftBoneIndices_returns_parent_path_witness :
    HasDepth (StraightPose ℚ).BoneContainer 1 1 ∧
    IsProperAncestor (StraightPose ℚ).BoneContainer 1 3 ∧
    ∃ (Path : List Int) (TipDepth : Nat),
      SetSoftBoneIndices (StraightPose ℚ) 1 3 [] = .ok Path ∧
      Path.head? = some 1 ∧
      Path.getLast? = some 3 ∧
      List.Chain' (fun Parent Bone => GetParentBoneIndex (StraightPose ℚ) Bone = .ok Parent) Path ∧
      Path.Nodup ∧
      HasDepth (StraightPose ℚ).BoneContainer 3 TipDepth ∧
      Path.length = TipDepth - 1 + 1 ∧
      2 ≤ Path.length :=
  ⟨@HasDepth.child (StraightPose ℚ).BoneContainer 1 0 0 rfl (HasDepth.top rfl),
    @IsProperAncestor.step (StraightPose ℚ).BoneContainer 1 3 2 rfl (IsProperAncestor.parent rfl),
    SetSoftBoneIndices_returns_parent_path (StraightPose ℚ) 1 3 1
      (@HasDepth.child (StraightPose ℚ).BoneContainer 1 0 0 rfl (HasDepth.top rfl))
      (@IsProperAncestor.step (StraightPose ℚ).BoneContainer 1 3 2 rfl (IsProperAncestor.parent rfl))⟩

end TopologyClaims

section Claims

variable {K : Type} [LinearOrderedField K]

/-- C8. Chain validation and exclusion: with a sort that rearranges, `InitializeBoneIndices`
ends without a fault and leaves one chain, without links, for each accepted pair among the
configured pairs (the primary pair and the additional pairs) and no other chain: the chains'
(root, tip) ends are a rearrangement of the accepted pairs' ends. A pair is accepted exactly
when it is configured, its root and its tip are bones of the container and its root is a
proper ancestor of its tip. When no pair is accepted, `EvaluateBoneTransforms` leaves no
chain and returns the output list as it got it. -/
theorem InitializeBoneIndices_one_chain_per_accepted_pair (E : Engine K) (U : Nat → Uninitialized K)
    (UOut : Nat → FBoneTransform K) (Fuel : Nat) (N : FAnimNode_SoftBone K)
    (SkelComp : Option (USkeletalMeshComponent K)) (MeshBases : FCSPose K)
    (OutBoneTransforms : List (FBoneTransform K)) (hSort : SortsByRootBone E) :
    Succeeds (InitializeBoneIndices E N MeshBases) (fun N' =>
      (N'.ChainInfos.map ChainEnds).Perm
        ((AcceptedPairs N MeshBases.BoneContainer).map PairEnds) ∧
      ∀ Chain ∈ N'.ChainInfos, Chain.PrevBoneLinks = []) ∧
    (∀ Pair : FBonePair, Pair ∈ AcceptedPairs N MeshBases.BoneContainer ↔
      Pair ∈ ConfiguredPairs N ∧
      (0 ≤ Pair.RootBone.BoneIndex ∧
        Pair.RootBone.BoneIndex < (MeshBases.BoneContainer.ParentIndices.length : Int)) ∧
      (0 ≤ Pair.TipBone.BoneIndex ∧
        Pair.TipBone.BoneIndex < (MeshBases.BoneContainer.ParentIndices.length : Int)) ∧
      IsProperAncestor MeshBases.BoneContainer Pair.RootBone.BoneIndex Pair.TipBone.BoneIndex) ∧
    (AcceptedPairs N MeshBases.BoneContainer = [] → N.ChainInfos = [] →
      EvaluateBoneTransforms E U UOut Fuel N SkelComp MeshBases OutBoneTransforms =
        .ok ⟨{ N with ChainInfos := [] }, OutBoneTransforms, []⟩) := by
  have hSpec := InitializeBoneIndices_spec E N MeshBases (hSort _).1
  refine ⟨?_, ?_, ?_⟩
  · refine hSpec.mono ?_
    rintro N' ⟨Chains, rfl, hEnds, hLinks⟩
    refine ⟨?_, fun Chain hC => (hLinks Chain hC).1⟩
    simp only [hEnds]
    exact (hSort _).1.map _
  · intro Pair
    unfold AcceptedPairs
    rw [List.mem_filter]
    simp only [IsValidBonePair, FBoneReference.IsValid, Bool.and_eq_true, decide_eq_true_eq,
      BoneIsChildOf_iff, INDEX_NONE]
    constructor
    · rintro ⟨h1, ⟨⟨_, h2⟩, ⟨_, h3⟩⟩, h4⟩
      exact ⟨h1, h3, h2, h4⟩
    · rintro ⟨h1, h3, h2, h4⟩
      exact ⟨h1, ⟨⟨by omega, h2⟩, ⟨by omega, h3⟩⟩, h4⟩
  · intro hNone hEmpty
    obtain ⟨N', hN', Chains, rfl, hEnds, -⟩ := hSpec
    have hChains : Chains = [] := by
      have h1 := (hSort (AcceptedPairs N MeshBases.BoneContainer)).1
      rw [hNone] at h1
      rw [hNone, List.Perm.eq_nil h1] at hEnds
      simpa using hEnds
    subst hChains
    unfold EvaluateBoneTransforms
    simp only [hEmpty, List.length_nil, if_true, hN', ok_bind]
    by_cases hT : N.RemainingTime ≤ 0
    · simp [hT]
    · simp [hT, forLoop, forLoopFrom]

/-- Witness of C8: the pairs of `ExampleNode` on `StraightPose`. -/
theorem InitializeBoneIndices_one_chain_per_accepted_pair_witness :
    SortsByRootBone RationalEngine ∧
    Succeeds (InitializeBoneIndices RationalEngine (ExampleNode ℚ) (StraightPose ℚ)) (fun N' =>
      (N'.ChainInfos.map ChainEnds).Perm
        ((AcceptedPairs (ExampleNode ℚ) (StraightPose ℚ).BoneContainer).map PairEnds) ∧
      ∀ Chain ∈ N'.ChainInfos, Chain.PrevBoneLinks = []) :=
  ⟨RationalEngine_sorts,
    (InitializeBoneIndices_one_chain_per_accepted_pair RationalEngine (fun _ => (SevenMemory ℚ))
      (SevenOutput ℚ) 0 (ExampleNode ℚ) none (StraightPose ℚ) [] RationalEngine_sorts).1⟩

end Claims

end SoftBone

namespace SoftBone

/-! ## The claims, continued -/

section DegenerateClaims

variable {K : Type} [LinearOrderedField K]

/-- C11. Degenerate pair: a pair whose root and tip are one and the same bone of the hierarchy
(a bone with a depth) is not accepted by `IsValidBonePair`; with a sort that rearranges,
`InitializeBoneIndices` leaves no chain that starts and ends at that bone; and when that pair
is all that is configured, `EvaluateBoneTransforms` leaves no chain, hence no link and no
physical step, and returns the output list as it got it. -/
theorem degenerate_pair_gives_no_chain (E : Engine K) (U : Nat → Uninitialized K)
    (UOut : Nat → FBoneTransform K) (Fuel : Nat) (N : FAnimNode_SoftBone K)
    (SkelComp : Option (USkeletalMeshComponent K)) (MeshBases : FCSPose K)
    (OutBoneTransforms : List (FBoneTransform K)) (Bone : Int) (Depth : Nat)
    (hSort : SortsByRootBone E) (hDepth : HasDepth MeshBases.BoneContainer Bone Depth) :
    IsValidBonePair MeshBases.BoneContainer ⟨Bone⟩ ⟨Bone⟩ = false ∧
    Succeeds (InitializeBoneIndices E N MeshBases) (fun N' =>
      ∀ Chain ∈ N'.ChainInfos, ChainEnds Chain ≠ (Bone, Bone)) ∧
    (N.RootBone = ⟨Bone⟩ → N.TipBone = ⟨Bone⟩ → N.AdditionalChains = [] → N.ChainInfos = [] →
      EvaluateBoneTransforms E U UOut Fuel N SkelComp MeshBases OutBoneTransforms =
        .ok ⟨{ N with ChainInfos := [] }, OutBoneTransforms, []⟩) := by
  have hSelf := IsValidBonePair_self MeshBases Bone Depth hDepth
  refine ⟨hSelf, ?_, ?_⟩
  · refine (InitializeBoneIndices_spec E N MeshBases (hSort _).1).mono ?_
    rintro N' ⟨Chains, rfl, hEnds, -⟩ Chain hChain hEq
    have h1 : ChainEnds Chain ∈ Chains.map ChainEnds := List.mem_map_of_mem _ hChain
    rw [hEnds, List.mem_map] at h1
    obtain ⟨Pair, hPair, hP⟩ := h1
    have h2 := ((hSort _).1.mem_iff).mp hPair
    unfold AcceptedPairs at h2
    rw [List.mem_filter] at h2
    rw [hEq] at hP
    simp only [PairEnds, Prod.mk.injEq] at hP
    have h3 : Pair = ⟨⟨Bone⟩, ⟨Bone⟩⟩ := by
      cases Pair with
      | mk R T => cases R; cases T; simp_all
    rw [h3] at h2
    rw [hSelf] at h2
    exact absurd h2.2 (by simp)
  · intro hR hT hA hEmpty
    refine EvaluateBoneTransforms_without_accepted_pair E U UOut Fuel N SkelComp MeshBases
      OutBoneTransforms hSort ?_ hEmpty
    simp [AcceptedPairs, ConfiguredPairs, hR, hT, hA, hSelf]

/-- Witness of C11: the pair (2, 2) of `ExampleContainer`, all that is configured. -/
theorem degenerate_pair_gives_no_chain_witness :
    SortsByRootBone RationalEngine ∧ HasDepth (StraightPose ℚ).BoneContainer 2 2 ∧
    EvaluateBoneTransforms RationalEngine (fun _ => SevenMemory ℚ) (SevenOutput ℚ) 0
      (DefaultNode ℚ 2 2) none (StraightPose ℚ) [] =
        .ok ⟨{ DefaultNode ℚ 2 2 with ChainInfos := [] }, [], []⟩ :=
  have hDepth : HasDepth (StraightPose ℚ).BoneContainer 2 2 :=
    @HasDepth.child _ 2 1 1 rfl (@HasDepth.child _ 1 0 0 rfl (HasDepth.top rfl))
  ⟨RationalEngine_sorts, hDepth,
    (degenerate_pair_gives_no_chain RationalEngine (fun _ => SevenMemory ℚ) (SevenOutput ℚ) 0
      (DefaultNode ℚ 2 2) none (StraightPose ℚ) [] 2 2 RationalEngine_sorts hDepth).2.2
      rfl rfl rfl rfl⟩

end DegenerateClaims


section PresetClaims

variable {K : Type} [LinearOrderedField K]

/-- C18. Weight monotonicity of the presets: for each of the built-in curves that
`InitialzeWeightCurve` sets (constant, linear, quadratic), the key times increase from key to
key and the key values do not: every key's value is at most the value of the key before
it. -/
theorem InitialzeWeightCurve_presets_non_increasing (N : FAnimNode_SoftBone K) :
    List.Chain' (fun Key Next : K × K => Key.1 < Next.1 ∧ Next.2 ≤ Key.2)
      (InitialzeWeightCurve { N with RestoringWeightType := .RW_Constant }).WeightCurve ∧
    List.Chain' (fun Key Next : K × K => Key.1 < Next.1 ∧ Next.2 ≤ Key.2)
      (InitialzeWeightCurve { N with RestoringWeightType := .RW_Linear }).WeightCurve ∧
    List.Chain' (fun Key Next : K × K => Key.1 < Next.1 ∧ Next.2 ≤ Key.2)
      (InitialzeWeightCurve { N with RestoringWeightType := .RW_Quadratic }).WeightCurve := by
  refine ⟨?_, ?_, ?_⟩
  · simp only [InitialzeWeightCurve, List.chain'_cons, List.chain'_singleton, and_true]
    norm_num
  · simp only [InitialzeWeightCurve, List.chain'_cons, List.chain'_singleton, and_true]
    norm_num
  · simp only [InitialzeWeightCurve, List.chain'_cons, List.chain'_singleton, and_true]
    norm_num

end PresetClaims

section DampingClaims

variable {K : Type} [LinearOrderedField K]

/-- C17. Full damping: a physical step with a target for every link ends without a fault and
leaves every link but the root with the velocity
`(Velocity + RestoringWeight * (Target - Position) / TimeDelta + Gravity * TimeDelta) *
(1 - DampingRatio)`: the zero vector when `DampingRatio` is 1, whatever the link's velocity,
position and target were, and the integrated velocity itself when `DampingRatio` is 0 (with
and without the bone length constraint). -/
theorem TimeIntegration_damping (E : Engine K) (N : FAnimNode_SoftBone K) (Chain : FChainInfo K)
    (TimeDelta : K) (Targets : List (FVector K))
    (hLen : Targets.length = Chain.PrevBoneLinks.length) (hPos : 0 < Chain.PrevBoneLinks.length) :
    Succeeds (TimeIntegration E N Chain TimeDelta Targets) (fun Chain' =>
      ∀ j Link Target, 1 ≤ j → Chain.PrevBoneLinks[j]? = some Link → Targets[j]? = some Target →
        ∃ Link', Chain'.PrevBoneLinks[j]? = some Link' ∧
          Link'.Velocity =
            (Link.Velocity + ((Link.RestoringWeight • (Target - Link.Position)).Scale (1 / TimeDelta)
              + (⟨0, 0, N.GravityScale * N.GravityZ⟩ : FVector K).Scale TimeDelta)).Scale
              (1 - N.DampingRatio) ∧
          (N.DampingRatio = 1 → Link'.Velocity = FVector.ZeroVector) ∧
          (N.DampingRatio = 0 → Link'.Velocity =
            Link.Velocity + ((Link.RestoringWeight • (Target - Link.Position)).Scale (1 / TimeDelta)
              + (⟨0, 0, N.GravityScale * N.GravityZ⟩ : FVector K).Scale TimeDelta))) := by
  refine (TimeIntegration_entries E N Chain TimeDelta Targets hLen hPos).mono ?_
  rintro Chain' ⟨-, -, -, hRest⟩ j Link Target h1 hLk hT
  obtain ⟨Parent, -, hCur⟩ := hRest j Link Target h1 hLk hT
  refine ⟨_, hCur, ?_⟩
  have hV : (if N.bBoneLengthConstraint = true then
        ConstrainedLink E Parent.Position (IntegratedLink N TimeDelta Link Target)
      else IntegratedLink N TimeDelta Link Target).Velocity =
      (Link.Velocity + ((Link.RestoringWeight • (Target - Link.Position)).Scale (1 / TimeDelta)
        + (⟨0, 0, N.GravityScale * N.GravityZ⟩ : FVector K).Scale TimeDelta)).Scale
        (1 - N.DampingRatio) := by
    split <;> rfl
  rw [hV]
  refine ⟨rfl, fun h1 => ?_, fun h0 => ?_⟩
  · rw [h1]
    ext <;> simp [FVector.ZeroVector]
  · rw [h0]
    ext <;> simp

/-- Witness of C17: the chain of the bones 0 and 1 at rest, with the default node after a
frame and the targets (0, 0, 0) and (10, 0, 5). -/
theorem TimeIntegration_damping_witness :
    Succeeds (TimeIntegration RationalEngine (UpdatedNode ℚ) (RestingChain ℚ) (1 / 60)
      [⟨0, 0, 0⟩, ⟨10, 0, 5⟩]) (fun Chain' =>
      ∀ j Link Target, 1 ≤ j → (RestingChain ℚ).PrevBoneLinks[j]? = some Link →
        ([⟨0, 0, 0⟩, ⟨10, 0, 5⟩] : List (FVector ℚ))[j]? = some Target →
        ∃ Link', Chain'.PrevBoneLinks[j]? = some Link' ∧
          Link'.Velocity =
            (Link.Velocity + ((Link.RestoringWeight • (Target - Link.Position)).Scale (1 / (1 / 60))
              + (⟨0, 0, (UpdatedNode ℚ).GravityScale * (UpdatedNode ℚ).GravityZ⟩ : FVector ℚ).Scale
                (1 / 60))).Scale (1 - (UpdatedNode ℚ).DampingRatio) ∧
          ((UpdatedNode ℚ).DampingRatio = 1 → Link'.Velocity = FVector.ZeroVector) ∧
          ((UpdatedNode ℚ).DampingRatio = 0 → Link'.Velocity =
            Link.Velocity + ((Link.RestoringWeight • (Target - Link.Position)).Scale (1 / (1 / 60))
              + (⟨0, 0, (UpdatedNode ℚ).GravityScale * (UpdatedNode ℚ).GravityZ⟩ : FVector ℚ).Scale
                (1 / 60)))) :=
  TimeIntegration_damping RationalEngine (UpdatedNode ℚ) (RestingChain ℚ) (1 / 60)
    [⟨0, 0, 0⟩, ⟨10, 0, 5⟩] rfl (by decide)

end DampingClaims

section StiffnessClaims

variable {K : Type} [LinearOrderedField K]

end StiffnessClaims

end SoftBone

namespace SoftBone

section FreeFallClaims

variable {K : Type} [LinearOrderedField K]

/-- C15. Free fall: on a chain whose links after the root have the restoring weight 0 and the
velocity zero, with `DampingRatio = 0` and without the bone length constraint, `k` physical
steps of size `h`, whatever the targets, end without a fault and leave every link after the
root at its first position plus `(0, 0, GravityScale * GravityZ * h^2 * (k (k + 1) / 2))` with
the velocity `(0, 0, GravityScale * GravityZ * h * k)`; its x and y coordinates are those it
had. -/
theorem TimeIntegration_free_fall (E : Engine K) (N : FAnimNode_SoftBone K) (Chain : FChainInfo K)
    (h : K) (Targets : List (List (FVector K)))
    (hDamping : N.DampingRatio = 0) (hConstraint : N.bBoneLengthConstraint = false)
    (hPos : 0 < Chain.PrevBoneLinks.length)
    (hTargets : ∀ T ∈ Targets, T.length = Chain.PrevBoneLinks.length)
    (hRest : ∀ j Link, 1 ≤ j → Chain.PrevBoneLinks[j]? = some Link →
      Link.RestoringWeight = 0 ∧ Link.Velocity = FVector.ZeroVector) :
    Succeeds (RunSteps E N Chain (Targets.map (fun T => (h, T)))) (fun Chain' =>
      ∀ j Link, 1 ≤ j → Chain.PrevBoneLinks[j]? = some Link →
        ∃ Link', Chain'.PrevBoneLinks[j]? = some Link' ∧
          Link'.Position = Link.Position + ⟨0, 0, N.GravityScale * N.GravityZ * h ^ 2 *
            ((Targets.length : K) * ((Targets.length : K) + 1) / 2)⟩ ∧
          Link'.Velocity = ⟨0, 0, N.GravityScale * N.GravityZ * h * (Targets.length : K)⟩ ∧
          Link'.Position.X = Link.Position.X ∧ Link'.Position.Y = Link.Position.Y) := by
  have hRun := RunSteps_invariant E N (fun m (C : FChainInfo K) =>
    C.PrevBoneLinks.length = Chain.PrevBoneLinks.length ∧
    ∀ j Link, 1 ≤ j → Chain.PrevBoneLinks[j]? = some Link →
      ∃ Link', C.PrevBoneLinks[j]? = some Link' ∧ Link'.RestoringWeight = 0 ∧
        Link'.Position = Link.Position + ⟨0, 0, N.GravityScale * N.GravityZ * h ^ 2 *
          ((m : K) * ((m : K) + 1) / 2)⟩ ∧
        Link'.Velocity = ⟨0, 0, N.GravityScale * N.GravityZ * h * (m : K)⟩)
    (Targets.map (fun T => (h, T))) ?_ 0 Chain ?_
  · refine hRun.mono ?_
    rintro Chain' ⟨-, hInv⟩ j Link h1 hj
    obtain ⟨Link', hL', -, hP, hV⟩ := hInv j Link h1 hj
    simp only [Nat.zero_add, List.length_map] at hL' hP hV
    refine ⟨Link', hL', hP, hV, ?_, ?_⟩
    · rw [hP]; simp
    · rw [hP]; simp
  · rintro m C Step hStep ⟨hLen, hInv⟩
    rw [List.mem_map] at hStep
    obtain ⟨T, hT, rfl⟩ := hStep
    have hTL := hTargets T hT
    refine (TimeIntegration_entries E N C h T (by rw [hTL, hLen]) (by omega)).mono ?_
    rintro C' ⟨-, hL', -, hE⟩
    refine ⟨by rw [hL', hLen], fun j Link h1 hj => ?_⟩
    obtain ⟨Link', hLk', hW, hP, hV⟩ := hInv j Link h1 hj
    have hjT : j < T.length := by rw [hTL]; exact lt_length_of_getElem? hj
    obtain ⟨Parent, -, hNew⟩ := hE j Link' T[j] h1 hLk' (List.getElem?_eq_getElem hjT)
    simp only [hConstraint, Bool.false_eq_true, if_false] at hNew
    refine ⟨_, hNew, hW, ?_, ?_⟩
    · simp only [IntegratedLink, hW, hP, hV, hDamping]
      ext <;> simp
      ring
    · simp only [IntegratedLink, hW, hV, hDamping]
      ext <;> simp
      ring
  · refine ⟨rfl, fun j Link h1 hj => ⟨Link, hj, (hRest j Link h1 hj).1, ?_, ?_⟩⟩
    · ext <;> simp
    · rw [(hRest j Link h1 hj).2]
      ext <;> simp [FVector.ZeroVector]

/-- Witness of C15: three steps of 1/60 s on the chain of the bones 0 and 1 at rest, with
gravity scale 1 and gravity -980. -/
theorem TimeIntegration_free_fall_witness :
    Succeeds (RunSteps RationalEngine (FreeFallNode ℚ) (RestingChain ℚ)
      (([[⟨0, 0, 0⟩, ⟨10, 0, 0⟩], [⟨0, 1, 0⟩, ⟨10, 1, 0⟩], [⟨0, 2, 0⟩, ⟨10, 2, 0⟩]] :
        List (List (FVector ℚ))).map (fun T => (1 / 60, T)))) (fun Chain' =>
      ∀ j Link, 1 ≤ j → (RestingChain ℚ).PrevBoneLinks[j]? = some Link →
        ∃ Link', Chain'.PrevBoneLinks[j]? = some Link' ∧
          Link'.Position = Link.Position + ⟨0, 0, (FreeFallNode ℚ).GravityScale *
            (FreeFallNode ℚ).GravityZ * (1 / 60) ^ 2 *
            ((([[⟨0, 0, 0⟩, ⟨10, 0, 0⟩], [⟨0, 1, 0⟩, ⟨10, 1, 0⟩], [⟨0, 2, 0⟩, ⟨10, 2, 0⟩]] :
              List (List (FVector ℚ))).length : ℚ) *
            ((([[⟨0, 0, 0⟩, ⟨10, 0, 0⟩], [⟨0, 1, 0⟩, ⟨10, 1, 0⟩], [⟨0, 2, 0⟩, ⟨10, 2, 0⟩]] :
              List (List (FVector ℚ))).length : ℚ) + 1) / 2)⟩ ∧
          Link'.Velocity = ⟨0, 0, (FreeFallNode ℚ).GravityScale * (FreeFallNode ℚ).GravityZ *
            (1 / 60) * (([[⟨0, 0, 0⟩, ⟨10, 0, 0⟩], [⟨0, 1, 0⟩, ⟨10, 1, 0⟩], [⟨0, 2, 0⟩, ⟨10, 2, 0⟩]] :
              List (List (FVector ℚ))).length : ℚ)⟩ ∧
          Link'.Position.X = Link.Position.X ∧ Link'.Position.Y = Link.Position.Y) :=
  TimeIntegration_free_fall RationalEngine (FreeFallNode ℚ) (RestingChain ℚ) (1 / 60)
    [[⟨0, 0, 0⟩, ⟨10, 0, 0⟩], [⟨0, 1, 0⟩, ⟨10, 1, 0⟩], [⟨0, 2, 0⟩, ⟨10, 2, 0⟩]] rfl rfl (by decide)
    (by
      intro T hT
      simp only [List.mem_cons, List.mem_singleton, List.not_mem_nil, or_false] at hT
      rcases hT with rfl | rfl | rfl <;> rfl)
    (by
      intro j Link h1 hj
      rcases j with _ | _ | j
      · omega
      · simp only [RestingChain, RestingLink, zero_add, List.getElem?_cons_succ,
          List.getElem?_cons_zero, Option.some.injEq] at hj
        subst hj
        exact ⟨rfl, rfl⟩
      · simp [RestingChain] at hj)

end FreeFallClaims

end SoftBone

namespace SoftBone

section LayoutClaims

variable {K : Type} [LinearOrderedField K] [FloorRing K]

/-- C20. Output layout: with a sort that rearranges, with time to simulate and, when the node
has chains already, chains of at least two bones whose links do not exist yet or are as many
as the tip rotation asks for (in deterministic mode with a positive fixed step and enough
rounds), `EvaluateBoneTransforms` on an empty output list ends without a fault; the list then
has one entry for each bone of each chain, the sum of the chains' numbers of bones (a virtual
tip link adds none), and the entry at the place `ChainOffset k + i` carries the bone index
`BoneIndices[i]` of chain `k`, where `ChainOffset k` is the number of bones of the chains
before `k`. -/
theorem EvaluateBoneTransforms_output_layout (E : Engine K) (U : Nat → Uninitialized K)
    (UOut : Nat → FBoneTransform K) (Fuel : Nat) (N : FAnimNode_SoftBone K)
    (SkelComp : Option (USkeletalMeshComponent K)) (MeshBases : FCSPose K)
    (hSort : SortsByRootBone E) (hTime : 0 < N.RemainingTime)
    (hChains : ∀ Chain ∈ N.ChainInfos, 2 ≤ Chain.BoneIndices.length ∧
      (Chain.PrevBoneLinks = [] ∨ Chain.PrevBoneLinks.length =
        Chain.BoneIndices.length + (if N.bAllowTipBoneRotation = true then 1 else 0)))
    (hStep : N.bGuaranteeSameSimulationResult = true →
      0 < N.FixedTimeStep ∧ ⌊N.RemainingTime / N.FixedTimeStep⌋₊ ≤ Fuel) :
    Succeeds (EvaluateBoneTransforms E U UOut Fuel N SkelComp MeshBases []) (fun R =>
      R.OutBoneTransforms.length =
        (R.Node.ChainInfos.map (fun Chain => Chain.BoneIndices.length)).sum ∧
      ∀ k Chain i Bone, R.Node.ChainInfos[k]? = some Chain → Chain.BoneIndices[i]? = some Bone →
        ∃ Entry, R.OutBoneTransforms[ChainOffset R.Node.ChainInfos k + i]? = some Entry ∧
          Entry.BoneIndex = Bone) := by
  unfold EvaluateBoneTransforms
  apply Succeeds.bind (fun M : FAnimNode_SoftBone K =>
    (∀ Chain ∈ M.ChainInfos, 2 ≤ Chain.BoneIndices.length ∧
      (Chain.PrevBoneLinks = [] ∨ Chain.PrevBoneLinks.length = NumLinks M Chain)) ∧
    M.RemainingTime = N.RemainingTime ∧ M.FixedTimeStep = N.FixedTimeStep ∧
    M.bGuaranteeSameSimulationResult = N.bGuaranteeSameSimulationResult)
  · by_cases hEmpty : N.ChainInfos.length = 0
    · simp only [hEmpty, if_true]
      refine (InitializeBoneIndices_spec E N MeshBases (hSort _).1).mono ?_
      rintro N' ⟨Chains, rfl, -, hGood⟩
      exact ⟨fun Chain hC => ⟨(hGood Chain hC).2, Or.inl (hGood Chain hC).1⟩, rfl, rfl, rfl⟩
    · simp only [hEmpty, if_false]
      exact Succeeds.pure ⟨hChains, rfl, rfl, rfl⟩
  rintro M ⟨hGood, hMT, hMF, hMD⟩
  have hT : ¬ M.RemainingTime ≤ 0 := by rw [hMT]; exact not_le.mpr hTime
  simp only [hT, if_false, List.nil_append]
  apply Succeeds.bind (fun S : EvaluateState K =>
    S.ChainInfos.map (fun Chain => Chain.BoneIndices) =
      M.ChainInfos.map (fun Chain => Chain.BoneIndices) ∧
    S.OutBoneTransforms.length = (M.ChainInfos.map (fun Chain => Chain.BoneIndices.length)).sum ∧
    ∀ k Chain i, M.ChainInfos[k]? = some Chain → i < Chain.BoneIndices.length →
      ∃ Entry, S.OutBoneTransforms[ChainOffset M.ChainInfos k + i]? = some Entry ∧
        Entry.BoneIndex = Chain.Bone i)
  · refine (Succeeds.forLoop (fun c (S : EvaluateState K) =>
      S.ChainInfos.map (fun Chain => Chain.BoneIndices) =
        M.ChainInfos.map (fun Chain => Chain.BoneIndices) ∧
      (∀ k, c ≤ k → S.ChainInfos[k]? = M.ChainInfos[k]?) ∧
      S.OutBoneTransforms.length = (M.ChainInfos.map (fun Chain => Chain.BoneIndices.length)).sum ∧
      S.OutTransformStartIndex = ChainOffset M.ChainInfos c ∧
      ∀ k Chain i, k < c → M.ChainInfos[k]? = some Chain → i < Chain.BoneIndices.length →
        ∃ Entry, S.OutBoneTransforms[ChainOffset M.ChainInfos k + i]? = some Entry ∧
          Entry.BoneIndex = Chain.Bone i) (Nat.zero_le _) ?_ ?_).mono ?_
    · exact ⟨rfl, fun _ _ => rfl, by simp, (ChainOffset_zero _).symm,
        fun k _ _ hk => absurd hk (by omega)⟩
    · rintro c S - hc ⟨hB, hRest, hLen, hStart, hDone⟩
      have hSc : S.ChainInfos[c]? = some M.ChainInfos[c] := by
        rw [hRest c (le_refl _)]; exact List.getElem?_eq_getElem hc
      have hcS : c < S.ChainInfos.length := lt_length_of_getElem? hSc
      have hg := hGood M.ChainInfos[c] (List.getElem_mem _)
      have hOff := ChainOffset_succ M.ChainInfos c hc
      have hLe := ChainOffset_le_sum M.ChainInfos (c + 1)
      simp only [(TArray.get_eq_ok _ _ _).mpr hSc, ok_bind]
      apply Succeeds.bind _ (SimulateSoftBoneChain_frame E (U c) Fuel M M.ChainInfos[c] SkelComp
        MeshBases S.OutBoneTransforms S.OutTransformStartIndex M.RemainingTime (fun _ => True)
        hg.1 hg.2 (by rw [hStart, hLen]; omega)
        (by rw [hMD, hMT, hMF]; exact hStep) (fun _ => trivial) ?_ ?_)
      · rintro R ⟨Links, TargetRoot, -, -, hRB, -, hRL, hROut, hRIn, -, -⟩
        simp only [TArray.set_of_lt _ _ _ hcS, ok_bind]
        refine Succeeds.pure ⟨?_, ?_, by rw [hRL, hLen], by rw [hRB, hStart, hOff], ?_⟩
        · rw [List.map_set, hB]
          apply List.ext_getElem?
          intro j
          by_cases hj : j = c
          · subst hj
            rw [List.getElem?_set_self (by simpa using hc), hRB]
            simp [List.getElem?_eq_getElem hc]
          · rw [List.getElem?_set_ne (fun h => hj h.symm)]
        · intro k hk
          rw [List.getElem?_set_ne (by omega)]
          exact hRest k (by omega)
        · intro k Chain i hk hCk hi
          by_cases hkc : k = c
          · subst hkc
            rw [List.getElem?_eq_getElem hc] at hCk
            have hCk' := Option.some.inj hCk
            subst hCk'
            obtain ⟨Rotation, hEntry⟩ := hRIn i hi
            rw [hStart] at hEntry
            exact ⟨_, hEntry, TranslatedEntry_BoneIndex _ _ _ _ _ _⟩
          · have hklt : k < c := by omega
            obtain ⟨Entry, hE, hEB⟩ := hDone k Chain i hklt hCk hi
            refine ⟨Entry, ?_, hEB⟩
            rw [hROut _ ?_]
            · exact hE
            · have hkL : k < M.ChainInfos.length := lt_length_of_getElem? hCk
              have h1 := ChainOffset_succ M.ChainInfos k hkL
              have h2 := ChainOffset_mono M.ChainInfos (show k + 1 ≤ c by omega)
              rw [List.getElem?_eq_getElem hkL] at hCk
              rw [Option.some.inj hCk] at h1
              rw [hStart]
              omega
      · intro _ S' _ _ _ _ _
        exact (TimeIntegration_spec E M S'.Chain M.FixedTimeStep _
          (by simp [InterpolatedTargets, *]) (by have := NumLinks_ge M M.ChainInfos[c]; omega)).mono
          (fun _ _ => trivial)
      · intro _ Targets hTL
        have hSL := StartLinks_length E (U c) M M.ChainInfos[c] SkelComp MeshBases hg.2
        exact (TimeIntegration_spec E M ⟨_, StartLinks E (U c) M M.ChainInfos[c] SkelComp MeshBases⟩
          M.FixedTimeStep Targets (by rw [hTL, hSL])
          (by rw [hSL]; have := NumLinks_ge M M.ChainInfos[c]; omega)).mono (fun _ _ => trivial)
    · rintro S ⟨hB, -, hLen, -, hDone⟩
      refine ⟨hB, hLen, fun k Chain i hCk hi => ?_⟩
      exact hDone k Chain i (lt_length_of_getElem? hCk) hCk hi
  rintro S ⟨hB, hLen, hDone⟩
  refine Succeeds.pure ⟨?_, ?_⟩
  · have h1 : S.ChainInfos.map (fun Chain => Chain.BoneIndices.length) =
        M.ChainInfos.map (fun Chain => Chain.BoneIndices.length) := by
      have := congrArg (List.map List.length) hB
      simpa [List.map_map] using this
    simp only [h1, hLen]
  · intro k Chain i Bone hCk hBone
    have hkS : k < S.ChainInfos.length := lt_length_of_getElem? hCk
    have hkM : k < M.ChainInfos.length := by
      have := congrArg List.length hB
      simp at this
      omega
    have hEq : Chain.BoneIndices = M.ChainInfos[k].BoneIndices := by
      have h1 := congrArg (fun L => L[k]?) hB
      simp only [List.getElem?_map, hCk, List.getElem?_eq_getElem hkM, Option.map_some'] at h1
      exact Option.some.inj h1
    have hi : i < M.ChainInfos[k].BoneIndices.length := by
      rw [← hEq]; exact lt_length_of_getElem? hBone
    obtain ⟨Entry, hE, hEB⟩ := hDone k M.ChainInfos[k] i (List.getElem?_eq_getElem hkM) hi
    refine ⟨Entry, ?_, ?_⟩
    · simp only
      rw [ChainOffset_congr hB k]
      exact hE
    · rw [hEB, ← FChainInfo.Bone_eq _ _ hi]
      have h2 : M.ChainInfos[k].BoneIndices[i]? = some Bone := by rw [← hEq]; exact hBone
      rw [List.getElem?_eq_getElem hi] at h2
      exact Option.some.inj h2

/-- Witness of C20: the example node, with its chains of the bones 1, 2, 3 and 4, 5 still to be
made, after a frame of 1/20 s. -/
theorem EvaluateBoneTransforms_output_layout_witness :
    SortsByRootBone RationalEngine ∧ 0 < (ExampleFrameNode ℚ).RemainingTime ∧
    Succeeds (EvaluateBoneTransforms RationalEngine (fun _ => SevenMemory ℚ) (SevenOutput ℚ) 3
      (ExampleFrameNode ℚ) none (StraightPose ℚ) []) (fun R =>
      R.OutBoneTransforms.length =
        (R.Node.ChainInfos.map (fun Chain => Chain.BoneIndices.length)).sum ∧
      ∀ k Chain i Bone, R.Node.ChainInfos[k]? = some Chain → Chain.BoneIndices[i]? = some Bone →
        ∃ Entry, R.OutBoneTransforms[ChainOffset R.Node.ChainInfos k + i]? = some Entry ∧
          Entry.BoneIndex = Bone) := by
  have hF : (ExampleFrameNode ℚ).FixedTimeStep = 1 / 60 := by
    simp [ExampleFrameNode, ExampleNode, UpdateInternal, DefaultNode, InitialzeWeightCurve,
      ESimulationHertz.toNat]
  have hT : (ExampleFrameNode ℚ).RemainingTime = 1 / 20 := by
    simp [ExampleFrameNode, ExampleNode, UpdateInternal, DefaultNode, InitialzeWeightCurve]
  have hTime : 0 < (ExampleFrameNode ℚ).RemainingTime := by rw [hT]; norm_num
  refine ⟨RationalEngine_sorts, hTime,
    EvaluateBoneTransforms_output_layout RationalEngine (fun _ => SevenMemory ℚ) (SevenOutput ℚ) 3
      (ExampleFrameNode ℚ) none (StraightPose ℚ) RationalEngine_sorts hTime ?_ ?_⟩
  · intro Chain hChain
    exact absurd hChain (List.not_mem_nil _)
  · intro _
    rw [hF, hT]
    exact ⟨by norm_num, Nat.floor_le_of_le (by norm_num)⟩

end LayoutClaims

end SoftBone

namespace SoftBone

section ZeroStiffnessClaims

variable {K : Type} [LinearOrderedField K] [FloorRing K]

end ZeroStiffnessClaims

end SoftBone

namespace SoftBone

section RestClaims

variable {K : Type} [LinearOrderedField K] [FloorRing K]

end RestClaims

end SoftBone

namespace SoftBone

section ReOrientClaims

/-- C19 (the code at a failing input). The chain of the bones 0 and 1, no stiffness, no
gravity: a frame on the straight pose and a frame on the pose turned by half a turn leave the
link of bone 1 at (10, 0, 0) while the bone lies at (-10, 0, 0), so that the old direction
(-1, 0, 0) and the new direction (1, 0, 0) are opposite. Over the reals, with the real square
root, arc cosine, sine and cosine, the `DeltaRotation` of these directions is the zero
quaternion: the cross product is zero, its safe normal is the zero vector, the angle is pi and
the cosine of its half is 0. `IsNormalized` does not hold of it, and `ReOrientBoneRotations`
writes the zero quaternion as the rotation of bone 0. -/
theorem ReOrientBoneRotations_writes_zero_quaternion :
    SimulateFrames RationalEngine 3 (DampedInertNode ℚ true) 0 ⟨[0, 1], []⟩
      [PoseFrame ℚ (StraightPose ℚ), PoseFrame ℚ (MirroredPose ℚ)] = .ok (UnturnedChain ℚ) ∧
    DeltaRotation (EngineOf Real.sqrt Real.arccos Real.sin Real.cos) ⟨-1, 0, 0⟩ ⟨1, 0, 0⟩ =
      ⟨0, 0, 0, 0⟩ ∧
    FQuat.IsNormalized (DeltaRotation (EngineOf Real.sqrt Real.arccos Real.sin Real.cos)
      ⟨-1, 0, 0⟩ ⟨1, 0, 0⟩) = false ∧
    OutputRotations (ReOrientBoneRotations (EngineOf Real.sqrt Real.arccos Real.sin Real.cos)
      (DampedInertNode ℝ true) (UnturnedChain ℝ) (MirroredPose ℝ)
      [⟨0, (MirroredPose ℝ).ComponentSpaceTransform 0⟩,
        ⟨1, (MirroredPose ℝ).ComponentSpaceTransform 1⟩] 0) =
      some [⟨0, 0, 0, 0⟩, ⟨0, 0, 0, 1⟩] := by
  have hDelta : DeltaRotation (EngineOf Real.sqrt Real.arccos Real.sin Real.cos) ⟨-1, 0, 0⟩
      ⟨1, 0, 0⟩ = ⟨0, 0, 0, 0⟩ := by
    have hHalf : (2 : ℝ)⁻¹ * Real.pi = Real.pi / 2 := by ring
    simp [DeltaRotation, FVector.CrossProduct, FVector.DotProduct, FVector.GetSafeNormal,
      FVector.SizeSquared, FQuat.fromAxisAngle, EngineOf, SMALL_NUMBER, FVector.ZeroVector,
      Real.arccos_neg_one, hHalf, Real.cos_pi_div_two]
  have hOld : FVector.GetUnsafeNormal (EngineOf Real.sqrt Real.arccos Real.sin Real.cos)
      (((MirroredPose ℝ).ComponentSpaceTransform 1).Translation -
        ((MirroredPose ℝ).ComponentSpaceTransform 0).Translation) = ⟨-1, 0, 0⟩ := by
    simp [FVector.GetUnsafeNormal, MirroredPose, FVector.SizeSquared, EngineOf, FVector.Scale]
  have hNew : FVector.GetUnsafeNormal (EngineOf Real.sqrt Real.arccos Real.sin Real.cos)
      ((⟨10, 0, 0⟩ : FVector ℝ) - ⟨0, 0, 0⟩) = ⟨1, 0, 0⟩ := by
    simp [FVector.GetUnsafeNormal, FVector.SizeSquared, EngineOf, FVector.Scale]
  refine ⟨by decide!, hDelta, ?_, ?_⟩
  · rw [hDelta]
    simp [FQuat.IsNormalized, FQuat.SizeSquared, THRESH_QUAT_NORMALIZED]
    norm_num
  · simp [OutputRotations, ReOrientBoneRotations, forLoop, forLoopFrom, TArray.get, TArray.set,
      UnturnedChain, DampedInertNode, UpdateInternal, InertNode, DefaultNode, InitialzeWeightCurve,
      hOld, hNew, hDelta, ApplyDeltaRotation, FQuat.mul]
    rfl

end ReOrientClaims

end SoftBone

namespace SoftBone

/-! ## The claims, third part -/

section StepClaims

variable {K : Type} [LinearOrderedField K]

/-- C21. One physical step: for a step size `dt ≠ 0` and as many targets as links (at least
one), `TimeIntegration` ends without a fault; it puts the root link on `TargetPositions[0]` and
leaves the velocity of the root link as it was; for every link after the root, with
`v = Velocity + RestoringWeight * (target - Position) / dt + (0, 0, GravityScale * GravityZ) *
dt`, the integration loop (the part before the length constraint) leaves the position
`Position + v * dt`, and the velocity stored at the end of `TimeIntegration` is
`v * (1 - DampingRatio)`; without the length constraint the position `Position + v * dt` is the
one at the end of `TimeIntegration`. -/
theorem TimeIntegration_one_step (E : Engine K) (N : FAnimNode_SoftBone K) (Chain : FChainInfo K)
    (TimeDelta : K) (Targets : List (FVector K)) (hStep : TimeDelta ≠ 0)
    (hLen : Targets.length = Chain.PrevBoneLinks.length) (hPos : 0 < Chain.PrevBoneLinks.length) :
    Succeeds (TimeIntegration.Integrate N Chain.PrevBoneLinks TimeDelta Targets) (fun Links =>
      ∀ j Link Target, 1 ≤ j → Chain.PrevBoneLinks[j]? = some Link → Targets[j]? = some Target →
        ∃ Link', Links[j]? = some Link' ∧
          Link'.Position =
            Link.Position + (SteppedVelocity N TimeDelta Link Target).Scale TimeDelta) ∧
    Succeeds (TimeIntegration E N Chain TimeDelta Targets) (fun Chain' =>
      (∀ Root Target, Chain.PrevBoneLinks[0]? = some Root → Targets[0]? = some Target →
        ∃ Root', Chain'.PrevBoneLinks[0]? = some Root' ∧ Root'.Position = Target ∧
          Root'.Velocity = Root.Velocity) ∧
      ∀ j Link Target, 1 ≤ j → Chain.PrevBoneLinks[j]? = some Link → Targets[j]? = some Target →
        ∃ Link', Chain'.PrevBoneLinks[j]? = some Link' ∧
          Link'.Velocity =
            (SteppedVelocity N TimeDelta Link Target).Scale (1 - N.DampingRatio) ∧
          (N.bBoneLengthConstraint = false → Link'.Position =
            Link.Position + (SteppedVelocity N TimeDelta Link Target).Scale TimeDelta)) := by
  have hV : ∀ (Link : FSoftBoneLink K) (Target : FVector K),
      Link.Velocity + ((Link.RestoringWeight • (Target - Link.Position)).Scale (1 / TimeDelta) +
        (⟨0, 0, N.GravityScale * N.GravityZ⟩ : FVector K).Scale TimeDelta) =
      SteppedVelocity N TimeDelta Link Target := by
    intro Link Target
    have _ := hStep
    unfold SteppedVelocity
    ext <;> simp [FVector.Scale, mul_one_div] <;> ring
  constructor
  · refine (Integrate_spec N Chain.PrevBoneLinks TimeDelta Targets hLen hPos).mono ?_
    rintro Links ⟨-, hE⟩ j Link Target h1 hLk hT
    have hj : j < Chain.PrevBoneLinks.length := lt_length_of_getElem? hLk
    have hjT : j < Targets.length := by omega
    rw [List.getElem?_eq_getElem hj] at hLk
    rw [List.getElem?_eq_getElem hjT] at hT
    have h := hE j hj
    rw [if_neg (by omega), Option.some.inj hLk, Option.some.inj hT] at h
    refine ⟨_, h, ?_⟩
    simp only [IntegratedLink, hV]
  · refine (TimeIntegration_entries E N Chain TimeDelta Targets hLen hPos).mono ?_
    rintro Chain' ⟨-, -, hRoot, hE⟩
    refine ⟨fun Root Target hR hT => ⟨_, hRoot Root Target hR hT, rfl, rfl⟩, ?_⟩
    intro j Link Target h1 hLk hT
    obtain ⟨Parent, -, hNew⟩ := hE j Link Target h1 hLk hT
    refine ⟨_, hNew, ?_, ?_⟩
    · by_cases hC : N.bBoneLengthConstraint = true
      · rw [if_pos hC]
        simp only [ConstrainedLink, IntegratedLink, hV]
      · rw [if_neg hC]
        simp only [IntegratedLink, hV]
    · intro hC
      rw [if_neg (by rw [hC]; decide)]
      simp only [IntegratedLink, hV]

/-- Witness of C21: a step of 1/60 s of the default node after a frame, on the chain of the
bones 0 and 1 whose second link has the velocity (1, 2, 3) and the restoring weight 1/2, with
the targets (0, 1, 0) and (10, 0, 5). -/
theorem TimeIntegration_one_step_witness :
    ((1 / 60 : ℚ) ≠ 0) ∧
    Succeeds (TimeIntegration RationalEngine (UpdatedNode ℚ) (SpringChain ℚ ⟨1, 2, 3⟩ (1 / 2))
      (1 / 60) [⟨0, 1, 0⟩, ⟨10, 0, 5⟩]) (fun Chain' =>
      (∀ Root Target, (SpringChain ℚ ⟨1, 2, 3⟩ (1 / 2)).PrevBoneLinks[0]? = some Root →
        ([⟨0, 1, 0⟩, ⟨10, 0, 5⟩] : List (FVector ℚ))[0]? = some Target →
        ∃ Root', Chain'.PrevBoneLinks[0]? = some Root' ∧ Root'.Position = Target ∧
          Root'.Velocity = Root.Velocity) ∧
      ∀ j Link Target, 1 ≤ j → (SpringChain ℚ ⟨1, 2, 3⟩ (1 / 2)).PrevBoneLinks[j]? = some Link →
        ([⟨0, 1, 0⟩, ⟨10, 0, 5⟩] : List (FVector ℚ))[j]? = some Target →
        ∃ Link', Chain'.PrevBoneLinks[j]? = some Link' ∧
          Link'.Velocity = (SteppedVelocity (UpdatedNode ℚ) (1 / 60) Link Target).Scale
            (1 - (UpdatedNode ℚ).DampingRatio) ∧
          ((UpdatedNode ℚ).bBoneLengthConstraint = false → Link'.Position =
            Link.Position + (SteppedVelocity (UpdatedNode ℚ) (1 / 60) Link Target).Scale
              (1 / 60))) :=
  ⟨by norm_num,
    (TimeIntegration_one_step RationalEngine (UpdatedNode ℚ) (SpringChain ℚ ⟨1, 2, 3⟩ (1 / 2))
      (1 / 60) [⟨0, 1, 0⟩, ⟨10, 0, 5⟩] (by norm_num) rfl (by decide)).2⟩

/-- C22. Restoring strength does not depend on the step size: without the bone length
constraint and with `GravityScale * GravityZ = 0`, one physical step of any size `dt ≠ 0` ends
without a fault and moves every link after the root that has the velocity zero to
`Position + RestoringWeight * (target - Position)`, the same point for every `dt`; with the
restoring weight 1 the link lands on its target. -/
theorem TimeIntegration_restoring_step (E : Engine K) (N : FAnimNode_SoftBone K)
    (Chain : FChainInfo K) (TimeDelta : K) (Targets : List (FVector K)) (hStep : TimeDelta ≠ 0)
    (hGravity : N.GravityScale * N.GravityZ = 0) (hConstraint : N.bBoneLengthConstraint = false)
    (hLen : Targets.length = Chain.PrevBoneLinks.length) (hPos : 0 < Chain.PrevBoneLinks.length) :
    Succeeds (TimeIntegration E N Chain TimeDelta Targets) (fun Chain' =>
      ∀ j Link Target, 1 ≤ j → Chain.PrevBoneLinks[j]? = some Link → Targets[j]? = some Target →
        Link.Velocity = FVector.ZeroVector →
        ∃ Link', Chain'.PrevBoneLinks[j]? = some Link' ∧
          Link'.Position = Link.Position + Link.RestoringWeight • (Target - Link.Position) ∧
          (Link.RestoringWeight = 1 → Link'.Position = Target)) := by
  refine (TimeIntegration_entries E N Chain TimeDelta Targets hLen hPos).mono ?_
  rintro Chain' ⟨-, -, -, hE⟩ j Link Target h1 hLk hT hV
  obtain ⟨Parent, -, hNew⟩ := hE j Link Target h1 hLk hT
  rw [if_neg (by rw [hConstraint]; decide)] at hNew
  have hP : (IntegratedLink N TimeDelta Link Target).Position =
      Link.Position + Link.RestoringWeight • (Target - Link.Position) := by
    simp only [IntegratedLink, hV, hGravity]
    ext <;> simp [FVector.Scale, FVector.ZeroVector] <;> field_simp
  refine ⟨_, hNew, hP, fun hW => ?_⟩
  rw [hP, hW]
  ext <;> simp

/-- Witness of C22: steps of 1/60 s on the chain of the bones 0 and 1 whose second link is at
rest with the restoring weight 1/2, with the stiff node (no gravity, no length constraint) and
the targets (0, 0, 0) and (10, 0, 5). -/
theorem TimeIntegration_restoring_step_witness :
    Succeeds (TimeIntegration RationalEngine (StiffNode ℚ) (SpringChain ℚ ⟨0, 0, 0⟩ (1 / 2))
      (1 / 60) [⟨0, 0, 0⟩, ⟨10, 0, 5⟩]) (fun Chain' =>
      ∀ j Link Target, 1 ≤ j → (SpringChain ℚ ⟨0, 0, 0⟩ (1 / 2)).PrevBoneLinks[j]? = some Link →
        ([⟨0, 0, 0⟩, ⟨10, 0, 5⟩] : List (FVector ℚ))[j]? = some Target →
        Link.Velocity = FVector.ZeroVector →
        ∃ Link', Chain'.PrevBoneLinks[j]? = some Link' ∧
          Link'.Position = Link.Position + Link.RestoringWeight • (Target - Link.Position) ∧
          (Link.RestoringWeight = 1 → Link'.Position = Target)) :=
  TimeIntegration_restoring_step RationalEngine (StiffNode ℚ) (SpringChain ℚ ⟨0, 0, 0⟩ (1 / 2))
    (1 / 60) [⟨0, 0, 0⟩, ⟨10, 0, 5⟩] (by norm_num)
    (by simp [StiffNode, StretchNode, DefaultNode, InitialzeWeightCurve]) rfl rfl (by decide)

end StepClaims

end SoftBone

namespace SoftBone

section InitialisationClaims

variable {K : Type} [LinearOrderedField K]

/-- C23. Restoring weights at initialisation: on a chain of `n ≥ 2` bones without links,
`InitializeChain` ends without a fault and gives the link of every place `i` in `1 .. n - 1`
the restoring weight `Stiffness * curve(i / maxIndex)` with the weight curve, where `maxIndex`
is `n - 1` without the tip rotation and `n` with it, and the restoring weight `Stiffness / i`
with the formula. -/
theorem InitializeChain_restoring_weights (E : Engine K) (U : Uninitialized K)
    (N : FAnimNode_SoftBone K) (Chain : FChainInfo K)
    (SkelComp : Option (USkeletalMeshComponent K)) (MeshBases : FCSPose K)
    (Out : List (FBoneTransform K)) (Start : Nat)
    (hBones : 2 ≤ Chain.BoneIndices.length) (hLinks : Chain.PrevBoneLinks = [])
    (hOut : Start + Chain.BoneIndices.length ≤ Out.length) :
    Succeeds (InitializeChain E U N Chain SkelComp MeshBases Out Start) (fun R =>
      ∀ i, 1 ≤ i → i < Chain.BoneIndices.length →
        ∃ Link, R.1.PrevBoneLinks[i]? = some Link ∧
          (N.bUseWeightCurve = true → N.bAllowTipBoneRotation = false →
            Link.RestoringWeight = N.Stiffness * E.CurveEval N.WeightCurve
              ((i : K) / ((Chain.BoneIndices.length - 1 : Nat) : K))) ∧
          (N.bUseWeightCurve = true → N.bAllowTipBoneRotation = true →
            Link.RestoringWeight = N.Stiffness * E.CurveEval N.WeightCurve
              ((i : K) / (Chain.BoneIndices.length : K))) ∧
          (N.bUseWeightCurve = false → Link.RestoringWeight = N.Stiffness / (i : K))) := by
  refine (InitializeChain_entries E U N Chain SkelComp MeshBases Out Start hBones hLinks
    hOut).mono ?_
  rintro R ⟨-, hL, -⟩ i h1 hi
  have hiN : i < NumLinks N Chain := lt_of_lt_of_le hi (NumLinks_ge N Chain)
  refine ⟨InitialLink E U N Chain SkelComp MeshBases i, ?_, ?_, ?_, ?_⟩
  · rw [hL, getElem?_map_range, if_pos hiN]
  · intro hC hT
    rw [InitialLink_RestoringWeight E U N Chain SkelComp MeshBases i h1]
    simp [InitialWeight, hi, hC, hT]
  · intro hC hT
    rw [InitialLink_RestoringWeight E U N Chain SkelComp MeshBases i h1]
    simp [InitialWeight, hi, hC, hT]
  · intro hC
    rw [InitialLink_RestoringWeight E U N Chain SkelComp MeshBases i h1]
    simp [InitialWeight, hi, hC]

/-- Witness of C23: the chain of the bones 0, 1, 2 without links in the straight pose, with
the default node (weight curve, tip rotation). -/
theorem InitializeChain_restoring_weights_witness :
    Succeeds (InitializeChain RationalEngine (SevenMemory ℚ) (DefaultNode ℚ 0 2) ⟨[0, 1, 2], []⟩
      none (StraightPose ℚ) [SevenOutput ℚ 0, SevenOutput ℚ 1, SevenOutput ℚ 2] 0) (fun R =>
      ∀ i, 1 ≤ i → i < (⟨[0, 1, 2], []⟩ : FChainInfo ℚ).BoneIndices.length →
        ∃ Link, R.1.PrevBoneLinks[i]? = some Link ∧
          ((DefaultNode ℚ 0 2).bUseWeightCurve = true →
            (DefaultNode ℚ 0 2).bAllowTipBoneRotation = false →
            Link.RestoringWeight = (DefaultNode ℚ 0 2).Stiffness *
              RationalEngine.CurveEval (DefaultNode ℚ 0 2).WeightCurve
                ((i : ℚ) / (((⟨[0, 1, 2], []⟩ : FChainInfo ℚ).BoneIndices.length - 1 : Nat) : ℚ))) ∧
          ((DefaultNode ℚ 0 2).bUseWeightCurve = true →
            (DefaultNode ℚ 0 2).bAllowTipBoneRotation = true →
            Link.RestoringWeight = (DefaultNode ℚ 0 2).Stiffness *
              RationalEngine.CurveEval (DefaultNode ℚ 0 2).WeightCurve
                ((i : ℚ) / ((⟨[0, 1, 2], []⟩ : FChainInfo ℚ).BoneIndices.length : ℚ))) ∧
          ((DefaultNode ℚ 0 2).bUseWeightCurve = false →
            Link.RestoringWeight = (DefaultNode ℚ 0 2).Stiffness / (i : ℚ))) :=
  InitializeChain_restoring_weights RationalEngine (SevenMemory ℚ) (DefaultNode ℚ 0 2)
    ⟨[0, 1, 2], []⟩ none (StraightPose ℚ) [SevenOutput ℚ 0, SevenOutput ℚ 1, SevenOutput ℚ 2] 0
    (by decide) rfl (by decide)

/-- C24. Virtual tip link: on a chain of `n ≥ 2` bones without links, `InitializeChain` ends
without a fault and makes a link with the bone of its place for each of the `n` bones; with
`bAllowTipBoneRotation` it makes exactly one more link, at the place `n`, with the position
`tip + (tip - parent)` of the world locations of the tip bone and the bone before it, the
length `Dist(tip, parent)` of their component-space locations, the bone index `INDEX_NONE` and
the restoring weight `Stiffness * curve(1)` with the weight curve and `Stiffness / n` with the
formula; without the flag there are `n` links.  `ComputeTargetPositions`, on any pose and
whatever links the chain has, ends without a fault and returns the `n` world locations of the
bones and, with the flag, exactly one more target `tip + (tip - parent)` of that pose; without
the flag there are `n` targets. -/
theorem InitializeChain_virtual_tip_link (E : Engine K) (U : Uninitialized K)
    (N : FAnimNode_SoftBone K) (Chain Chain' : FChainInfo K)
    (SkelComp : Option (USkeletalMeshComponent K)) (MeshBases MeshBases' : FCSPose K)
    (Out Out' : List (FBoneTransform K)) (Start Start' : Nat)
    (hBones : 2 ≤ Chain.BoneIndices.length) (hLinks : Chain.PrevBoneLinks = [])
    (hOut : Start + Chain.BoneIndices.length ≤ Out.length)
    (hBones' : 2 ≤ Chain'.BoneIndices.length)
    (hOut' : Start' + Chain'.BoneIndices.length ≤ Out'.length) :
    Succeeds (InitializeChain E U N Chain SkelComp MeshBases Out Start) (fun R =>
      (∀ i, i < Chain.BoneIndices.length →
        ∃ Link, R.1.PrevBoneLinks[i]? = some Link ∧ Link.BoneIndex = Chain.Bone i) ∧
      (N.bAllowTipBoneRotation = true →
        R.1.PrevBoneLinks.length = Chain.BoneIndices.length + 1 ∧
        ∃ Link, R.1.PrevBoneLinks[Chain.BoneIndices.length]? = some Link ∧
          Link.Position =
            LocationInWorldSpace SkelComp
              (MeshBases.ComponentSpaceTransform (Chain.Bone (Chain.BoneIndices.length - 1))) +
            (LocationInWorldSpace SkelComp
              (MeshBases.ComponentSpaceTransform (Chain.Bone (Chain.BoneIndices.length - 1))) -
             LocationInWorldSpace SkelComp
              (MeshBases.ComponentSpaceTransform (Chain.Bone (Chain.BoneIndices.length - 2)))) ∧
          Link.Length = FVector.Dist E
            (MeshBases.ComponentSpaceTransform
              (Chain.Bone (Chain.BoneIndices.length - 1))).Translation
            (MeshBases.ComponentSpaceTransform
              (Chain.Bone (Chain.BoneIndices.length - 2))).Translation ∧
          Link.BoneIndex = INDEX_NONE ∧
          (N.bUseWeightCurve = true →
            Link.RestoringWeight = N.Stiffness * E.CurveEval N.WeightCurve 1) ∧
          (N.bUseWeightCurve = false →
            Link.RestoringWeight = N.Stiffness / (Chain.BoneIndices.length : K))) ∧
      (N.bAllowTipBoneRotation = false →
        R.1.PrevBoneLinks.length = Chain.BoneIndices.length)) ∧
    Succeeds (ComputeTargetPositions N Chain' SkelComp MeshBases' Out' Start' []) (fun R =>
      (∀ i, i < Chain'.BoneIndices.length → R.2[i]? = some
        (LocationInWorldSpace SkelComp (MeshBases'.ComponentSpaceTransform (Chain'.Bone i)))) ∧
      (N.bAllowTipBoneRotation = true →
        R.2.length = Chain'.BoneIndices.length + 1 ∧
        R.2[Chain'.BoneIndices.length]? = some
          (LocationInWorldSpace SkelComp
              (MeshBases'.ComponentSpaceTransform (Chain'.Bone (Chain'.BoneIndices.length - 1))) +
            (LocationInWorldSpace SkelComp
              (MeshBases'.ComponentSpaceTransform (Chain'.Bone (Chain'.BoneIndices.length - 1))) -
             LocationInWorldSpace SkelComp
              (MeshBases'.ComponentSpaceTransform
                (Chain'.Bone (Chain'.BoneIndices.length - 2)))))) ∧
      (N.bAllowTipBoneRotation = false → R.2.length = Chain'.BoneIndices.length)) := by
  constructor
  · refine (InitializeChain_entries E U N Chain SkelComp MeshBases Out Start hBones hLinks
      hOut).mono ?_
    rintro R ⟨-, hL, -⟩
    refine ⟨fun i hi => ?_, fun hT => ?_, fun hT => ?_⟩
    · have hiN : i < NumLinks N Chain := lt_of_lt_of_le hi (NumLinks_ge N Chain)
      refine ⟨InitialLink E U N Chain SkelComp MeshBases i, ?_, ?_⟩
      · rw [hL, getElem?_map_range, if_pos hiN]
      · unfold InitialLink
        by_cases h0 : i = 0
        · simp only [h0, if_true, FSoftBoneLink.make]
          rw [if_pos (by omega)]
        · simp only [h0, if_false, FSoftBoneLink.make]
          rw [if_pos hi]
    · have hN : NumLinks N Chain = Chain.BoneIndices.length + 1 := by simp [NumLinks, hT]
      have hn0 : Chain.BoneIndices.length ≠ 0 := by omega
      refine ⟨by rw [hL]; simp [hN],
        InitialLink E U N Chain SkelComp MeshBases Chain.BoneIndices.length, ?_, ?_, ?_, ?_, ?_, ?_⟩
      · rw [hL, getElem?_map_range, if_pos (by omega)]
      · rw [InitialLink_Position]
        simp [FinalTarget]
      · rw [InitialLink_Length]
        simp [InitialLength, hn0]
      · simp [InitialLink, FSoftBoneLink.make, hn0]
      · intro hC
        rw [InitialLink_RestoringWeight E U N Chain SkelComp MeshBases _ (by omega)]
        simp [InitialWeight, hC]
      · intro hC
        rw [InitialLink_RestoringWeight E U N Chain SkelComp MeshBases _ (by omega)]
        simp [InitialWeight, hC, hT]
    · rw [hL]
      simp [NumLinks, hT]
  · refine (ComputeTargetPositions_entries N Chain' SkelComp MeshBases' Out' Start' hBones'
      hOut').mono ?_
    rintro R ⟨-, hL⟩
    refine ⟨fun i hi => ?_, fun hT => ?_, fun hT => ?_⟩
    · have hiN : i < NumLinks N Chain' := lt_of_lt_of_le hi (NumLinks_ge N Chain')
      rw [hL, getElem?_map_range, if_pos hiN]
      simp [FinalTarget, hi]
    · have hN : NumLinks N Chain' = Chain'.BoneIndices.length + 1 := by simp [NumLinks, hT]
      refine ⟨by rw [hL]; simp [hN], ?_⟩
      rw [hL, getElem?_map_range, if_pos (by omega)]
      simp [FinalTarget]
    · rw [hL]
      simp [NumLinks, hT]

/-- Witness of C24: the chain of the bones 0, 1, 2 in the straight pose, with the default node
(tip rotation), its links made in that pose and its targets computed in the shifted pose. -/
theorem InitializeChain_virtual_tip_link_witness :
    Succeeds (InitializeChain RationalEngine (SevenMemory ℚ) (DefaultNode ℚ 0 2) ⟨[0, 1, 2], []⟩
      none (StraightPose ℚ) [SevenOutput ℚ 0, SevenOutput ℚ 1, SevenOutput ℚ 2] 0) (fun R =>
      R.1.PrevBoneLinks.length = 4 ∧
      ∃ Link, R.1.PrevBoneLinks[3]? = some Link ∧ Link.Position = ⟨30, 0, 0⟩ ∧
        Link.BoneIndex = INDEX_NONE) := by
  refine (InitializeChain_virtual_tip_link RationalEngine (SevenMemory ℚ) (DefaultNode ℚ 0 2)
    ⟨[0, 1, 2], []⟩ ⟨[0, 1, 2], []⟩ none (StraightPose ℚ) (ShiftedPose ℚ)
    [SevenOutput ℚ 0, SevenOutput ℚ 1, SevenOutput ℚ 2]
    [SevenOutput ℚ 0, SevenOutput ℚ 1, SevenOutput ℚ 2] 0 0
    (by decide) rfl (by decide) (by decide) (by decide)).1.mono ?_
  rintro R ⟨-, hT, -⟩
  obtain ⟨hLen, Link, hLk, hP, -, hB, -⟩ := hT rfl
  refine ⟨hLen, Link, hLk, ?_, hB⟩
  rw [hP]
  decide!

end InitialisationClaims

end SoftBone

namespace SoftBone

section CountClaims

variable {K : Type} [LinearOrderedField K] [FloorRing K]

/-- C29. Link and target counts agree: on a chain of `n ≥ 2` bones whose links do not exist yet
or are as many as the current value of `bAllowTipBoneRotation` asks for (`n`, or `n + 1` with
the tip rotation), every sequence of frames (each with room for the chain in the output list
and, in deterministic mode, a positive fixed step and enough rounds) ends without a fault, so
no `check` fails and no index is out of range, and leaves the chain with its bones and, after
at least one frame, with `n` or `n + 1` links.  The checks are there: `TimeIntegration` on
targets that are not as many as the links stops with a failed `check`, and
`ReOrientBoneRotations` with the tip rotation on less than three links does not return. -/
theorem SimulateFrames_counts_agree (E : Engine K) (Fuel : Nat) (N : FAnimNode_SoftBone K)
    (Start : Nat) (Chain : FChainInfo K) (Frames : List (FrameInput K))
    (hBones : 2 ≤ Chain.BoneIndices.length)
    (hLinks : Chain.PrevBoneLinks = [] ∨ Chain.PrevBoneLinks.length =
      Chain.BoneIndices.length + (if N.bAllowTipBoneRotation = true then 1 else 0))
    (hFrames : ∀ Frame ∈ Frames, Start + Chain.BoneIndices.length ≤ Frame.OutBoneTransforms.length ∧
      (N.bGuaranteeSameSimulationResult = true →
        0 < N.FixedTimeStep ∧ ⌊Frame.InRemainingTime / N.FixedTimeStep⌋₊ ≤ Fuel)) :
    Succeeds (SimulateFrames E Fuel N Start Chain Frames) (fun Chain' =>
      Chain'.BoneIndices = Chain.BoneIndices ∧
      (Frames ≠ [] → Chain'.PrevBoneLinks.length =
        Chain.BoneIndices.length + (if N.bAllowTipBoneRotation = true then 1 else 0))) ∧
    (∀ (C : FChainInfo K) (TimeDelta : K) (Targets : List (FVector K)),
      Targets.length ≠ C.PrevBoneLinks.length →
      TimeIntegration E N C TimeDelta Targets = .error Fault.checkFailed) ∧
    (∀ (C : FChainInfo K) (MeshBases : FCSPose K) (Out : List (FBoneTransform K)) (S : Nat),
      N.bAllowTipBoneRotation = true → C.PrevBoneLinks.length < 3 →
      ∀ Out', ReOrientBoneRotations E N C MeshBases Out S ≠ .ok Out') := by
  refine ⟨?_, ?_, ?_⟩
  · have hFrame : ∀ (C : FChainInfo K) (Frame : FrameInput K), Frame ∈ Frames →
        C.BoneIndices = Chain.BoneIndices →
        (C.PrevBoneLinks = [] ∨ C.PrevBoneLinks.length =
          Chain.BoneIndices.length + (if N.bAllowTipBoneRotation = true then 1 else 0)) →
        Succeeds (SimulateSoftBoneChain E Frame.Memory Fuel N C Frame.SkelComp Frame.MeshBases
          Frame.OutBoneTransforms Start Frame.InRemainingTime) (fun R =>
          R.Chain.BoneIndices = Chain.BoneIndices ∧ R.Chain.PrevBoneLinks.length =
            Chain.BoneIndices.length + (if N.bAllowTipBoneRotation = true then 1 else 0)) := by
      intro C Frame hF hB hL
      obtain ⟨hOut, hStep⟩ := hFrames Frame hF
      have hne : C.BoneIndices ≠ [] := by
        intro h
        rw [hB] at h
        rw [h] at hBones
        simp at hBones
      obtain ⟨RootBoneIndex, Rest, hCons⟩ := List.exists_cons_of_ne_nil hne
      refine (SimulateSoftBoneChain_spec E Frame.Memory Fuel N C Frame.SkelComp Frame.MeshBases
        Frame.OutBoneTransforms Start Frame.InRemainingTime RootBoneIndex (by rw [hB]; exact hBones)
        (by rw [hCons]; rfl) (by rw [hB]; exact hL) (by rw [hB]; exact hOut) hStep).mono ?_
      rintro R ⟨h1, h2, -⟩
      exact ⟨by rw [h1, hB], by rw [h2, hB]⟩
    cases Frames with
    | nil => exact Succeeds.ok ⟨rfl, fun h => absurd rfl h⟩
    | cons Frame Rest =>
      obtain ⟨R, hR, hRB, hRL⟩ := hFrame Chain Frame (List.mem_cons_self _ _) rfl hLinks
      have hRest := SimulateFrames_invariant E Fuel N Start (fun C : FChainInfo K =>
        C.BoneIndices = Chain.BoneIndices ∧ C.PrevBoneLinks.length =
          Chain.BoneIndices.length + (if N.bAllowTipBoneRotation = true then 1 else 0)) Rest
        (fun C F hF hC => hFrame C F (List.mem_cons_of_mem _ hF) hC.1 (Or.inr hC.2))
        R.Chain ⟨hRB, hRL⟩
      obtain ⟨Chain', hC', hInv⟩ := hRest
      exact ⟨Chain', by simp only [SimulateFrames, hR, hC'], hInv.1, fun _ => hInv.2⟩
  · intro C TimeDelta Targets hne
    simp [TimeIntegration, TimeIntegration.Integrate, hne]
  · intro C MeshBases Out S hTip hLt Out'
    unfold ReOrientBoneRotations
    have hCheck : (C.PrevBoneLinks.length : Int) - 3 < 0 := by omega
    simp only [hTip, if_true, hCheck]
    cases forLoop 0 (C.BoneIndices.length - 1) _ Out with
    | error e => intro h; cases h
    | ok Out1 => intro h; cases h

/-- Witness of C29: two frames of 1/20 s on the chain of the bones 0 and 1 without links, in
the straight and in the shifted pose, with the default node after a frame (tip rotation, 60
Hz). -/
theorem SimulateFrames_counts_agree_witness :
    Succeeds (SimulateFrames RationalEngine 3 (UpdatedNode ℚ) 0 ⟨[0, 1], []⟩
      [⟨SevenMemory ℚ, none, StraightPose ℚ, [SevenOutput ℚ 0, SevenOutput ℚ 1], 1 / 20⟩,
       ⟨SevenMemory ℚ, none, ShiftedPose ℚ, [SevenOutput ℚ 0, SevenOutput ℚ 1], 1 / 20⟩])
      (fun Chain' => Chain'.BoneIndices = [0, 1] ∧ Chain'.PrevBoneLinks.length = 3) := by
  have hF : (UpdatedNode ℚ).FixedTimeStep = 1 / 60 := by
    simp [UpdatedNode, UpdateInternal, DefaultNode, InitialzeWeightCurve, ESimulationHertz.toNat]
  refine (SimulateFrames_counts_agree RationalEngine 3 (UpdatedNode ℚ) 0 ⟨[0, 1], []⟩
    [⟨SevenMemory ℚ, none, StraightPose ℚ, [SevenOutput ℚ 0, SevenOutput ℚ 1], 1 / 20⟩,
     ⟨SevenMemory ℚ, none, ShiftedPose ℚ, [SevenOutput ℚ 0, SevenOutput ℚ 1], 1 / 20⟩]
    (by decide) (Or.inl rfl) ?_).1.mono ?_
  · intro Frame hFrame
    simp only [List.mem_cons, List.mem_singleton, List.not_mem_nil, or_false] at hFrame
    rcases hFrame with rfl | rfl
    · refine ⟨by decide, fun _ => ?_⟩
      rw [hF]
      exact ⟨by norm_num, Nat.floor_le_of_le (by norm_num)⟩
    · refine ⟨by decide, fun _ => ?_⟩
      rw [hF]
      exact ⟨by norm_num, Nat.floor_le_of_le (by norm_num)⟩
  · rintro Chain' ⟨hB, hL⟩
    exact ⟨hB, hL (by simp)⟩

end CountClaims

end SoftBone

namespace SoftBone

section RenderClaims

variable {K : Type} [LinearOrderedField K] [FloorRing K]

/-- C27. Render positions are a rigid translation of the simulated positions:
`PullBonesToFinalPosition` keeps the number of links and gives every link the render position
`Position + DiffVector`, with its position and its velocity as they were; at the end of
`SimulateSoftBoneChain` (on a chain as in C1) every link has the render position
`Position + DiffVector` for the one vector `DiffVector = FinalTargetPositions[0] - Position of
the root link` (the root link's position is `TargetPositions[0]`), so that for all links `i`,
`j` the render positions differ by what the positions differ. -/
theorem PullBonesToFinalPosition_rigid_translation (E : Engine K) (U : Uninitialized K)
    (Fuel : Nat) (N : FAnimNode_SoftBone K) (Chain : FChainInfo K)
    (SkelComp : Option (USkeletalMeshComponent K)) (MeshBases : FCSPose K)
    (Out : List (FBoneTransform K)) (Start : Nat) (InRemainingTime : K)
    (Links : List (FSoftBoneLink K)) (DiffVector : FVector K)
    (hBones : 2 ≤ Chain.BoneIndices.length)
    (hLinks : Chain.PrevBoneLinks = [] ∨ Chain.PrevBoneLinks.length =
      Chain.BoneIndices.length + (if N.bAllowTipBoneRotation = true then 1 else 0))
    (hOut : Start + Chain.BoneIndices.length ≤ Out.length)
    (hStep : N.bGuaranteeSameSimulationResult = true →
      0 < N.FixedTimeStep ∧ ⌊InRemainingTime / N.FixedTimeStep⌋₊ ≤ Fuel) :
    ((PullBonesToFinalPosition Links DiffVector).length = Links.length ∧
      ∀ (i : Nat) (Link : FSoftBoneLink K), Links[i]? = some Link →
        ∃ Link', (PullBonesToFinalPosition Links DiffVector)[i]? = some Link' ∧
          Link'.RenderPosition = Link.Position + DiffVector ∧
          Link'.Position = Link.Position ∧ Link'.Velocity = Link.Velocity) ∧
    Succeeds (SimulateSoftBoneChain E U Fuel N Chain SkelComp MeshBases Out Start InRemainingTime)
      (fun R => ∃ Root, R.Chain.PrevBoneLinks[0]? = some Root ∧
        (∀ (i : Nat) (Link : FSoftBoneLink K), R.Chain.PrevBoneLinks[i]? = some Link →
          Link.RenderPosition =
            Link.Position + (FinalTarget Chain SkelComp MeshBases 0 - Root.Position)) ∧
        ∀ (i j : Nat) (Li Lj : FSoftBoneLink K),
          R.Chain.PrevBoneLinks[i]? = some Li → R.Chain.PrevBoneLinks[j]? = some Lj →
          Li.RenderPosition - Lj.RenderPosition = Li.Position - Lj.Position) := by
  have hn0 : 0 < Chain.BoneIndices.length := by omega
  refine ⟨⟨PullBonesToFinalPosition_length Links DiffVector, fun i Link hL => ?_⟩, ?_⟩
  · rw [PullBonesToFinalPosition_getElem?, hL]
    exact ⟨_, rfl, rfl, rfl, rfl⟩
  have hSLen := StartLinks_length E U N Chain SkelComp MeshBases hLinks
  have hNL := NumLinks_ge N Chain
  have hFrame := SimulateSoftBoneChain_frame E U Fuel N Chain SkelComp MeshBases Out Start
    InRemainingTime (fun _ => True) hBones hLinks hOut hStep (fun _ => trivial)
    (fun _ S _ hSL hST _ _ =>
      (TimeIntegration_entries E N S.Chain N.FixedTimeStep _
        (by simp [InterpolatedTargets, hST, hSL]) (by omega)).mono (fun _ _ => trivial))
    (fun _ Targets hTL =>
      (TimeIntegration_entries E N ⟨_, StartLinks E U N Chain SkelComp MeshBases⟩
        N.FixedTimeStep Targets (by rw [hTL, hSLen]) (by rw [hSLen]; omega)).mono
        (fun _ _ => trivial))
  have hSpec := SimulateSoftBoneChain_spec E U Fuel N Chain SkelComp MeshBases Out Start
    InRemainingTime (Chain.Bone 0) hBones
    (by
      rw [← FChainInfo.Bone_eq Chain 0 hn0, List.head?_eq_getElem?,
        List.getElem?_eq_getElem hn0])
    hLinks hOut hStep
  refine (hFrame.and hSpec).mono ?_
  rintro R ⟨⟨Sim, TargetRoot, -, hSimL, -, hR, -⟩, -, -, -, ⟨Root, hRoot, hRender⟩, -⟩
  have hAll : ∀ (i : Nat) (Link : FSoftBoneLink K), R.Chain.PrevBoneLinks[i]? = some Link →
      Link.RenderPosition =
        Link.Position + (FinalTarget Chain SkelComp MeshBases 0 - TargetRoot) := by
    intro i Link hi
    rw [hR i] at hi
    obtain ⟨L, -, hL⟩ := Option.map_eq_some'.mp hi
    rw [← hL]
    rfl
  rw [List.head?_eq_getElem?] at hRoot
  have hT : TargetRoot = Root.Position := by
    have h0 := hAll 0 Root hRoot
    rw [hRender] at h0
    have hF : LocationInWorldSpace SkelComp (MeshBases.ComponentSpaceTransform (Chain.Bone 0)) =
        FinalTarget Chain SkelComp MeshBases 0 := by
      simp [FinalTarget, hn0]
    rw [hF] at h0
    have hX := congrArg FVector.X h0
    have hY := congrArg FVector.Y h0
    have hZ := congrArg FVector.Z h0
    have hX' : (FinalTarget Chain SkelComp MeshBases 0).X =
        Root.Position.X + ((FinalTarget Chain SkelComp MeshBases 0).X - TargetRoot.X) := hX
    have hY' : (FinalTarget Chain SkelComp MeshBases 0).Y =
        Root.Position.Y + ((FinalTarget Chain SkelComp MeshBases 0).Y - TargetRoot.Y) := hY
    have hZ' : (FinalTarget Chain SkelComp MeshBases 0).Z =
        Root.Position.Z + ((FinalTarget Chain SkelComp MeshBases 0).Z - TargetRoot.Z) := hZ
    ext
    · linarith
    · linarith
    · linarith
  rw [hT] at hAll
  refine ⟨Root, hRoot, hAll, fun i j Li Lj hi hj => ?_⟩
  rw [hAll i Li hi, hAll j Lj hj]
  generalize FinalTarget Chain SkelComp MeshBases 0 - Root.Position = D
  show (⟨_, _, _⟩ : FVector K) = ⟨_, _, _⟩
  congr 1
  · show Li.Position.X + D.X - (Lj.Position.X + D.X) = Li.Position.X - Lj.Position.X
    ring
  · show Li.Position.Y + D.Y - (Lj.Position.Y + D.Y) = Li.Position.Y - Lj.Position.Y
    ring
  · show Li.Position.Z + D.Z - (Lj.Position.Z + D.Z) = Li.Position.Z - Lj.Position.Z
    ring

/-- Witness of C27: the first frame (1/20 s at 60 Hz) of the chain of the bones 0 and 1 in the
straight pose. -/
theorem PullBonesToFinalPosition_rigid_translation_witness :
    Succeeds (SimulateSoftBoneChain RationalEngine (SevenMemory ℚ) 3 (UpdatedNode ℚ) ⟨[0, 1], []⟩
        none (StraightPose ℚ) [SevenOutput ℚ 0, SevenOutput ℚ 1] 0 (1 / 20))
      (fun R => ∃ Root, R.Chain.PrevBoneLinks[0]? = some Root ∧
        (∀ (i : Nat) (Link : FSoftBoneLink ℚ), R.Chain.PrevBoneLinks[i]? = some Link →
          Link.RenderPosition = Link.Position +
            (FinalTarget ⟨[0, 1], []⟩ none (StraightPose ℚ) 0 - Root.Position)) ∧
        ∀ (i j : Nat) (Li Lj : FSoftBoneLink ℚ),
          R.Chain.PrevBoneLinks[i]? = some Li → R.Chain.PrevBoneLinks[j]? = some Lj →
          Li.RenderPosition - Lj.RenderPosition = Li.Position - Lj.Position) := by
  have hF : (UpdatedNode ℚ).FixedTimeStep = 1 / 60 := by
    simp [UpdatedNode, UpdateInternal, DefaultNode, InitialzeWeightCurve, ESimulationHertz.toNat]
  exact (PullBonesToFinalPosition_rigid_translation RationalEngine (SevenMemory ℚ) 3
    (UpdatedNode ℚ) ⟨[0, 1], []⟩ none (StraightPose ℚ) [SevenOutput ℚ 0, SevenOutput ℚ 1] 0
    (1 / 20) [] ⟨0, 0, 0⟩ (by decide) (Or.inl rfl) (by decide)
    (fun _ => by
      rw [hF]
      exact ⟨by norm_num, Nat.floor_le_of_le (by norm_num)⟩)).2

end RenderClaims

end SoftBone

namespace SoftBone

section ReOrientFrameClaims

variable {K : Type} [LinearOrderedField K]

/-- C26. Re-orientation frame: on a chain of `n ≥ 2` bones with all its links, with room for the
chain in the output list from `start` on, `ReOrientBoneRotations` ends without a fault; the
list keeps its length, every entry keeps its bone index, its translation and its scale, every
entry outside `[start, start + n)` stays as it is, the entries `start .. start + n - 2` get
their rotation rewritten (the rotation of their link multiplied onto it from the left), and
the tip entry `start + n - 1` gets its rotation rewritten (with the tip rotation) when
`bAllowTipBoneRotation` is set and stays as it is when it is not. -/
theorem ReOrientBoneRotations_changes_rotations_only (E : Engine K) (N : FAnimNode_SoftBone K)
    (Chain : FChainInfo K) (MeshBases : FCSPose K) (Out : List (FBoneTransform K)) (Start : Nat)
    (hBones : 2 ≤ Chain.BoneIndices.length)
    (hLinks : Chain.PrevBoneLinks.length =
      Chain.BoneIndices.length + (if N.bAllowTipBoneRotation = true then 1 else 0))
    (hOut : Start + Chain.BoneIndices.length ≤ Out.length) :
    Succeeds (ReOrientBoneRotations E N Chain MeshBases Out Start) (fun Out' =>
      Out'.length = Out.length ∧
      (∀ (j : Nat) (Entry : FBoneTransform K), Out[j]? = some Entry →
        ∃ Entry', Out'[j]? = some Entry' ∧ Entry'.BoneIndex = Entry.BoneIndex ∧
          Entry'.Transform.Translation = Entry.Transform.Translation ∧
          Entry'.Transform.Scale3D = Entry.Transform.Scale3D) ∧
      (∀ j, ¬ (Start ≤ j ∧ j < Start + Chain.BoneIndices.length) → Out'[j]? = Out[j]?) ∧
      (∀ (i : Nat) (Entry : FBoneTransform K), i + 1 < Chain.BoneIndices.length →
        Out[Start + i]? = some Entry →
        Out'[Start + i]? = some { Entry with
          Transform := { Entry.Transform with
            Rotation := FQuat.mul (LinkDeltaRotation E MeshBases Chain.PrevBoneLinks i)
              Entry.Transform.Rotation } }) ∧
      (∀ Entry : FBoneTransform K, Out[Start + Chain.BoneIndices.length - 1]? = some Entry →
        (N.bAllowTipBoneRotation = true →
          Out'[Start + Chain.BoneIndices.length - 1]? = some { Entry with
            Transform := { Entry.Transform with
              Rotation := FQuat.mul (TipDeltaRotation E MeshBases Chain.PrevBoneLinks)
                Entry.Transform.Rotation } }) ∧
        (N.bAllowTipBoneRotation = false →
          Out'[Start + Chain.BoneIndices.length - 1]? = some Entry))) := by
  refine (ReOrientBoneRotations_entries E N Chain MeshBases Out Start hBones hLinks hOut).mono ?_
  rintro Out' ⟨hL, hE⟩
  refine ⟨hL, fun j Entry hj => ?_, fun j hj => ?_, fun i Entry hi hEn => ?_, fun Entry hEn => ?_⟩
  · rw [hE j, hj, Option.map_some']
    refine ⟨_, rfl, ?_⟩
    unfold ReOrientedEntry
    split
    · exact ⟨rfl, rfl, rfl⟩
    · split
      · exact ⟨rfl, rfl, rfl⟩
      · exact ⟨rfl, rfl, rfl⟩
  · rw [hE j]
    cases hO : Out[j]? with
    | none => rfl
    | some Entry =>
      rw [Option.map_some']
      unfold ReOrientedEntry
      rw [if_neg (by omega), if_neg (by omega)]
  · rw [hE (Start + i), hEn, Option.map_some']
    unfold ReOrientedEntry
    rw [if_pos (by omega), Nat.add_sub_cancel_left]
    rfl
  · have hc1 : ¬ (Start ≤ Start + Chain.BoneIndices.length - 1 ∧
        Start + Chain.BoneIndices.length - 1 + 1 < Start + Chain.BoneIndices.length) := by
      omega
    refine ⟨fun hTip => ?_, fun hTip => ?_⟩
    · rw [hE _, hEn, Option.map_some']
      unfold ReOrientedEntry
      rw [if_neg hc1, if_pos ⟨hTip, by omega⟩]
      rfl
    · rw [hE _, hEn, Option.map_some']
      unfold ReOrientedEntry
      rw [if_neg hc1, if_neg (by rw [hTip]; simp)]

/-- Witness of C26: the chain of the bones 0 and 1 with its two links (no tip rotation) in the
mirrored pose, at the start of an output list of two entries. -/
theorem ReOrientBoneRotations_changes_rotations_only_witness :
    Succeeds (ReOrientBoneRotations RationalEngine (DampedInertNode ℚ true) (UnturnedChain ℚ)
      (MirroredPose ℚ) [SevenOutput ℚ 0, SevenOutput ℚ 1] 0) (fun Out' =>
      Out'.length = 2 ∧ Out'[1]? = some (SevenOutput ℚ 1)) := by
  refine (ReOrientBoneRotations_changes_rotations_only RationalEngine (DampedInertNode ℚ true)
    (UnturnedChain ℚ) (MirroredPose ℚ) [SevenOutput ℚ 0, SevenOutput ℚ 1] 0 (by decide) rfl
    (by decide)).mono ?_
  rintro Out' ⟨hL, -, -, -, hTip⟩
  exact ⟨hL, (hTip (SevenOutput ℚ 1) rfl).2 rfl⟩

end ReOrientFrameClaims

end SoftBone

namespace SoftBone

section WalkClaims

variable {K : Type}

/-- C28. Topology walk terminates: in a hierarchy in which the root has a depth and is a proper
ancestor of the tip, the pair is one `IsValidBonePair` accepts (and a pair it accepts has a
root that is a proper ancestor of the tip), and the loop of `SetSoftBoneIndices` ends without
a fault within the rounds it is given; it returns what `SetSoftBoneIndices` returns, after
exactly `depth(tip) - depth(root)` parent lookups, each of them on a bone of the hierarchy
whose parent is not `INDEX_NONE`, so never on the top bone and never on an invalid index; with
any number of rounds that is at least `depth(tip) - depth(root)` the loop does the same. -/
theorem SetSoftBoneIndices_terminates (MeshBases : FCSPose K) (RootIndex TipIndex : Int)
    (RootDepth TipDepth : Nat)
    (hRoot : HasDepth MeshBases.BoneContainer RootIndex RootDepth)
    (hTip : HasDepth MeshBases.BoneContainer TipIndex TipDepth)
    (hAncestor : IsProperAncestor MeshBases.BoneContainer RootIndex TipIndex) :
    IsValidBonePair MeshBases.BoneContainer ⟨RootIndex⟩ ⟨TipIndex⟩ = true ∧
    (∀ Root Tip : FBoneReference, IsValidBonePair MeshBases.BoneContainer Root Tip = true →
      IsProperAncestor MeshBases.BoneContainer Root.BoneIndex Tip.BoneIndex) ∧
    Succeeds (SetSoftBoneIndicesLoopLookups MeshBases RootIndex
        MeshBases.BoneContainer.ParentIndices.length TipIndex [] []) (fun R =>
      SetSoftBoneIndices MeshBases RootIndex TipIndex [] = .ok (R.1.1 :: R.1.2) ∧
      R.2.length = TipDepth - RootDepth ∧
      (∀ b ∈ R.2, 0 ≤ b ∧ b < (MeshBases.BoneContainer.ParentIndices.length : Int) ∧
        GetParentBoneIndex MeshBases b ≠ .ok INDEX_NONE) ∧
      ∀ Fuel, TipDepth - RootDepth ≤ Fuel →
        SetSoftBoneIndicesLoopLookups MeshBases RootIndex Fuel TipIndex [] [] = .ok R) := by
  have hValid : ∀ (Bone : Int) (Depth : Nat), HasDepth MeshBases.BoneContainer Bone Depth →
      (⟨Bone⟩ : FBoneReference).IsValid MeshBases.BoneContainer = true := by
    intro Bone Depth h
    have hR : 0 ≤ Bone ∧ Bone.toNat < MeshBases.BoneContainer.ParentIndices.length := by
      cases h with
      | top h0 => exact getI_ok_range _ _ _ h0
      | child h0 _ => exact getI_ok_range _ _ _ h0
    have h1 : Bone ≠ INDEX_NONE := by
      unfold INDEX_NONE
      omega
    have h2 : 0 ≤ Bone ∧ Bone < (MeshBases.BoneContainer.ParentIndices.length : Int) := by omega
    simp [FBoneReference.IsValid, h1, h2]
  refine ⟨?_, ?_, ?_⟩
  · simp only [IsValidBonePair, Bool.and_eq_true]
    exact ⟨⟨hValid _ _ hTip, hValid _ _ hRoot⟩, (BoneIsChildOf_iff _ _ _).mpr hAncestor⟩
  · intro Root Tip h
    simp only [IsValidBonePair, Bool.and_eq_true] at h
    exact (BoneIsChildOf_iff _ _ _).mp h.2
  obtain ⟨Mid, -, hD, -, hDepths, hRange, hNodup, hLoop⟩ :=
    walk_of_ancestor MeshBases RootIndex RootDepth hRoot hAncestor
  have hTD : TipDepth = RootDepth + Mid.length := hTip.unique _ hD
  have hlen : Mid.length ≤ MeshBases.BoneContainer.ParentIndices.length :=
    length_le_of_nodup_bones _ Mid hNodup hRange
  have hRun : ∀ Fuel, Mid.length ≤ Fuel →
      SetSoftBoneIndicesLoopLookups MeshBases RootIndex Fuel TipIndex [] [] =
        .ok ((RootIndex, Mid), Mid.reverse) := by
    intro Fuel hF
    have hRes := SetSoftBoneIndicesLoopLookups_result MeshBases RootIndex Fuel TipIndex [] []
    rw [hLoop Fuel [] hF] at hRes
    cases hL : SetSoftBoneIndicesLoopLookups MeshBases RootIndex Fuel TipIndex [] [] with
    | error e => rw [hL] at hRes; cases hRes
    | ok R =>
      rw [hL] at hRes
      obtain ⟨Mid', h1, h2⟩ :=
        SetSoftBoneIndicesLoopLookups_record MeshBases RootIndex Fuel TipIndex [] [] R hL
      obtain ⟨⟨Parent, Bones⟩, Asked⟩ := R
      simp only [Except.ok.injEq, Prod.mk.injEq, List.append_nil] at hRes
      simp only [List.append_nil, List.nil_append] at h1 h2
      obtain ⟨hP, hB⟩ := hRes
      subst hP
      subst hB
      subst h1
      rw [h2]
  refine ⟨_, hRun _ hlen, ?_, ?_, ?_, ?_⟩
  · simp [SetSoftBoneIndices, hLoop _ [] hlen]
  · rw [List.length_reverse, hTD]
    omega
  · intro b hb
    rw [List.mem_reverse] at hb
    obtain ⟨h0, hlt⟩ := hRange b hb
    refine ⟨h0, by omega, fun hTop => ?_⟩
    obtain ⟨d, hd, hgt, -⟩ := hDepths b hb
    have := hd.unique _ (HasDepth.top hTop)
    omega
  · intro Fuel hF
    exact hRun Fuel (by omega)

/-- Witness of C28: in `StraightPose`, bone 1 (of depth 1) is a proper ancestor of bone 3 (of
depth 3). -/
theorem SetSoftBoneIndices_terminates_witness :
    Succeeds (SetSoftBoneIndicesLoopLookups (StraightPose ℚ) 1
        (StraightPose ℚ).BoneContainer.ParentIndices.length 3 [] []) (fun R =>
      SetSoftBoneIndices (StraightPose ℚ) 1 3 [] = .ok (R.1.1 :: R.1.2) ∧ R.2.length = 3 - 1) := by
  have h0 : HasDepth (StraightPose ℚ).BoneContainer 0 0 := HasDepth.top rfl
  have h1 : HasDepth (StraightPose ℚ).BoneContainer 1 1 := HasDepth.child rfl h0
  have h2 : HasDepth (StraightPose ℚ).BoneContainer 2 2 := HasDepth.child rfl h1
  have h3 : HasDepth (StraightPose ℚ).BoneContainer 3 3 := HasDepth.child rfl h2
  refine (SetSoftBoneIndices_terminates (StraightPose ℚ) 1 3 1 3 h1 h3
    (IsProperAncestor.step rfl (IsProperAncestor.parent rfl))).2.2.mono ?_
  rintro R ⟨hR, hL, -⟩
  exact ⟨hR, hL⟩

end WalkClaims

end SoftBone

namespace SoftBone

section StepCountClaims

variable {K : Type} [LinearOrderedField K] [FloorRing K]

/-- C30 as stated fails in `float`: at 60 Hz with the time dilation 1 (the fixed time step h is
the `float` 8947849 / 2 ^ 29, next to 1/60) and `RemainingTime = 0` at the start, one frame
of 1/2 s runs 29 physical steps on a chain, and two frames of 1/4 s run 15 and 15: the steps
depend on the frames and not on the total time alone. floor((1/2) / h) is 29, and the
`RemainingTime` left is 8947751 / 2 ^ 29 in the one run and 3 / 2 ^ 28 in the other, where
1/2 - 29 h is 8947835 / 2 ^ 29. -/
theorem float_steps_depend_on_frames :
    FloatFrameTimes (FloatFixedTimeStep .SH_60Hz 1) 30 0 [1 / 2] =
      .ok (8947751 / 536870912, [29]) ∧
    FloatFrameTimes (FloatFixedTimeStep .SH_60Hz 1) 30 0 [1 / 4, 1 / 4] =
      .ok (3 / 268435456, [15, 15]) ∧
    ⌊([1 / 4, 1 / 4] : List ℚ).sum / FloatFixedTimeStep .SH_60Hz 1⌋₊ = 29 ∧
    (1 / 2 : ℚ) - 29 * FloatFixedTimeStep .SH_60Hz 1 = 8947835 / 536870912 := by
  refine ⟨?_, ?_, ?_, ?_⟩ <;> decide!

/-- C30, amended. Steps consumed depend only on total time, in exact arithmetic: in
deterministic mode, with a positive time dilation that stays the same, so with a constant
`FixedTimeStep = h > 0`, with at least one chain (made already, with at least two bones and
the links the tip rotation asks for or none, or still to be made from an accepted pair), with
a sort that rearranges and with `RemainingTime = 0` at the start, every sequence of frames
with positive delta times `d1 .. dm` on a pose (each `UpdateInternal` followed by
`EvaluateBoneTransforms`, the loop given enough rounds) ends without a fault; in each frame
every chain runs the same number of physical steps, the numbers of the frames add up to
`floor((d1 + ... + dm) / h)`, and the `RemainingTime` left is
`(d1 + ... + dm) - h * floor((d1 + ... + dm) / h)`. -/
theorem RunFramesSteps_total_steps (E : Engine K) (U : Nat → Uninitialized K)
    (UOut : Nat → FBoneTransform K) (Fuel : Nat) (SkelComp : Option (USkeletalMeshComponent K))
    (MeshBases : FCSPose K) (EffectiveTimeDilation WorldGravityZ : K)
    (N : FAnimNode_SoftBone K) (Deltas : List K)
    (hSort : SortsByRootBone E) (hDilation : 0 < EffectiveTimeDilation)
    (hDet : N.bGuaranteeSameSimulationResult = true) (hZero : N.RemainingTime = 0)
    (hSome : N.ChainInfos ≠ [] ∨ AcceptedPairs N MeshBases.BoneContainer ≠ [])
    (hChains : ∀ Chain ∈ N.ChainInfos, 2 ≤ Chain.BoneIndices.length ∧
      (Chain.PrevBoneLinks = [] ∨ Chain.PrevBoneLinks.length =
        Chain.BoneIndices.length + (if N.bAllowTipBoneRotation = true then 1 else 0)))
    (hPos : ∀ d ∈ Deltas, 0 < d)
    (hFuel : ∀ d ∈ Deltas,
      ⌊d / ((1 / (N.SimulationHertz.toNat : K)) * EffectiveTimeDilation)⌋₊ + 1 ≤ Fuel) :
    Succeeds (RunFramesSteps E U UOut Fuel SkelComp MeshBases EffectiveTimeDilation WorldGravityZ
      N Deltas) (fun R => ∃ Counts : List Nat,
        R.2 = Counts.map (List.replicate R.1.ChainInfos.length) ∧
        (Deltas ≠ [] → 0 < R.1.ChainInfos.length) ∧
        Counts.length = Deltas.length ∧
        Counts.sum =
          ⌊Deltas.sum / ((1 / (N.SimulationHertz.toNat : K)) * EffectiveTimeDilation)⌋₊ ∧
        R.1.RemainingTime = Deltas.sum -
          ((1 / (N.SimulationHertz.toNat : K)) * EffectiveTimeDilation) *
            (⌊Deltas.sum / ((1 / (N.SimulationHertz.toNat : K)) * EffectiveTimeDilation)⌋₊ : K)) := by
  have hHz : (0 : K) < (N.SimulationHertz.toNat : K) := by
    cases N.SimulationHertz <;> simp [ESimulationHertz.toNat]
  have hh : 0 < (1 / (N.SimulationHertz.toNat : K)) * EffectiveTimeDilation :=
    mul_pos (one_div_pos.mpr hHz) hDilation
  refine (RunFramesSteps_invariant E U UOut Fuel SkelComp MeshBases EffectiveTimeDilation
    WorldGravityZ _ hSort hh Deltas N 0 rfl hDet hSome hChains (le_refl _)
    (by rw [hZero]; simp) hPos hFuel).mono ?_
  rintro R ⟨Counts, h1, h2, -, h4, h5, h6⟩
  refine ⟨Counts, h1, fun hD => List.length_pos.mpr (h2 hD), h4, ?_, ?_⟩
  · simpa using h5
  · rw [h6, zero_add]
    ring

/-- Witness of C30: the example node, with its chains of the bones 1, 2, 3 and 4, 5 still to be
made, at 60 Hz with the time dilation 15/16 (a fixed step of 1/64 s), on the frames of
3/128 s and 1/32 s. -/
theorem RunFramesSteps_total_steps_witness :
    Succeeds (RunFramesSteps RationalEngine (fun _ => SevenMemory ℚ) (SevenOutput ℚ) 4 none
      (StraightPose ℚ) (15 / 16) (-980) (ExampleNode ℚ) [3 / 128, 1 / 32]) (fun R =>
      ∃ Counts : List Nat,
        R.2 = Counts.map (List.replicate R.1.ChainInfos.length) ∧
        (([3 / 128, 1 / 32] : List ℚ) ≠ [] → 0 < R.1.ChainInfos.length) ∧
        Counts.length = ([3 / 128, 1 / 32] : List ℚ).length ∧
        Counts.sum = ⌊([3 / 128, 1 / 32] : List ℚ).sum /
          ((1 / ((ExampleNode ℚ).SimulationHertz.toNat : ℚ)) * (15 / 16))⌋₊ ∧
        R.1.RemainingTime = ([3 / 128, 1 / 32] : List ℚ).sum -
          ((1 / ((ExampleNode ℚ).SimulationHertz.toNat : ℚ)) * (15 / 16)) *
            (⌊([3 / 128, 1 / 32] : List ℚ).sum /
              ((1 / ((ExampleNode ℚ).SimulationHertz.toNat : ℚ)) * (15 / 16))⌋₊ : ℚ)) := by
  have hHz : ((ExampleNode ℚ).SimulationHertz.toNat : ℚ) = 60 := by
    simp [ExampleNode, DefaultNode, InitialzeWeightCurve, ESimulationHertz.toNat]
  refine RunFramesSteps_total_steps RationalEngine (fun _ => SevenMemory ℚ) (SevenOutput ℚ) 4 none
    (StraightPose ℚ) (15 / 16) (-980) (ExampleNode ℚ) [3 / 128, 1 / 32] RationalEngine_sorts
    (by norm_num)
    (by simp [ExampleNode, DefaultNode, InitialzeWeightCurve])
    (by simp [ExampleNode, DefaultNode, InitialzeWeightCurve])
    (Or.inr (by decide)) ?_ ?_ ?_
  · intro Chain hChain
    simp [ExampleNode, DefaultNode, InitialzeWeightCurve] at hChain
  · intro d hd
    simp only [List.mem_cons, List.mem_singleton, List.not_mem_nil, or_false] at hd
    rcases hd with rfl | rfl <;> norm_num
  · intro d hd
    rw [hHz]
    simp only [List.mem_cons, List.mem_singleton, List.not_mem_nil, or_false] at hd
    rcases hd with rfl | rfl
    · have : ⌊(3 / 128 : ℚ) / (1 / 60 * (15 / 16))⌋₊ ≤ 3 := Nat.floor_le_of_le (by norm_num)
      omega
    · have : ⌊(1 / 32 : ℚ) / (1 / 60 * (15 / 16))⌋₊ ≤ 3 := Nat.floor_le_of_le (by norm_num)
      omega

end StepCountClaims

end SoftBone

namespace SoftBone

section RotationClaims

variable {K : Type} [LinearOrderedField K]

/-- C25 (as stated, at a counterexample). Over the reals, with the real square root, arc
cosine, sine and cosine: the unit vectors (1, 0, 0) and (9999999999, 200000, 0) / 10000000001
are neither parallel nor anti-parallel (their cross product is not the zero vector), but the
squared length of their cross product is below `SMALL_NUMBER`, so `GetSafeNormal` returns the
zero vector as rotation axis and the `DeltaRotation` of `ReOrientBoneRotations` has no vector
part: it maps the old direction to itself, not to the new direction. These are the old and the new
direction of the links of the bones 0 and 1 in the straight pose, with the link of bone 1
swung out by that small angle. -/
theorem DeltaRotation_keeps_nearly_parallel_direction :
    LinkDeltaRotation (EngineOf Real.sqrt Real.arccos Real.sin Real.cos) (StraightPose ℝ)
        (SwungChain ℝ).PrevBoneLinks 0 =
      DeltaRotation (EngineOf Real.sqrt Real.arccos Real.sin Real.cos) ⟨1, 0, 0⟩
        ⟨9999999999 / 10000000001, 200000 / 10000000001, 0⟩ ∧
    FVector.SizeSquared (⟨1, 0, 0⟩ : FVector ℝ) = 1 ∧
    FVector.SizeSquared (⟨9999999999 / 10000000001, 200000 / 10000000001, 0⟩ : FVector ℝ) = 1 ∧
    FVector.CrossProduct (⟨1, 0, 0⟩ : FVector ℝ)
      ⟨9999999999 / 10000000001, 200000 / 10000000001, 0⟩ ≠ FVector.ZeroVector ∧
    FQuat.RotateVector
      (DeltaRotation (EngineOf Real.sqrt Real.arccos Real.sin Real.cos) ⟨1, 0, 0⟩
        ⟨9999999999 / 10000000001, 200000 / 10000000001, 0⟩) ⟨1, 0, 0⟩ = ⟨1, 0, 0⟩ ∧
    FQuat.RotateVector
      (DeltaRotation (EngineOf Real.sqrt Real.arccos Real.sin Real.cos) ⟨1, 0, 0⟩
        ⟨9999999999 / 10000000001, 200000 / 10000000001, 0⟩) ⟨1, 0, 0⟩ ≠
      ⟨9999999999 / 10000000001, 200000 / 10000000001, 0⟩ := by
  have hCross : FVector.CrossProduct (⟨1, 0, 0⟩ : FVector ℝ)
      ⟨9999999999 / 10000000001, 200000 / 10000000001, 0⟩ =
      ⟨0, 0, 200000 / 10000000001⟩ := by
    simp [FVector.CrossProduct]
  have hAxis : FVector.GetSafeNormal (EngineOf Real.sqrt Real.arccos Real.sin Real.cos)
      (⟨0, 0, 200000 / 10000000001⟩ : FVector ℝ) = FVector.ZeroVector := by
    unfold FVector.GetSafeNormal
    have h1 : ¬ FVector.SizeSquared (⟨0, 0, 200000 / 10000000001⟩ : FVector ℝ) = 1 := by
      simp only [FVector.SizeSquared]
      norm_num
    have h2 : FVector.SizeSquared (⟨0, 0, 200000 / 10000000001⟩ : FVector ℝ) < SMALL_NUMBER := by
      simp only [FVector.SizeSquared, SMALL_NUMBER]
      norm_num
    simp only [h1, h2, if_false, if_true]
  have hDelta : DeltaRotation (EngineOf Real.sqrt Real.arccos Real.sin Real.cos) ⟨1, 0, 0⟩
      ⟨9999999999 / 10000000001, 200000 / 10000000001, 0⟩ =
      ⟨0, 0, 0, Real.cos (1 / 2 * Real.arccos (FVector.DotProduct (⟨1, 0, 0⟩ : FVector ℝ)
        ⟨9999999999 / 10000000001, 200000 / 10000000001, 0⟩))⟩ := by
    simp only [DeltaRotation]
    rw [hCross, hAxis]
    simp [FQuat.fromAxisAngle, FVector.ZeroVector, EngineOf]
  have hRot : FQuat.RotateVector
      (DeltaRotation (EngineOf Real.sqrt Real.arccos Real.sin Real.cos) ⟨1, 0, 0⟩
        ⟨9999999999 / 10000000001, 200000 / 10000000001, 0⟩) ⟨1, 0, 0⟩ = ⟨1, 0, 0⟩ := by
    rw [hDelta, RotateVector_zero_axis]
  have hOld : FVector.GetUnsafeNormal (EngineOf Real.sqrt Real.arccos Real.sin Real.cos)
      (((StraightPose ℝ).ComponentSpaceTransform 1).Translation -
        ((StraightPose ℝ).ComponentSpaceTransform 0).Translation) = ⟨1, 0, 0⟩ := by
    simp [FVector.GetUnsafeNormal, StraightPose, FVector.SizeSquared, EngineOf, FVector.Scale]
  have hNew : FVector.GetUnsafeNormal (EngineOf Real.sqrt Real.arccos Real.sin Real.cos)
      ((⟨99999999990 / 10000000001, 2000000 / 10000000001, 0⟩ : FVector ℝ) - ⟨0, 0, 0⟩) =
      ⟨9999999999 / 10000000001, 200000 / 10000000001, 0⟩ := by
    have hS : FVector.SizeSquared ((⟨99999999990 / 10000000001, 2000000 / 10000000001, 0⟩ :
        FVector ℝ) - ⟨0, 0, 0⟩) = 10 * 10 := by
      show (99999999990 / 10000000001 - 0 : ℝ) * (99999999990 / 10000000001 - 0) +
        (2000000 / 10000000001 - 0) * (2000000 / 10000000001 - 0) + (0 - 0) * (0 - 0) = 10 * 10
      norm_num
    unfold FVector.GetUnsafeNormal
    rw [hS]
    show (⟨_, _, _⟩ : FVector ℝ) = ⟨_, _, _⟩
    have hR : (Real.sqrt (10 * 10))⁻¹ = 1 / 10 := by
      rw [Real.sqrt_mul_self (by norm_num)]
      norm_num
    congr 1
    · show (99999999990 / 10000000001 - 0 : ℝ) * (Real.sqrt (10 * 10))⁻¹ = _
      rw [hR]; norm_num
    · show (2000000 / 10000000001 - 0 : ℝ) * (Real.sqrt (10 * 10))⁻¹ = _
      rw [hR]; norm_num
    · show (0 - 0 : ℝ) * (Real.sqrt (10 * 10))⁻¹ = _
      rw [hR]; norm_num
  refine ⟨?_, ?_, ?_, ?_, hRot, ?_⟩
  · simp only [LinkDeltaRotation, SwungChain, List.getElem?_cons_zero, zero_add,
      List.getElem?_cons_succ, hOld, hNew]
  · simp [FVector.SizeSquared]
  · simp only [FVector.SizeSquared]
    norm_num
  · rw [hCross]
    intro h
    have hZ : (200000 / 10000000001 : ℝ) = 0 := congrArg FVector.Z h
    norm_num at hZ
  · rw [hRot]
    intro h
    have hY : (0 : ℝ) = 200000 / 10000000001 := congrArg FVector.Y h
    norm_num at hY

/-- C25. Re-orientation maps old direction to new, with exact roots and angles: the
`DeltaRotation` of an old and a new unit direction whose cross product has a squared length of
at least `SMALL_NUMBER` (so directions that are not within the tolerance of `GetSafeNormal` of
being parallel or anti-parallel) maps the old direction to the new direction; and on a chain
with all its links `ReOrientBoneRotations` ends without a fault and multiplies, from the left,
the `DeltaRotation` of each pair of consecutive links onto the rotation of the output entry of
the first link of the pair: for the links of two bones, with the old direction between the
pose locations of the bones and the new direction between the component-space positions of
the links, and with the tip rotation for the tip link and the virtual link, with the old
direction from the bone before the tip to the tip. -/
theorem ReOrientBoneRotations_maps_old_to_new (E : Engine K) (N : FAnimNode_SoftBone K)
    (Chain : FChainInfo K) (MeshBases : FCSPose K) (Out : List (FBoneTransform K)) (Start : Nat)
    (hRoots : ExactRoots E) (hAngles : ExactAngles E)
    (hBones : 2 ≤ Chain.BoneIndices.length)
    (hLinks : Chain.PrevBoneLinks.length =
      Chain.BoneIndices.length + (if N.bAllowTipBoneRotation = true then 1 else 0))
    (hOut : Start + Chain.BoneIndices.length ≤ Out.length) :
    (∀ OldDir NewDir : FVector K, FVector.SizeSquared OldDir = 1 →
      FVector.SizeSquared NewDir = 1 →
      SMALL_NUMBER ≤ FVector.SizeSquared (FVector.CrossProduct OldDir NewDir) →
      FQuat.RotateVector (DeltaRotation E OldDir NewDir) OldDir = NewDir) ∧
    Succeeds (ReOrientBoneRotations E N Chain MeshBases Out Start) (fun Out' =>
      (∀ (i : Nat) (CurrentLink ChildLink : FSoftBoneLink K) (Entry : FBoneTransform K),
        i + 1 < Chain.BoneIndices.length → Chain.PrevBoneLinks[i]? = some CurrentLink →
        Chain.PrevBoneLinks[i + 1]? = some ChildLink → Out[Start + i]? = some Entry →
        Out'[Start + i]? = some { Entry with
          Transform := { Entry.Transform with
            Rotation := FQuat.mul
              (DeltaRotation E
                (FVector.GetUnsafeNormal E
                  ((MeshBases.ComponentSpaceTransform ChildLink.BoneIndex).Translation -
                    (MeshBases.ComponentSpaceTransform CurrentLink.BoneIndex).Translation))
                (FVector.GetUnsafeNormal E (ChildLink.PositionInCS - CurrentLink.PositionInCS)))
              Entry.Transform.Rotation } }) ∧
      (N.bAllowTipBoneRotation = true →
        ∀ (ParentLink CurrentLink VirtualLink : FSoftBoneLink K) (Entry : FBoneTransform K),
        Chain.PrevBoneLinks[Chain.BoneIndices.length - 2]? = some ParentLink →
        Chain.PrevBoneLinks[Chain.BoneIndices.length - 1]? = some CurrentLink →
        Chain.PrevBoneLinks[Chain.BoneIndices.length]? = some VirtualLink →
        Out[Start + Chain.BoneIndices.length - 1]? = some Entry →
        Out'[Start + Chain.BoneIndices.length - 1]? = some { Entry with
          Transform := { Entry.Transform with
            Rotation := FQuat.mul
              (DeltaRotation E
                (FVector.GetUnsafeNormal E
                  ((MeshBases.ComponentSpaceTransform CurrentLink.BoneIndex).Translation +
                      ((MeshBases.ComponentSpaceTransform CurrentLink.BoneIndex).Translation -
                        (MeshBases.ComponentSpaceTransform ParentLink.BoneIndex).Translation) -
                    (MeshBases.ComponentSpaceTransform CurrentLink.BoneIndex).Translation))
                (FVector.GetUnsafeNormal E (VirtualLink.PositionInCS - CurrentLink.PositionInCS)))
              Entry.Transform.Rotation } })) := by
  refine ⟨fun OldDir NewDir hOld hNew hCross =>
    DeltaRotation_rotates E hRoots hAngles OldDir NewDir hOld hNew hCross, ?_⟩
  refine (ReOrientBoneRotations_entries E N Chain MeshBases Out Start hBones hLinks hOut).mono ?_
  rintro Out' ⟨-, hE⟩
  refine ⟨fun i CurrentLink ChildLink Entry hi hCur hChild hEn => ?_,
    fun hTip ParentLink CurrentLink VirtualLink Entry hPar hCur hVir hEn => ?_⟩
  · rw [hE (Start + i), hEn, Option.map_some']
    unfold ReOrientedEntry
    rw [if_pos (by omega), Nat.add_sub_cancel_left]
    unfold LinkDeltaRotation
    rw [hCur, hChild]
    rfl
  · have hc1 : ¬ (Start ≤ Start + Chain.BoneIndices.length - 1 ∧
        Start + Chain.BoneIndices.length - 1 + 1 < Start + Chain.BoneIndices.length) := by
      omega
    have hL : Chain.PrevBoneLinks.length = Chain.BoneIndices.length + 1 := by
      rw [hLinks, if_pos hTip]
    rw [hE _, hEn, Option.map_some']
    unfold ReOrientedEntry
    rw [if_neg hc1, if_pos ⟨hTip, by omega⟩]
    unfold TipDeltaRotation
    rw [hL, show Chain.BoneIndices.length + 1 - 3 = Chain.BoneIndices.length - 2 by omega,
      show Chain.BoneIndices.length + 1 - 2 = Chain.BoneIndices.length - 1 by omega,
      Nat.add_sub_cancel, hPar, hCur, hVir]
    rfl

/-- Witness of C25: over the reals, with the real square root, arc cosine, sine and cosine, on
the chain of the bones 0 and 1 with its two links in the mirrored pose: the `DeltaRotation` of
the directions (1, 0, 0) and (0, 1, 0) maps the first to the second. -/
theorem ReOrientBoneRotations_maps_old_to_new_witness :
    FQuat.RotateVector
      (DeltaRotation (EngineOf Real.sqrt Real.arccos Real.sin Real.cos) ⟨1, 0, 0⟩ ⟨0, 1, 0⟩)
      ⟨1, 0, 0⟩ = ⟨0, 1, 0⟩ := by
  refine (ReOrientBoneRotations_maps_old_to_new (EngineOf Real.sqrt Real.arccos Real.sin Real.cos)
    (DampedInertNode ℝ true) (UnturnedChain ℝ) (MirroredPose ℝ)
    [⟨0, (MirroredPose ℝ).ComponentSpaceTransform 0⟩,
      ⟨1, (MirroredPose ℝ).ComponentSpaceTransform 1⟩] 0
    (ExactRoots_real _ _ _) (ExactAngles_real _) (by simp [UnturnedChain]) rfl
    (by simp [UnturnedChain])).1 ⟨1, 0, 0⟩ ⟨0, 1, 0⟩ ?_ ?_ ?_
  · simp [FVector.SizeSquared]
  · simp [FVector.SizeSquared]
  · simp only [FVector.SizeSquared, FVector.CrossProduct, SMALL_NUMBER]
    norm_num

end RotationClaims

end SoftBone

namespace SoftBone

/-! ## The claims, last part -/

section ShortFrameClaims

variable {K : Type} [LinearOrderedField K]

/-- C31. Frame shorter than one fixed step: in deterministic mode, with a time to simulate
below `FixedTimeStep`, on a chain of at least two bones with all its links (room for the
chain in the output list), `SimulateSoftBoneChain` ends without a fault, whatever the number
of rounds its loop is given; it runs no physical step and returns the time it got; the chain
keeps its bones and the number of its links, every link keeps its position and its velocity
and has the render position `Position + (FinalTargetPositions[0] - Position[0])`, with the
position of the root link as it was; the output entry of every bone after the root has the
bone's index and, as translation, the render position of its link brought to component space,
and the output entry of the root bone has the bone's translation in the pose. -/
theorem SimulateSoftBoneChain_short_frame (E : Engine K) (U : Uninitialized K) (Fuel : Nat)
    (N : FAnimNode_SoftBone K) (Chain : FChainInfo K)
    (SkelComp : Option (USkeletalMeshComponent K)) (MeshBases : FCSPose K)
    (Out : List (FBoneTransform K)) (Start : Nat) (InRemainingTime : K)
    (hBones : 2 ≤ Chain.BoneIndices.length)
    (hLinks : Chain.PrevBoneLinks.length =
      Chain.BoneIndices.length + (if N.bAllowTipBoneRotation = true then 1 else 0))
    (hOut : Start + Chain.BoneIndices.length ≤ Out.length)
    (hDet : N.bGuaranteeSameSimulationResult = true)
    (hShort : InRemainingTime < N.FixedTimeStep) :
    Succeeds (SimulateSoftBoneChain E U Fuel N Chain SkelComp MeshBases Out Start InRemainingTime)
      (fun R =>
        R.Steps = 0 ∧ R.RemainingTime = InRemainingTime ∧
        R.Chain.BoneIndices = Chain.BoneIndices ∧
        R.Chain.PrevBoneLinks.length = Chain.PrevBoneLinks.length ∧
        ∃ Root, Chain.PrevBoneLinks[0]? = some Root ∧
          (∀ (i : Nat) (Link : FSoftBoneLink K), Chain.PrevBoneLinks[i]? = some Link →
            ∃ Link', R.Chain.PrevBoneLinks[i]? = some Link' ∧
              Link'.Position = Link.Position ∧ Link'.Velocity = Link.Velocity ∧
              Link'.RenderPosition =
                Link.Position + (FinalTarget Chain SkelComp MeshBases 0 - Root.Position)) ∧
          (∀ (i : Nat) (Link : FSoftBoneLink K), 1 ≤ i → i < Chain.BoneIndices.length →
            Chain.PrevBoneLinks[i]? = some Link →
            ∃ Entry, R.OutBoneTransforms[Start + i]? = some Entry ∧
              Entry.BoneIndex = Chain.Bone i ∧
              Entry.Transform.Translation = InverseWorldPosition SkelComp
                (Link.Position + (FinalTarget Chain SkelComp MeshBases 0 - Root.Position))) ∧
          ∃ Entry, R.OutBoneTransforms[Start]? = some Entry ∧
            Entry.BoneIndex = Chain.Bone 0 ∧
            Entry.Transform.Translation =
              (MeshBases.ComponentSpaceTransform (Chain.Bone 0)).Translation) := by
  have hNL := NumLinks_ge N Chain
  have hLinks' : Chain.PrevBoneLinks.length = NumLinks N Chain := hLinks
  have hL0 : 0 < Chain.PrevBoneLinks.length := by omega
  refine (SimulateSoftBoneChain_without_step E U Fuel N Chain SkelComp MeshBases Out Start
    InRemainingTime Chain.PrevBoneLinks[0] hBones hLinks' (List.getElem?_eq_getElem hL0) hOut
    hDet hShort).mono ?_
  rintro R ⟨hB, hT, hS, hL, -, -, hIn⟩
  refine ⟨hS, hT, hB, length_eq_of_getElem?_map _ hL, Chain.PrevBoneLinks[0],
    List.getElem?_eq_getElem hL0, fun i Link hi => ?_, fun i Link h1 hi hLk => ?_, ?_⟩
  · rw [hL i, hi, Option.map_some']
    exact ⟨_, rfl, rfl, rfl, rfl⟩
  · obtain ⟨Rotation, hE⟩ := hIn i hi
    refine ⟨_, hE, ?_, ?_⟩
    · exact TranslatedEntry_BoneIndex _ _ _ _ _ _
    · have hi0 : i ≠ 0 := by omega
      simp only [TranslatedEntry, hi0, if_false, LinkPosition, hLk]
  · obtain ⟨Rotation, hE⟩ := hIn 0 (by omega)
    refine ⟨_, hE, ?_, ?_⟩
    · exact TranslatedEntry_BoneIndex _ _ _ _ _ _
    · simp only [TranslatedEntry, if_true, PoseEntry]

/-- Witness of C31: the chain of the bones 0 and 1 with its two links, the link of bone 1 with
the velocity (1, 2, 3), in the shifted pose, with the node without tip rotation at 60 Hz and
1/120 s to simulate. -/
theorem SimulateSoftBoneChain_short_frame_witness :
    Succeeds (SimulateSoftBoneChain RationalEngine (SevenMemory ℚ) 0 (DampedInertNode ℚ true)
        (SpringChain ℚ ⟨1, 2, 3⟩ (1 / 2)) none (ShiftedPose ℚ)
        [SevenOutput ℚ 0, SevenOutput ℚ 1] 0 (1 / 120))
      (fun R => R.Steps = 0 ∧ R.RemainingTime = 1 / 120 ∧
        R.Chain.PrevBoneLinks.length = 2) := by
  have hF : (DampedInertNode ℚ true).FixedTimeStep = 1 / 60 := by
    simp [DampedInertNode, UpdateInternal, InertNode, DefaultNode, InitialzeWeightCurve,
      ESimulationHertz.toNat]
  refine (SimulateSoftBoneChain_short_frame RationalEngine (SevenMemory ℚ) 0
    (DampedInertNode ℚ true) (SpringChain ℚ ⟨1, 2, 3⟩ (1 / 2)) none (ShiftedPose ℚ)
    [SevenOutput ℚ 0, SevenOutput ℚ 1] 0 (1 / 120) (by decide) rfl (by decide) rfl
    (by rw [hF]; norm_num)).mono ?_
  rintro R ⟨hS, hT, -, hL, -⟩
  exact ⟨hS, hT, hL⟩

end ShortFrameClaims

section InitialStateClaims

variable {K : Type} [LinearOrderedField K]

/-- C32. Initial state satisfies the length constraint: with a component-to-world map that
keeps distances (or without a component) and a square root that is not negative on numbers
that are not negative, on a chain of at least two bones without links, `InitializeChain` ends
without a fault and makes a link for each bone and, with the tip rotation, the virtual link;
the root link has the length 0, and every link after the root, the virtual link included, has
a length that is not negative and is the distance of its position to the position of the link
before it. -/
theorem InitializeChain_satisfies_length_constraint (E : Engine K) (U : Uninitialized K)
    (N : FAnimNode_SoftBone K) (Chain : FChainInfo K)
    (SkelComp : Option (USkeletalMeshComponent K)) (MeshBases : FCSPose K)
    (Out : List (FBoneTransform K)) (Start : Nat)
    (hDistances : PreservesDistances SkelComp)
    (hSqrt : ∀ x : K, 0 ≤ x → 0 ≤ E.Sqrt x)
    (hBones : 2 ≤ Chain.BoneIndices.length) (hLinks : Chain.PrevBoneLinks = [])
    (hOut : Start + Chain.BoneIndices.length ≤ Out.length) :
    Succeeds (InitializeChain E U N Chain SkelComp MeshBases Out Start) (fun R =>
      R.1.PrevBoneLinks.length =
        Chain.BoneIndices.length + (if N.bAllowTipBoneRotation = true then 1 else 0) ∧
      (∃ Root, R.1.PrevBoneLinks[0]? = some Root ∧ Root.Length = 0) ∧
      ∀ (i : Nat) (Parent Link : FSoftBoneLink K), 1 ≤ i →
        R.1.PrevBoneLinks[i - 1]? = some Parent → R.1.PrevBoneLinks[i]? = some Link →
        FVector.Dist E Link.Position Parent.Position = Link.Length ∧ 0 ≤ Link.Length) := by
  refine (InitializeChain_entries E U N Chain SkelComp MeshBases Out Start hBones hLinks
    hOut).mono ?_
  rintro R ⟨-, hL, -⟩
  have hNL := NumLinks_ge N Chain
  refine ⟨?_, ⟨InitialLink E U N Chain SkelComp MeshBases 0, ?_, ?_⟩, ?_⟩
  · rw [hL]
    simp [NumLinks]
  · rw [hL, getElem?_map_range, if_pos (by omega)]
  · rw [InitialLink_Length]
    simp [InitialLength]
  · intro i Parent Link h1 hP hLk
    have hi : i < NumLinks N Chain := by
      have := lt_length_of_getElem? hLk
      rw [hL] at this
      simpa using this
    rw [hL, getElem?_map_range, if_pos (by omega)] at hP
    rw [hL, getElem?_map_range, if_pos hi] at hLk
    rw [← Option.some.inj hP, ← Option.some.inj hLk, InitialLink_Position, InitialLink_Position,
      InitialLink_Length, InitialLength_eq E N Chain SkelComp MeshBases hDistances hBones i h1 hi]
    refine ⟨rfl, hSqrt _ ?_⟩
    exact add_nonneg (add_nonneg (mul_self_nonneg _) (mul_self_nonneg _)) (mul_self_nonneg _)

/-- Witness of C32: the chain of the bones 0, 1, 2 without links in the straight pose, without
a component, with the default node (tip rotation): four links, the last three with their
lengths. -/
theorem InitializeChain_satisfies_length_constraint_witness :
    Succeeds (InitializeChain RationalEngine (SevenMemory ℚ) (DefaultNode ℚ 0 2) ⟨[0, 1, 2], []⟩
      none (StraightPose ℚ) [SevenOutput ℚ 0, SevenOutput ℚ 1, SevenOutput ℚ 2] 0) (fun R =>
      R.1.PrevBoneLinks.length = 4 ∧
      ∀ (i : Nat) (Parent Link : FSoftBoneLink ℚ), 1 ≤ i →
        R.1.PrevBoneLinks[i - 1]? = some Parent → R.1.PrevBoneLinks[i]? = some Link →
        FVector.Dist RationalEngine Link.Position Parent.Position = Link.Length ∧
          0 ≤ Link.Length) := by
  refine (InitializeChain_satisfies_length_constraint RationalEngine (SevenMemory ℚ)
    (DefaultNode ℚ 0 2) ⟨[0, 1, 2], []⟩ none (StraightPose ℚ)
    [SevenOutput ℚ 0, SevenOutput ℚ 1, SevenOutput ℚ 2] 0 trivial
    (fun x _ => Rat.sqrt_nonneg x) (by decide) rfl (by decide)).mono ?_
  rintro R ⟨hLen, -, hAll⟩
  exact ⟨hLen, hAll⟩

end InitialStateClaims

end SoftBone
